import Mathlib

/-!
# Constraint elimination for saddle-point systems

A shallow embedding of `examples/elimination.hpp` (classes `EliminationProjection`
and `EliminationCGSolver`) and of the second-derivative routines of
`fem/adnonlininteg.cpp` (`ADQIntegratorH::QIntegratorDD` and
`ADNonlinearFormIntegratorH::AssembleElementGrad`), together with proofs of the
properties their specification states.

Conventions of the embedding:

* scalars are exact rationals (the properties are stated in exact arithmetic);
* an `mfem::Vector` is the list of its entries, its `Size()` the list length;
* an `mfem::Array<int>` of dof indices is a list of naturals;
* an output argument is passed in (its size matters) and the updated value is
  returned;
* the member functions are given a second time as state transformers on the
  object, which return the object as the call leaves it, to state what a call
  does to the members;
* a fatal error (`MFEM_VERIFY`, a failed `MFEM_ASSERT`, an access outside a
  container) is `Except.error`; `MFEM_ASSERT` is taken as in a debug build;
* library code that is not part of the embedded files (vectors, dense and
  sparse matrices, LU factors, the Krylov solver, dual numbers) is modelled
  from the specification and marked so; virtual methods (the integrand, the
  element energy) are parameters.
-/

namespace mfem

/-! ## Fatal errors -/

/-- The check macro `MFEM_ASSERT(cond, msg)`: a fatal error when `cond` fails. -/
def MFEM_ASSERT (c : Prop) [Decidable c] (msg : String) : Except String Unit :=
  if c then .ok () else .error msg

/-- The check macro `MFEM_VERIFY(cond, msg)`: a fatal error when `cond` fails. -/
def MFEM_VERIFY (c : Prop) [Decidable c] (msg : String) : Except String Unit :=
  if c then .ok () else .error msg

/-! ## Vectors -/

/-- An `mfem::Vector`: the list of its entries. -/
abbrev Vector := List ℚ

/-- Modelled from the spec: `Vector(int s)`, a vector of size `s`; its entries are
unspecified in the library and taken as zero here (every use overwrites them). -/
def Vector.new (s : Nat) : Vector := List.replicate s 0

/-- Modelled from the spec: `v = 0.0`, every entry set to zero, size kept. -/
def Vector.setZero (v : Vector) : Vector := List.replicate v.length 0

/-- Modelled from the spec: the read `v(i)`; outside the vector it is a fatal error. -/
def Vector.elem (v : Vector) (i : Nat) : Except String ℚ :=
  match v[i]? with
  | some a => .ok a
  | none => .error "index out of range"

/-- Modelled from the spec: the write `v(i) = a`; outside the vector it is a fatal
error. -/
def Vector.assign (v : Vector) (i : Nat) (a : ℚ) : Except String Vector :=
  if i < v.length then .ok (List.set v i a) else .error "index out of range"

/-- Modelled from the spec: the update `v(i) += a`. -/
def Vector.addTo (v : Vector) (i : Nat) (a : ℚ) : Except String Vector :=
  match v[i]? with
  | some b => .ok (List.set v i (b + a))
  | none => .error "index out of range"

/-- Modelled from the spec: `v.GetSubVector(dofs, elemvect)`, the gather
`elemvect(i) = v(dofs[i])`. -/
def Vector.GetSubVector (v : Vector) (dofs : List Nat) : Except String Vector :=
  dofs.mapM (Vector.elem v)

/-- Modelled from the spec: `v.AddElementVector(dofs, elemvect)`, the scatter
`v(dofs[i]) += elemvect(i)` for `i = 0 .. dofs.Size()-1` in this order. -/
def Vector.AddElementVector (v : Vector) (dofs : List Nat) (elemvect : Vector) :
    Except String Vector := do
  MFEM_ASSERT (dofs.length = elemvect.length) "Size mismatch"
  (List.zip dofs elemvect).foldlM (fun acc p => Vector.addTo acc p.1 p.2) v

/-- Modelled from the spec: `v *= c`. -/
def Vector.scale (v : Vector) (c : ℚ) : Vector := v.map (fun a => a * c)

/-- Modelled from the spec: `v -= w`, entry by entry, the sizes being equal. -/
def Vector.sub (v w : Vector) : Except String Vector := do
  MFEM_ASSERT (v.length = w.length) "Size mismatch"
  pure (List.zipWith (fun a b => a - b) v w)

/-- Modelled from the spec: `v += w`, entry by entry, the sizes being equal. -/
def Vector.add (v w : Vector) : Except String Vector := do
  MFEM_ASSERT (v.length = w.length) "Size mismatch"
  pure (List.zipWith (fun a b => a + b) v w)

/-- Modelled from the spec: the inner product `v * w` of two vectors of equal size. -/
def Vector.dot (v w : Vector) : ℚ := (List.zipWith (fun a b => a * b) v w).sum

/-! ## Sorted index arrays -/

/-- Modelled from the spec: `std::lower_bound` on a sorted array, the position of the
first entry that is not below `el` (the size when there is none). -/
def lower_bound (a : List Nat) (el : Nat) : Nat :=
  a.findIdx (fun x => decide (¬ x < el))

/-- Modelled from the spec: `Array<int>::FindSorted(el)`, the position of `el` in a sorted
array, `-1` when it is absent. -/
def FindSorted (a : List Nat) (el : Nat) : Int :=
  let first := lower_bound a el
  match a[first]? with
  | some x => if x = el then (first : Int) else -1
  | none => -1

/-- Modelled from the spec: the read `a[i]` of an `Array<int>`; outside the array it is a
fatal error. -/
def ArrayElem (a : List Nat) (i : Nat) : Except String Nat :=
  match a[i]? with
  | some x => .ok x
  | none => .error "index out of range"

/-! ## Dense matrices -/

/-- An `mfem::DenseMatrix`: its dimensions and its entries in column-major order. -/
structure DenseMatrix where
  height : Nat
  width : Nat
  data : List ℚ

/-- The raw read of entry `(i, j)` from the column-major buffer. -/
def DenseMatrix.entry (M : DenseMatrix) (i j : Nat) : ℚ :=
  M.data.getD (i + j * M.height) 0

/-- Modelled from the spec: the checked read `M(i, j)`. -/
def DenseMatrix.elem (M : DenseMatrix) (i j : Nat) : Except String ℚ :=
  if i < M.height ∧ j < M.width then
    match M.data[i + j * M.height]? with
    | some a => .ok a
    | none => .error "index out of range"
  else .error "index out of range"

/-- Modelled from the spec: `M.SetSize(h, w)`, an `h × w` matrix (its entries are
overwritten by every use here and taken as zero). -/
def DenseMatrix.SetSize (h w : Nat) : DenseMatrix := ⟨h, w, List.replicate (h * w) 0⟩

/-- The column-major buffer of the `h × w` matrix with entries `f i j`. -/
def DenseMatrix.ofFn (h w : Nat) (f : Nat → Nat → ℚ) : DenseMatrix :=
  ⟨h, w, (List.range w).flatMap (fun j => (List.range h).map (fun i => f i j))⟩

/-- Modelled from the spec: `T.Transpose(M)`, `T` becomes the `width × height` matrix with
`T(i, j) = M(j, i)`. -/
def DenseMatrix.Transpose (M : DenseMatrix) : DenseMatrix :=
  DenseMatrix.ofFn M.width M.height (fun i j => M.entry j i)

/-- Modelled from the spec: `M.Mult(x, y)`, `y = M x`, with the library's dimension
check. -/
def DenseMatrix.Mult (M : DenseMatrix) (x y : Vector) : Except String Vector := do
  MFEM_ASSERT (M.height = y.length ∧ M.width = x.length) "incompatible dimensions"
  pure ((List.range M.height).map
    (fun i => ∑ j in Finset.range M.width, M.entry i j * x.getD j 0))

/-- Modelled from the spec: `M.MultTranspose(x, y)`, `y = M^T x`, with the library's
dimension check. -/
def DenseMatrix.MultTranspose (M : DenseMatrix) (x y : Vector) : Except String Vector := do
  MFEM_ASSERT (M.height = x.length ∧ M.width = y.length) "incompatible dimensions"
  pure ((List.range M.width).map
    (fun j => ∑ i in Finset.range M.height, M.entry i j * x.getD i 0))

/-! ## LU factors -/

/-- Modelled from the spec: `mfem::LUFactors`, the dense partial-pivot LU factorization
(factor once, solve repeatedly). The factored buffer and its pivots are represented by
the order `m` and the entries of the matrix that was factored. -/
structure LUFactors where
  m : Nat
  mat : Nat → Nat → ℚ

/-- The factored matrix as an `m × m` matrix. -/
def LUFactors.toMatrix (lu : LUFactors) : Matrix (Fin lu.m) (Fin lu.m) ℚ :=
  Matrix.of (fun i j => lu.mat i j)

/-- Modelled from the spec: `LUFactors::Factor(m)` on a column-major buffer, reading its
leading `m * m` entries as an `m × m` matrix. Per the specification a singular matrix is
a fatal error. -/
def LUFactors.Factor (data : List ℚ) (m : Nat) : Except String LUFactors :=
  if data.length < m * m then .error "index out of range"
  else
    let lu : LUFactors := ⟨m, fun i j => data.getD (i + j * m) 0⟩
    if lu.toMatrix.det = 0 then .error "singular matrix" else .ok lu

/-- The solution `z` of `M z = b` for the factored (nonsingular) matrix `M`. -/
def LUFactors.solveCol (lu : LUFactors) (b : Nat → ℚ) : Fin lu.m → ℚ :=
  (lu.toMatrix.det)⁻¹ • lu.toMatrix.adjugate.mulVec (fun a => b a)

/-- Entry `i` of the solution of `M z = b`, zero outside the matrix. -/
def LUFactors.solveEntry (lu : LUFactors) (b : Nat → ℚ) (i : Nat) : ℚ :=
  if h : i < lu.m then lu.solveCol b ⟨i, h⟩ else 0

/-- Modelled from the spec: `LUFactors::Solve(m, n, X)`, which overwrites the `n` columns
of the column-major `m × n` buffer `X` with the solutions of `M z = X(:, j)`. The order
`m` is that of the factorization. -/
def LUFactors.Solve (lu : LUFactors) (m n : Nat) (X : List ℚ) : Except String (List ℚ) :=
  if m ≠ lu.m then .error "order differs from the factorization"
  else if X.length < m * n then .error "index out of range"
  else .ok (((List.range n).flatMap (fun j =>
      (List.range m).map (fun i => lu.solveEntry (fun a => X.getD (a + j * m) 0) i)))
    ++ X.drop (m * n))

/-! ## Sparse matrices -/

/-- An `mfem::SparseMatrix`. The CSR arrays `I`, `J`, `data` are represented by the list
of rows, row `i` holding the pairs `(J[jidx], data[jidx])` for `I[i] ≤ jidx < I[i+1]` in
storage order. -/
structure SparseMatrix where
  width : Nat
  rows : List (List (Nat × ℚ))

/-- The number of rows, `Height()`. -/
def SparseMatrix.Height (A : SparseMatrix) : Nat := A.rows.length

/-- The value of the matrix at `(i, j)`: the sum of the stored entries of row `i` in
column `j`. -/
def SparseMatrix.Elem (A : SparseMatrix) (i j : Nat) : ℚ :=
  (((A.rows.getD i []).filter (fun p => p.1 = j)).map (fun p => p.2)).sum

/-- Modelled from the spec: `new SparseMatrix(h, w)`, the empty `h × w` matrix. -/
def SparseMatrix.new (h w : Nat) : SparseMatrix := ⟨w, List.replicate h []⟩

/-- Modelled from the spec: `A.Set(i, j, v)`, entry `(i, j)` becomes `v`. -/
def SparseMatrix.Set (A : SparseMatrix) (i j : Nat) (v : ℚ) : Except String SparseMatrix :=
  if i < A.Height ∧ j < A.width then
    .ok ⟨A.width, A.rows.modify (fun r => r.filter (fun p => ¬ p.1 = j) ++ [(j, v)]) i⟩
  else .error "index out of range"

/-- Modelled from the spec: `A.Add(i, j, v)`, `v` is added to entry `(i, j)`. -/
def SparseMatrix.Add (A : SparseMatrix) (i j : Nat) (v : ℚ) : Except String SparseMatrix :=
  if i < A.Height ∧ j < A.width then
    .ok ⟨A.width, A.rows.modify (fun r => r ++ [(j, v)]) i⟩
  else .error "index out of range"

/-- Modelled from the spec: `A.Finalize()`, which compresses the matrix and drops stored
zeros. -/
def SparseMatrix.Finalize (A : SparseMatrix) : SparseMatrix :=
  ⟨A.width, A.rows.map (fun r => r.filter (fun p => ¬ p.2 = 0))⟩

/-- Modelled from the spec: `A.GetSubMatrix(rows, cols, subm)` for a matrix `subm` that
has been sized `rows.Size() × cols.Size()`: `subm(i, j) = A(rows[i], cols[j])`, the
buffer of `subm` being filled column by column. -/
def SparseMatrix.GetSubMatrix (A : SparseMatrix) (rows cols : List Nat) (subm : DenseMatrix) :
    DenseMatrix :=
  ⟨subm.height, subm.width, cols.flatMap (fun gj => rows.map (fun gi => A.Elem gi gj))⟩

/-- Entry `i` of the matrix-vector product `A x`. -/
def SparseMatrix.rowDot (A : SparseMatrix) (x : Vector) (i : Nat) : ℚ :=
  ∑ j in Finset.range A.width, A.Elem i j * x.getD j 0

/-- Modelled from the spec: `A.Mult(x, y)`, `y = A x`, with the library's dimension
check. -/
def SparseMatrix.Mult (A : SparseMatrix) (x y : Vector) : Except String Vector := do
  MFEM_ASSERT (A.width = x.length ∧ A.Height = y.length) "incompatible dimensions"
  pure ((List.range A.Height).map (fun i => A.rowDot x i))

/-- Modelled from the spec: `A.AddMult(x, y, a)`, `y += a * A x`, with the library's
dimension check. -/
def SparseMatrix.AddMult (A : SparseMatrix) (x y : Vector) (a : ℚ) : Except String Vector := do
  MFEM_ASSERT (A.width = x.length ∧ A.Height = y.length) "incompatible dimensions"
  pure ((List.range A.Height).map (fun i => y.getD i 0 + a * A.rowDot x i))

/-- Modelled from the spec: the product `A^T x` of the transposed matrix with a vector of
size `Height()`, used to state properties of the saddle-point system. -/
def SparseMatrix.MultTransposeVec (A : SparseMatrix) (x : Vector) : Vector :=
  (List.range A.width).map (fun j => ∑ i in Finset.range A.Height, A.Elem i j * x.getD i 0)

/-! ## The Krylov solver -/

/-- Modelled from the spec: `mfem::CGSolver` with its preconditioner set. `Mult(b, x)` runs
on the operator `op` given by `SetOperator` and overwrites the entries of the iterate `x`
in place, so the size of `x` is kept; which entries it writes is left open (the solve may
or may not have converged). -/
structure CGSolver where
  Mult : (Vector → Vector → Except String Vector) → Vector → Vector → Vector
  size_eq : ∀ op b x, (Mult op b x).length = x.length

/-! ## EliminationProjection -/

/-- The class `EliminationProjection`. After construction the buffers of `Cs_` and `CsT_`
hold the factors used by `Csinverse_` and `CsTinverse_`; only `Cs_.Height()` is read from
them afterwards. -/
structure EliminationProjection where
  height : Nat
  width : Nat
  A_ : SparseMatrix
  B_ : SparseMatrix
  master_contact_dofs_ : List Nat
  slave_contact_dofs_ : List Nat
  Cm_ : DenseMatrix
  Cs_ : DenseMatrix
  Csinverse_ : LUFactors
  CsT_ : DenseMatrix
  CsTinverse_ : LUFactors

/-- The constructor `EliminationProjection::EliminationProjection`. -/
def EliminationProjection.new (A B : SparseMatrix)
    (master_contact_dofs slave_contact_dofs : List Nat) :
    Except String EliminationProjection := do
  let lm_dofs := List.range B.Height
  let Cm := DenseMatrix.SetSize B.Height master_contact_dofs.length
  let Cm := B.GetSubMatrix lm_dofs master_contact_dofs Cm
  let Cs := DenseMatrix.SetSize B.Height slave_contact_dofs.length
  let Cs := B.GetSubMatrix lm_dofs slave_contact_dofs Cs
  let CsT := DenseMatrix.Transpose Cs
  let Csinverse ← LUFactors.Factor Cs.data Cs.height
  let CsTinverse ← LUFactors.Factor CsT.data Cs.height
  pure { height := A.Height
         width := A.Height - slave_contact_dofs.length
         A_ := A
         B_ := B
         master_contact_dofs_ := master_contact_dofs
         slave_contact_dofs_ := slave_contact_dofs
         Cm_ := Cm
         Cs_ := Cs
         Csinverse_ := Csinverse
         CsT_ := CsT
         CsTinverse_ := CsTinverse }

/-- The variables of the scan over all dofs in `Mult` and `MultTranspose`. -/
structure ScanState where
  out : Vector
  column_dof : Nat
  mapped_master_contact_dofs : List Nat

/-- One pass of the loop `for (int i = 0; i < A_.Height(); ++i)` of `Mult`. -/
def EliminationProjection.MultStep (P : EliminationProjection) (inp : Vector)
    (st : ScanState) (i : Nat) : Except String ScanState :=
  if FindSorted P.slave_contact_dofs_ i ≥ 0 then
    pure st
  else do
    let v ← Vector.elem inp st.column_dof
    let out ← Vector.addTo st.out i v
    let mapped :=
      if FindSorted P.master_contact_dofs_ i ≥ 0 then
        st.mapped_master_contact_dofs ++ [st.column_dof]
      else st.mapped_master_contact_dofs
    pure ⟨out, st.column_dof + 1, mapped⟩

/-- The method `EliminationProjection::Mult(in, out)`. -/
def EliminationProjection.Mult (P : EliminationProjection) (inp out : Vector) :
    Except String Vector := do
  let num_elim_dofs := P.slave_contact_dofs_.length
  MFEM_ASSERT ((inp.length : Int) = (P.A_.Height : Int) - (num_elim_dofs : Int))
    "Sizes don't match!"
  MFEM_ASSERT (out.length = P.A_.Height) "Sizes don't match!"
  let out := Vector.setZero out
  let st ← (List.range P.A_.Height).foldlM (P.MultStep inp) ⟨out, 0, []⟩
  MFEM_ASSERT (st.mapped_master_contact_dofs.length = P.master_contact_dofs_.length)
    "Unable to map master contact dofs!"
  let subvecout := Vector.new P.slave_contact_dofs_.length
  let subvecin ← Vector.GetSubVector inp st.mapped_master_contact_dofs
  let subvecout ← P.Cm_.Mult subvecin subvecout
  let subvecout ← P.Csinverse_.Solve P.Cs_.height 1 subvecout
  let subvecout := Vector.scale subvecout (-1)
  Vector.AddElementVector st.out P.slave_contact_dofs_ subvecout

/-- One pass of the loop `for (int i = 0; i < A_.Height(); ++i)` of `MultTranspose`;
`column_dof` holds the variable `row_dof`. -/
def EliminationProjection.MultTransposeStep (P : EliminationProjection) (inp : Vector)
    (st : ScanState) (i : Nat) : Except String ScanState :=
  if FindSorted P.slave_contact_dofs_ i ≥ 0 then
    pure st
  else do
    let v ← Vector.elem inp i
    let out ← Vector.addTo st.out st.column_dof v
    let mapped :=
      if FindSorted P.master_contact_dofs_ i ≥ 0 then
        st.mapped_master_contact_dofs ++ [st.column_dof]
      else st.mapped_master_contact_dofs
    pure ⟨out, st.column_dof + 1, mapped⟩

/-- The method `EliminationProjection::MultTranspose(in, out)`. -/
def EliminationProjection.MultTranspose (P : EliminationProjection) (inp out : Vector) :
    Except String Vector := do
  let num_elim_dofs := P.slave_contact_dofs_.length
  MFEM_ASSERT ((out.length : Int) = (P.A_.Height : Int) - (num_elim_dofs : Int))
    "Sizes don't match!"
  MFEM_ASSERT (inp.length = P.A_.Height) "Sizes don't match!"
  let out := Vector.setZero out
  let st ← (List.range P.A_.Height).foldlM (P.MultTransposeStep inp) ⟨out, 0, []⟩
  MFEM_ASSERT (st.mapped_master_contact_dofs.length = P.master_contact_dofs_.length)
    "Unable to map master contact dofs!"
  let subvecout := Vector.new P.Cm_.width
  let subvecin ← Vector.GetSubVector inp P.slave_contact_dofs_
  let subvecin ← P.CsTinverse_.Solve P.Cs_.height 1 subvecin
  let subvecout ← P.Cm_.MultTranspose subvecin subvecout
  let subvecout := Vector.scale subvecout (-1)
  Vector.AddElementVector st.out st.mapped_master_contact_dofs subvecout

/-- The variables of the scan over all dofs in `AssembleApproximate`. -/
structure AssembleState where
  out : SparseMatrix
  column_dof : Nat
  mapped_master_contact_dofs : List Nat

/-- One pass of the first loop of `AssembleApproximate`. -/
def EliminationProjection.AssembleStep (P : EliminationProjection)
    (st : AssembleState) (i : Nat) : Except String AssembleState :=
  if FindSorted P.slave_contact_dofs_ i ≥ 0 then
    pure st
  else do
    let out ← st.out.Set i st.column_dof 1
    let mapped :=
      if FindSorted P.master_contact_dofs_ i ≥ 0 then
        st.mapped_master_contact_dofs ++ [st.column_dof]
      else st.mapped_master_contact_dofs
    pure ⟨out, st.column_dof + 1, mapped⟩

/-- One pass of the inner loop of `AssembleApproximate`: `j = mapped_master_contact_dofs[jz]`
and `out->Add(i, j, -block(iz, jz))`. -/
def EliminationProjection.AssembleInnerStep (block : DenseMatrix) (mapped : List Nat)
    (i iz : Nat) (out : SparseMatrix) (jz : Nat) : Except String SparseMatrix := do
  let j ← ArrayElem mapped jz
  let b ← block.elem iz jz
  out.Add i j (-b)

/-- The inner loop `for (int jz = 0; jz < mapped_master_contact_dofs.Size(); ++jz)` of
`AssembleApproximate`, for the slave row `iz`. -/
def EliminationProjection.AssembleInner (block : DenseMatrix) (mapped : List Nat)
    (i iz : Nat) (out : SparseMatrix) : Except String SparseMatrix :=
  (List.range mapped.length).foldlM
    (EliminationProjection.AssembleInnerStep block mapped i iz) out

/-- One pass of the outer loop `for (int iz = 0; iz < slave_contact_dofs_.Size(); ++iz)` of
`AssembleApproximate`: `i = slave_contact_dofs_[iz]` and the inner loop. -/
def EliminationProjection.AssembleOuterStep (block : DenseMatrix) (mapped slave : List Nat)
    (out : SparseMatrix) (iz : Nat) : Except String SparseMatrix := do
  let i ← ArrayElem slave iz
  EliminationProjection.AssembleInner block mapped i iz out

/-- The method `EliminationProjection::AssembleApproximate()`. -/
def EliminationProjection.AssembleApproximate (P : EliminationProjection) :
    Except String SparseMatrix := do
  let num_elim_dofs := P.slave_contact_dofs_.length
  let out := SparseMatrix.new P.A_.Height (P.A_.Height - num_elim_dofs)
  let st ← (List.range P.A_.Height).foldlM P.AssembleStep ⟨out, 0, []⟩
  MFEM_ASSERT (st.mapped_master_contact_dofs.length = P.master_contact_dofs_.length)
    "Unable to map master contact dofs!"
  let blockData ← P.Csinverse_.Solve P.Cs_.height P.Cm_.width P.Cm_.data
  let block : DenseMatrix := ⟨P.Cm_.height, P.Cm_.width, blockData⟩
  let out ← (List.range P.slave_contact_dofs_.length).foldlM
    (EliminationProjection.AssembleOuterStep block st.mapped_master_contact_dofs
      P.slave_contact_dofs_) st.out
  pure out.Finalize

/-- The method `EliminationProjection::BuildGTilde(g, gtilde)`. -/
def EliminationProjection.BuildGTilde (P : EliminationProjection) (g gtilde : Vector) :
    Except String Vector := do
  MFEM_ASSERT (g.length = P.B_.Height) "Sizes don't match!"
  MFEM_ASSERT (gtilde.length = P.A_.Height) "Sizes don't match!"
  let gtilde := Vector.setZero gtilde
  let cinvg := g
  let cinvg ← P.Csinverse_.Solve P.Cs_.height 1 cinvg
  Vector.AddElementVector gtilde P.slave_contact_dofs_ cinvg

/-- The method `EliminationProjection::RecoverPressure(disprhs, disp, pressure)`. -/
def EliminationProjection.RecoverPressure (P : EliminationProjection)
    (disprhs disp pressure : Vector) : Except String Vector := do
  MFEM_ASSERT (pressure.length = P.B_.Height) "Sizes don't match!"
  MFEM_ASSERT (disp.length = P.A_.Height) "Sizes don't match!"
  let fullrhs := Vector.new P.A_.Height
  let fullrhs ← P.A_.Mult disp fullrhs
  let fullrhs ← Vector.sub fullrhs disprhs
  let fullrhs := Vector.scale fullrhs (-1)
  let pressure ← Vector.GetSubVector fullrhs P.slave_contact_dofs_
  P.CsTinverse_.Solve P.Cs_.height 1 pressure

/-- Modelled from the spec: `mfem::RAPOperator(Rt, A, P)`, the operator `Rt^T A P`:
`Mult(x, y)` computes `P x`, then `A (P x)`, then `y = Rt^T (A (P x))`. -/
def RAPOperator.Mult (Rt : EliminationProjection) (A : SparseMatrix)
    (P : EliminationProjection) (x y : Vector) : Except String Vector := do
  let Px ← P.Mult x (Vector.new P.height)
  let APx ← A.Mult Px (Vector.new A.Height)
  Rt.MultTranspose APx y

/-! ## EliminationCGSolver -/

/-- The class `EliminationCGSolver`. The members `h_explicit_operator_` and `prec_`
belong to the external sparse linear algebra provider and act only inside the Krylov
solve, which is a parameter of `Mult`. -/
structure EliminationCGSolver where
  A_ : SparseMatrix
  B_ : SparseMatrix
  first_interface_dofs_ : List Nat
  second_interface_dofs_ : List Nat
  projector_ : EliminationProjection

/-- Modelled from the spec: `std::set<int>::insert`, on a set held as its ascending list
of elements. -/
def setInsert (s : List Nat) (j : Nat) : List Nat :=
  if j ∈ s then s else s.orderedInsert (fun a b => a ≤ b) j

/-- Modelled from the spec: `Array<int>::Sort()`, ascending. -/
def SortArray (a : List Nat) : List Nat := a.insertionSort (fun a b => a ≤ b)

/-- The tolerance `const double tol = 1.e-14` of `BuildSeparatedInterfaceDofs`: the value
of the double-precision literal, `6338253001141147 * 2^(-99)`, which is the double nearest
to `10^(-14)` and lies just below it. The comparison `fabs(v) < tol` of two doubles is
exact. -/
def tol : ℚ := 6338253001141147 / 2 ^ 99

/-- One pass of the inner loop of `BuildSeparatedInterfaceDofs` over the stored entries
of a row: the pair holds `first_interface` and `second_interface`. -/
def BuildSeparatedInterfaceDofs.entryStep (firstblocksize : Int)
    (sets : List Nat × List Nat) (e : Nat × ℚ) : List Nat × List Nat :=
  let j := e.1
  let v := e.2
  if |v| < tol then sets
  else if (j : Int) < firstblocksize then (setInsert sets.1 j, sets.2)
  else (sets.1, setInsert sets.2 j)

/-- The two nested loops of `BuildSeparatedInterfaceDofs` over the rows of `B_` and the
stored entries of each row. -/
def BuildSeparatedInterfaceDofs.collect (B : SparseMatrix) (firstblocksize : Int) :
    List Nat × List Nat :=
  B.rows.foldl (fun sets row =>
    row.foldl (BuildSeparatedInterfaceDofs.entryStep firstblocksize) sets) ([], [])

/-- The method `EliminationCGSolver::BuildSeparatedInterfaceDofs(firstblocksize)`, acting
on the members `first_interface_dofs_` and `second_interface_dofs_`, which it returns. -/
def EliminationCGSolver.BuildSeparatedInterfaceDofs (B_ : SparseMatrix)
    (first_interface_dofs_ second_interface_dofs_ : List Nat) (firstblocksize : Int) :
    Except String (List Nat × List Nat) := do
  let sets := BuildSeparatedInterfaceDofs.collect B_ firstblocksize
  let first_interface := sets.1
  let second_interface := sets.2
  let first_interface_dofs_ :=
    SortArray (first_interface.foldl (fun a i => a ++ [i]) first_interface_dofs_)
  let r := second_interface.foldl (fun (st : Nat × List Nat) i => (st.1 + 1, st.2 ++ [i]))
    (0, second_interface_dofs_)
  let second_interface_size := r.1
  let second_interface_dofs_ := SortArray r.2
  if second_interface_size ≠ B_.Height then
    MFEM_VERIFY False "I don't understand how this matrix is constructed!"
  pure (first_interface_dofs_, second_interface_dofs_)

/-- The method `EliminationCGSolver::BuildPreconditioner()`: the projector is built and
its approximate version assembled; the products and the multigrid preconditioner made
from the assembled matrix belong to the external provider. -/
def EliminationCGSolver.BuildPreconditioner (A_ B_ : SparseMatrix)
    (first_interface_dofs_ second_interface_dofs_ : List Nat) :
    Except String EliminationCGSolver := do
  let projector_ ← EliminationProjection.new A_ B_ first_interface_dofs_
    second_interface_dofs_
  let _explicit_projector ← projector_.AssembleApproximate
  pure ⟨A_, B_, first_interface_dofs_, second_interface_dofs_, projector_⟩

/-- The constructor `EliminationCGSolver(A, B, master_dofs, slave_dofs)`. -/
def EliminationCGSolver.newExplicit (A B : SparseMatrix) (master_dofs slave_dofs : List Nat) :
    Except String EliminationCGSolver :=
  EliminationCGSolver.BuildPreconditioner A B master_dofs slave_dofs

/-- The constructor `EliminationCGSolver(A, B, firstblocksize)`. -/
def EliminationCGSolver.newThreshold (A B : SparseMatrix) (firstblocksize : Int) :
    Except String EliminationCGSolver := do
  let dofs ← EliminationCGSolver.BuildSeparatedInterfaceDofs B [] [] firstblocksize
  EliminationCGSolver.BuildPreconditioner A B dofs.1 dofs.2

/-- The loop `for (i = 0; i < n; ++i) dst(i) = src(off + i)` used by
`EliminationCGSolver::Mult` to split `rhs`. -/
def copyFrom (src : Vector) (off n : Nat) (dst : Vector) : Except String Vector :=
  (List.range n).foldlM (fun acc i => do
    let a ← Vector.elem src (off + i)
    Vector.assign acc i a) dst

/-- The loop `for (i = 0; i < src.Size(); ++i) dst(off + i) = src(i)` used by
`EliminationCGSolver::Mult` to fill `sol`. -/
def copyInto (src : Vector) (off : Nat) (dst : Vector) : Except String Vector :=
  (List.range src.length).foldlM (fun acc i => do
    let a ← Vector.elem src i
    Vector.assign acc (off + i) a) dst

/-- The method `EliminationCGSolver::Mult(rhs, sol)`; `krylov` is the configured
`CGSolver` on the reduced operator. -/
def EliminationCGSolver.Mult (S : EliminationCGSolver) (krylov : CGSolver)
    (rhs sol : Vector) : Except String Vector := do
  let reducedoperator := RAPOperator.Mult S.projector_ S.A_ S.projector_
  let reducedoperatorHeight := S.projector_.width
  let displacementrhs := Vector.new S.A_.Height
  let displacementrhs ← copyFrom rhs 0 displacementrhs.length displacementrhs
  let lagrangerhs := Vector.new S.B_.Height
  let lagrangerhs ← copyFrom rhs displacementrhs.length lagrangerhs.length lagrangerhs
  let displacementsol := Vector.new displacementrhs.length
  let gtilde := Vector.new displacementrhs.length
  let gtilde ← S.projector_.BuildGTilde lagrangerhs gtilde
  let displacementrhs ← S.A_.AddMult gtilde displacementrhs (-1)
  let reducedrhs := Vector.new reducedoperatorHeight
  let reducedrhs ← S.projector_.MultTranspose displacementrhs reducedrhs
  let reducedsol := Vector.new reducedoperatorHeight
  let reducedsol := Vector.setZero reducedsol
  let reducedsol := krylov.Mult reducedoperator reducedrhs reducedsol
  let displacementsol ← S.projector_.Mult reducedsol displacementsol
  let pressure := Vector.new lagrangerhs.length
  let pressure ← S.projector_.RecoverPressure displacementrhs displacementsol pressure
  let displacementsol ← Vector.add displacementsol gtilde
  let sol ← copyInto displacementsol 0 sol
  copyInto pressure displacementsol.length sol

/-! ## The member functions on the object

The member functions of `EliminationProjection` and `EliminationCGSolver::Mult` once more,
as state transformers on the object: the members are read from the object at the point of
each access, and a call returns its result together with the object as the call leaves it
(a fatal error leaves nothing). The library member functions called on members (`Height`,
`Width`, `Size`, `FindSorted`, `operator[]`, `Mult`, `MultTranspose`, `Solve`, the copy
constructors) are `const` and are modelled as reading their receiver. -/

/-- One pass of the loop `for (int i = 0; i < A_.Height(); ++i)` of `Mult`, on the
object. -/
def Stateful.EliminationProjection.MultStep (inp : Vector) (st : ScanState) (i : Nat) :
    StateT EliminationProjection (Except String) ScanState := do
  if FindSorted (← get).slave_contact_dofs_ i ≥ 0 then
    pure st
  else
    let v ← Vector.elem inp st.column_dof
    let out ← Vector.addTo st.out i v
    let mapped :=
      if FindSorted (← get).master_contact_dofs_ i ≥ 0 then
        st.mapped_master_contact_dofs ++ [st.column_dof]
      else st.mapped_master_contact_dofs
    pure ⟨out, st.column_dof + 1, mapped⟩

/-- The method `EliminationProjection::Mult(in, out)` on the object. -/
def Stateful.EliminationProjection.Mult (inp out : Vector) :
    StateT EliminationProjection (Except String) Vector := do
  let num_elim_dofs := (← get).slave_contact_dofs_.length
  MFEM_ASSERT ((inp.length : Int) = ((← get).A_.Height : Int) - (num_elim_dofs : Int))
    "Sizes don't match!"
  MFEM_ASSERT (out.length = (← get).A_.Height) "Sizes don't match!"
  let out := Vector.setZero out
  let st ← (List.range (← get).A_.Height).foldlM
    (Stateful.EliminationProjection.MultStep inp) ⟨out, 0, []⟩
  MFEM_ASSERT (st.mapped_master_contact_dofs.length = (← get).master_contact_dofs_.length)
    "Unable to map master contact dofs!"
  let subvecout := Vector.new (← get).slave_contact_dofs_.length
  let subvecin ← Vector.GetSubVector inp st.mapped_master_contact_dofs
  let subvecout ← (← get).Cm_.Mult subvecin subvecout
  let subvecout ← (← get).Csinverse_.Solve (← get).Cs_.height 1 subvecout
  let subvecout := Vector.scale subvecout (-1)
  Vector.AddElementVector st.out (← get).slave_contact_dofs_ subvecout

/-- One pass of the loop `for (int i = 0; i < A_.Height(); ++i)` of `MultTranspose`, on the
object; `column_dof` holds the variable `row_dof`. -/
def Stateful.EliminationProjection.MultTransposeStep (inp : Vector) (st : ScanState)
    (i : Nat) : StateT EliminationProjection (Except String) ScanState := do
  if FindSorted (← get).slave_contact_dofs_ i ≥ 0 then
    pure st
  else
    let v ← Vector.elem inp i
    let out ← Vector.addTo st.out st.column_dof v
    let mapped :=
      if FindSorted (← get).master_contact_dofs_ i ≥ 0 then
        st.mapped_master_contact_dofs ++ [st.column_dof]
      else st.mapped_master_contact_dofs
    pure ⟨out, st.column_dof + 1, mapped⟩

/-- The method `EliminationProjection::MultTranspose(in, out)` on the object. -/
def Stateful.EliminationProjection.MultTranspose (inp out : Vector) :
    StateT EliminationProjection (Except String) Vector := do
  let num_elim_dofs := (← get).slave_contact_dofs_.length
  MFEM_ASSERT ((out.length : Int) = ((← get).A_.Height : Int) - (num_elim_dofs : Int))
    "Sizes don't match!"
  MFEM_ASSERT (inp.length = (← get).A_.Height) "Sizes don't match!"
  let out := Vector.setZero out
  let st ← (List.range (← get).A_.Height).foldlM
    (Stateful.EliminationProjection.MultTransposeStep inp) ⟨out, 0, []⟩
  MFEM_ASSERT (st.mapped_master_contact_dofs.length = (← get).master_contact_dofs_.length)
    "Unable to map master contact dofs!"
  let subvecout := Vector.new (← get).Cm_.width
  let subvecin ← Vector.GetSubVector inp (← get).slave_contact_dofs_
  let subvecin ← (← get).CsTinverse_.Solve (← get).Cs_.height 1 subvecin
  let subvecout ← (← get).Cm_.MultTranspose subvecin subvecout
  let subvecout := Vector.scale subvecout (-1)
  Vector.AddElementVector st.out st.mapped_master_contact_dofs subvecout

/-- One pass of the first loop of `AssembleApproximate`, on the object. -/
def Stateful.EliminationProjection.AssembleStep (st : AssembleState) (i : Nat) :
    StateT EliminationProjection (Except String) AssembleState := do
  if FindSorted (← get).slave_contact_dofs_ i ≥ 0 then
    pure st
  else
    let out ← st.out.Set i st.column_dof 1
    let mapped :=
      if FindSorted (← get).master_contact_dofs_ i ≥ 0 then
        st.mapped_master_contact_dofs ++ [st.column_dof]
      else st.mapped_master_contact_dofs
    pure ⟨out, st.column_dof + 1, mapped⟩

/-- One pass of the outer loop `for (int iz = 0; iz < slave_contact_dofs_.Size(); ++iz)` of
`AssembleApproximate`, on the object: `i = slave_contact_dofs_[iz]` and the inner loop over
the local `block` and `mapped_master_contact_dofs`. -/
def Stateful.EliminationProjection.AssembleOuterStep (block : DenseMatrix)
    (mapped : List Nat) (out : SparseMatrix) (iz : Nat) :
    StateT EliminationProjection (Except String) SparseMatrix := do
  let i ← ArrayElem (← get).slave_contact_dofs_ iz
  EliminationProjection.AssembleInner block mapped i iz out

/-- The method `EliminationProjection::AssembleApproximate()` on the object; `block` is the
copy `DenseMatrix block(Cm_)` and the solve overwrites the buffer of the copy. -/
def Stateful.EliminationProjection.AssembleApproximate :
    StateT EliminationProjection (Except String) SparseMatrix := do
  let num_elim_dofs := (← get).slave_contact_dofs_.length
  let out := SparseMatrix.new (← get).A_.Height ((← get).A_.Height - num_elim_dofs)
  let st ← (List.range (← get).A_.Height).foldlM
    Stateful.EliminationProjection.AssembleStep ⟨out, 0, []⟩
  MFEM_ASSERT (st.mapped_master_contact_dofs.length = (← get).master_contact_dofs_.length)
    "Unable to map master contact dofs!"
  let block : DenseMatrix := (← get).Cm_
  let blockData ← (← get).Csinverse_.Solve (← get).Cs_.height (← get).Cm_.width block.data
  let block : DenseMatrix := ⟨block.height, block.width, blockData⟩
  let out ← (List.range (← get).slave_contact_dofs_.length).foldlM
    (Stateful.EliminationProjection.AssembleOuterStep block st.mapped_master_contact_dofs)
    st.out
  pure out.Finalize

/-- The method `EliminationProjection::BuildGTilde(g, gtilde)` on the object; `cinvg` is the
copy `Vector cinvg(g)`. -/
def Stateful.EliminationProjection.BuildGTilde (g gtilde : Vector) :
    StateT EliminationProjection (Except String) Vector := do
  MFEM_ASSERT (g.length = (← get).B_.Height) "Sizes don't match!"
  MFEM_ASSERT (gtilde.length = (← get).A_.Height) "Sizes don't match!"
  let gtilde := Vector.setZero gtilde
  let cinvg := g
  let cinvg ← (← get).Csinverse_.Solve (← get).Cs_.height 1 cinvg
  Vector.AddElementVector gtilde (← get).slave_contact_dofs_ cinvg

/-- The method `EliminationProjection::RecoverPressure(disprhs, disp, pressure)` on the
object. -/
def Stateful.EliminationProjection.RecoverPressure (disprhs disp pressure : Vector) :
    StateT EliminationProjection (Except String) Vector := do
  MFEM_ASSERT (pressure.length = (← get).B_.Height) "Sizes don't match!"
  MFEM_ASSERT (disp.length = (← get).A_.Height) "Sizes don't match!"
  let fullrhs := Vector.new (← get).A_.Height
  let fullrhs ← (← get).A_.Mult disp fullrhs
  let fullrhs ← Vector.sub fullrhs disprhs
  let fullrhs := Vector.scale fullrhs (-1)
  let pressure ← Vector.GetSubVector fullrhs (← get).slave_contact_dofs_
  (← get).CsTinverse_.Solve (← get).Cs_.height 1 pressure

/-- Modelled from the spec: `mfem::RAPOperator(P, A, P).Mult(x, y)` for one projector object
`P` used on both sides, run on that object: `P x`, then `A (P x)`, then `y = P^T (A (P x))`. -/
def Stateful.RAPOperator.Mult (A : SparseMatrix) (x y : Vector) :
    StateT EliminationProjection (Except String) Vector := do
  let Px ← Stateful.EliminationProjection.Mult x (Vector.new (← get).height)
  let APx ← A.Mult Px (Vector.new A.Height)
  Stateful.EliminationProjection.MultTranspose APx y

/-- A call `projector_->method(...)` inside `EliminationCGSolver`: the method runs on the
projector the solver holds, and the solver holds the projector as the call leaves it. -/
def Stateful.EliminationCGSolver.onProjector {α : Type}
    (method : StateT EliminationProjection (Except String) α) :
    StateT EliminationCGSolver (Except String) α :=
  fun S => do
    let r ← method.run S.projector_
    pure (r.1, { S with projector_ := r.2 })

/-- The object `RAPOperator reducedoperator(*projector_, A_, *projector_)` as the Krylov
solver sees it on the solver object `S`: the Krylov solver holds it by reference and applies
it to vectors of its choice; an application runs the reduced operator on the projector of
`S` and returns the vector it computes. -/
def Stateful.EliminationCGSolver.reducedoperator (S : EliminationCGSolver) (x y : Vector) :
    Except String Vector :=
  (fun r => r.1) <$> (Stateful.RAPOperator.Mult S.A_ x y).run S.projector_

/-- The method `EliminationCGSolver::Mult(rhs, sol)` on the object; `krylov` is the
configured `CGSolver`, which sees the reduced operator on the object as it stands at the
call `krylov.Mult(reducedrhs, reducedsol)`. -/
def Stateful.EliminationCGSolver.Mult (krylov : CGSolver) (rhs sol : Vector) :
    StateT EliminationCGSolver (Except String) Vector := do
  let reducedoperatorHeight := (← get).projector_.width
  let displacementrhs := Vector.new (← get).A_.Height
  let displacementrhs ← copyFrom rhs 0 displacementrhs.length displacementrhs
  let lagrangerhs := Vector.new (← get).B_.Height
  let lagrangerhs ← copyFrom rhs displacementrhs.length lagrangerhs.length lagrangerhs
  let displacementsol := Vector.new displacementrhs.length
  let gtilde := Vector.new displacementrhs.length
  let gtilde ← Stateful.EliminationCGSolver.onProjector
    (Stateful.EliminationProjection.BuildGTilde lagrangerhs gtilde)
  let displacementrhs ← (← get).A_.AddMult gtilde displacementrhs (-1)
  let reducedrhs := Vector.new reducedoperatorHeight
  let reducedrhs ← Stateful.EliminationCGSolver.onProjector
    (Stateful.EliminationProjection.MultTranspose displacementrhs reducedrhs)
  let reducedsol := Vector.new reducedoperatorHeight
  let reducedsol := Vector.setZero reducedsol
  let reducedsol := krylov.Mult
    (Stateful.EliminationCGSolver.reducedoperator (← get)) reducedrhs reducedsol
  let displacementsol ← Stateful.EliminationCGSolver.onProjector
    (Stateful.EliminationProjection.Mult reducedsol displacementsol)
  let pressure := Vector.new lagrangerhs.length
  let pressure ← Stateful.EliminationCGSolver.onProjector
    (Stateful.EliminationProjection.RecoverPressure displacementrhs displacementsol pressure)
  let displacementsol ← Vector.add displacementsol gtilde
  let sol ← copyInto displacementsol 0 sol
  copyInto pressure displacementsol.length sol

/-! ## Automatic differentiation with dual numbers -/

/-- Modelled from the spec: the dual number type `FDual<T>` of the automatic differentiation
headers, which are not among the embedded files: a real part and a dual part, read by
`real()` and `dual()`. -/
structure FDual (T : Type) where
  real : T
  dual : T

/-- Modelled from the spec: the setter `x.real(v)` of `FDual<T>`. -/
def FDual.setReal {T : Type} (x : FDual T) (v : T) : FDual T := ⟨v, x.dual⟩

/-- Modelled from the spec: the setter `x.dual(v)` of `FDual<T>`. -/
def FDual.setDual {T : Type} (x : FDual T) (v : T) : FDual T := ⟨x.real, v⟩

/-- The type `ADFType`, a dual number over the scalars: `ADFType(a, b)` has real part `a`
and dual part `b`. -/
abbrev ADFType := FDual ℚ

/-- The type `ADSType`, a dual number over `ADFType`; the second derivative is read as
`rez.dual().dual()`. -/
abbrev ADSType := FDual ADFType

/-- The type `ADSVector`, a vector of `ADSType`. -/
abbrev ADSVector := List ADSType

/-- Modelled from the spec: the sum of two dual numbers, part by part. -/
instance {T : Type} [Add T] : Add (FDual T) :=
  ⟨fun x y => ⟨x.real + y.real, x.dual + y.dual⟩⟩

/-- Modelled from the spec: the product of two dual numbers,
`(a + a' ε)(b + b' ε) = a b + (a b' + a' b) ε`. -/
instance {T : Type} [Mul T] [Add T] : Mul (FDual T) :=
  ⟨fun x y => ⟨x.real * y.real, x.real * y.dual + x.dual * y.real⟩⟩

/-- Modelled from the spec: `ADSVector(n)`, a vector of `n` entries (every entry is
overwritten by the callers before it is read; taken as zero). -/
def ADSVector.new (n : Nat) : ADSVector := List.replicate n ⟨⟨0, 0⟩, ⟨0, 0⟩⟩

/-- Modelled from the spec: the access `v[i]` followed by a setter, `v[i].real(..)` or
`v[i].dual(..)`; outside the vector it is a fatal error. -/
def ADSVector.update (v : ADSVector) (i : Nat) (f : ADSType → ADSType) :
    Except String ADSVector :=
  match v[i]? with
  | some a => .ok (List.set v i (f a))
  | none => .error "index out of range"

/-- Modelled from the spec: `M = 0.0`, every entry set to zero, dimensions kept. -/
def DenseMatrix.setZero (M : DenseMatrix) : DenseMatrix :=
  ⟨M.height, M.width, List.replicate M.data.length 0⟩

/-- Modelled from the spec: the checked write `M(i, j) = a`. -/
def DenseMatrix.assign (M : DenseMatrix) (i j : Nat) (a : ℚ) : Except String DenseMatrix :=
  if i < M.height ∧ j < M.width ∧ i + j * M.height < M.data.length then
    .ok ⟨M.height, M.width, List.set M.data (i + j * M.height) a⟩
  else .error "index out of range"

/-- The local variables of the double loops that fill the matrix of second derivatives:
the vector of dual numbers and the matrix. -/
structure HessState where
  ad : ADSVector
  mat : DenseMatrix

/-! ## ADQIntegratorH -/

/-- One pass of the first loop of `ADQIntegratorH::QIntegratorDD`:
`aduu[ii].real(ADFType(uu[ii],0.0)); aduu[ii].dual(ADFType(0.0,0.0));`. -/
def ADQIntegratorH.QIntegratorDD.initStep (uu : Vector) (aduu : ADSVector) (ii : Nat) :
    Except String ADSVector := do
  let u ← Vector.elem uu ii
  let aduu ← ADSVector.update aduu ii (fun a => a.setReal ⟨u, 0⟩)
  ADSVector.update aduu ii (fun a => a.setDual ⟨0, 0⟩)

/-- One pass of the inner loop `for (jj = 0; jj < ii+1; jj++)` of
`ADQIntegratorH::QIntegratorDD`; `QIntegrator` is the integrand (a virtual method). -/
def ADQIntegratorH.QIntegratorDD.innerStep (QIntegrator : Vector → ADSVector → ADSType)
    (vparam : Vector) (ii : Nat) (st : HessState) (jj : Nat) : Except String HessState := do
  let aduu ← ADSVector.update st.ad jj (fun a => a.setDual ⟨1, 0⟩)
  let rez := QIntegrator vparam aduu
  let jac ← st.mat.assign ii jj rez.dual.dual
  let jac ← jac.assign jj ii rez.dual.dual
  let aduu ← ADSVector.update aduu jj (fun a => a.setDual ⟨0, 0⟩)
  pure ⟨aduu, jac⟩

/-- One pass of the outer loop `for (ii = 0; ii < n; ii++)` of
`ADQIntegratorH::QIntegratorDD`. -/
def ADQIntegratorH.QIntegratorDD.outerStep (QIntegrator : Vector → ADSVector → ADSType)
    (vparam uu : Vector) (st : HessState) (ii : Nat) : Except String HessState := do
  let u ← Vector.elem uu ii
  let aduu ← ADSVector.update st.ad ii (fun a => a.setDual ⟨u, 1⟩)
  let st ← (List.range (ii + 1)).foldlM
    (ADQIntegratorH.QIntegratorDD.innerStep QIntegrator vparam ii) ⟨aduu, st.mat⟩
  let u ← Vector.elem uu ii
  let aduu ← ADSVector.update st.ad ii (fun a => a.setDual ⟨u, 0⟩)
  pure ⟨aduu, st.mat⟩

/-- The body of `ADQIntegratorH::QIntegratorDD(vparam, uu, jac)` up to the end of its loops,
with the local vector `aduu` still in scope. -/
def ADQIntegratorH.QIntegratorDD.loops (QIntegrator : Vector → ADSVector → ADSType)
    (vparam uu : Vector) : Except String HessState := do
  let n := uu.length
  let jac := DenseMatrix.SetSize n n
  let jac := jac.setZero
  let aduu := ADSVector.new n
  let aduu ← (List.range n).foldlM (ADQIntegratorH.QIntegratorDD.initStep uu) aduu
  (List.range n).foldlM (ADQIntegratorH.QIntegratorDD.outerStep QIntegrator vparam uu)
    ⟨aduu, jac⟩

/-- The method `ADQIntegratorH::QIntegratorDD(vparam, uu, jac)`; `jac` is resized and
overwritten, its new value is returned. -/
def ADQIntegratorH.QIntegratorDD (QIntegrator : Vector → ADSVector → ADSType)
    (vparam uu : Vector) : Except String DenseMatrix := do
  let st ← ADQIntegratorH.QIntegratorDD.loops QIntegrator vparam uu
  pure st.mat

/-! ## ADNonlinearFormIntegratorH -/

/-- Modelled from the spec: an `mfem::FiniteElement`, of which only `GetDof()` is used. -/
structure FiniteElement where
  Dof : Nat

/-- The number of degrees of freedom, `GetDof()`. -/
def FiniteElement.GetDof (el : FiniteElement) : Nat := el.Dof

/-- One pass of the first loop of `ADNonlinearFormIntegratorH::AssembleElementGrad`:
`adelfun[ii].real(ADFType(elfun[ii],0.0)); adelfun[ii].dual(ADFType(0.0,0.0));`. -/
def ADNonlinearFormIntegratorH.AssembleElementGrad.initStep (elfun : Vector)
    (adelfun : ADSVector) (ii : Nat) : Except String ADSVector := do
  let u ← Vector.elem elfun ii
  let adelfun ← ADSVector.update adelfun ii (fun a => a.setReal ⟨u, 0⟩)
  ADSVector.update adelfun ii (fun a => a.setDual ⟨0, 0⟩)

/-- One pass of the inner loop `for (jj = 0; jj < ii+1; jj++)` of
`ADNonlinearFormIntegratorH::AssembleElementGrad`; `ElementEnergy` is the energy of the
element (a virtual method), `Tr` the element transformation handed on to it. -/
def ADNonlinearFormIntegratorH.AssembleElementGrad.innerStep {ET : Type}
    (ElementEnergy : FiniteElement → ET → ADSVector → ADSType)
    (el : FiniteElement) (Tr : ET) (ii : Nat) (st : HessState) (jj : Nat) :
    Except String HessState := do
  let adelfun ← ADSVector.update st.ad jj (fun a => a.setDual ⟨1, 0⟩)
  let rez := ElementEnergy el Tr adelfun
  let elmat ← st.mat.assign ii jj rez.dual.dual
  let elmat ← elmat.assign jj ii rez.dual.dual
  let adelfun ← ADSVector.update adelfun jj (fun a => a.setDual ⟨0, 0⟩)
  pure ⟨adelfun, elmat⟩

/-- One pass of the outer loop `for (ii = 0; ii < adelfun.Size(); ii++)` of
`ADNonlinearFormIntegratorH::AssembleElementGrad`. -/
def ADNonlinearFormIntegratorH.AssembleElementGrad.outerStep {ET : Type}
    (ElementEnergy : FiniteElement → ET → ADSVector → ADSType)
    (el : FiniteElement) (Tr : ET) (elfun : Vector) (st : HessState) (ii : Nat) :
    Except String HessState := do
  let u ← Vector.elem elfun ii
  let adelfun ← ADSVector.update st.ad ii (fun a => a.setReal ⟨u, 1⟩)
  let st ← (List.range (ii + 1)).foldlM
    (ADNonlinearFormIntegratorH.AssembleElementGrad.innerStep ElementEnergy el Tr ii)
    ⟨adelfun, st.mat⟩
  let u ← Vector.elem elfun ii
  let adelfun ← ADSVector.update st.ad ii (fun a => a.setReal ⟨u, 0⟩)
  pure ⟨adelfun, st.mat⟩

/-- The body of `ADNonlinearFormIntegratorH::AssembleElementGrad(el, Tr, elfun, elmat)` up to
the end of its loops, with the local vector `adelfun` still in scope. -/
def ADNonlinearFormIntegratorH.AssembleElementGrad.loops {ET : Type}
    (ElementEnergy : FiniteElement → ET → ADSVector → ADSType)
    (el : FiniteElement) (Tr : ET) (elfun : Vector) : Except String HessState := do
  let ndof := el.GetDof
  let elmat := DenseMatrix.SetSize ndof ndof
  let elmat := elmat.setZero
  let adelfun := ADSVector.new ndof
  let adelfun ← (List.range ndof).foldlM
    (ADNonlinearFormIntegratorH.AssembleElementGrad.initStep elfun) adelfun
  (List.range adelfun.length).foldlM
    (ADNonlinearFormIntegratorH.AssembleElementGrad.outerStep ElementEnergy el Tr elfun)
    ⟨adelfun, elmat⟩

/-- The method `ADNonlinearFormIntegratorH::AssembleElementGrad(el, Tr, elfun, elmat)`;
`elmat` is resized and overwritten, its new value is returned. -/
def ADNonlinearFormIntegratorH.AssembleElementGrad {ET : Type}
    (ElementEnergy : FiniteElement → ET → ADSVector → ADSType)
    (el : FiniteElement) (Tr : ET) (elfun : Vector) : Except String DenseMatrix := do
  let st ← ADNonlinearFormIntegratorH.AssembleElementGrad.loops ElementEnergy el Tr elfun
  pure st.mat

/-! ## Auxiliary definitions for the proofs -/

/-- The number `r(i)` of non-slave dofs below `i`: the reduced coordinate of a non-slave
dof `i`. -/
def reducedIndex (slave : List Nat) (i : Nat) : Nat :=
  ((List.range i).filter (fun d => decide (d ∉ slave))).length

/-- The non-slave dofs below `n` in ascending order; entry `q` is the dof with reduced
coordinate `q`. -/
def nonSlaveDofs (slave : List Nat) (n : Nat) : List Nat :=
  (List.range n).filter (fun d => decide (d ∉ slave))

/-- The slave block `Cs` of `B`: all rows, the columns of the slave dofs in stored order. -/
def CsMatrix (B : SparseMatrix) (slave : List Nat) : Matrix (Fin B.Height) (Fin B.Height) ℚ :=
  Matrix.of (fun a b => B.Elem a (slave.getD b 0))

/-- The master block `Cm` of `B`: all rows, the columns of the master dofs in stored
order. -/
def CmMatrix (B : SparseMatrix) (master : List Nat) :
    Matrix (Fin B.Height) (Fin master.length) ℚ :=
  Matrix.of (fun a j => B.Elem a (master.getD j 0))

/-- A valid configuration: `A` is `n × n`, `B` is `m × n`, the master and slave dofs are
strictly ascending (sorted and duplicate-free), disjoint and inside `[0, n)`, there are
`m` slave dofs, and the slave block `Cs` is nonsingular. -/
structure ValidConfig (A B : SparseMatrix) (master slave : List Nat) : Prop where
  A_square : A.width = A.Height
  B_width : B.width = A.Height
  master_sorted : master.Sorted (fun x y => x < y)
  slave_sorted : slave.Sorted (fun x y => x < y)
  disjoint : ∀ d ∈ master, d ∉ slave
  master_lt : ∀ d ∈ master, d < A.Height
  slave_lt : ∀ d ∈ slave, d < A.Height
  slave_size : slave.length = B.Height
  Cs_nonsingular : (CsMatrix B slave).det ≠ 0

/-- The matrix `Cm_` after construction. -/
def CmOf (B : SparseMatrix) (master : List Nat) : DenseMatrix :=
  B.GetSubMatrix (List.range B.Height) master (DenseMatrix.SetSize B.Height master.length)

/-- The matrix `Cs_` as extracted by the constructor (before it is factored in place). -/
def CsOf (B : SparseMatrix) (slave : List Nat) : DenseMatrix :=
  B.GetSubMatrix (List.range B.Height) slave (DenseMatrix.SetSize B.Height slave.length)

/-- The object the constructor of `EliminationProjection` builds when both of its
factorizations succeed. -/
def projectorOf (A B : SparseMatrix) (master slave : List Nat) : EliminationProjection :=
  { height := A.Height
    width := A.Height - slave.length
    A_ := A
    B_ := B
    master_contact_dofs_ := master
    slave_contact_dofs_ := slave
    Cm_ := CmOf B master
    Cs_ := CsOf B slave
    Csinverse_ := ⟨B.Height, fun i j => (CsOf B slave).data.getD (i + j * B.Height) 0⟩
    CsT_ := (CsOf B slave).Transpose
    CsTinverse_ := ⟨B.Height, fun i j =>
      (CsOf B slave).Transpose.data.getD (i + j * B.Height) 0⟩ }

/-- The scatter of `AddElementVector` as a pure function. -/
def scatterAdd (v : Vector) (dofs : List Nat) (e : Vector) : Vector :=
  (List.zip dofs e).foldl (fun acc p => List.set acc p.1 (acc.getD p.1 0 + p.2)) v

/-- The factorization of the slave block `Cs`, in terms of the entries of `B`. -/
def CsFactors (B : SparseMatrix) (slave : List Nat) : LUFactors :=
  ⟨B.Height, fun i j => B.Elem i (slave.getD j 0)⟩

/-- The factorization of the transposed slave block, in terms of the entries of `B`. -/
def CsTFactors (B : SparseMatrix) (slave : List Nat) : LUFactors :=
  ⟨B.Height, fun i j => B.Elem j (slave.getD i 0)⟩

/-- Entry `a` of `Cm x_master`, where `x_master` gathers the reduced vector `x` at the
reduced coordinates of the master dofs. -/
def CmTimes (B : SparseMatrix) (master slave : List Nat) (x : Vector) (a : Nat) : ℚ :=
  ∑ j in Finset.range master.length,
    B.Elem a (master.getD j 0) * x.getD (reducedIndex slave (master.getD j 0)) 0

/-- Entry `b` of `-Cs^{-1} Cm x_master`. -/
def slaveValue (B : SparseMatrix) (master slave : List Nat) (x : Vector) (b : Nat) : ℚ :=
  -(CsFactors B slave).solveEntry (CmTimes B master slave x) b

/-- The vector `P x` in closed form. -/
def MultResult (A B : SparseMatrix) (master slave : List Nat) (x : Vector) : Vector :=
  (List.range A.Height).map (fun i =>
    if i ∈ slave then slaveValue B master slave x (slave.indexOf i)
    else x.getD (reducedIndex slave i) 0)

/-- The vector `gtilde` written by `BuildGTilde` in closed form. -/
def GTildeResult (A B : SparseMatrix) (slave : List Nat) (g : Vector) : Vector :=
  (List.range A.Height).map (fun i =>
    if i ∈ slave then (CsFactors B slave).solveEntry (fun a => g.getD a 0) (slave.indexOf i)
    else 0)

/-- Entry `j` of `-(Cm^T (Cs^T)^{-1} x_slave)`, where `x_slave` gathers the full vector `x`
at the slave dofs. -/
def masterValue (B : SparseMatrix) (master slave : List Nat) (x : Vector) (j : Nat) : ℚ :=
  -∑ a in Finset.range B.Height, B.Elem a (master.getD j 0) *
    (CsTFactors B slave).solveEntry (fun b => x.getD (slave.getD b 0) 0) a

/-- The vector `P^T x` in closed form. -/
def MultTransposeResult (A B : SparseMatrix) (master slave : List Nat) (x : Vector) : Vector :=
  (List.range (A.Height - slave.length)).map (fun q =>
    x.getD ((nonSlaveDofs slave A.Height).getD q 0) 0 +
      if (nonSlaveDofs slave A.Height).getD q 0 ∈ master
      then masterValue B master slave x (master.indexOf ((nonSlaveDofs slave A.Height).getD q 0))
      else 0)

/-- The multiplier written by `RecoverPressure(f, u, .)` in closed form. -/
def PressureResult (A B : SparseMatrix) (slave : List Nat) (f u : Vector) : Vector :=
  (List.range B.Height).map (fun a =>
    (CsTFactors B slave).solveEntry
      (fun b => f.getD (slave.getD b 0) 0 - A.rowDot u (slave.getD b 0)) a)

/-- The solver object built from a projector that has been constructed. -/
def solverOf (A B : SparseMatrix) (master slave : List Nat) : EliminationCGSolver :=
  ⟨A, B, master, slave, projectorOf A B master slave⟩

/-- The displacement part `f` of `rhs`. -/
def dispRhs (A : SparseMatrix) (rhs : Vector) : Vector :=
  (List.range A.Height).map (fun i => rhs.getD i 0)

/-- The multiplier part `g` of `rhs`. -/
def lagRhs (A B : SparseMatrix) (rhs : Vector) : Vector :=
  (List.range B.Height).map (fun i => rhs.getD (A.Height + i) 0)

/-- The adjusted right-hand side `f - A gtilde`. -/
def adjRhs (A B : SparseMatrix) (slave : List Nat) (rhs : Vector) : Vector :=
  (List.range A.Height).map (fun i =>
    (dispRhs A rhs).getD i 0 + (-1) * A.rowDot (GTildeResult A B slave (lagRhs A B rhs)) i)

/-- The reduced right-hand side `P^T (f - A gtilde)`. -/
def reducedRhs (A B : SparseMatrix) (master slave : List Nat) (rhs : Vector) : Vector :=
  MultTransposeResult A B master slave (adjRhs A B slave rhs)

/-- The reduced vector returned by the Krylov solve. -/
def reducedSol (A B : SparseMatrix) (master slave : List Nat) (krylov : CGSolver)
    (rhs : Vector) : Vector :=
  krylov.Mult
    (RAPOperator.Mult (projectorOf A B master slave) A (projectorOf A B master slave))
    (reducedRhs A B master slave rhs) (List.replicate (A.Height - slave.length) 0)

/-- The displacement `u = P x + gtilde` written to `sol`. -/
def dispSol (A B : SparseMatrix) (master slave : List Nat) (krylov : CGSolver)
    (rhs : Vector) : Vector :=
  (List.range A.Height).map (fun i =>
    (MultResult A B master slave (reducedSol A B master slave krylov rhs)).getD i 0
      + (GTildeResult A B slave (lagRhs A B rhs)).getD i 0)

/-- The multiplier written to `sol`. -/
def pressureSol (A B : SparseMatrix) (master slave : List Nat) (krylov : CGSolver)
    (rhs : Vector) : Vector :=
  PressureResult A B slave (adjRhs A B slave rhs)
    (MultResult A B master slave (reducedSol A B master slave krylov rhs))

/-- Entry `(iz, jz)` of `Cs^{-1} Cm`. -/
def blockEntry (B : SparseMatrix) (master slave : List Nat) (iz jz : Nat) : ℚ :=
  (CsFactors B slave).solveEntry (fun a => B.Elem a (master.getD jz 0)) iz

/-- The stiffness matrix of the end-to-end scenario of the specification: a 4 × 4 identity
plus stiffness stencil. -/
def exA : SparseMatrix :=
  ⟨4, [[(0, 2), (1, -1)], [(0, -1), (1, 3), (2, -1)], [(1, -1), (2, 3), (3, -1)],
    [(2, -1), (3, 2)]]⟩

/-- The constraint matrix of the end-to-end scenario: the single row `[0, 0, 1, -1]`. -/
def exB : SparseMatrix := ⟨4, [[(2, 1), (3, -1)]]⟩

/-- A Krylov solver that stops at once and returns its initial iterate. -/
def exKrylov : CGSolver := ⟨fun _ _ x => x, fun _ _ _ => rfl⟩

/-- A Krylov solver that returns the exact solution of the reduced system of the
end-to-end scenario with `f = [1, 1, 0, 0]` and `g = [0]`. -/
def exExactKrylov : CGSolver :=
  ⟨fun _ _ x => (List.range x.length).map (fun i => [(11 : ℚ) / 13, 9 / 13, 3 / 13].getD i 0),
    fun _ _ x => by simp⟩

/-- The distinct second-block column indices of `B` (those not below `firstblocksize`)
that carry some stored entry of magnitude not below the tolerance, the double `1e-14`. -/
def secondBlockColumns (B : SparseMatrix) (firstblocksize : Int) : Finset Nat :=
  ((B.rows.flatten.filter
    (fun e => decide (¬ |e.2| < 6338253001141147 / 2 ^ 99 ∧
      ¬ (e.1 : Int) < firstblocksize))).map Prod.fst).toFinset

/-- The matrix with the rows of `A` and the given number of columns. -/
def withWidth (A : SparseMatrix) (w : Nat) : SparseMatrix := ⟨w, A.rows⟩

/-- The matrix `M` is `n × n` with a buffer of `n * n` entries and its entry `(a, b)` is
`f a b`. -/
structure HessMatrix (n : Nat) (M : DenseMatrix) (f : Nat → Nat → ℚ) : Prop where
  height : M.height = n
  width : M.width = n
  size : M.data.length = n * n
  entry : ∀ a b, a < n → b < n → M.entry a b = f a b

/-- The vector `aduu` of `ADQIntegratorH::QIntegratorDD` when the outer loop reaches row
`ii`: the real parts hold `uu`, and the dual part of entry `ii - 1` holds `(uu[ii-1], 0)`. -/
def ADQIntegratorH.rowVector (uu : Vector) (ii : Nat) : ADSVector :=
  (List.range uu.length).map (fun k => ⟨⟨uu.getD k 0, 0⟩,
    if k + 1 = ii then ⟨uu.getD k 0, 0⟩ else ⟨0, 0⟩⟩)

/-- The vector `aduu` of `ADQIntegratorH::QIntegratorDD` in row `ii` when the inner loop
reaches `jj`. -/
def ADQIntegratorH.passVector (uu : Vector) (ii jj : Nat) : ADSVector :=
  (List.range uu.length).map (fun k => ⟨⟨uu.getD k 0, 0⟩,
    if k < jj then ⟨0, 0⟩ else if k = ii then ⟨uu.getD k 0, 1⟩
    else if k + 1 = ii then ⟨uu.getD k 0, 0⟩ else ⟨0, 0⟩⟩)

/-- The vector `aduu` at which `ADQIntegratorH::QIntegratorDD` evaluates the integrand in
the pass `(ii, jj)`. -/
def ADQIntegratorH.evalPoint (uu : Vector) (ii jj : Nat) : ADSVector :=
  (List.range uu.length).map (fun k => ⟨⟨uu.getD k 0, 0⟩,
    if k = jj then ⟨1, 0⟩ else if k < jj then ⟨0, 0⟩ else if k = ii then ⟨uu.getD k 0, 1⟩
    else if k + 1 = ii then ⟨uu.getD k 0, 0⟩ else ⟨0, 0⟩⟩)

/-- The value `rez.dual().dual()` of the pass `(ii, jj)` of `ADQIntegratorH::QIntegratorDD`. -/
def ADQIntegratorH.value (QIntegrator : Vector → ADSVector → ADSType) (vparam uu : Vector)
    (ii jj : Nat) : ℚ :=
  (QIntegrator vparam (ADQIntegratorH.evalPoint uu ii jj)).dual.dual

/-- The vector `adelfun` of `ADNonlinearFormIntegratorH::AssembleElementGrad` before and
after every row: the real parts hold `elfun`, all dual parts are zero. -/
def ADNonlinearFormIntegratorH.initVector (ndof : Nat) (elfun : Vector) : ADSVector :=
  (List.range ndof).map (fun k => ⟨⟨elfun.getD k 0, 0⟩, ⟨0, 0⟩⟩)

/-- The vector `adelfun` of `ADNonlinearFormIntegratorH::AssembleElementGrad` in row `ii`,
before and after every pass of the inner loop. -/
def ADNonlinearFormIntegratorH.passVector (ndof : Nat) (elfun : Vector) (ii : Nat) :
    ADSVector :=
  (List.range ndof).map (fun k => ⟨⟨elfun.getD k 0, if k = ii then 1 else 0⟩, ⟨0, 0⟩⟩)

/-- The vector `adelfun` at which `ADNonlinearFormIntegratorH::AssembleElementGrad`
evaluates the energy in the pass `(ii, jj)`. -/
def ADNonlinearFormIntegratorH.evalPoint (ndof : Nat) (elfun : Vector) (ii jj : Nat) :
    ADSVector :=
  (List.range ndof).map (fun k => ⟨⟨elfun.getD k 0, if k = ii then 1 else 0⟩,
    if k = jj then ⟨1, 0⟩ else ⟨0, 0⟩⟩)

/-- The value `rez.dual().dual()` of the pass `(ii, jj)` of
`ADNonlinearFormIntegratorH::AssembleElementGrad`. -/
def ADNonlinearFormIntegratorH.value {ET : Type}
    (ElementEnergy : FiniteElement → ET → ADSVector → ADSType)
    (el : FiniteElement) (Tr : ET) (elfun : Vector) (ii jj : Nat) : ℚ :=
  (ElementEnergy el Tr
    (ADNonlinearFormIntegratorH.evalPoint el.GetDof elfun ii jj)).dual.dual

/-- An integrand for the evaluations: the product `x[0] * x[1]` of the first two entries,
whose matrix of second derivatives is `[[0, 1], [1, 0]]`. -/
def exEnergy (x : ADSVector) : ADSType :=
  x.getD 0 ⟨⟨0, 0⟩, ⟨0, 0⟩⟩ * x.getD 1 ⟨⟨0, 0⟩, ⟨0, 0⟩⟩

/-- A constraint matrix with two equal rows `[0, 0, 1, 1]`: for `firstblocksize = 2` it has
two distinct second-block columns and two rows, and its slave block is singular. -/
def exEqualRowsB : SparseMatrix := ⟨4, [[(2, 1), (3, 1)], [(2, 1), (3, 1)]]⟩

/-! ## Lemmas -/

/-! ### Checks, vector reads and sorted search -/

theorem MFEM_ASSERT_ok {c : Prop} [Decidable c] (msg : String) (h : c) :
    MFEM_ASSERT c msg = .ok () := by
  simp [MFEM_ASSERT, h]

theorem Vector_elem_ok (v : Vector) (i : Nat) (h : i < v.length) :
    Vector.elem v i = .ok (v.getD i 0) := by
  unfold Vector.elem
  rw [List.getD_eq_getElem?_getD, List.getElem?_eq_getElem h]
  rfl

theorem Vector_addTo_ok (v : Vector) (i : Nat) (a : ℚ) (h : i < v.length) :
    Vector.addTo v i a = .ok (List.set v i (v.getD i 0 + a)) := by
  unfold Vector.addTo
  rw [List.getD_eq_getElem?_getD, List.getElem?_eq_getElem h]
  rfl

theorem lower_bound_cons (x : Nat) (xs : List Nat) (el : Nat) :
    lower_bound (x :: xs) el = if x < el then lower_bound xs el + 1 else 0 := by
  unfold lower_bound
  rw [List.findIdx_cons]
  by_cases h : x < el <;> simp [h]

theorem FindSorted_eq (a : List Nat) (el : Nat) :
    FindSorted a el = if a[lower_bound a el]? = some el then (lower_bound a el : Int) else -1 := by
  simp only [FindSorted]
  split
  · rename_i x hx
    by_cases h : x = el
    · simp [hx, h]
    · simp [hx, h]
  · rename_i hx
    simp [hx]

theorem lower_bound_get_iff (a : List Nat) (el : Nat) (hs : a.Sorted (fun x y => x < y)) :
    a[lower_bound a el]? = some el ↔ el ∈ a := by
  induction a with
  | nil => simp [lower_bound]
  | cons x xs ih =>
    have hs' := List.sorted_cons.mp hs
    have ih' := ih hs'.2
    rw [lower_bound_cons]
    by_cases h : x < el
    · have hne : el ≠ x := by omega
      simp only [h, if_true, List.getElem?_cons_succ, List.mem_cons, hne, false_or]
      exact ih'
    · simp only [h, if_false, List.getElem?_cons_zero, List.mem_cons, Option.some.injEq]
      constructor
      · intro hh; exact Or.inl hh.symm
      · rintro (hh | hh)
        · exact hh.symm
        · have := hs'.1 el hh; omega

theorem FindSorted_nonneg_iff (a : List Nat) (el : Nat) (hs : a.Sorted (fun x y => x < y)) :
    FindSorted a el ≥ 0 ↔ el ∈ a := by
  rw [FindSorted_eq, ← lower_bound_get_iff a el hs]
  by_cases h : a[lower_bound a el]? = some el
  · simp [h]
  · simp [h]

/-! ### The reduced numbering of the non-slave dofs -/

theorem reducedIndex_zero (slave : List Nat) : reducedIndex slave 0 = 0 := by
  simp [reducedIndex]

theorem reducedIndex_succ (slave : List Nat) (i : Nat) :
    reducedIndex slave (i + 1) = if i ∈ slave then reducedIndex slave i
      else reducedIndex slave i + 1 := by
  unfold reducedIndex
  rw [List.range_succ, List.filter_append]
  by_cases h : i ∈ slave <;> simp [h]

theorem reducedIndex_mono (slave : List Nat) {i j : Nat} (h : i ≤ j) :
    reducedIndex slave i ≤ reducedIndex slave j := by
  induction j with
  | zero => have : i = 0 := by omega
            subst this; exact le_refl _
  | succ j ih =>
    rcases Nat.lt_or_ge i (j + 1) with h1 | h1
    · have := ih (by omega)
      rw [reducedIndex_succ]; split <;> omega
    · have : i = j + 1 := by omega
      subst this; exact le_refl _

theorem reducedIndex_lt (slave : List Nat) {i j : Nat} (h : i < j) (hi : i ∉ slave) :
    reducedIndex slave i < reducedIndex slave j := by
  have h1 := reducedIndex_mono slave (show i + 1 ≤ j by omega)
  rw [reducedIndex_succ, if_neg hi] at h1
  omega

theorem filter_range_mem (S : List Nat) (n : Nat) (hs : S.Sorted (fun x y => x < y))
    (hlt : ∀ d ∈ S, d < n) : (List.range n).filter (fun d => decide (d ∈ S)) = S := by
  apply List.eq_of_perm_of_sorted (r := fun x y : Nat => x < y) _
    (List.Sorted.filter _ (List.sorted_lt_range n)) hs
  rw [List.perm_ext_iff_of_nodup (List.Nodup.filter _ (List.nodup_range n)) hs.nodup]
  intro a
  simp only [List.mem_filter, List.mem_range, decide_eq_true_eq]
  constructor
  · exact fun h => h.2
  · exact fun h => ⟨hlt a h, h⟩

theorem reducedIndex_add_length (S : List Nat) (n : Nat) (hs : S.Sorted (fun x y => x < y))
    (hlt : ∀ d ∈ S, d < n) : reducedIndex S n + S.length = n := by
  have h1 := List.length_eq_countP_add_countP (fun d => decide (d ∈ S)) (List.range n)
  rw [List.countP_eq_length_filter, List.countP_eq_length_filter, filter_range_mem S n hs hlt,
    List.length_range] at h1
  unfold reducedIndex
  have h2 : (List.filter (fun a => decide ¬(decide (a ∈ S)) = true) (List.range n))
      = (List.filter (fun d => decide (d ∉ S)) (List.range n)) := by
    congr 1; funext a; simp
  rw [h2] at h1
  omega

theorem nonSlaveDofs_length (S : List Nat) (n : Nat) :
    (nonSlaveDofs S n).length = reducedIndex S n := rfl

theorem nonSlaveDofs_getD (S : List Nat) (n k : Nat) (hk : k < n) (hS : k ∉ S) :
    (nonSlaveDofs S n).getD (reducedIndex S k) 0 = k := by
  have hsplit : List.range n = List.range k ++ (k :: List.range' (k + 1) (n - (k + 1))) := by
    rw [List.range_eq_range', List.range_eq_range']
    have : k :: List.range' (k + 1) (n - (k + 1)) = List.range' k (n - k) := by
      have : n - k = (n - (k + 1)) + 1 := by omega
      rw [this, List.range'_succ]
    rw [this]
    have h3 := List.range'_append 0 k (n - k) 1
    simp only [one_mul, zero_add] at h3
    rw [h3]; congr 1; omega
  unfold nonSlaveDofs
  rw [hsplit, List.filter_append, List.filter_cons]
  simp only [hS, not_false_eq_true, decide_True, if_true]
  rw [List.getD_eq_getElem?_getD, List.getElem?_append_right (by unfold reducedIndex; exact le_refl _)]
  simp [reducedIndex]

theorem nonSlaveDofs_mem (S : List Nat) (n d : Nat) :
    d ∈ nonSlaveDofs S n ↔ d < n ∧ d ∉ S := by
  simp [nonSlaveDofs]

/-! ### The scan of `Mult` -/

theorem MultStep_slave (P : EliminationProjection) (inp : Vector) (st : ScanState) (i : Nat)
    (hs : P.slave_contact_dofs_.Sorted (fun x y => x < y))
    (hi : i ∈ P.slave_contact_dofs_) : P.MultStep inp st i = .ok st := by
  unfold EliminationProjection.MultStep
  rw [if_pos ((FindSorted_nonneg_iff _ _ hs).2 hi)]
  rfl

theorem MultStep_nonslave (P : EliminationProjection) (inp : Vector) (st : ScanState) (i : Nat)
    (hs : P.slave_contact_dofs_.Sorted (fun x y => x < y))
    (hm : P.master_contact_dofs_.Sorted (fun x y => x < y))
    (hi : i ∉ P.slave_contact_dofs_) (h1 : st.column_dof < inp.length)
    (h2 : i < st.out.length) :
    P.MultStep inp st i = .ok ⟨List.set st.out i (st.out.getD i 0 + inp.getD st.column_dof 0),
      st.column_dof + 1,
      if i ∈ P.master_contact_dofs_ then st.mapped_master_contact_dofs ++ [st.column_dof]
      else st.mapped_master_contact_dofs⟩ := by
  unfold EliminationProjection.MultStep
  rw [if_neg (fun h => hi ((FindSorted_nonneg_iff _ _ hs).1 h))]
  simp only [Vector_elem_ok inp _ h1, Vector_addTo_ok st.out i _ h2, bind, Except.bind, pure,
    Except.pure, FindSorted_nonneg_iff _ _ hm]

theorem MultScan_ok (P : EliminationProjection) (inp : Vector)
    (hs : P.slave_contact_dofs_.Sorted (fun x y => x < y))
    (hm : P.master_contact_dofs_.Sorted (fun x y => x < y))
    (hlen : reducedIndex P.slave_contact_dofs_ P.A_.Height ≤ inp.length)
    (k : Nat) (hk : k ≤ P.A_.Height) :
    (List.range k).foldlM (P.MultStep inp) ⟨List.replicate P.A_.Height 0, 0, []⟩ =
      .ok ⟨(List.range P.A_.Height).map (fun i =>
            if i < k ∧ i ∉ P.slave_contact_dofs_
            then inp.getD (reducedIndex P.slave_contact_dofs_ i) 0 else 0),
          reducedIndex P.slave_contact_dofs_ k,
          ((List.range k).filter (fun i =>
            decide (i ∉ P.slave_contact_dofs_ ∧ i ∈ P.master_contact_dofs_))).map
            (reducedIndex P.slave_contact_dofs_)⟩ := by
  induction k with
  | zero =>
    simp only [List.range_zero, List.foldlM_nil, pure, Except.pure, reducedIndex_zero,
      List.filter_nil, List.map_nil]
    congr 2
    apply List.ext_getElem <;> simp
  | succ k ih =>
    rw [List.range_succ, List.foldlM_append, ih (by omega)]
    simp only [bind, Except.bind, List.foldlM_cons, List.foldlM_nil]
    by_cases hi : k ∈ P.slave_contact_dofs_
    · rw [MultStep_slave P inp _ k hs hi]
      simp only [pure, Except.pure, reducedIndex_succ, if_pos hi, List.filter_append]
      congr 2
      · apply List.map_congr_left
        intro i _
        by_cases hik : i = k
        · subst hik; simp [hi]
        · have : (i < k + 1) ↔ (i < k) := by omega
          simp [this]
      · simp [hi]
    · have hlt : reducedIndex P.slave_contact_dofs_ k < inp.length :=
        lt_of_lt_of_le (reducedIndex_lt _ (show k < P.A_.Height by omega) hi) hlen
      rw [MultStep_nonslave P inp _ k hs hm hi hlt (by simp; omega)]
      simp only [pure, Except.pure, reducedIndex_succ, if_neg hi, List.filter_append]
      congr 2
      · apply List.ext_getElem
        · simp
        · intro i h1 h2
          simp only [List.length_map, List.length_range] at h2
          simp only [List.getElem_set, List.getElem_map, List.getElem_range]
          by_cases hik : k = i
          · subst hik
            simp [hi, List.getD_eq_getElem?_getD, List.getElem?_map, List.getElem?_range h2]
          · have : (i < k + 1) ↔ (i < k) := by omega
            simp [hik, this]
      · by_cases hmk : k ∈ P.master_contact_dofs_
        · simp [hi, hmk]
        · simp [hi, hmk]

/-! ### Column-major buffers and the constructor -/

theorem length_flatMap_uniform (l : List Nat) (g : Nat → List ℚ) (h : Nat)
    (hg : ∀ x ∈ l, (g x).length = h) : (l.flatMap g).length = l.length * h := by
  induction l with
  | nil => simp
  | cons x xs ih =>
    rw [List.flatMap_cons, List.length_append, ih (fun y hy => hg y (List.mem_cons_of_mem _ hy)),
      hg x (List.mem_cons_self _ _), List.length_cons]
    ring

theorem getD_flatMap_uniform (l : List Nat) (g : Nat → List ℚ) (h : Nat)
    (hg : ∀ x ∈ l, (g x).length = h) (i j : Nat) (hi : i < h) (hj : j < l.length) :
    (l.flatMap g).getD (i + j * h) 0 = (g (l.getD j 0)).getD i 0 := by
  induction l generalizing j with
  | nil => simp at hj
  | cons x xs ih =>
    have hx := hg x (List.mem_cons_self _ _)
    rw [List.flatMap_cons]
    cases j with
    | zero =>
      simp only [zero_mul, add_zero, List.getD_cons_zero]
      rw [List.getD_eq_getElem?_getD, List.getElem?_append_left (by omega),
        ← List.getD_eq_getElem?_getD]
    | succ j =>
      have e : i + (j + 1) * h = (i + j * h) + (g x).length := by rw [hx]; ring
      rw [List.getD_eq_getElem?_getD, e, List.getElem?_append_right (by omega),
        Nat.add_sub_cancel, ← List.getD_eq_getElem?_getD,
        ih (fun y hy => hg y (List.mem_cons_of_mem _ hy)) j (by simpa using hj)]
      simp

theorem getD_range_map (n : Nat) (f : Nat → ℚ) (i : Nat) :
    ((List.range n).map f).getD i 0 = if i < n then f i else 0 := by
  rw [List.getD_eq_getElem?_getD, List.getElem?_map]
  by_cases h : i < n
  · simp [List.getElem?_range h, h]
  · rw [List.getElem?_eq_none (by simpa using h)]
    simp [h]

theorem ofFn_entry (h w : Nat) (f : Nat → Nat → ℚ) (i j : Nat) (hi : i < h) (hj : j < w) :
    (DenseMatrix.ofFn h w f).entry i j = f i j := by
  unfold DenseMatrix.entry DenseMatrix.ofFn
  simp only
  rw [getD_flatMap_uniform (List.range w) _ h (by simp) i j hi (by simpa using hj)]
  rw [getD_range_map, if_pos hi]
  simp [List.getD_eq_getElem?_getD, List.getElem?_range hj]

theorem CsOf_data_getD (B : SparseMatrix) (cols : List Nat) (i j : Nat) (hi : i < B.Height)
    (hj : j < cols.length) :
    (CsOf B cols).data.getD (i + j * B.Height) 0 = B.Elem i (cols.getD j 0) := by
  unfold CsOf SparseMatrix.GetSubMatrix
  simp only
  rw [getD_flatMap_uniform cols _ B.Height (by simp) i j hi hj, getD_range_map, if_pos hi]

theorem CsOf_entry (B : SparseMatrix) (cols : List Nat) (i j : Nat) (hi : i < B.Height)
    (hj : j < cols.length) :
    (CsOf B cols).entry i j = B.Elem i (cols.getD j 0) :=
  CsOf_data_getD B cols i j hi hj

theorem CsOf_data_length (B : SparseMatrix) (cols : List Nat) :
    (CsOf B cols).data.length = cols.length * B.Height := by
  unfold CsOf SparseMatrix.GetSubMatrix
  simp only
  rw [length_flatMap_uniform cols _ B.Height (by simp)]

theorem CsT_data_getD (B : SparseMatrix) (cols : List Nat) (hc : cols.length = B.Height)
    (i j : Nat) (hi : i < B.Height) (hj : j < B.Height) :
    (CsOf B cols).Transpose.data.getD (i + j * B.Height) 0 = B.Elem j (cols.getD i 0) := by
  have e2 : (CsOf B cols).width = B.Height := hc
  have h := ofFn_entry B.Height B.Height (fun i j => (CsOf B cols).entry j i) i j hi hj
  have e : (CsOf B cols).Transpose.data.getD (i + j * B.Height) 0
      = (DenseMatrix.ofFn B.Height B.Height (fun i j => (CsOf B cols).entry j i)).entry i j := by
    unfold DenseMatrix.Transpose
    rw [e2]
    rfl
  rw [e, h]
  exact CsOf_entry B cols j i hj (by omega)

theorem CsT_data_length (B : SparseMatrix) (cols : List Nat) :
    (CsOf B cols).Transpose.data.length = B.Height * cols.length := by
  simp only [DenseMatrix.Transpose, DenseMatrix.ofFn]
  rw [length_flatMap_uniform _ _ (CsOf B cols).width (by simp)]
  simp [CsOf, SparseMatrix.GetSubMatrix, DenseMatrix.SetSize]

theorem Csinverse_toMatrix (A B : SparseMatrix) (master slave : List Nat)
    (hc : slave.length = B.Height) :
    (projectorOf A B master slave).Csinverse_.toMatrix = CsMatrix B slave := by
  funext a b
  simp only [LUFactors.toMatrix, projectorOf, CsMatrix, Matrix.of_apply]
  exact CsOf_data_getD B slave a b a.2 (by rw [hc]; exact b.2)

theorem CsTinverse_toMatrix (A B : SparseMatrix) (master slave : List Nat)
    (hc : slave.length = B.Height) :
    (projectorOf A B master slave).CsTinverse_.toMatrix = (CsMatrix B slave).transpose := by
  funext a b
  simp only [LUFactors.toMatrix, projectorOf, CsMatrix, Matrix.of_apply, Matrix.transpose_apply]
  exact CsT_data_getD B slave hc a b a.2 b.2

theorem Factor_ok (data : List ℚ) (m : Nat) (hlen : m * m ≤ data.length)
    (hdet : (LUFactors.toMatrix ⟨m, fun i j => data.getD (i + j * m) 0⟩).det ≠ 0) :
    LUFactors.Factor data m = .ok ⟨m, fun i j => data.getD (i + j * m) 0⟩ := by
  unfold LUFactors.Factor
  rw [if_neg (by omega)]
  simp only
  rw [if_neg hdet]

theorem new_ok (A B : SparseMatrix) (master slave : List Nat)
    (hv : ValidConfig A B master slave) :
    EliminationProjection.new A B master slave = .ok (projectorOf A B master slave) := by
  have hdet := hv.Cs_nonsingular
  have hdetT : (CsMatrix B slave).transpose.det ≠ 0 := by rwa [Matrix.det_transpose]
  rw [← Csinverse_toMatrix A B master slave hv.slave_size] at hdet
  rw [← CsTinverse_toMatrix A B master slave hv.slave_size] at hdetT
  have l1 := CsOf_data_length B slave
  have l2 := CsT_data_length B slave
  rw [hv.slave_size] at l1 l2
  have f1 := Factor_ok (CsOf B slave).data B.Height (by omega) hdet
  have f2 := Factor_ok (CsOf B slave).Transpose.data B.Height (by omega) hdetT
  unfold EliminationProjection.new
  have e1 : (B.GetSubMatrix (List.range B.Height) slave
      (DenseMatrix.SetSize B.Height slave.length)) = CsOf B slave := rfl
  have e3 : (CsOf B slave).height = B.Height := rfl
  simp only [e1, e3, f1, f2, bind, Except.bind]
  rfl

/-! ### Scatter, gather and the library products -/

theorem ext_getD (l1 l2 : List ℚ) (hl : l1.length = l2.length)
    (h : ∀ i, i < l1.length → l1.getD i 0 = l2.getD i 0) : l1 = l2 := by
  apply List.ext_getElem hl
  intro i h1 h2
  have := h i h1
  rw [List.getD_eq_getElem?_getD, List.getD_eq_getElem?_getD, List.getElem?_eq_getElem h1,
    List.getElem?_eq_getElem h2] at this
  simpa using this

theorem getD_set (v : List ℚ) (i j : Nat) (a : ℚ) (hi : i < v.length) :
    (List.set v i a).getD j 0 = if j = i then a else v.getD j 0 := by
  rw [List.getD_eq_getElem?_getD, List.getElem?_set, List.getD_eq_getElem?_getD]
  by_cases h : i = j
  · subst h; simp [hi]
  · have h' : ¬ j = i := fun e => h e.symm
    simp [h, h']

theorem scatterAdd_length (v : Vector) (dofs : List Nat) (e : Vector) :
    (scatterAdd v dofs e).length = v.length := by
  unfold scatterAdd
  generalize List.zip dofs e = l
  induction l generalizing v with
  | nil => rfl
  | cons p ps ih => rw [List.foldl_cons, ih]; simp

theorem AddElementVector_ok (v : Vector) (dofs : List Nat) (e : Vector)
    (hl : dofs.length = e.length) (hlt : ∀ d ∈ dofs, d < v.length) :
    Vector.AddElementVector v dofs e = .ok (scatterAdd v dofs e) := by
  unfold Vector.AddElementVector scatterAdd
  rw [MFEM_ASSERT_ok _ hl]
  simp only [bind, Except.bind]
  have hz : ∀ p ∈ List.zip dofs e, p.1 < v.length := by
    intro p hp
    exact hlt p.1 (List.of_mem_zip hp).1
  generalize List.zip dofs e = l at hz
  clear hlt hl
  induction l generalizing v with
  | nil => rfl
  | cons p ps ih =>
    rw [List.foldlM_cons, List.foldl_cons, Vector_addTo_ok v p.1 p.2 (hz p (List.mem_cons_self _ _))]
    simp only [bind, Except.bind]
    apply ih
    intro q hq
    rw [List.length_set]
    exact hz q (List.mem_cons_of_mem _ hq)

theorem scatterAdd_getD (v : Vector) (dofs : List Nat) (e : Vector)
    (hl : dofs.length = e.length) (hlt : ∀ d ∈ dofs, d < v.length) (hn : dofs.Nodup) (i : Nat) :
    (scatterAdd v dofs e).getD i 0 =
      if i ∈ dofs then v.getD i 0 + e.getD (dofs.indexOf i) 0 else v.getD i 0 := by
  induction dofs generalizing v e with
  | nil => simp [scatterAdd]
  | cons d ds ih =>
    cases e with
    | nil => simp at hl
    | cons a as =>
      have hd : d < v.length := hlt d (List.mem_cons_self _ _)
      have hn' := List.nodup_cons.mp hn
      have step : scatterAdd v (d :: ds) (a :: as)
          = scatterAdd (List.set v d (v.getD d 0 + a)) ds as := rfl
      rw [step, ih _ as (by simpa using hl)
        (fun x hx => by rw [List.length_set]; exact hlt x (List.mem_cons_of_mem _ hx)) hn'.2]
      rw [getD_set v d i _ hd]
      by_cases hid : i = d
      · subst hid
        simp [hn'.1]
      · have hdi : ¬ d = i := fun e => hid e.symm
        simp only [hid, if_false, List.mem_cons, false_or]
        by_cases him : i ∈ ds
        · simp only [him, if_true]
          rw [List.indexOf_cons_ne _ hdi]
          simp
        · simp [him]

theorem GetSubVector_ok (v : Vector) (dofs : List Nat) (hlt : ∀ d ∈ dofs, d < v.length) :
    Vector.GetSubVector v dofs = .ok (dofs.map (fun d => v.getD d 0)) := by
  unfold Vector.GetSubVector
  induction dofs with
  | nil => rfl
  | cons d ds ih =>
    rw [List.mapM_cons, Vector_elem_ok v d (hlt d (List.mem_cons_self _ _)),
      ih (fun x hx => hlt x (List.mem_cons_of_mem _ hx))]
    rfl

theorem DenseMatrix_Mult_ok (M : DenseMatrix) (x y : Vector) (h1 : M.height = y.length)
    (h2 : M.width = x.length) :
    M.Mult x y = .ok ((List.range M.height).map
      (fun i => ∑ j in Finset.range M.width, M.entry i j * x.getD j 0)) := by
  unfold DenseMatrix.Mult
  rw [MFEM_ASSERT_ok _ ⟨h1, h2⟩]
  rfl

theorem DenseMatrix_MultTranspose_ok (M : DenseMatrix) (x y : Vector) (h1 : M.height = x.length)
    (h2 : M.width = y.length) :
    M.MultTranspose x y = .ok ((List.range M.width).map
      (fun j => ∑ i in Finset.range M.height, M.entry i j * x.getD i 0)) := by
  unfold DenseMatrix.MultTranspose
  rw [MFEM_ASSERT_ok _ ⟨h1, h2⟩]
  rfl

theorem Solve_one (lu : LUFactors) (X : List ℚ) (hX : X.length = lu.m) :
    lu.Solve lu.m 1 X = .ok ((List.range lu.m).map
      (fun i => lu.solveEntry (fun a => X.getD a 0) i)) := by
  unfold LUFactors.Solve
  rw [if_neg (by simp), if_neg (by omega)]
  have e : List.range 1 = [0] := rfl
  simp [List.drop_eq_nil_of_le, hX, e]

theorem solveEntry_congr (m : Nat) (f g : Nat → Nat → ℚ)
    (h : ∀ i j, i < m → j < m → f i j = g i j) (b c : Nat → ℚ) (hb : ∀ a, a < m → b a = c a)
    (i : Nat) :
    LUFactors.solveEntry ⟨m, f⟩ b i = LUFactors.solveEntry ⟨m, g⟩ c i := by
  unfold LUFactors.solveEntry
  by_cases hi : i < m
  · simp only [hi, dif_pos]
    have e1 : LUFactors.toMatrix ⟨m, f⟩ = LUFactors.toMatrix ⟨m, g⟩ := by
      funext a b
      exact h a b a.2 b.2
    have e2 : (fun a : Fin m => b a) = (fun a : Fin m => c a) := by
      funext a
      exact hb a a.2
    unfold LUFactors.solveCol
    simp only
    rw [e1, e2]
  · simp only [show ¬ i < (LUFactors.mk m f).m from hi, show ¬ i < (LUFactors.mk m g).m from hi,
      dif_neg, not_false_eq_true]

/-! ### `Mult` in closed form -/

theorem mapped_eq (master slave : List Nat) (n : Nat)
    (hm : master.Sorted (fun x y => x < y)) (hlt : ∀ d ∈ master, d < n)
    (hd : ∀ d ∈ master, d ∉ slave) :
    ((List.range n).filter (fun i => decide (i ∉ slave ∧ i ∈ master))).map (reducedIndex slave)
      = master.map (reducedIndex slave) := by
  congr 1
  rw [← filter_range_mem master n hm hlt]
  conv_rhs => rw [filter_range_mem master n hm hlt]
  rw [← filter_range_mem master n hm hlt]
  apply List.filter_congr
  intro i _
  by_cases h : i ∈ master
  · simp [h, hd i h, filter_range_mem master n hm hlt]
  · simp [h, filter_range_mem master n hm hlt]

theorem ValidConfig.size_le {A B : SparseMatrix} {master slave : List Nat}
    (hv : ValidConfig A B master slave) :
    reducedIndex slave A.Height + slave.length = A.Height :=
  reducedIndex_add_length slave A.Height hv.slave_sorted hv.slave_lt

theorem CmOf_entry (B : SparseMatrix) (cols : List Nat) (i j : Nat) (hi : i < B.Height)
    (hj : j < cols.length) :
    (CmOf B cols).entry i j = B.Elem i (cols.getD j 0) :=
  CsOf_data_getD B cols i j hi hj

theorem CmVec_getD (B : SparseMatrix) (master slave : List Nat) (x : Vector) (a : Nat)
    (ha : a < B.Height) :
    ((List.range (CmOf B master).height).map
      (fun i => ∑ j in Finset.range (CmOf B master).width,
        (CmOf B master).entry i j * (master.map (reducedIndex slave)
          |>.map (fun d => x.getD d 0)).getD j 0)).getD a 0 = CmTimes B master slave x a := by
  have e1 : (CmOf B master).height = B.Height := rfl
  have e2 : (CmOf B master).width = master.length := rfl
  rw [getD_range_map, e1, if_pos ha, e2]
  unfold CmTimes
  apply Finset.sum_congr rfl
  intro j hj
  have hj' : j < master.length := Finset.mem_range.mp hj
  rw [CmOf_entry B master a j ha hj', List.map_map]
  congr 1
  rw [List.getD_eq_getElem?_getD, List.getElem?_map, List.getD_eq_getElem?_getD,
    List.getElem?_eq_getElem hj']
  simp [List.getD_eq_getElem?_getD, List.getElem?_eq_getElem hj']

theorem scale_range_map (n : Nat) (f : Nat → ℚ) (c : ℚ) :
    Vector.scale ((List.range n).map f) c = (List.range n).map (fun i => f i * c) := by
  simp [Vector.scale, List.map_map, Function.comp]

theorem Mult_ok (A B : SparseMatrix) (master slave : List Nat)
    (hv : ValidConfig A B master slave) (x out : Vector)
    (hx : x.length = A.Height - slave.length) (hout : out.length = A.Height) :
    (projectorOf A B master slave).Mult x out = .ok (MultResult A B master slave x) := by
  have hsz := hv.size_le
  have hxr : x.length = reducedIndex slave A.Height := by omega
  have a1 : ((x.length : Int) = ((projectorOf A B master slave).A_.Height : Int)
      - ((projectorOf A B master slave).slave_contact_dofs_.length : Int)) := by
    simp only [projectorOf]; omega
  have a2 : out.length = (projectorOf A B master slave).A_.Height := hout
  simp only [EliminationProjection.Mult]
  rw [MFEM_ASSERT_ok _ a1, MFEM_ASSERT_ok _ a2]
  simp only [bind, Except.bind, Vector.setZero, hout]
  have hscan := MultScan_ok (projectorOf A B master slave) x hv.slave_sorted hv.master_sorted
    (by simp only [projectorOf]; omega) A.Height (le_refl _)
  simp only [projectorOf] at hscan ⊢
  rw [hscan]
  simp only [mapped_eq master slave A.Height hv.master_sorted hv.master_lt hv.disjoint]
  rw [MFEM_ASSERT_ok _ (by simp)]
  simp only
  have hsub : ∀ d ∈ master.map (reducedIndex slave), d < x.length := by
    intro d hd
    obtain ⟨c, hc, rfl⟩ := List.mem_map.mp hd
    rw [hxr]
    exact reducedIndex_lt slave (hv.master_lt c hc) (hv.disjoint c hc)
  rw [GetSubVector_ok x _ hsub]
  simp only
  rw [DenseMatrix_Mult_ok (CmOf B master) _ _ (by simp [CmOf, SparseMatrix.GetSubMatrix,
    DenseMatrix.SetSize, Vector.new, hv.slave_size]) (by simp [CmOf, SparseMatrix.GetSubMatrix,
    DenseMatrix.SetSize])]
  simp only
  have hs1 := Solve_one ⟨B.Height, fun i j => (CsOf B slave).data.getD (i + j * B.Height) 0⟩
    ((List.range (CmOf B master).height).map
      (fun i => ∑ j in Finset.range (CmOf B master).width,
        (CmOf B master).entry i j * (master.map (reducedIndex slave)
          |>.map (fun d => x.getD d 0)).getD j 0))
    (by simp [CmOf, SparseMatrix.GetSubMatrix, DenseMatrix.SetSize])
  have e3 : (CsOf B slave).height = B.Height := rfl
  simp only at hs1
  rw [e3, hs1]
  simp only
  rw [AddElementVector_ok _ _ _ (by simp [Vector.scale, hv.slave_size])
    (by simpa using hv.slave_lt)]
  congr 1
  apply ext_getD
  · simp [scatterAdd_length, MultResult]
  · intro i hi
    rw [scatterAdd_length] at hi
    simp only [List.length_map, List.length_range] at hi
    rw [scatterAdd_getD _ _ _ (by simp [Vector.scale, hv.slave_size])
      (by simpa using hv.slave_lt) hv.slave_sorted.nodup]
    unfold MultResult
    rw [getD_range_map, getD_range_map, if_pos hi, if_pos hi]
    by_cases his : i ∈ slave
    · have hidx : slave.indexOf i < B.Height := by
        rw [← hv.slave_size]; exact List.indexOf_lt_length.mpr his
      rw [if_pos his, if_pos his, if_neg (by simp [his]), zero_add]
      rw [scale_range_map, getD_range_map, if_pos hidx]
      simp only [slaveValue, mul_neg, mul_one, neg_inj]
      apply solveEntry_congr
      · intro a b ha hb
        exact CsOf_data_getD B slave a b ha (by rw [hv.slave_size]; exact hb)
      · intro a ha
        exact CmVec_getD B master slave x a ha
    · rw [if_neg his, if_neg his, if_pos ⟨hi, his⟩]

/-! ### The LU solve and sums over index lists -/

theorem solveCol_spec (lu : LUFactors) (hdet : lu.toMatrix.det ≠ 0) (b : Nat → ℚ) :
    lu.toMatrix.mulVec (lu.solveCol b) = fun (a : Fin lu.m) => b a := by
  unfold LUFactors.solveCol
  rw [Matrix.mulVec_smul, Matrix.mulVec_mulVec, Matrix.mul_adjugate, Matrix.smul_mulVec_assoc,
    Matrix.one_mulVec, smul_smul, inv_mul_cancel₀ hdet, one_smul]

theorem solveEntry_spec (lu : LUFactors) (hdet : lu.toMatrix.det ≠ 0) (b : Nat → ℚ) (i : Nat)
    (hi : i < lu.m) :
    ∑ j in Finset.range lu.m, lu.mat i j * lu.solveEntry b j = b i := by
  have h := congrFun (solveCol_spec lu hdet b) ⟨i, hi⟩
  simp only [Matrix.mulVec, Matrix.dotProduct, LUFactors.toMatrix, Matrix.of_apply] at h
  rw [Finset.sum_range]
  rw [← h]
  apply Finset.sum_congr rfl
  intro j _
  unfold LUFactors.solveEntry
  rw [dif_pos j.2]

theorem solveEntry_eq_inv (lu : LUFactors) (b : Nat → ℚ) (i : Fin lu.m) :
    lu.solveEntry b i = (lu.toMatrix⁻¹.mulVec (fun a => b a)) i := by
  unfold LUFactors.solveEntry LUFactors.solveCol
  rw [dif_pos i.2, Matrix.inv_def, Ring.inverse_eq_inv', Matrix.smul_mulVec_assoc]

theorem list_sum_eq_range (S : List Nat) (F : Nat → ℚ) :
    (S.map F).sum = ∑ b in Finset.range S.length, F (S.getD b 0) := by
  induction S with
  | nil => simp
  | cons d ds ih =>
    rw [List.map_cons, List.sum_cons, List.length_cons, Finset.sum_range_succ', ih]
    simp [add_comm]

theorem sum_range_eq_sum_list (S : List Nat) (n : Nat) (F : Nat → ℚ) (hn : S.Nodup)
    (hlt : ∀ d ∈ S, d < n) (hF : ∀ j, j < n → j ∉ S → F j = 0) :
    ∑ j in Finset.range n, F j = ∑ b in Finset.range S.length, F (S.getD b 0) := by
  rw [← list_sum_eq_range, ← List.sum_toFinset F hn]
  symm
  apply Finset.sum_subset
  · intro d hd
    exact Finset.mem_range.mpr (hlt d (List.mem_toFinset.mp hd))
  · intro j hj hjS
    exact hF j (Finset.mem_range.mp hj) (fun h => hjS (List.mem_toFinset.mpr h))

theorem indexOf_getD (S : List Nat) (b : Nat) (hn : S.Nodup) (hb : b < S.length) :
    S.indexOf (S.getD b 0) = b := by
  rw [List.getD_eq_getElem?_getD, List.getElem?_eq_getElem hb]
  simp only [Option.getD_some]
  exact List.indexOf_getElem hn b hb

theorem getD_mem (S : List Nat) (b : Nat) (hb : b < S.length) : S.getD b 0 ∈ S := by
  rw [List.getD_eq_getElem?_getD, List.getElem?_eq_getElem hb]
  simp

/-! ### `BuildGTilde` in closed form -/

theorem getD_replicate_zero (n i : Nat) : (List.replicate n (0 : ℚ)).getD i 0 = 0 := by
  rw [List.getD_eq_getElem?_getD, List.getElem?_replicate]
  split <;> rfl

theorem BuildGTilde_ok (A B : SparseMatrix) (master slave : List Nat)
    (hv : ValidConfig A B master slave) (g gtilde : Vector)
    (hg : g.length = B.Height) (hgt : gtilde.length = A.Height) :
    (projectorOf A B master slave).BuildGTilde g gtilde = .ok (GTildeResult A B slave g) := by
  simp only [EliminationProjection.BuildGTilde]
  have a1 : g.length = (projectorOf A B master slave).B_.Height := hg
  have a2 : gtilde.length = (projectorOf A B master slave).A_.Height := hgt
  rw [MFEM_ASSERT_ok _ a1, MFEM_ASSERT_ok _ a2]
  simp only [bind, Except.bind, Vector.setZero, hgt]
  have hs1 := Solve_one ⟨B.Height, fun i j => (CsOf B slave).data.getD (i + j * B.Height) 0⟩ g hg
  have e3 : (CsOf B slave).height = B.Height := rfl
  simp only [projectorOf]
  simp only at hs1
  rw [e3, hs1]
  simp only
  rw [AddElementVector_ok _ _ _ (by simp [hv.slave_size]) (by simpa using hv.slave_lt)]
  congr 1
  apply ext_getD
  · simp [scatterAdd_length, GTildeResult]
  · intro i hi
    rw [scatterAdd_length] at hi
    simp only [List.length_replicate] at hi
    rw [scatterAdd_getD _ _ _ (by simp [hv.slave_size])
      (by simpa using hv.slave_lt) hv.slave_sorted.nodup]
    unfold GTildeResult
    rw [getD_range_map A.Height, getD_replicate_zero, if_pos hi]
    by_cases his : i ∈ slave
    · have hidx : slave.indexOf i < B.Height := by
        rw [← hv.slave_size]; exact List.indexOf_lt_length.mpr his
      rw [if_pos his, if_pos his, zero_add, getD_range_map, if_pos hidx]
      apply solveEntry_congr
      · intro a b ha hb
        exact CsOf_data_getD B slave a b ha (by rw [hv.slave_size]; exact hb)
      · intro a _
        rfl
    · rw [if_neg his, if_neg his]

theorem CsFactors_det {A B : SparseMatrix} {master slave : List Nat}
    (hv : ValidConfig A B master slave) : (CsFactors B slave).toMatrix.det ≠ 0 :=
  hv.Cs_nonsingular

theorem CsTFactors_det {A B : SparseMatrix} {master slave : List Nat}
    (hv : ValidConfig A B master slave) : (CsTFactors B slave).toMatrix.det ≠ 0 := by
  have h : (CsTFactors B slave).toMatrix = (CsMatrix B slave).transpose := rfl
  rw [h, Matrix.det_transpose]
  exact hv.Cs_nonsingular

theorem GTildeResult_slave (A B : SparseMatrix) (master slave : List Nat)
    (hv : ValidConfig A B master slave) (g : Vector) (b : Nat) (hb : b < B.Height) :
    (GTildeResult A B slave g).getD (slave.getD b 0) 0
      = (CsFactors B slave).solveEntry (fun a => g.getD a 0) b := by
  have hb' : b < slave.length := by rw [hv.slave_size]; exact hb
  have hmem := getD_mem slave b hb'
  unfold GTildeResult
  rw [getD_range_map, if_pos (hv.slave_lt _ hmem), if_pos hmem,
    indexOf_getD slave b hv.slave_sorted.nodup hb']

theorem GTildeResult_nonslave (A B : SparseMatrix) (slave : List Nat) (g : Vector) (i : Nat)
    (hi : i ∉ slave) : (GTildeResult A B slave g).getD i 0 = 0 := by
  unfold GTildeResult
  rw [getD_range_map, if_neg hi]
  simp

theorem B_mul_GTilde (A B : SparseMatrix) (master slave : List Nat)
    (hv : ValidConfig A B master slave) (g : Vector) (i : Nat) (hi : i < B.Height) :
    B.rowDot (GTildeResult A B slave g) i = g.getD i 0 := by
  unfold SparseMatrix.rowDot
  rw [hv.B_width, sum_range_eq_sum_list slave A.Height _ hv.slave_sorted.nodup hv.slave_lt
    (fun j _ hj => by rw [GTildeResult_nonslave A B slave g j hj, mul_zero]), hv.slave_size]
  rw [← solveEntry_spec (CsFactors B slave) (CsFactors_det hv) (fun a => g.getD a 0) i hi]
  apply Finset.sum_congr rfl
  intro b hb
  rw [GTildeResult_slave A B master slave hv g b (Finset.mem_range.mp hb)]
  rfl

/-! ### `MultTranspose` in closed form -/

theorem MultTransposeStep_slave (P : EliminationProjection) (inp : Vector) (st : ScanState)
    (i : Nat) (hs : P.slave_contact_dofs_.Sorted (fun x y => x < y))
    (hi : i ∈ P.slave_contact_dofs_) : P.MultTransposeStep inp st i = .ok st := by
  unfold EliminationProjection.MultTransposeStep
  rw [if_pos ((FindSorted_nonneg_iff _ _ hs).2 hi)]
  rfl

theorem MultTransposeStep_nonslave (P : EliminationProjection) (inp : Vector) (st : ScanState)
    (i : Nat) (hs : P.slave_contact_dofs_.Sorted (fun x y => x < y))
    (hm : P.master_contact_dofs_.Sorted (fun x y => x < y))
    (hi : i ∉ P.slave_contact_dofs_) (h1 : i < inp.length)
    (h2 : st.column_dof < st.out.length) :
    P.MultTransposeStep inp st i
      = .ok ⟨List.set st.out st.column_dof (st.out.getD st.column_dof 0 + inp.getD i 0),
      st.column_dof + 1,
      if i ∈ P.master_contact_dofs_ then st.mapped_master_contact_dofs ++ [st.column_dof]
      else st.mapped_master_contact_dofs⟩ := by
  unfold EliminationProjection.MultTransposeStep
  rw [if_neg (fun h => hi ((FindSorted_nonneg_iff _ _ hs).1 h))]
  simp only [Vector_elem_ok inp _ h1, Vector_addTo_ok st.out _ _ h2, bind, Except.bind, pure,
    Except.pure, FindSorted_nonneg_iff _ _ hm]

theorem MultTransposeScan_ok (P : EliminationProjection) (inp : Vector) (w : Nat)
    (hs : P.slave_contact_dofs_.Sorted (fun x y => x < y))
    (hm : P.master_contact_dofs_.Sorted (fun x y => x < y))
    (hlen : P.A_.Height ≤ inp.length)
    (hw : reducedIndex P.slave_contact_dofs_ P.A_.Height ≤ w)
    (k : Nat) (hk : k ≤ P.A_.Height) :
    (List.range k).foldlM (P.MultTransposeStep inp) ⟨List.replicate w 0, 0, []⟩ =
      .ok ⟨(List.range w).map (fun q =>
            if q < reducedIndex P.slave_contact_dofs_ k
            then inp.getD ((nonSlaveDofs P.slave_contact_dofs_ P.A_.Height).getD q 0) 0 else 0),
          reducedIndex P.slave_contact_dofs_ k,
          ((List.range k).filter (fun i =>
            decide (i ∉ P.slave_contact_dofs_ ∧ i ∈ P.master_contact_dofs_))).map
            (reducedIndex P.slave_contact_dofs_)⟩ := by
  induction k with
  | zero =>
    simp only [List.range_zero, List.foldlM_nil, pure, Except.pure, reducedIndex_zero,
      List.filter_nil, List.map_nil]
    congr 2
    apply List.ext_getElem <;> simp
  | succ k ih =>
    rw [List.range_succ, List.foldlM_append, ih (by omega)]
    simp only [bind, Except.bind, List.foldlM_cons, List.foldlM_nil]
    by_cases hi : k ∈ P.slave_contact_dofs_
    · rw [MultTransposeStep_slave P inp _ k hs hi]
      simp only [pure, Except.pure, reducedIndex_succ, if_pos hi, List.filter_append]
      congr 2
      simp [hi]
    · have hlt : reducedIndex P.slave_contact_dofs_ k < w :=
        lt_of_lt_of_le (reducedIndex_lt _ (show k < P.A_.Height by omega) hi) hw
      rw [MultTransposeStep_nonslave P inp _ k hs hm hi (by omega) (by simpa using hlt)]
      simp only [pure, Except.pure, reducedIndex_succ, if_neg hi, List.filter_append]
      congr 2
      · apply ext_getD
        · simp
        · intro q hq
          simp only [List.length_set, List.length_map, List.length_range] at hq
          rw [getD_set _ _ _ _ (by simpa using hlt)]
          simp only [getD_range_map, hq, hlt, if_true]
          by_cases hqk : q = reducedIndex P.slave_contact_dofs_ k
          · subst hqk
            rw [if_pos rfl, if_neg (lt_irrefl _), if_pos (Nat.lt_succ_self _), zero_add,
              nonSlaveDofs_getD _ _ k (by omega) hi]
          · rw [if_neg hqk]
            by_cases hq2 : q < reducedIndex P.slave_contact_dofs_ k
            · rw [if_pos hq2, if_pos (by omega)]
            · rw [if_neg hq2, if_neg (by omega)]
      · by_cases hmk : k ∈ P.master_contact_dofs_
        · simp [hi, hmk]
        · simp [hi, hmk]

theorem reducedIndex_inj (S : List Nat) {i j : Nat} (hi : i ∉ S) (hj : j ∉ S)
    (h : reducedIndex S i = reducedIndex S j) : i = j := by
  rcases Nat.lt_trichotomy i j with h1 | h1 | h1
  · have := reducedIndex_lt S h1 hi; omega
  · exact h1
  · have := reducedIndex_lt S h1 hj; omega

theorem nonSlaveDofs_nodup (S : List Nat) (n : Nat) : (nonSlaveDofs S n).Nodup :=
  List.Nodup.filter _ (List.nodup_range n)

theorem reducedIndex_nonSlave (S : List Nat) (n q : Nat) (hq : q < reducedIndex S n) :
    reducedIndex S ((nonSlaveDofs S n).getD q 0) = q := by
  have hq' : q < (nonSlaveDofs S n).length := hq
  have hmem := (nonSlaveDofs_mem S n _).mp (getD_mem (nonSlaveDofs S n) q hq')
  have h1 := nonSlaveDofs_getD S n _ hmem.1 hmem.2
  have h2 : reducedIndex S ((nonSlaveDofs S n).getD q 0) < (nonSlaveDofs S n).length :=
    reducedIndex_lt S hmem.1 hmem.2
  have h3 := indexOf_getD (nonSlaveDofs S n) q (nonSlaveDofs_nodup S n) hq'
  have h4 := indexOf_getD (nonSlaveDofs S n) _ (nonSlaveDofs_nodup S n) h2
  rw [h1] at h4
  omega

theorem mapped_nodup (master slave : List Nat) (hm : master.Nodup)
    (hd : ∀ d ∈ master, d ∉ slave) : (master.map (reducedIndex slave)).Nodup := by
  apply List.Nodup.map_on _ hm
  intro x hx y hy hxy
  exact reducedIndex_inj slave (hd x hx) (hd y hy) hxy

theorem getD_map_nat (l : List Nat) (f : Nat → Nat) (j : Nat) (hj : j < l.length) :
    (l.map f).getD j 0 = f (l.getD j 0) := by
  rw [List.getD_eq_getElem?_getD, List.getElem?_map, List.getD_eq_getElem?_getD,
    List.getElem?_eq_getElem hj]
  rfl

theorem getD_map_rat (l : List Nat) (f : Nat → ℚ) (j : Nat) (hj : j < l.length) :
    (l.map f).getD j 0 = f (l.getD j 0) := by
  rw [List.getD_eq_getElem?_getD, List.getElem?_map, List.getD_eq_getElem?_getD,
    List.getElem?_eq_getElem hj]
  rfl

theorem scatterAdd_getD_pos (v : Vector) (dofs : List Nat) (e : Vector)
    (hl : dofs.length = e.length) (hlt : ∀ d ∈ dofs, d < v.length) (hn : dofs.Nodup) (j : Nat)
    (hj : j < dofs.length) :
    (scatterAdd v dofs e).getD (dofs.getD j 0) 0 = v.getD (dofs.getD j 0) 0 + e.getD j 0 := by
  rw [scatterAdd_getD v dofs e hl hlt hn, if_pos (getD_mem dofs j hj), indexOf_getD dofs j hn hj]

theorem scatterAdd_getD_neg (v : Vector) (dofs : List Nat) (e : Vector)
    (hl : dofs.length = e.length) (hlt : ∀ d ∈ dofs, d < v.length) (hn : dofs.Nodup) (i : Nat)
    (hi : i ∉ dofs) :
    (scatterAdd v dofs e).getD i 0 = v.getD i 0 := by
  rw [scatterAdd_getD v dofs e hl hlt hn, if_neg hi]

theorem MultTranspose_ok (A B : SparseMatrix) (master slave : List Nat)
    (hv : ValidConfig A B master slave) (x out : Vector)
    (hx : x.length = A.Height) (hout : out.length = A.Height - slave.length) :
    (projectorOf A B master slave).MultTranspose x out
      = .ok (MultTransposeResult A B master slave x) := by
  have hsz := hv.size_le
  have hor : out.length = reducedIndex slave A.Height := by omega
  have a1 : ((out.length : Int) = ((projectorOf A B master slave).A_.Height : Int)
      - ((projectorOf A B master slave).slave_contact_dofs_.length : Int)) := by
    simp only [projectorOf]; omega
  have a2 : x.length = (projectorOf A B master slave).A_.Height := hx
  simp only [EliminationProjection.MultTranspose]
  rw [MFEM_ASSERT_ok _ a1, MFEM_ASSERT_ok _ a2]
  simp only [bind, Except.bind, Vector.setZero]
  have hscan := MultTransposeScan_ok (projectorOf A B master slave) x out.length
    hv.slave_sorted hv.master_sorted (by simp only [projectorOf]; omega)
    (by simp only [projectorOf]; omega) A.Height (le_refl _)
  simp only [projectorOf] at hscan ⊢
  rw [hscan]
  simp only [mapped_eq master slave A.Height hv.master_sorted hv.master_lt hv.disjoint]
  rw [MFEM_ASSERT_ok _ (by simp)]
  simp only
  rw [GetSubVector_ok x slave (by rw [hx]; exact hv.slave_lt)]
  simp only
  have hs1 := Solve_one
    ⟨B.Height, fun i j => (CsOf B slave).Transpose.data.getD (i + j * B.Height) 0⟩
    (slave.map (fun d => x.getD d 0)) (by simp [hv.slave_size])
  have e3 : (CsOf B slave).height = B.Height := rfl
  simp only at hs1
  rw [e3, hs1]
  simp only
  rw [DenseMatrix_MultTranspose_ok (CmOf B master) _ _ (by simp [CmOf, SparseMatrix.GetSubMatrix,
    DenseMatrix.SetSize]) (by simp [Vector.new])]
  simp only
  have hmlt : ∀ d ∈ master.map (reducedIndex slave),
      d < ((List.range out.length).map (fun q =>
        if q < reducedIndex slave A.Height
        then x.getD ((nonSlaveDofs slave A.Height).getD q 0) 0 else 0)).length := by
    intro d hd
    obtain ⟨c, hc, rfl⟩ := List.mem_map.mp hd
    simp only [List.length_map, List.length_range]
    rw [hor]
    exact reducedIndex_lt slave (hv.master_lt c hc) (hv.disjoint c hc)
  have hmn := mapped_nodup master slave hv.master_sorted.nodup hv.disjoint
  have hwl : (master.map (reducedIndex slave)).length
      = (Vector.scale ((List.range (CmOf B master).width).map (fun j =>
          ∑ i in Finset.range (CmOf B master).height, (CmOf B master).entry i j *
            ((List.range B.Height).map (fun i =>
              LUFactors.solveEntry ⟨B.Height, fun i j =>
                (CsOf B slave).Transpose.data.getD (i + j * B.Height) 0⟩
                (fun a => (slave.map (fun d => x.getD d 0)).getD a 0) i)).getD i 0)) (-1)).length := by
    simp [Vector.scale, CmOf, SparseMatrix.GetSubMatrix, DenseMatrix.SetSize]
  rw [AddElementVector_ok _ _ _ hwl hmlt]
  congr 1
  apply ext_getD
  · simp [scatterAdd_length, MultTransposeResult, hout]
  · intro q hq
    rw [scatterAdd_length] at hq
    simp only [List.length_map, List.length_range] at hq
    have hq' : q < reducedIndex slave A.Height := by omega
    have hdq := (nonSlaveDofs_mem slave A.Height _).mp
      (getD_mem (nonSlaveDofs slave A.Height) q hq')
    have hrq := reducedIndex_nonSlave slave A.Height q hq'
    unfold MultTransposeResult
    rw [getD_range_map (A.Height - slave.length), if_pos (by omega)]
    by_cases hdm : (nonSlaveDofs slave A.Height).getD q 0 ∈ master
    · have hj : master.indexOf ((nonSlaveDofs slave A.Height).getD q 0) < master.length :=
        List.indexOf_lt_length.mpr hdm
      have hj' : master.indexOf ((nonSlaveDofs slave A.Height).getD q 0)
          < (master.map (reducedIndex slave)).length := by simpa using hj
      have hqe : (master.map (reducedIndex slave)).getD
          (master.indexOf ((nonSlaveDofs slave A.Height).getD q 0)) 0 = q := by
        rw [getD_map_nat master _ _ hj]
        have : master.getD (master.indexOf ((nonSlaveDofs slave A.Height).getD q 0)) 0
            = (nonSlaveDofs slave A.Height).getD q 0 := by
          rw [List.getD_eq_getElem?_getD, List.getElem?_eq_getElem hj]
          simp
        rw [this, hrq]
      have key := scatterAdd_getD_pos _ _ _ hwl hmlt hmn _ hj'
      rw [hqe] at key
      rw [key, if_pos hdm, getD_range_map out.length, if_pos hq, if_pos hq']
      congr 1
      rw [scale_range_map, getD_range_map]
      have e4 : (CmOf B master).width = master.length := rfl
      have e5 : (CmOf B master).height = B.Height := rfl
      rw [e4, e5, if_pos hj]
      unfold masterValue
      rw [mul_neg, mul_one, neg_inj]
      apply Finset.sum_congr rfl
      intro a ha
      have ha' : a < B.Height := Finset.mem_range.mp ha
      rw [CmOf_entry B master a _ ha' hj, getD_range_map, if_pos ha']
      congr 1
      apply solveEntry_congr
      · intro i j hi hj
        exact CsT_data_getD B slave hv.slave_size i j hi hj
      · intro b hb
        exact getD_map_rat slave _ b (by rw [hv.slave_size]; exact hb)
    · have hqn : q ∉ master.map (reducedIndex slave) := by
        intro hmem
        obtain ⟨c, hc, hce⟩ := List.mem_map.mp hmem
        have := reducedIndex_inj slave (hv.disjoint c hc) hdq.2 (by rw [hce, hrq])
        rw [← this] at hdm
        exact hdm hc
      rw [scatterAdd_getD_neg _ _ _ hwl hmlt hmn q hqn, if_neg hdm, add_zero,
        getD_range_map, if_pos hq, if_pos hq']

/-! ### `RecoverPressure` in closed form -/

theorem zipWith_eq_range_map (f : ℚ → ℚ → ℚ) (a b : List ℚ) (n : Nat) (ha : a.length = n)
    (hb : b.length = n) :
    List.zipWith f a b = (List.range n).map (fun i => f (a.getD i 0) (b.getD i 0)) := by
  apply List.ext_getElem
  · simp [ha, hb]
  · intro i h1 h2
    simp only [List.length_zipWith, ha, hb, min_self] at h1
    simp [List.getD_eq_getElem?_getD, List.getElem?_eq_getElem, ha, hb, h1]

theorem SparseMatrix_Mult_ok (A : SparseMatrix) (x y : Vector) (h1 : A.width = x.length)
    (h2 : A.Height = y.length) :
    A.Mult x y = .ok ((List.range A.Height).map (fun i => A.rowDot x i)) := by
  unfold SparseMatrix.Mult
  rw [MFEM_ASSERT_ok _ ⟨h1, h2⟩]
  rfl

theorem SparseMatrix_AddMult_ok (A : SparseMatrix) (x y : Vector) (a : ℚ)
    (h1 : A.width = x.length) (h2 : A.Height = y.length) :
    A.AddMult x y a = .ok ((List.range A.Height).map (fun i => y.getD i 0 + a * A.rowDot x i)) := by
  unfold SparseMatrix.AddMult
  rw [MFEM_ASSERT_ok _ ⟨h1, h2⟩]
  rfl

theorem Vector_sub_ok (v w : Vector) (n : Nat) (hv : v.length = n) (hw : w.length = n) :
    Vector.sub v w = .ok ((List.range n).map (fun i => v.getD i 0 - w.getD i 0)) := by
  unfold Vector.sub
  rw [MFEM_ASSERT_ok _ (by rw [hv, hw]), zipWith_eq_range_map _ v w n hv hw]
  rfl

theorem Vector_add_ok (v w : Vector) (n : Nat) (hv : v.length = n) (hw : w.length = n) :
    Vector.add v w = .ok ((List.range n).map (fun i => v.getD i 0 + w.getD i 0)) := by
  unfold Vector.add
  rw [MFEM_ASSERT_ok _ (by rw [hv, hw]), zipWith_eq_range_map _ v w n hv hw]
  rfl

theorem RecoverPressure_ok (A B : SparseMatrix) (master slave : List Nat)
    (hv : ValidConfig A B master slave) (disprhs disp pressure : Vector)
    (hf : disprhs.length = A.Height) (hu : disp.length = A.Height)
    (hp : pressure.length = B.Height) :
    (projectorOf A B master slave).RecoverPressure disprhs disp pressure
      = .ok (PressureResult A B slave disprhs disp) := by
  have a1 : pressure.length = (projectorOf A B master slave).B_.Height := hp
  have a2 : disp.length = (projectorOf A B master slave).A_.Height := hu
  simp only [EliminationProjection.RecoverPressure]
  rw [MFEM_ASSERT_ok _ a1, MFEM_ASSERT_ok _ a2]
  simp only [bind, Except.bind, projectorOf]
  rw [SparseMatrix_Mult_ok A disp _ (by rw [hv.A_square, hu]) (by simp [Vector.new])]
  simp only
  rw [Vector_sub_ok _ disprhs A.Height (by simp) hf]
  simp only
  rw [scale_range_map, GetSubVector_ok _ slave (by simpa using hv.slave_lt)]
  simp only
  have hs1 := Solve_one
    ⟨B.Height, fun i j => (CsOf B slave).Transpose.data.getD (i + j * B.Height) 0⟩
    (slave.map (fun d => ((List.range A.Height).map (fun i =>
      (((List.range A.Height).map (fun i => A.rowDot disp i)).getD i 0 - disprhs.getD i 0) * -1)).getD
        d 0)) (by simp [hv.slave_size])
  have e3 : (CsOf B slave).height = B.Height := rfl
  simp only at hs1
  rw [e3, hs1]
  congr 1
  unfold PressureResult
  apply List.map_congr_left
  intro a _
  apply solveEntry_congr
  · intro i j hi hj
    exact CsT_data_getD B slave hv.slave_size i j hi hj
  · intro b hb
    have hb' : b < slave.length := by rw [hv.slave_size]; exact hb
    have hlt := hv.slave_lt _ (getD_mem slave b hb')
    rw [getD_map_rat slave _ b hb', getD_range_map, if_pos hlt, getD_range_map, if_pos hlt]
    ring

/-! ### `EliminationCGSolver::Mult` in closed form -/

theorem Vector_assign_ok (v : Vector) (i : Nat) (a : ℚ) (h : i < v.length) :
    Vector.assign v i a = .ok (List.set v i a) := by
  unfold Vector.assign
  rw [if_pos h]

theorem copyFrom_loop (src : Vector) (off n : Nat) (dst : Vector) (hd : dst.length = n)
    (hs : off + n ≤ src.length) (k : Nat) (hk : k ≤ n) :
    (List.range k).foldlM (fun acc i => do
        let a ← Vector.elem src (off + i)
        Vector.assign acc i a) dst
      = .ok ((List.range n).map
          (fun i => if i < k then src.getD (off + i) 0 else dst.getD i 0)) := by
  induction k with
  | zero =>
    simp only [List.range_zero, List.foldlM_nil, pure, Except.pure]
    congr 1
    apply ext_getD _ _ (by simp [hd])
    intro i hi
    rw [getD_range_map, if_pos (by omega)]
    simp
  | succ k ih =>
    rw [List.range_succ, List.foldlM_append, ih (by omega)]
    simp only [bind, Except.bind, List.foldlM_cons, List.foldlM_nil]
    rw [Vector_elem_ok src _ (by omega)]
    simp only
    rw [Vector_assign_ok _ _ _ (by simp; omega)]
    simp only [pure, Except.pure]
    congr 1
    apply ext_getD _ _ (by simp)
    intro i hi
    simp only [List.length_set, List.length_map, List.length_range] at hi
    rw [getD_set _ _ _ _ (by simp; omega)]
    simp only [getD_range_map, hi, if_true]
    by_cases hik : i = k
    · subst hik; simp
    · have : (i < k + 1) ↔ (i < k) := by omega
      simp [hik, this]

theorem copyFrom_ok (src : Vector) (off n : Nat) (dst : Vector) (hd : dst.length = n)
    (hs : off + n ≤ src.length) :
    copyFrom src off n dst = .ok ((List.range n).map (fun i => src.getD (off + i) 0)) := by
  unfold copyFrom
  rw [copyFrom_loop src off n dst hd hs n (le_refl _)]
  congr 1
  apply List.map_congr_left
  intro i hi
  rw [if_pos (List.mem_range.mp hi)]

theorem copyInto_loop (src : Vector) (off : Nat) (dst : Vector)
    (hs : off + src.length ≤ dst.length) (k : Nat) (hk : k ≤ src.length) :
    (List.range k).foldlM (fun acc i => do
        let a ← Vector.elem src i
        Vector.assign acc (off + i) a) dst
      = .ok ((List.range dst.length).map
          (fun i => if off ≤ i ∧ i < off + k then src.getD (i - off) 0 else dst.getD i 0)) := by
  induction k with
  | zero =>
    simp only [List.range_zero, List.foldlM_nil, pure, Except.pure]
    congr 1
    apply ext_getD _ _ (by simp)
    intro i hi
    rw [getD_range_map, if_pos hi, if_neg (by omega)]
  | succ k ih =>
    rw [List.range_succ, List.foldlM_append, ih (by omega)]
    simp only [bind, Except.bind, List.foldlM_cons, List.foldlM_nil]
    rw [Vector_elem_ok src _ (by omega)]
    simp only
    rw [Vector_assign_ok _ _ _ (by simp; omega)]
    simp only [pure, Except.pure]
    congr 1
    apply ext_getD _ _ (by simp)
    intro i hi
    simp only [List.length_set, List.length_map, List.length_range] at hi
    rw [getD_set _ _ _ _ (by simp; omega)]
    simp only [getD_range_map, hi, if_true]
    by_cases hik : i = off + k
    · subst hik; simp
    · have : (off ≤ i ∧ i < off + (k + 1)) ↔ (off ≤ i ∧ i < off + k) := by omega
      simp [hik, this]

theorem copyInto_ok (src : Vector) (off : Nat) (dst : Vector)
    (hs : off + src.length ≤ dst.length) :
    copyInto src off dst = .ok ((List.range dst.length).map
      (fun i => if off ≤ i ∧ i < off + src.length then src.getD (i - off) 0
        else dst.getD i 0)) := by
  unfold copyInto
  exact copyInto_loop src off dst hs src.length (le_refl _)

theorem GTildeResult_length (A B : SparseMatrix) (slave : List Nat) (g : Vector) :
    (GTildeResult A B slave g).length = A.Height := by
  simp [GTildeResult]

theorem MultResult_length (A B : SparseMatrix) (master slave : List Nat) (x : Vector) :
    (MultResult A B master slave x).length = A.Height := by
  simp [MultResult]

theorem MultTransposeResult_length (A B : SparseMatrix) (master slave : List Nat) (x : Vector) :
    (MultTransposeResult A B master slave x).length = A.Height - slave.length := by
  simp [MultTransposeResult]

theorem PressureResult_length (A B : SparseMatrix) (slave : List Nat) (f u : Vector) :
    (PressureResult A B slave f u).length = B.Height := by
  simp [PressureResult]

theorem append_eq_range_map (u p : Vector) (sol : Vector) (hs : sol.length = u.length + p.length) :
    (List.range ((List.range sol.length).map
        (fun i => if 0 ≤ i ∧ i < 0 + u.length then u.getD (i - 0) 0 else sol.getD i 0)).length).map
      (fun i => if u.length ≤ i ∧ i < u.length + p.length then p.getD (i - u.length) 0
        else ((List.range sol.length).map
          (fun i => if 0 ≤ i ∧ i < 0 + u.length then u.getD (i - 0) 0 else sol.getD i 0)).getD i 0)
      = u ++ p := by
  apply ext_getD _ _ (by simp [hs])
  intro i hi
  simp only [List.length_map, List.length_range] at hi
  rw [getD_range_map, List.length_map, List.length_range, if_pos hi, getD_range_map, if_pos hi]
  by_cases h : i < u.length
  · rw [if_neg (by omega), if_pos (by omega), List.getD_append _ _ _ _ h]
    simp
  · rw [if_pos (by omega), List.getD_append_right _ _ _ _ (by omega)]

theorem SolverMult_ok (A B : SparseMatrix) (master slave : List Nat)
    (hv : ValidConfig A B master slave) (krylov : CGSolver) (rhs sol : Vector)
    (hr : rhs.length = A.Height + B.Height) (hsol : sol.length = A.Height + B.Height) :
    (solverOf A B master slave).Mult krylov rhs sol
      = .ok (dispSol A B master slave krylov rhs ++ pressureSol A B master slave krylov rhs) := by
  simp only [EliminationCGSolver.Mult, solverOf]
  have l0 : (Vector.new A.Height).length = A.Height := by simp [Vector.new]
  have l1 : (Vector.new B.Height).length = B.Height := by simp [Vector.new]
  rw [l0, copyFrom_ok rhs 0 A.Height _ l0 (by omega)]
  simp only [bind, Except.bind, zero_add, List.length_map, List.length_range]
  rw [l1, copyFrom_ok rhs A.Height B.Height _ l1 (by omega)]
  simp only
  rw [BuildGTilde_ok A B master slave hv _ _ (by simp) l0]
  simp only
  rw [SparseMatrix_AddMult_ok A _ _ _ (by rw [hv.A_square, GTildeResult_length]) (by simp)]
  simp only
  have hw : (projectorOf A B master slave).width = A.Height - slave.length := rfl
  rw [hw, MultTranspose_ok A B master slave hv _ _ (by simp) (by simp [Vector.new])]
  simp only
  have hk : (krylov.Mult
      (RAPOperator.Mult (projectorOf A B master slave) A (projectorOf A B master slave))
      (MultTransposeResult A B master slave
      ((List.range A.Height).map (fun i => ((List.range A.Height).map (fun i => rhs.getD i 0)).getD i 0
        + (-1) * A.rowDot (GTildeResult A B slave
          ((List.range B.Height).map (fun i => rhs.getD (A.Height + i) 0))) i)))
      (Vector.setZero (Vector.new (A.Height - slave.length)))).length = A.Height - slave.length := by
    rw [krylov.size_eq]; simp [Vector.setZero, Vector.new]
  rw [Mult_ok A B master slave hv _ _ hk l0]
  simp only
  rw [RecoverPressure_ok A B master slave hv _ _ _ (by simp) (MultResult_length _ _ _ _ _)
    (by simp [Vector.new])]
  simp only
  rw [Vector_add_ok _ _ A.Height (MultResult_length _ _ _ _ _) (GTildeResult_length _ _ _ _)]
  simp only
  rw [copyInto_ok _ 0 sol (by simp; omega)]
  simp only
  rw [copyInto_ok _ _ _ (by simp [PressureResult_length]; omega)]
  congr 1
  have e : Vector.setZero (Vector.new (A.Height - slave.length))
      = List.replicate (A.Height - slave.length) 0 := by
    simp [Vector.setZero, Vector.new]
  rw [e]
  exact append_eq_range_map (dispSol A B master slave krylov rhs)
    (pressureSol A B master slave krylov rhs) sol
    (by rw [hsol]; simp [dispSol, pressureSol, PressureResult_length])

/-! ### Linearity of the solve and the adjoint identity -/

theorem solveEntry_sub (lu : LUFactors) (c d : Nat → ℚ) (a : Nat) :
    lu.solveEntry (fun b => c b - d b) a = lu.solveEntry c a - lu.solveEntry d a := by
  unfold LUFactors.solveEntry
  by_cases h : a < lu.m
  · simp only [h, dif_pos]
    unfold LUFactors.solveCol
    have e : (fun a : Fin lu.m => c a - d a) = (fun a : Fin lu.m => c a) - (fun a : Fin lu.m => d a) :=
      rfl
    rw [e, Matrix.mulVec_sub, smul_sub]
    rfl
  · simp [h]

theorem solveEntry_neg_spec (lu : LUFactors) (hdet : lu.toMatrix.det ≠ 0) (b : Nat → ℚ) (i : Nat)
    (hi : i < lu.m) :
    ∑ j in Finset.range lu.m, lu.mat i j * (-lu.solveEntry b j) = -b i := by
  rw [← solveEntry_spec lu hdet b i hi, ← Finset.sum_neg_distrib]
  apply Finset.sum_congr rfl
  intro j _
  ring

theorem smul_mulVec_dot (m : Nat) (M : Matrix (Fin m) (Fin m) ℚ) (c d : Fin m → ℚ) (s : ℚ) :
    ∑ b : Fin m, (s • M.mulVec c) b * d b = ∑ a : Fin m, c a * (s • M.transpose.mulVec d) a := by
  change Matrix.dotProduct (s • M.mulVec c) d = Matrix.dotProduct c (s • M.transpose.mulVec d)
  rw [Matrix.smul_dotProduct, Matrix.dotProduct_smul, Matrix.mulVec_transpose,
    Matrix.dotProduct_comm _ (Matrix.vecMul _ _), ← Matrix.dotProduct_mulVec,
    Matrix.dotProduct_comm]

theorem solve_adjoint (B : SparseMatrix) (slave : List Nat) (c d : Nat → ℚ) :
    ∑ b in Finset.range B.Height, (CsFactors B slave).solveEntry c b * d b
      = ∑ a in Finset.range B.Height, c a * (CsTFactors B slave).solveEntry d a := by
  have hT : (CsTFactors B slave).toMatrix = (CsFactors B slave).toMatrix.transpose := rfl
  rw [Finset.sum_range, Finset.sum_range]
  have h1 : ∀ b : Fin B.Height, (CsFactors B slave).solveEntry c b
      = (CsFactors B slave).solveCol c b := by
    intro b
    unfold LUFactors.solveEntry
    rw [dif_pos (show (b : Nat) < (CsFactors B slave).m from b.2)]
    rfl
  have h2 : ∀ a : Fin B.Height, (CsTFactors B slave).solveEntry d a
      = (CsTFactors B slave).solveCol d a := by
    intro a
    unfold LUFactors.solveEntry
    rw [dif_pos (show (a : Nat) < (CsTFactors B slave).m from a.2)]
    rfl
  simp only [h1, h2]
  unfold LUFactors.solveCol
  rw [hT, Matrix.det_transpose, ← Matrix.adjugate_transpose]
  exact smul_mulVec_dot B.Height _ (fun a => c a) (fun a => d a) _

theorem rowDot_add (A : SparseMatrix) (u w : Vector) (n : Nat) (hu : u.length = n)
    (hw : w.length = n) (i : Nat) :
    A.rowDot ((List.range n).map (fun i => u.getD i 0 + w.getD i 0)) i
      = A.rowDot u i + A.rowDot w i := by
  unfold SparseMatrix.rowDot
  rw [← Finset.sum_add_distrib]
  apply Finset.sum_congr rfl
  intro j _
  rw [getD_range_map]
  by_cases h : j < n
  · rw [if_pos h]; ring
  · rw [if_neg h, List.getD_eq_default _ _ (by omega), List.getD_eq_default _ _ (by omega)]
    ring

theorem sum_range_eq_list_sum (L : List Nat) (n : Nat) (F : Nat → ℚ) (hn : L.Nodup)
    (hlt : ∀ d ∈ L, d < n) (hF : ∀ j, j < n → j ∉ L → F j = 0) :
    ∑ j in Finset.range n, F j = (L.map F).sum := by
  rw [sum_range_eq_sum_list L n F hn hlt hF, list_sum_eq_range]

theorem sum_range_split (M S : List Nat) (n : Nat) (F : Nat → ℚ) (hM : M.Nodup) (hS : S.Nodup)
    (hd : ∀ d ∈ M, d ∉ S) (hMlt : ∀ d ∈ M, d < n) (hSlt : ∀ d ∈ S, d < n)
    (hF : ∀ j, j < n → j ∉ M → j ∉ S → F j = 0) :
    ∑ j in Finset.range n, F j
      = ∑ a in Finset.range M.length, F (M.getD a 0) + ∑ b in Finset.range S.length, F (S.getD b 0) := by
  rw [sum_range_eq_list_sum (M ++ S) n F
    (List.nodup_append.mpr ⟨hM, hS, fun a ha hb => hd a ha hb⟩)
    (fun d hdm => by
      rcases List.mem_append.mp hdm with h | h
      · exact hMlt d h
      · exact hSlt d h)
    (fun j hj hjn => hF j hj (fun h => hjn (List.mem_append_left _ h))
      (fun h => hjn (List.mem_append_right _ h)))]
  rw [List.map_append, List.sum_append, list_sum_eq_range, list_sum_eq_range]

theorem sum_reindex (S : List Nat) (n : Nat) (G : Nat → Nat → ℚ) :
    ∑ q in Finset.range (reducedIndex S n), G q ((nonSlaveDofs S n).getD q 0)
      = ∑ i in Finset.range n, if i ∉ S then G (reducedIndex S i) i else 0 := by
  rw [sum_range_eq_sum_list (nonSlaveDofs S n) n _ (nonSlaveDofs_nodup S n)
    (fun d hd => ((nonSlaveDofs_mem S n d).mp hd).1)
    (fun j hj hjn => by
      have : ¬ j ∉ S := fun h => hjn ((nonSlaveDofs_mem S n j).mpr ⟨hj, h⟩)
      rw [if_neg this])]
  rw [nonSlaveDofs_length]
  apply Finset.sum_congr rfl
  intro q hq
  have hq' := Finset.mem_range.mp hq
  have hmem := (nonSlaveDofs_mem S n _).mp (getD_mem (nonSlaveDofs S n) q hq')
  rw [if_pos hmem.2, reducedIndex_nonSlave S n q hq']

theorem range_map_sum (n : Nat) (F : Nat → ℚ) :
    ((List.range n).map F).sum = ∑ i in Finset.range n, F i := by
  induction n with
  | zero => simp
  | succ n ih => rw [List.range_succ, List.map_append, List.sum_append, ih, Finset.sum_range_succ]; simp

theorem dot_eq_sum (a b : Vector) (n : Nat) (ha : a.length = n) (hb : b.length = n) :
    Vector.dot a b = ∑ i in Finset.range n, a.getD i 0 * b.getD i 0 := by
  unfold Vector.dot
  rw [zipWith_eq_range_map _ a b n ha hb, range_map_sum]

/-! ### `AssembleApproximate` -/

theorem Elem_new (h w i j : Nat) : (SparseMatrix.new h w).Elem i j = 0 := by
  unfold SparseMatrix.Elem SparseMatrix.new
  simp only
  rw [List.getD_eq_getElem?_getD, List.getElem?_replicate]
  split <;> simp

theorem getD_modify (rows : List (List (Nat × ℚ))) (f : List (Nat × ℚ) → List (Nat × ℚ))
    (i i' : Nat) (hi : i < rows.length) :
    (rows.modify f i).getD i' [] = if i' = i then f (rows.getD i []) else rows.getD i' [] := by
  rw [List.getD_eq_getElem?_getD, List.getElem?_modify, List.getD_eq_getElem?_getD,
    List.getD_eq_getElem?_getD]
  by_cases h : i = i'
  · subst h
    simp [List.getElem?_eq_getElem hi]
  · have h' : ¬ i' = i := fun e => h e.symm
    simp [h, h']

theorem Set_ok (A : SparseMatrix) (i j : Nat) (v : ℚ) (hi : i < A.Height) (hj : j < A.width) :
    ∃ A', A.Set i j v = .ok A' ∧ A'.Height = A.Height ∧ A'.width = A.width ∧
      ∀ i' j', A'.Elem i' j' = if i' = i ∧ j' = j then v else A.Elem i' j' := by
  refine ⟨⟨A.width, A.rows.modify (fun r => r.filter (fun p => ¬ p.1 = j) ++ [(j, v)]) i⟩,
    ?_, ?_, rfl, ?_⟩
  · unfold SparseMatrix.Set
    rw [if_pos ⟨hi, hj⟩]
  · simp [SparseMatrix.Height]
  · intro i' j'
    unfold SparseMatrix.Elem
    simp only
    rw [getD_modify _ _ _ _ hi]
    by_cases h : i' = i
    · subst h
      simp only [true_and, if_true]
      rw [List.filter_append, List.map_append, List.sum_append, List.filter_filter]
      by_cases hj' : j' = j
      · subst hj'
        simp
      · have hj'' : ¬ j = j' := fun e => hj' e.symm
        simp only [hj', if_false]
        have e : (List.filter (fun p : Nat × ℚ => decide (p.1 = j')) [(j, v)]) = [] := by
          simp [hj'']
        rw [e]
        simp only [List.map_nil, List.sum_nil, add_zero]
        congr 2
        apply List.filter_congr
        intro p _
        by_cases hp : p.1 = j'
        · simp [hp, hj']
        · simp [hp]
    · simp [h]

theorem Add_ok (A : SparseMatrix) (i j : Nat) (v : ℚ) (hi : i < A.Height) (hj : j < A.width) :
    ∃ A', A.Add i j v = .ok A' ∧ A'.Height = A.Height ∧ A'.width = A.width ∧
      ∀ i' j', A'.Elem i' j' = A.Elem i' j' + if i' = i ∧ j' = j then v else 0 := by
  refine ⟨⟨A.width, A.rows.modify (fun r => r ++ [(j, v)]) i⟩, ?_, ?_, rfl, ?_⟩
  · unfold SparseMatrix.Add
    rw [if_pos ⟨hi, hj⟩]
  · simp [SparseMatrix.Height]
  · intro i' j'
    unfold SparseMatrix.Elem
    simp only
    rw [getD_modify _ _ _ _ hi]
    by_cases h : i' = i
    · subst h
      simp only [true_and, if_true]
      rw [List.filter_append, List.map_append, List.sum_append]
      by_cases hj' : j' = j
      · subst hj'
        simp
      · have hj'' : ¬ j = j' := fun e => hj' e.symm
        simp [hj', hj'']
    · simp [h]

theorem sum_filter_ne_zero (r : List (Nat × ℚ)) (j : Nat) :
    (((r.filter (fun p => ¬ p.2 = 0)).filter (fun p => p.1 = j)).map (fun p => p.2)).sum
      = ((r.filter (fun p => p.1 = j)).map (fun p => p.2)).sum := by
  induction r with
  | nil => rfl
  | cons p ps ih =>
    by_cases h0 : p.2 = 0
    · by_cases hj : p.1 = j
      · simp only [List.filter_cons, h0, hj, decide_True, decide_False, not_true_eq_false,
          not_false_eq_true, if_true, if_false, List.map_cons, List.sum_cons, zero_add]
        simpa [hj] using ih
      · simp only [List.filter_cons, h0, hj, decide_True, decide_False, not_true_eq_false,
          not_false_eq_true, if_true, if_false, List.map_cons, List.sum_cons]
        simpa [hj] using ih
    · by_cases hj : p.1 = j
      · simp only [List.filter_cons, h0, hj, decide_True, decide_False, not_true_eq_false,
          not_false_eq_true, if_true, if_false, List.map_cons, List.sum_cons]
        simpa [hj] using ih
      · simp only [List.filter_cons, h0, hj, decide_True, decide_False, not_true_eq_false,
          not_false_eq_true, if_true, if_false, List.map_cons, List.sum_cons]
        simpa [hj] using ih

theorem Elem_Finalize (A : SparseMatrix) (i j : Nat) : A.Finalize.Elem i j = A.Elem i j := by
  unfold SparseMatrix.Elem SparseMatrix.Finalize
  simp only
  have e : (A.rows.map (fun r => r.filter (fun p => ¬ p.2 = 0))).getD i []
      = (A.rows.getD i []).filter (fun p => ¬ p.2 = 0) := by
    rw [List.getD_eq_getElem?_getD, List.getElem?_map, List.getD_eq_getElem?_getD]
    cases A.rows[i]? <;> simp
  rw [e]
  exact sum_filter_ne_zero _ j

theorem Height_Finalize (A : SparseMatrix) : A.Finalize.Height = A.Height := by
  simp [SparseMatrix.Finalize, SparseMatrix.Height]

theorem AssembleStep_slave (P : EliminationProjection) (st : AssembleState) (i : Nat)
    (hs : P.slave_contact_dofs_.Sorted (fun x y => x < y))
    (hi : i ∈ P.slave_contact_dofs_) : P.AssembleStep st i = .ok st := by
  unfold EliminationProjection.AssembleStep
  rw [if_pos ((FindSorted_nonneg_iff _ _ hs).2 hi)]
  rfl

theorem AssembleStep_nonslave (P : EliminationProjection) (st : AssembleState) (i : Nat)
    (out' : SparseMatrix)
    (hs : P.slave_contact_dofs_.Sorted (fun x y => x < y))
    (hm : P.master_contact_dofs_.Sorted (fun x y => x < y))
    (hi : i ∉ P.slave_contact_dofs_) (h1 : st.out.Set i st.column_dof 1 = .ok out') :
    P.AssembleStep st i = .ok ⟨out', st.column_dof + 1,
      if i ∈ P.master_contact_dofs_ then st.mapped_master_contact_dofs ++ [st.column_dof]
      else st.mapped_master_contact_dofs⟩ := by
  unfold EliminationProjection.AssembleStep
  rw [if_neg (fun h => hi ((FindSorted_nonneg_iff _ _ hs).1 h))]
  simp only [h1, bind, Except.bind, pure, Except.pure, FindSorted_nonneg_iff _ _ hm]

theorem AssembleScan_ok (P : EliminationProjection) (w : Nat)
    (hs : P.slave_contact_dofs_.Sorted (fun x y => x < y))
    (hm : P.master_contact_dofs_.Sorted (fun x y => x < y))
    (hw : reducedIndex P.slave_contact_dofs_ P.A_.Height ≤ w)
    (k : Nat) (hk : k ≤ P.A_.Height) :
    ∃ out, (List.range k).foldlM P.AssembleStep ⟨SparseMatrix.new P.A_.Height w, 0, []⟩ =
      .ok ⟨out, reducedIndex P.slave_contact_dofs_ k,
          ((List.range k).filter (fun i =>
            decide (i ∉ P.slave_contact_dofs_ ∧ i ∈ P.master_contact_dofs_))).map
            (reducedIndex P.slave_contact_dofs_)⟩ ∧
      out.Height = P.A_.Height ∧ out.width = w ∧
      ∀ i q, out.Elem i q =
        if i < k ∧ i ∉ P.slave_contact_dofs_ ∧ q = reducedIndex P.slave_contact_dofs_ i
        then 1 else 0 := by
  induction k with
  | zero =>
    refine ⟨SparseMatrix.new P.A_.Height w, ?_, ?_, rfl, ?_⟩
    · simp [reducedIndex_zero, pure, Except.pure]
    · simp [SparseMatrix.new, SparseMatrix.Height]
    · intro i q
      rw [Elem_new]
      simp
  | succ k ih =>
    obtain ⟨out, hfold, hH, hW, hE⟩ := ih (by omega)
    rw [List.range_succ, List.foldlM_append, hfold]
    simp only [bind, Except.bind, List.foldlM_cons, List.foldlM_nil]
    by_cases hi : k ∈ P.slave_contact_dofs_
    · refine ⟨out, ?_, hH, hW, ?_⟩
      · rw [AssembleStep_slave P _ k hs hi]
        simp only [pure, Except.pure, reducedIndex_succ, if_pos hi, List.filter_append]
        congr 2
        simp [hi]
      · intro i q
        rw [hE]
        by_cases hik : i = k
        · subst hik; simp [hi]
        · have : (i < k + 1) ↔ (i < k) := by omega
          simp [this]
    · have hlt : reducedIndex P.slave_contact_dofs_ k < w :=
        lt_of_lt_of_le (reducedIndex_lt _ (show k < P.A_.Height by omega) hi) hw
      obtain ⟨out', hset, hH', hW', hE'⟩ := Set_ok out k (reducedIndex P.slave_contact_dofs_ k) 1
        (by rw [hH]; omega) (by rw [hW]; exact hlt)
      refine ⟨out', ?_, by rw [hH', hH], by rw [hW', hW], ?_⟩
      · rw [AssembleStep_nonslave P _ k out' hs hm hi hset]
        simp only [pure, Except.pure, reducedIndex_succ, if_neg hi, List.filter_append]
        congr 2
        by_cases hmk : k ∈ P.master_contact_dofs_
        · simp [hi, hmk]
        · simp [hi, hmk]
      · intro i q
        rw [hE', hE]
        by_cases hik : i = k
        · subst hik
          by_cases hq : q = reducedIndex P.slave_contact_dofs_ i
          · simp [hq, hi]
          · simp [hq]
        · have : (i < k + 1) ↔ (i < k) := by omega
          simp [hik, this]

theorem Solve_cols (lu : LUFactors) (n : Nat) (X : List ℚ) (hX : X.length = lu.m * n) :
    lu.Solve lu.m n X = .ok ((List.range n).flatMap (fun j =>
      (List.range lu.m).map (fun i => lu.solveEntry (fun a => X.getD (a + j * lu.m) 0) i))) := by
  unfold LUFactors.Solve
  rw [if_neg (by simp), if_neg (by omega)]
  simp [List.drop_eq_nil_of_le, hX]

theorem DenseMatrix_elem_ok (M : DenseMatrix) (i j : Nat) (hi : i < M.height) (hj : j < M.width)
    (hl : M.data.length = M.width * M.height) : M.elem i j = .ok (M.entry i j) := by
  unfold DenseMatrix.elem DenseMatrix.entry
  rw [if_pos ⟨hi, hj⟩]
  have hlt : i + j * M.height < M.data.length := by
    rw [hl]
    calc i + j * M.height < M.height + j * M.height := by omega
      _ = (j + 1) * M.height := by ring
      _ ≤ M.width * M.height := Nat.mul_le_mul_right _ hj
  rw [List.getD_eq_getElem?_getD, List.getElem?_eq_getElem hlt]
  rfl

theorem ArrayElem_ok (a : List Nat) (i : Nat) (h : i < a.length) :
    ArrayElem a i = .ok (a.getD i 0) := by
  unfold ArrayElem
  rw [List.getD_eq_getElem?_getD, List.getElem?_eq_getElem h]
  rfl

theorem AssembleInner_loop (block : DenseMatrix) (mapped : List Nat) (i iz : Nat)
    (out : SparseMatrix) (hi : i < out.Height) (hmap : ∀ d ∈ mapped, d < out.width)
    (hiz : iz < block.height) (hbw : mapped.length = block.width)
    (hbl : block.data.length = block.width * block.height) (k : Nat) (hk : k ≤ mapped.length) :
    ∃ out', (List.range k).foldlM
        (EliminationProjection.AssembleInnerStep block mapped i iz) out = Except.ok out' ∧
      out'.Height = out.Height ∧ out'.width = out.width ∧
      ∀ i' q', out'.Elem i' q' = out.Elem i' q' + ∑ jz in Finset.range k,
        if i' = i ∧ q' = mapped.getD jz 0 then -(block.entry iz jz) else 0 := by
  induction k with
  | zero =>
    exact ⟨out, rfl, rfl, rfl, fun i' q' => by simp⟩
  | succ k ih =>
    obtain ⟨o1, hfold, hH, hW, hE⟩ := ih (by omega)
    have hk' : k < mapped.length := by omega
    have hmem := getD_mem mapped k hk'
    obtain ⟨o2, hadd, hH2, hW2, hE2⟩ := Add_ok o1 i (mapped.getD k 0) (-(block.entry iz k))
      (by rw [hH]; exact hi) (by rw [hW]; exact hmap _ hmem)
    refine ⟨o2, ?_, by rw [hH2, hH], by rw [hW2, hW], ?_⟩
    · rw [List.range_succ, List.foldlM_append, hfold]
      simp only [bind, Except.bind, List.foldlM_cons, List.foldlM_nil]
      unfold EliminationProjection.AssembleInnerStep
      rw [ArrayElem_ok mapped k hk', DenseMatrix_elem_ok block iz k hiz (by omega) hbl]
      simp only [bind, Except.bind, pure, Except.pure]
      rw [hadd]
    · intro i' q'
      rw [hE2, hE, Finset.sum_range_succ, add_assoc]

theorem AssembleInner_ok (block : DenseMatrix) (mapped : List Nat) (i iz : Nat)
    (out : SparseMatrix) (hi : i < out.Height) (hmap : ∀ d ∈ mapped, d < out.width)
    (hiz : iz < block.height) (hbw : mapped.length = block.width)
    (hbl : block.data.length = block.width * block.height) :
    ∃ out', EliminationProjection.AssembleInner block mapped i iz out = Except.ok out' ∧
      out'.Height = out.Height ∧ out'.width = out.width ∧
      ∀ i' q', out'.Elem i' q' = out.Elem i' q' + ∑ jz in Finset.range mapped.length,
        if i' = i ∧ q' = mapped.getD jz 0 then -(block.entry iz jz) else 0 :=
  AssembleInner_loop block mapped i iz out hi hmap hiz hbw hbl mapped.length (le_refl _)

theorem AssembleOuter_loop (block : DenseMatrix) (mapped slave : List Nat)
    (out : SparseMatrix) (hs : ∀ d ∈ slave, d < out.Height) (hmap : ∀ d ∈ mapped, d < out.width)
    (hsl : slave.length ≤ block.height) (hbw : mapped.length = block.width)
    (hbl : block.data.length = block.width * block.height) (k : Nat) (hk : k ≤ slave.length) :
    ∃ out', (List.range k).foldlM
        (EliminationProjection.AssembleOuterStep block mapped slave) out = Except.ok out' ∧
      out'.Height = out.Height ∧ out'.width = out.width ∧
      ∀ i' q', out'.Elem i' q' = out.Elem i' q' + ∑ iz in Finset.range k,
        ∑ jz in Finset.range mapped.length,
          if i' = slave.getD iz 0 ∧ q' = mapped.getD jz 0 then -(block.entry iz jz) else 0 := by
  induction k with
  | zero =>
    exact ⟨out, rfl, rfl, rfl, fun i' q' => by simp⟩
  | succ k ih =>
    obtain ⟨o1, hfold, hH, hW, hE⟩ := ih (by omega)
    have hk' : k < slave.length := by omega
    have hmem := getD_mem slave k hk'
    obtain ⟨o2, hin, hH2, hW2, hE2⟩ := AssembleInner_ok block mapped (slave.getD k 0) k o1
      (by rw [hH]; exact hs _ hmem) (by rw [hW]; exact hmap) (by omega) hbw hbl
    refine ⟨o2, ?_, by rw [hH2, hH], by rw [hW2, hW], ?_⟩
    · rw [List.range_succ, List.foldlM_append, hfold]
      simp only [bind, Except.bind, List.foldlM_cons, List.foldlM_nil]
      unfold EliminationProjection.AssembleOuterStep
      rw [ArrayElem_ok slave k hk']
      simp only [bind, Except.bind, pure, Except.pure]
      rw [hin]
    · intro i' q'
      rw [hE2, hE, Finset.sum_range_succ, add_assoc]

theorem CmOf_data_length (B : SparseMatrix) (cols : List Nat) :
    (CmOf B cols).data.length = cols.length * B.Height :=
  CsOf_data_length B cols

theorem AssembleApproximate_ok (A B : SparseMatrix) (master slave : List Nat)
    (hv : ValidConfig A B master slave) :
    ∃ M, (projectorOf A B master slave).AssembleApproximate = .ok M ∧
      M.Height = A.Height ∧ M.width = A.Height - slave.length ∧
      ∀ i q, M.Elem i q =
        (if i < A.Height ∧ i ∉ slave ∧ q = reducedIndex slave i then 1 else 0)
        + ∑ iz in Finset.range slave.length, ∑ jz in Finset.range master.length,
          if i = slave.getD iz 0 ∧ q = reducedIndex slave (master.getD jz 0)
          then -(blockEntry B master slave iz jz) else 0 := by
  have hsz := hv.size_le
  obtain ⟨o1, hscan, hH1, hW1, hE1⟩ := AssembleScan_ok (projectorOf A B master slave)
    (A.Height - slave.length) hv.slave_sorted hv.master_sorted
    (by simp only [projectorOf]; omega) A.Height (le_refl _)
  simp only [projectorOf] at hscan hH1 hE1
  rw [mapped_eq master slave A.Height hv.master_sorted hv.master_lt hv.disjoint] at hscan
  have hsolve := Solve_cols ⟨B.Height, fun i j => (CsOf B slave).data.getD (i + j * B.Height) 0⟩
    master.length (CmOf B master).data (by rw [CmOf_data_length]; ring)
  simp only at hsolve
  have hblen : ((List.range master.length).flatMap (fun j =>
      (List.range B.Height).map (fun i =>
        LUFactors.solveEntry ⟨B.Height, fun i j => (CsOf B slave).data.getD (i + j * B.Height) 0⟩
          (fun a => (CmOf B master).data.getD (a + j * B.Height) 0) i))).length
      = master.length * B.Height := by
    rw [length_flatMap_uniform _ _ B.Height (by simp)]
    simp
  obtain ⟨o2, hout, hH2, hW2, hE2⟩ := AssembleOuter_loop
    ⟨B.Height, master.length, (List.range master.length).flatMap (fun j =>
      (List.range B.Height).map (fun i =>
        LUFactors.solveEntry ⟨B.Height, fun i j => (CsOf B slave).data.getD (i + j * B.Height) 0⟩
          (fun a => (CmOf B master).data.getD (a + j * B.Height) 0) i))⟩
    (master.map (reducedIndex slave)) slave o1
    (by rw [hH1]; exact hv.slave_lt)
    (by
      intro d hd
      obtain ⟨c, hc, rfl⟩ := List.mem_map.mp hd
      rw [hW1]
      have := reducedIndex_lt slave (hv.master_lt c hc) (hv.disjoint c hc)
      omega)
    (by simp [hv.slave_size]) (by simp) hblen slave.length (le_refl _)
  refine ⟨o2.Finalize, ?_, by rw [Height_Finalize, hH2, hH1], by
    show o2.width = _
    rw [hW2, hW1], ?_⟩
  · simp only [EliminationProjection.AssembleApproximate, projectorOf, bind, Except.bind]
    rw [hscan]
    simp only
    rw [MFEM_ASSERT_ok _ (by simp)]
    simp only
    have e3 : (CsOf B slave).height = B.Height := rfl
    have e4 : (CmOf B master).width = master.length := rfl
    have e5 : (CmOf B master).height = B.Height := rfl
    rw [e3, e4, e5, hsolve]
    simp only
    rw [hout]
    rfl
  · intro i q
    rw [Elem_Finalize, hE2, hE1]
    congr 1
    apply Finset.sum_congr rfl
    intro iz hiz
    have hiz' : iz < B.Height := by rw [← hv.slave_size]; exact Finset.mem_range.mp hiz
    rw [List.length_map]
    apply Finset.sum_congr rfl
    intro jz hjz
    have hjz' : jz < master.length := Finset.mem_range.mp hjz
    rw [getD_map_nat master _ jz hjz']
    congr 2
    unfold DenseMatrix.entry blockEntry
    simp only
    rw [getD_flatMap_uniform (List.range master.length) _ B.Height (by simp) iz jz hiz'
      (by simpa using hjz'), getD_range_map, if_pos hiz']
    apply solveEntry_congr
    · intro a b ha hb
      exact CsOf_data_getD B slave a b ha (by rw [hv.slave_size]; exact hb)
    · intro a ha
      rw [List.getD_eq_getElem?_getD (List.range master.length), List.getElem?_range hjz']
      exact CsOf_data_getD B master a jz ha hjz'

theorem solveEntry_zero (lu : LUFactors) (b : Nat) : lu.solveEntry (fun _ => 0) b = 0 := by
  unfold LUFactors.solveEntry
  by_cases h : b < lu.m
  · simp only [h, dif_pos]
    unfold LUFactors.solveCol
    have e : (fun _ : Fin lu.m => (0 : ℚ)) = 0 := rfl
    rw [e, Matrix.mulVec_zero, smul_zero]
    rfl
  · simp [h]

theorem solveEntry_add (lu : LUFactors) (c d : Nat → ℚ) (a : Nat) :
    lu.solveEntry (fun b => c b + d b) a = lu.solveEntry c a + lu.solveEntry d a := by
  unfold LUFactors.solveEntry
  by_cases h : a < lu.m
  · simp only [h, dif_pos]
    unfold LUFactors.solveCol
    have e : (fun a : Fin lu.m => c a + d a) = (fun a : Fin lu.m => c a) + (fun a : Fin lu.m => d a) :=
      rfl
    rw [e, Matrix.mulVec_add, smul_add]
    rfl
  · simp [h]

theorem solveEntry_mul_const (lu : LUFactors) (c : Nat → ℚ) (s : ℚ) (a : Nat) :
    lu.solveEntry (fun b => c b * s) a = lu.solveEntry c a * s := by
  unfold LUFactors.solveEntry
  by_cases h : a < lu.m
  · simp only [h, dif_pos]
    unfold LUFactors.solveCol
    have e : (fun a : Fin lu.m => c a * s) = s • (fun a : Fin lu.m => c a) := by
      funext a; simp [mul_comm]
    rw [e, Matrix.mulVec_smul]
    simp only [Pi.smul_apply, smul_eq_mul]
    ring
  · simp [h]

theorem solveEntry_sum (lu : LUFactors) (k : Nat) (c : Nat → Nat → ℚ) (s : Nat → ℚ) (b : Nat) :
    lu.solveEntry (fun a => ∑ j in Finset.range k, c j a * s j) b
      = ∑ j in Finset.range k, lu.solveEntry (c j) b * s j := by
  induction k with
  | zero => simp [solveEntry_zero]
  | succ k ih =>
    simp only [Finset.sum_range_succ]
    rw [solveEntry_add, ih, solveEntry_mul_const]

theorem slaveValue_eq_sum (B : SparseMatrix) (master slave : List Nat) (x : Vector) (b : Nat) :
    slaveValue B master slave x b = ∑ j in Finset.range master.length,
      -(blockEntry B master slave b j) * x.getD (reducedIndex slave (master.getD j 0)) 0 := by
  unfold slaveValue CmTimes blockEntry
  rw [solveEntry_sum, ← Finset.sum_neg_distrib]
  apply Finset.sum_congr rfl
  intro j _
  ring

theorem Assembled_rowDot (A B : SparseMatrix) (master slave : List Nat)
    (hv : ValidConfig A B master slave) (M : SparseMatrix)
    (hW : M.width = A.Height - slave.length)
    (hE : ∀ i q, M.Elem i q =
        (if i < A.Height ∧ i ∉ slave ∧ q = reducedIndex slave i then 1 else 0)
        + ∑ iz in Finset.range slave.length, ∑ jz in Finset.range master.length,
          if i = slave.getD iz 0 ∧ q = reducedIndex slave (master.getD jz 0)
          then -(blockEntry B master slave iz jz) else 0)
    (x : Vector) (i : Nat) (hi : i < A.Height) :
    M.rowDot x i = (MultResult A B master slave x).getD i 0 := by
  have hsz := hv.size_le
  unfold SparseMatrix.rowDot MultResult
  rw [getD_range_map, if_pos hi, hW]
  by_cases his : i ∈ slave
  · rw [if_pos his, slaveValue_eq_sum]
    have hb : slave.indexOf i < slave.length := List.indexOf_lt_length.mpr his
    have hbi : slave.getD (slave.indexOf i) 0 = i := by
      rw [List.getD_eq_getElem?_getD, List.getElem?_eq_getElem hb]
      simp
    have hrow : ∀ q, M.Elem i q = ∑ jz in Finset.range master.length,
        if q = reducedIndex slave (master.getD jz 0)
        then -(blockEntry B master slave (slave.indexOf i) jz) else 0 := by
      intro q
      rw [hE, if_neg (by simp [his]), zero_add]
      rw [Finset.sum_eq_single (slave.indexOf i)]
      · apply Finset.sum_congr rfl
        intro jz _
        simp only [hbi, true_and]
      · intro iz hiz hne
        apply Finset.sum_eq_zero
        intro jz _
        rw [if_neg]
        rintro ⟨h1, _⟩
        apply hne
        have := indexOf_getD slave iz hv.slave_sorted.nodup (Finset.mem_range.mp hiz)
        rw [← h1] at this
        exact this.symm
      · intro h
        exact absurd (Finset.mem_range.mpr hb) h
    simp only [hrow, Finset.sum_mul]
    rw [Finset.sum_comm]
    apply Finset.sum_congr rfl
    intro jz hjz
    have hjz' := Finset.mem_range.mp hjz
    have hc := getD_mem master jz hjz'
    have hlt : reducedIndex slave (master.getD jz 0) < A.Height - slave.length := by
      have := reducedIndex_lt slave (hv.master_lt _ hc) (hv.disjoint _ hc)
      omega
    rw [Finset.sum_eq_single (reducedIndex slave (master.getD jz 0))]
    · simp
    · intro q _ hne
      rw [if_neg hne, zero_mul]
    · intro h
      exact absurd (Finset.mem_range.mpr hlt) h
  · rw [if_neg his]
    have hrow : ∀ q, M.Elem i q = if q = reducedIndex slave i then 1 else 0 := by
      intro q
      rw [hE]
      have : (∑ iz in Finset.range slave.length, ∑ jz in Finset.range master.length,
          if i = slave.getD iz 0 ∧ q = reducedIndex slave (master.getD jz 0)
          then -(blockEntry B master slave iz jz) else 0) = 0 := by
        apply Finset.sum_eq_zero
        intro iz hiz
        apply Finset.sum_eq_zero
        intro jz _
        rw [if_neg]
        rintro ⟨h1, _⟩
        apply his
        rw [h1]
        exact getD_mem slave iz (Finset.mem_range.mp hiz)
      rw [this, add_zero]
      simp [hi, his]
    simp only [hrow]
    have hlt : reducedIndex slave i < A.Height - slave.length := by
      have := reducedIndex_lt slave hi his
      omega
    rw [Finset.sum_eq_single (reducedIndex slave i)]
    · simp
    · intro q _ hne
      rw [if_neg hne, zero_mul]
    · intro h
      exact absurd (Finset.mem_range.mpr hlt) h

theorem BuildPreconditioner_ok (A B : SparseMatrix) (master slave : List Nat)
    (hv : ValidConfig A B master slave) :
    EliminationCGSolver.BuildPreconditioner A B master slave
      = .ok (solverOf A B master slave) := by
  obtain ⟨M, hM, _⟩ := AssembleApproximate_ok A B master slave hv
  unfold EliminationCGSolver.BuildPreconditioner
  rw [new_ok A B master slave hv]
  simp only [bind, Except.bind]
  rw [hM]
  rfl

theorem newExplicit_ok (A B : SparseMatrix) (master slave : List Nat)
    (hv : ValidConfig A B master slave) :
    EliminationCGSolver.newExplicit A B master slave = .ok (solverOf A B master slave) :=
  BuildPreconditioner_ok A B master slave hv

/-! ### Entries of `P x`, `gtilde` and the assembled matrix -/

theorem MultResult_slave (A B : SparseMatrix) (master slave : List Nat)
    (hv : ValidConfig A B master slave) (x : Vector) (b : Nat) (hb : b < slave.length) :
    (MultResult A B master slave x).getD (slave.getD b 0) 0 = slaveValue B master slave x b := by
  have hmem := getD_mem slave b hb
  unfold MultResult
  rw [getD_range_map, if_pos (hv.slave_lt _ hmem), if_pos hmem,
    indexOf_getD slave b hv.slave_sorted.nodup hb]

theorem MultResult_nonslave (A B : SparseMatrix) (master slave : List Nat) (x : Vector) (i : Nat)
    (hi : i < A.Height) (his : i ∉ slave) :
    (MultResult A B master slave x).getD i 0 = x.getD (reducedIndex slave i) 0 := by
  unfold MultResult
  rw [getD_range_map, if_pos hi, if_neg his]

theorem CmTimes_eq_mulVec (B : SparseMatrix) (master slave : List Nat) (x : Vector) :
    (fun a : Fin B.Height => CmTimes B master slave x a)
      = (CmMatrix B master).mulVec
        (fun j : Fin master.length => x.getD (reducedIndex slave (master.getD j 0)) 0) := by
  funext a
  unfold CmTimes
  rw [Finset.sum_range]
  rfl

theorem slaveValue_eq_inv (B : SparseMatrix) (master slave : List Nat) (x : Vector)
    (b : Fin B.Height) :
    slaveValue B master slave x b = (-((CsMatrix B slave)⁻¹.mulVec ((CmMatrix B master).mulVec
      (fun j : Fin master.length => x.getD (reducedIndex slave (master.getD j 0)) 0)))) b := by
  unfold slaveValue
  have h := solveEntry_eq_inv (CsFactors B slave) (CmTimes B master slave x) b
  rw [Pi.neg_apply, ← CmTimes_eq_mulVec]
  exact congrArg Neg.neg h

theorem exValid : ValidConfig exA exB [2] [3] where
  A_square := rfl
  B_width := rfl
  master_sorted := by simp
  slave_sorted := by simp
  disjoint := by simp
  master_lt := by simp [exA, SparseMatrix.Height]
  slave_lt := by simp [exA, SparseMatrix.Height]
  slave_size := rfl
  Cs_nonsingular := by
    show (Matrix.of (fun (a b : Fin 1) => exB.Elem a ([3].getD b 0))).det ≠ 0
    rw [Matrix.det_fin_one]
    simp [SparseMatrix.Elem, exB]

theorem range_map_getD_self (v : Vector) : (List.range v.length).map (fun i => v.getD i 0) = v := by
  apply ext_getD _ _ (by simp)
  intro i hi
  simp only [List.length_map, List.length_range] at hi
  rw [getD_range_map, if_pos hi]

theorem B_Mult_GTilde_ok (A B : SparseMatrix) (master slave : List Nat)
    (hv : ValidConfig A B master slave) (g y : Vector) (hg : g.length = B.Height)
    (hy : y.length = B.Height) :
    B.Mult (GTildeResult A B slave g) y = .ok g := by
  rw [SparseMatrix_Mult_ok B _ y (by rw [hv.B_width, GTildeResult_length]) hy.symm]
  congr 1
  rw [← hg]
  conv_rhs => rw [← range_map_getD_self g]
  apply List.map_congr_left
  intro i hi
  exact B_mul_GTilde A B master slave hv g i (by rw [← hg]; exact List.mem_range.mp hi)

theorem Cs_mul_GTilde (A B : SparseMatrix) (master slave : List Nat)
    (hv : ValidConfig A B master slave) (g : Vector) :
    (CsMatrix B slave).mulVec (fun b : Fin B.Height =>
      (GTildeResult A B slave g).getD (slave.getD b 0) 0) = fun a : Fin B.Height => g.getD a 0 := by
  have h := solveCol_spec (CsFactors B slave) (CsFactors_det hv) (fun a => g.getD a 0)
  have e : (fun b : Fin B.Height => (GTildeResult A B slave g).getD (slave.getD b 0) 0)
      = (CsFactors B slave).solveCol (fun a => g.getD a 0) := by
    funext b
    rw [GTildeResult_slave A B master slave hv g b b.2]
    unfold LUFactors.solveEntry
    rw [dif_pos (show (b : Nat) < (CsFactors B slave).m from b.2)]
    rfl
  rw [e]
  exact h

theorem exB_columns : ∀ i j, exB.Elem i j ≠ 0 → j ∈ [2] ∨ j ∈ [3] := by
  intro i j h
  by_contra hc
  apply h
  have h2 : ¬ j = 2 := fun e => hc (by simp [e])
  have h3 : ¬ j = 3 := fun e => hc (by simp [e])
  have e2 : ¬ 2 = j := fun e => h2 e.symm
  have e3 : ¬ 3 = j := fun e => h3 e.symm
  unfold SparseMatrix.Elem exB
  rcases i with _ | i
  · simp [e2, e3]
  · simp

theorem blockEntry_eq_inv (B : SparseMatrix) (master slave : List Nat) (iz : Fin B.Height)
    (jz : Fin master.length) :
    blockEntry B master slave iz jz = ((CsMatrix B slave)⁻¹ * CmMatrix B master) iz jz := by
  unfold blockEntry
  have h := solveEntry_eq_inv (CsFactors B slave) (fun a => B.Elem a (master.getD jz 0)) iz
  rw [Matrix.mul_apply]
  exact h

theorem slave_index_unique (slave : List Nat) (hn : slave.Nodup) (iz iz0 : Nat)
    (h1 : iz < slave.length) (h2 : iz0 < slave.length)
    (h : slave.getD iz0 0 = slave.getD iz 0) : iz = iz0 := by
  have e1 := indexOf_getD slave iz hn h1
  have e2 := indexOf_getD slave iz0 hn h2
  rw [h] at e2
  omega

theorem Assembled_entries (A B : SparseMatrix) (master slave : List Nat)
    (hv : ValidConfig A B master slave) (M : SparseMatrix)
    (hE : ∀ i q, M.Elem i q =
        (if i < A.Height ∧ i ∉ slave ∧ q = reducedIndex slave i then 1 else 0)
        + ∑ iz in Finset.range slave.length, ∑ jz in Finset.range master.length,
          if i = slave.getD iz 0 ∧ q = reducedIndex slave (master.getD jz 0)
          then -(blockEntry B master slave iz jz) else 0) :
    (∀ i, i < A.Height → i ∉ slave → M.Elem i (reducedIndex slave i) = 1) ∧
    (∀ (iz : Fin B.Height) (jz : Fin master.length),
      M.Elem (slave.getD iz 0) (reducedIndex slave (master.getD jz 0))
        = -((CsMatrix B slave)⁻¹ * CmMatrix B master) iz jz) ∧
    (∀ i q, ¬ (i < A.Height ∧ i ∉ slave ∧ q = reducedIndex slave i) →
      ¬ (∃ iz jz, iz < slave.length ∧ jz < master.length ∧ i = slave.getD iz 0 ∧
        q = reducedIndex slave (master.getD jz 0)) → M.Elem i q = 0) := by
  refine ⟨?_, ?_, ?_⟩
  · intro i hi his
    rw [hE, if_pos ⟨hi, his, rfl⟩]
    have : (∑ iz in Finset.range slave.length, ∑ jz in Finset.range master.length,
        if i = slave.getD iz 0 ∧ reducedIndex slave i = reducedIndex slave (master.getD jz 0)
        then -(blockEntry B master slave iz jz) else 0) = 0 := by
      apply Finset.sum_eq_zero
      intro iz hiz
      apply Finset.sum_eq_zero
      intro jz _
      rw [if_neg]
      rintro ⟨h1, _⟩
      apply his
      rw [h1]
      exact getD_mem slave iz (Finset.mem_range.mp hiz)
    rw [this, add_zero]
  · intro iz jz
    have hiz : (iz : Nat) < slave.length := by rw [hv.slave_size]; exact iz.2
    have hsm := getD_mem slave iz hiz
    have hmm := getD_mem master jz jz.2
    rw [hE, if_neg (fun h => h.2.1 hsm), zero_add, ← blockEntry_eq_inv]
    rw [Finset.sum_eq_single (iz : Nat)]
    · rw [Finset.sum_eq_single (jz : Nat)]
      · rw [if_pos ⟨rfl, rfl⟩]
      · intro j hj hne
        rw [if_neg]
        rintro ⟨_, h2⟩
        apply hne
        have hjm := getD_mem master j (Finset.mem_range.mp hj)
        have h3 := reducedIndex_inj slave (hv.disjoint _ hmm) (hv.disjoint _ hjm) h2
        exact slave_index_unique master hv.master_sorted.nodup j jz (Finset.mem_range.mp hj)
          jz.2 h3
      · intro h
        exact absurd (Finset.mem_range.mpr jz.2) h
    · intro i hi hne
      apply Finset.sum_eq_zero
      intro j _
      rw [if_neg]
      rintro ⟨h1, _⟩
      apply hne
      exact slave_index_unique slave hv.slave_sorted.nodup i iz (Finset.mem_range.mp hi) hiz h1
    · intro h
      exact absurd (Finset.mem_range.mpr hiz) h
  · intro i q h1 h2
    rw [hE, if_neg h1, zero_add]
    apply Finset.sum_eq_zero
    intro iz hiz
    apply Finset.sum_eq_zero
    intro jz hjz
    rw [if_neg]
    rintro ⟨h3, h4⟩
    exact h2 ⟨iz, jz, Finset.mem_range.mp hiz, Finset.mem_range.mp hjz, h3, h4⟩

theorem Assembled_Mult_ok (A B : SparseMatrix) (master slave : List Nat)
    (hv : ValidConfig A B master slave) (M : SparseMatrix) (hH : M.Height = A.Height)
    (hW : M.width = A.Height - slave.length)
    (hE : ∀ i q, M.Elem i q =
        (if i < A.Height ∧ i ∉ slave ∧ q = reducedIndex slave i then 1 else 0)
        + ∑ iz in Finset.range slave.length, ∑ jz in Finset.range master.length,
          if i = slave.getD iz 0 ∧ q = reducedIndex slave (master.getD jz 0)
          then -(blockEntry B master slave iz jz) else 0)
    (x y0 : Vector) (hx : x.length = A.Height - slave.length) (hy : y0.length = A.Height) :
    M.Mult x y0 = .ok (MultResult A B master slave x) := by
  rw [SparseMatrix_Mult_ok M x y0 (by rw [hW, hx]) (by rw [hH, hy])]
  congr 1
  rw [hH]
  conv_rhs => rw [← range_map_getD_self (MultResult A B master slave x), MultResult_length]
  apply List.map_congr_left
  intro i hi
  exact Assembled_rowDot A B master slave hv M hW hE x i (List.mem_range.mp hi)

/-! ### Inner products with `P x` and `P^T v` -/

theorem MultTransposeResult_getD (A B : SparseMatrix) (master slave : List Nat) (x : Vector)
    (q : Nat) (hq : q < A.Height - slave.length) :
    (MultTransposeResult A B master slave x).getD q 0 =
      x.getD ((nonSlaveDofs slave A.Height).getD q 0) 0 +
        if (nonSlaveDofs slave A.Height).getD q 0 ∈ master
        then masterValue B master slave x (master.indexOf ((nonSlaveDofs slave A.Height).getD q 0))
        else 0 := by
  unfold MultTransposeResult
  rw [getD_range_map, if_pos hq]

theorem dot_Mult (A B : SparseMatrix) (master slave : List Nat)
    (hv : ValidConfig A B master slave) (u v : Vector) (hlen : v.length = A.Height) :
    Vector.dot (MultResult A B master slave u) v
      = (∑ i in Finset.range A.Height,
          if i ∉ slave then u.getD (reducedIndex slave i) 0 * v.getD i 0 else 0)
        + ∑ b in Finset.range slave.length,
          slaveValue B master slave u b * v.getD (slave.getD b 0) 0 := by
  rw [dot_eq_sum _ v A.Height (MultResult_length A B master slave u) hlen]
  have hsplit : ∀ i ∈ Finset.range A.Height,
      (MultResult A B master slave u).getD i 0 * v.getD i 0
      = (if i ∉ slave then u.getD (reducedIndex slave i) 0 * v.getD i 0 else 0)
        + (if i ∈ slave then (MultResult A B master slave u).getD i 0 * v.getD i 0 else 0) := by
    intro i hi
    by_cases his : i ∈ slave
    · simp [his]
    · rw [if_pos his, if_neg his, add_zero,
        MultResult_nonslave A B master slave u i (Finset.mem_range.mp hi) his]
  rw [Finset.sum_congr rfl hsplit, Finset.sum_add_distrib]
  congr 1
  rw [sum_range_eq_sum_list slave A.Height _ hv.slave_sorted.nodup hv.slave_lt
    (fun j _ hj => by rw [if_neg hj])]
  apply Finset.sum_congr rfl
  intro b hb
  have hb' := Finset.mem_range.mp hb
  rw [if_pos (getD_mem slave b hb'), MultResult_slave A B master slave hv u b hb']

theorem dot_MultTranspose (A B : SparseMatrix) (master slave : List Nat)
    (hv : ValidConfig A B master slave) (u v : Vector)
    (hlen : u.length = A.Height - slave.length) :
    Vector.dot u (MultTransposeResult A B master slave v)
      = (∑ i in Finset.range A.Height,
          if i ∉ slave then u.getD (reducedIndex slave i) 0 * v.getD i 0 else 0)
        + ∑ j in Finset.range master.length,
          u.getD (reducedIndex slave (master.getD j 0)) 0 * masterValue B master slave v j := by
  have hsz := hv.size_le
  rw [dot_eq_sum u _ (A.Height - slave.length) hlen (MultTransposeResult_length A B master slave v)]
  have hw : A.Height - slave.length = reducedIndex slave A.Height := by omega
  have hsplit : ∀ q ∈ Finset.range (A.Height - slave.length),
      u.getD q 0 * (MultTransposeResult A B master slave v).getD q 0
      = u.getD q 0 * v.getD ((nonSlaveDofs slave A.Height).getD q 0) 0
        + (if (nonSlaveDofs slave A.Height).getD q 0 ∈ master
          then u.getD q 0 * masterValue B master slave v
            (master.indexOf ((nonSlaveDofs slave A.Height).getD q 0)) else 0) := by
    intro q hq
    rw [MultTransposeResult_getD A B master slave v q (Finset.mem_range.mp hq), mul_add]
    congr 1
    split <;> simp
  rw [Finset.sum_congr rfl hsplit, Finset.sum_add_distrib, hw]
  rw [sum_reindex slave A.Height (fun q d => u.getD q 0 * v.getD d 0)]
  congr 1
  rw [sum_reindex slave A.Height (fun q d => if d ∈ master
    then u.getD q 0 * masterValue B master slave v (master.indexOf d) else 0)]
  rw [sum_range_eq_sum_list master A.Height _ hv.master_sorted.nodup hv.master_lt
    (fun j _ hj => by
      simp only [if_neg hj]
      split <;> rfl)]
  apply Finset.sum_congr rfl
  intro j hj
  have hj' := Finset.mem_range.mp hj
  have hm := getD_mem master j hj'
  rw [if_pos (hv.disjoint _ hm), if_pos hm, indexOf_getD master j hv.master_sorted.nodup hj']

theorem slave_master_adjoint (B : SparseMatrix) (master slave : List Nat)
    (hs : slave.length = B.Height) (u v : Vector) :
    ∑ b in Finset.range slave.length,
        slaveValue B master slave u b * v.getD (slave.getD b 0) 0
      = ∑ j in Finset.range master.length,
        u.getD (reducedIndex slave (master.getD j 0)) 0 * masterValue B master slave v j := by
  unfold slaveValue masterValue
  rw [hs]
  have h := solve_adjoint B slave (CmTimes B master slave u) (fun b => v.getD (slave.getD b 0) 0)
  have e1 : ∑ b in Finset.range B.Height,
      -(CsFactors B slave).solveEntry (CmTimes B master slave u) b * v.getD (slave.getD b 0) 0
      = -∑ b in Finset.range B.Height,
        (CsFactors B slave).solveEntry (CmTimes B master slave u) b * v.getD (slave.getD b 0) 0 := by
    rw [← Finset.sum_neg_distrib]
    apply Finset.sum_congr rfl
    intro b _
    ring
  rw [e1, h]
  unfold CmTimes
  simp only [Finset.sum_mul, Finset.mul_sum, mul_neg]
  rw [Finset.sum_comm, ← Finset.sum_neg_distrib]
  apply Finset.sum_congr rfl
  intro j _
  rw [← Finset.sum_neg_distrib, ← Finset.sum_neg_distrib]
  apply Finset.sum_congr rfl
  intro a _
  ring

/-! ### The output of the solver -/

theorem dispRhs_append (A : SparseMatrix) (f g : Vector) (hf : f.length = A.Height) :
    dispRhs A (f ++ g) = f := by
  unfold dispRhs
  rw [← hf]
  conv_rhs => rw [← range_map_getD_self f]
  apply List.map_congr_left
  intro i hi
  rw [List.getD_append _ _ _ _ (List.mem_range.mp hi)]

theorem lagRhs_append (A B : SparseMatrix) (f g : Vector) (hf : f.length = A.Height)
    (hg : g.length = B.Height) : lagRhs A B (f ++ g) = g := by
  unfold lagRhs
  rw [← hg, ← hf]
  conv_rhs => rw [← range_map_getD_self g]
  apply List.map_congr_left
  intro i _
  rw [List.getD_append_right _ _ _ _ (by omega), Nat.add_sub_cancel_left]

theorem dispSol_length (A B : SparseMatrix) (master slave : List Nat) (krylov : CGSolver)
    (rhs : Vector) : (dispSol A B master slave krylov rhs).length = A.Height := by
  simp [dispSol]

theorem pressureSol_length (A B : SparseMatrix) (master slave : List Nat) (krylov : CGSolver)
    (rhs : Vector) : (pressureSol A B master slave krylov rhs).length = B.Height := by
  simp [pressureSol, PressureResult_length]

theorem dispSol_nonslave (A B : SparseMatrix) (master slave : List Nat) (krylov : CGSolver)
    (rhs : Vector) (i : Nat) (hi : i < A.Height) (his : i ∉ slave) :
    (dispSol A B master slave krylov rhs).getD i 0
      = (reducedSol A B master slave krylov rhs).getD (reducedIndex slave i) 0 := by
  unfold dispSol
  rw [getD_range_map, if_pos hi, MultResult_nonslave A B master slave _ i hi his,
    GTildeResult_nonslave A B slave _ i his, add_zero]

theorem dispSol_slave (A B : SparseMatrix) (master slave : List Nat)
    (hv : ValidConfig A B master slave) (krylov : CGSolver) (rhs : Vector) (b : Nat)
    (hb : b < slave.length) :
    (dispSol A B master slave krylov rhs).getD (slave.getD b 0) 0
      = slaveValue B master slave (reducedSol A B master slave krylov rhs) b
        + (CsFactors B slave).solveEntry (fun a => (lagRhs A B rhs).getD a 0) b := by
  unfold dispSol
  rw [getD_range_map, if_pos (hv.slave_lt _ (getD_mem slave b hb)),
    MultResult_slave A B master slave hv _ b hb,
    GTildeResult_slave A B master slave hv _ b (by rw [← hv.slave_size]; exact hb)]

theorem B_mul_dispSol (A B : SparseMatrix) (master slave : List Nat)
    (hv : ValidConfig A B master slave)
    (hcol : ∀ i j, B.Elem i j ≠ 0 → j ∈ master ∨ j ∈ slave)
    (krylov : CGSolver) (rhs : Vector) (i : Nat) (hi : i < B.Height) :
    B.rowDot (dispSol A B master slave krylov rhs) i = (lagRhs A B rhs).getD i 0 := by
  unfold SparseMatrix.rowDot
  rw [hv.B_width, sum_range_split master slave A.Height _ hv.master_sorted.nodup
    hv.slave_sorted.nodup hv.disjoint hv.master_lt hv.slave_lt
    (fun j _ hjm hjs => by
      have : B.Elem i j = 0 := by
        by_contra h
        rcases hcol i j h with h1 | h1
        · exact hjm h1
        · exact hjs h1
      rw [this, zero_mul])]
  have h1 : ∑ a in Finset.range master.length, B.Elem i (master.getD a 0) *
      (dispSol A B master slave krylov rhs).getD (master.getD a 0) 0
      = CmTimes B master slave (reducedSol A B master slave krylov rhs) i := by
    unfold CmTimes
    apply Finset.sum_congr rfl
    intro a ha
    have hm := getD_mem master a (Finset.mem_range.mp ha)
    rw [dispSol_nonslave A B master slave krylov rhs _ (hv.master_lt _ hm) (hv.disjoint _ hm)]
  have h2 : ∑ b in Finset.range slave.length, B.Elem i (slave.getD b 0) *
      (dispSol A B master slave krylov rhs).getD (slave.getD b 0) 0
      = -CmTimes B master slave (reducedSol A B master slave krylov rhs) i
        + (lagRhs A B rhs).getD i 0 := by
    rw [← solveEntry_neg_spec (CsFactors B slave) (CsFactors_det hv)
      (CmTimes B master slave (reducedSol A B master slave krylov rhs)) i hi,
      ← solveEntry_spec (CsFactors B slave) (CsFactors_det hv)
      (fun a => (lagRhs A B rhs).getD a 0) i hi, ← Finset.sum_add_distrib, hv.slave_size]
    apply Finset.sum_congr rfl
    intro b hb
    rw [dispSol_slave A B master slave hv krylov rhs b
      (by rw [hv.slave_size]; exact Finset.mem_range.mp hb)]
    unfold slaveValue
    show B.Elem i (slave.getD b 0) * _ = B.Elem i (slave.getD b 0) * _
      + B.Elem i (slave.getD b 0) * _
    ring
  rw [h1, h2]
  ring

theorem B_Mult_dispSol_ok (A B : SparseMatrix) (master slave : List Nat)
    (hv : ValidConfig A B master slave)
    (hcol : ∀ i j, B.Elem i j ≠ 0 → j ∈ master ∨ j ∈ slave)
    (krylov : CGSolver) (f g y : Vector) (hf : f.length = A.Height) (hg : g.length = B.Height)
    (hy : y.length = B.Height) :
    B.Mult (dispSol A B master slave krylov (f ++ g)) y = .ok g := by
  rw [SparseMatrix_Mult_ok B _ y (by rw [hv.B_width, dispSol_length]) hy.symm]
  congr 1
  conv_rhs => rw [← range_map_getD_self g, hg]
  apply List.map_congr_left
  intro i hi
  rw [B_mul_dispSol A B master slave hv hcol krylov (f ++ g) i (List.mem_range.mp hi),
    lagRhs_append A B f g hf hg]

theorem solveEntry_congr_rhs (lu : LUFactors) (c d : Nat → ℚ) (h : ∀ a, a < lu.m → c a = d a)
    (i : Nat) : lu.solveEntry c i = lu.solveEntry d i :=
  solveEntry_congr lu.m lu.mat lu.mat (fun _ _ _ _ => rfl) c d h i

theorem adjRhs_getD (A B : SparseMatrix) (slave : List Nat) (f g : Vector)
    (hf : f.length = A.Height) (hg : g.length = B.Height) (i : Nat) (hi : i < A.Height) :
    (adjRhs A B slave (f ++ g)).getD i 0
      = f.getD i 0 - A.rowDot (GTildeResult A B slave g) i := by
  unfold adjRhs
  rw [getD_range_map, if_pos hi, dispRhs_append A f g hf, lagRhs_append A B f g hf hg]
  ring

theorem rowDot_dispSol (A B : SparseMatrix) (master slave : List Nat) (krylov : CGSolver)
    (rhs : Vector) (i : Nat) :
    A.rowDot (dispSol A B master slave krylov rhs) i
      = A.rowDot (MultResult A B master slave (reducedSol A B master slave krylov rhs)) i
        + A.rowDot (GTildeResult A B slave (lagRhs A B rhs)) i :=
  rowDot_add A _ _ A.Height (MultResult_length _ _ _ _ _) (GTildeResult_length _ _ _ _) i

theorem pressureSol_getD (A B : SparseMatrix) (master slave : List Nat)
    (hv : ValidConfig A B master slave) (krylov : CGSolver) (f g : Vector)
    (hf : f.length = A.Height) (hg : g.length = B.Height) (a : Nat) (ha : a < B.Height) :
    (pressureSol A B master slave krylov (f ++ g)).getD a 0
      = (CsTFactors B slave).solveEntry (fun b => f.getD (slave.getD b 0) 0
          - A.rowDot (dispSol A B master slave krylov (f ++ g)) (slave.getD b 0)) a := by
  unfold pressureSol PressureResult
  rw [getD_range_map, if_pos ha]
  apply solveEntry_congr_rhs
  intro b hb
  have hb' : b < slave.length := by rw [hv.slave_size]; exact hb
  have hlt := hv.slave_lt _ (getD_mem slave b hb')
  rw [adjRhs_getD A B slave f g hf hg _ hlt, rowDot_dispSol, lagRhs_append A B f g hf hg]
  ring

theorem MultTransposeVec_getD (B : SparseMatrix) (lam : Vector) (j : Nat) (hj : j < B.width) :
    (B.MultTransposeVec lam).getD j 0
      = ∑ i in Finset.range B.Height, B.Elem i j * lam.getD i 0 := by
  unfold SparseMatrix.MultTransposeVec
  rw [getD_range_map, if_pos hj]

theorem Bt_pressure_slave (A B : SparseMatrix) (master slave : List Nat)
    (hv : ValidConfig A B master slave) (krylov : CGSolver) (f g : Vector)
    (hf : f.length = A.Height) (hg : g.length = B.Height) (b : Nat) (hb : b < slave.length) :
    (B.MultTransposeVec (pressureSol A B master slave krylov (f ++ g))).getD (slave.getD b 0) 0
      = f.getD (slave.getD b 0) 0
        - A.rowDot (dispSol A B master slave krylov (f ++ g)) (slave.getD b 0) := by
  have hb' : b < B.Height := by rw [← hv.slave_size]; exact hb
  rw [MultTransposeVec_getD B _ _ (by rw [hv.B_width]; exact hv.slave_lt _ (getD_mem slave b hb))]
  have h := solveEntry_spec (CsTFactors B slave) (CsTFactors_det hv)
    (fun b => f.getD (slave.getD b 0) 0
      - A.rowDot (dispSol A B master slave krylov (f ++ g)) (slave.getD b 0)) b hb'
  refine Eq.trans ?_ h
  apply Finset.sum_congr rfl
  intro a ha
  rw [pressureSol_getD A B master slave hv krylov f g hf hg a (Finset.mem_range.mp ha)]
  rfl

theorem pressureSol_eq_inv (A B : SparseMatrix) (master slave : List Nat)
    (hv : ValidConfig A B master slave) (krylov : CGSolver) (f g : Vector)
    (hf : f.length = A.Height) (hg : g.length = B.Height) :
    (fun a : Fin B.Height => (pressureSol A B master slave krylov (f ++ g)).getD a 0)
      = ((CsMatrix B slave).transpose)⁻¹.mulVec (fun b : Fin B.Height =>
          f.getD (slave.getD b 0) 0
            - ((List.range A.Height).map
                (fun i => A.rowDot (dispSol A B master slave krylov (f ++ g)) i)).getD
                  (slave.getD b 0) 0) := by
  funext a
  rw [pressureSol_getD A B master slave hv krylov f g hf hg a a.2]
  have h := solveEntry_eq_inv (CsTFactors B slave) (fun b => f.getD (slave.getD b 0) 0
          - A.rowDot (dispSol A B master slave krylov (f ++ g)) (slave.getD b 0)) a
  rw [h]
  have e : (fun b : Fin B.Height => f.getD (slave.getD b 0) 0
      - ((List.range A.Height).map
          (fun i => A.rowDot (dispSol A B master slave krylov (f ++ g)) i)).getD (slave.getD b 0) 0)
      = (fun b : Fin B.Height => f.getD (slave.getD b 0) 0
          - A.rowDot (dispSol A B master slave krylov (f ++ g)) (slave.getD b 0)) := by
    funext b
    rw [getD_range_map, if_pos (hv.slave_lt _ (getD_mem slave b
      (by rw [hv.slave_size]; exact b.2)))]
  rw [e]
  rfl

theorem dispSol_eq_add (A B : SparseMatrix) (master slave : List Nat) (krylov : CGSolver)
    (rhs : Vector) :
    Vector.add (MultResult A B master slave (reducedSol A B master slave krylov rhs))
      (GTildeResult A B slave (lagRhs A B rhs)) = .ok (dispSol A B master slave krylov rhs) :=
  Vector_add_ok _ _ A.Height (MultResult_length _ _ _ _ _) (GTildeResult_length _ _ _ _)

theorem reducedSol_length (A B : SparseMatrix) (master slave : List Nat) (krylov : CGSolver)
    (rhs : Vector) :
    (reducedSol A B master slave krylov rhs).length = A.Height - slave.length := by
  unfold reducedSol
  rw [krylov.size_eq]
  simp

theorem RAPOperator_Mult_ok (A B : SparseMatrix) (master slave : List Nat)
    (hv : ValidConfig A B master slave) (x y : Vector)
    (hx : x.length = A.Height - slave.length) (hy : y.length = A.Height - slave.length) :
    RAPOperator.Mult (projectorOf A B master slave) A (projectorOf A B master slave) x y
      = .ok (MultTransposeResult A B master slave
          ((List.range A.Height).map (fun i => A.rowDot (MultResult A B master slave x) i))) := by
  unfold RAPOperator.Mult
  have e : (projectorOf A B master slave).height = A.Height := rfl
  rw [e, Mult_ok A B master slave hv x _ hx (by simp [Vector.new])]
  simp only [bind, Except.bind]
  rw [SparseMatrix_Mult_ok A _ _ (by rw [hv.A_square, MultResult_length]) (by simp [Vector.new])]
  simp only
  exact MultTranspose_ok A B master slave hv _ y (by simp) hy

theorem MultTransposeResult_at (A B : SparseMatrix) (master slave : List Nat)
    (hv : ValidConfig A B master slave) (v : Vector) (d : Nat) (hd : d < A.Height)
    (hds : d ∉ slave) :
    (MultTransposeResult A B master slave v).getD (reducedIndex slave d) 0
      = v.getD d 0 + if d ∈ master then masterValue B master slave v (master.indexOf d) else 0 := by
  have hsz := hv.size_le
  have hlt := reducedIndex_lt slave hd hds
  rw [MultTransposeResult_getD A B master slave v _ (by omega), nonSlaveDofs_getD slave _ d hd hds]

theorem Bt_pressure_nonslave (A B : SparseMatrix) (master slave : List Nat)
    (hv : ValidConfig A B master slave)
    (hcol : ∀ i j, B.Elem i j ≠ 0 → j ∈ master ∨ j ∈ slave)
    (krylov : CGSolver) (f g : Vector) (hf : f.length = A.Height) (hg : g.length = B.Height)
    (heq : MultTransposeResult A B master slave ((List.range A.Height).map (fun i =>
        A.rowDot (MultResult A B master slave (reducedSol A B master slave krylov (f ++ g))) i))
      = MultTransposeResult A B master slave (adjRhs A B slave (f ++ g)))
    (d : Nat) (hd : d < A.Height) (hds : d ∉ slave) :
    (B.MultTransposeVec (pressureSol A B master slave krylov (f ++ g))).getD d 0
      = f.getD d 0 - A.rowDot (dispSol A B master slave krylov (f ++ g)) d := by
  have hq := congrArg (fun l => List.getD l (reducedIndex slave d) 0) heq
  simp only at hq
  rw [MultTransposeResult_at A B master slave hv _ d hd hds,
    MultTransposeResult_at A B master slave hv _ d hd hds, getD_range_map, if_pos hd,
    adjRhs_getD A B slave f g hf hg d hd] at hq
  rw [MultTransposeVec_getD B _ d (by rw [hv.B_width]; exact hd), rowDot_dispSol,
    lagRhs_append A B f g hf hg]
  by_cases hdm : d ∈ master
  · rw [if_pos hdm, if_pos hdm] at hq
    have hj : master.indexOf d < master.length := List.indexOf_lt_length.mpr hdm
    have hdj : master.getD (master.indexOf d) 0 = d := by
      rw [List.getD_eq_getElem?_getD, List.getElem?_eq_getElem hj]
      simp
    have hsum : ∑ i in Finset.range B.Height,
        B.Elem i d * (pressureSol A B master slave krylov (f ++ g)).getD i 0
        = masterValue B master slave ((List.range A.Height).map (fun i =>
            A.rowDot (MultResult A B master slave (reducedSol A B master slave krylov (f ++ g))) i))
            (master.indexOf d)
          - masterValue B master slave (adjRhs A B slave (f ++ g)) (master.indexOf d) := by
      unfold masterValue
      rw [hdj, sub_neg_eq_add, neg_add_eq_sub, ← Finset.sum_sub_distrib]
      apply Finset.sum_congr rfl
      intro a ha
      have ha' := Finset.mem_range.mp ha
      rw [← mul_sub, ← solveEntry_sub]
      congr 1
      unfold pressureSol PressureResult
      rw [getD_range_map, if_pos ha']
      apply solveEntry_congr_rhs
      intro b hb
      have hb' : b < slave.length := by rw [hv.slave_size]; exact hb
      rw [getD_range_map, if_pos (hv.slave_lt _ (getD_mem slave b hb'))]
    rw [hsum]
    linarith
  · rw [if_neg hdm, if_neg hdm, add_zero, add_zero] at hq
    have hz : ∑ i in Finset.range B.Height,
        B.Elem i d * (pressureSol A B master slave krylov (f ++ g)).getD i 0 = 0 := by
      apply Finset.sum_eq_zero
      intro i _
      have : B.Elem i d = 0 := by
        by_contra h
        rcases hcol i d h with h1 | h1
        · exact hdm h1
        · exact hds h1
      rw [this, zero_mul]
    rw [hz]
    linarith

theorem saddle_first_row (A B : SparseMatrix) (master slave : List Nat)
    (hv : ValidConfig A B master slave)
    (hcol : ∀ i j, B.Elem i j ≠ 0 → j ∈ master ∨ j ∈ slave)
    (krylov : CGSolver) (f g : Vector) (hf : f.length = A.Height) (hg : g.length = B.Height)
    (heq : MultTransposeResult A B master slave ((List.range A.Height).map (fun i =>
        A.rowDot (MultResult A B master slave (reducedSol A B master slave krylov (f ++ g))) i))
      = MultTransposeResult A B master slave (adjRhs A B slave (f ++ g))) :
    Vector.add ((List.range A.Height).map
        (fun i => A.rowDot (dispSol A B master slave krylov (f ++ g)) i))
      (B.MultTransposeVec (pressureSol A B master slave krylov (f ++ g))) = .ok f := by
  rw [Vector_add_ok _ _ A.Height (by simp)
    (by simp [SparseMatrix.MultTransposeVec, hv.B_width])]
  congr 1
  conv_rhs => rw [← range_map_getD_self f, hf]
  apply List.map_congr_left
  intro d hd
  have hd' := List.mem_range.mp hd
  rw [getD_range_map, if_pos hd']
  by_cases hds : d ∈ slave
  · have hb : slave.indexOf d < slave.length := List.indexOf_lt_length.mpr hds
    have hdb : slave.getD (slave.indexOf d) 0 = d := by
      rw [List.getD_eq_getElem?_getD, List.getElem?_eq_getElem hb]
      simp
    have h := Bt_pressure_slave A B master slave hv krylov f g hf hg _ hb
    rw [hdb] at h
    rw [h]
    ring
  · rw [Bt_pressure_nonslave A B master slave hv hcol krylov f g hf hg heq d hd' hds]
    ring

/-! ### The end-to-end scenario -/

theorem solveEntry_unique (lu : LUFactors) (hdet : lu.toMatrix.det ≠ 0) (c z : Nat → ℚ)
    (hz : ∀ i, i < lu.m → ∑ j in Finset.range lu.m, lu.mat i j * z j = c i) (i : Nat)
    (hi : i < lu.m) : lu.solveEntry c i = z i := by
  have h1 : lu.toMatrix.mulVec (fun a : Fin lu.m => z a) = fun a : Fin lu.m => c a := by
    funext a
    have := hz a a.2
    rw [Finset.sum_range] at this
    exact this
  have h2 := solveEntry_eq_inv lu c ⟨i, hi⟩
  rw [← h1, Matrix.mulVec_mulVec, Matrix.nonsing_inv_mul _
    (isUnit_iff_ne_zero.mpr hdet), Matrix.one_mulVec] at h2
  exact h2

theorem ex_solve (c : Nat → ℚ) : (CsFactors exB [3]).solveEntry c 0 = -c 0 := by
  apply solveEntry_unique (CsFactors exB [3]) (CsFactors_det exValid) c (fun a => -c a)
  · intro i hi
    have hi' : i = 0 := by
      have : i < 1 := hi
      omega
    subst hi'
    show ∑ j in Finset.range 1, exB.Elem 0 ([3].getD j 0) * -c j = c 0
    simp [SparseMatrix.Elem, exB]
  · show 0 < 1
    omega

theorem ex_solveT (c : Nat → ℚ) : (CsTFactors exB [3]).solveEntry c 0 = -c 0 := by
  apply solveEntry_unique (CsTFactors exB [3]) (CsTFactors_det exValid) c (fun a => -c a)
  · intro i hi
    have hi' : i = 0 := by
      have : i < 1 := hi
      omega
    subst hi'
    show ∑ j in Finset.range 1, exB.Elem j ([3].getD 0 0) * -c j = c 0
    simp [SparseMatrix.Elem, exB]
  · show 0 < 1
    omega

theorem ex_Mult (x0 x1 x2 : ℚ) :
    MultResult exA exB [2] [3] [x0, x1, x2] = [x0, x1, x2, x2] := by
  have h4 : exA.Height = 4 := rfl
  unfold MultResult slaveValue
  rw [h4]
  have r0 : reducedIndex [3] 0 = 0 := by decide
  have r1 : reducedIndex [3] 1 = 1 := by decide
  have r2 : reducedIndex [3] 2 = 2 := by decide
  have e : List.range 4 = [0, 1, 2, 3] := rfl
  simp only [e, List.map_cons, List.map_nil]
  have i3 : List.indexOf 3 [3] = 0 := by decide
  rw [i3, ex_solve]
  simp [r0, r1, r2, CmTimes, SparseMatrix.Elem, exB]

theorem ex_MultTranspose (v0 v1 v2 v3 : ℚ) :
    MultTransposeResult exA exB [2] [3] [v0, v1, v2, v3] = [v0, v1, v2 + v3] := by
  have h4 : exA.Height = 4 := rfl
  have hB : exB.Height = 1 := rfl
  unfold MultTransposeResult masterValue
  rw [h4, hB]
  have n0 : nonSlaveDofs [3] 4 = [0, 1, 2] := by decide
  have e : List.range (4 - [3].length) = [0, 1, 2] := rfl
  simp only [e, n0, List.map_cons, List.map_nil]
  have i2 : List.indexOf 2 [2] = 0 := by decide
  simp only [Finset.sum_range_one, ex_solveT]
  simp [i2, SparseMatrix.Elem, exB]

theorem ex_GTilde (g0 : ℚ) : GTildeResult exA exB [3] [g0] = [0, 0, 0, -g0] := by
  have h4 : exA.Height = 4 := rfl
  unfold GTildeResult
  rw [h4]
  have e : List.range 4 = [0, 1, 2, 3] := rfl
  simp only [e, List.map_cons, List.map_nil]
  have i3 : List.indexOf 3 [3] = 0 := by decide
  rw [i3, ex_solve]
  simp

theorem ex_A_rows (u0 u1 u2 u3 : ℚ) :
    (List.range exA.Height).map (fun i => exA.rowDot [u0, u1, u2, u3] i)
      = [2 * u0 - u1, -u0 + 3 * u1 - u2, -u1 + 3 * u2 - u3, -u2 + 2 * u3] := by
  have h4 : exA.Height = 4 := rfl
  rw [h4]
  have e : List.range 4 = [0, 1, 2, 3] := rfl
  simp only [e, List.map_cons, List.map_nil, SparseMatrix.rowDot]
  have w : exA.width = 4 := rfl
  rw [w]
  simp [Finset.sum_range_succ, SparseMatrix.Elem, exA]
  refine ⟨by ring, by ring, by ring⟩

theorem exExactKrylov_spec (P : EliminationProjection) (gtilde fadj b : Vector)
    (h1 : EliminationProjection.new exA exB [2] [3] = .ok P)
    (h2 : P.BuildGTilde [0] (Vector.new exA.Height) = .ok gtilde)
    (h3 : exA.AddMult gtilde [1, 1, 0, 0] (-1) = .ok fadj)
    (h4 : P.MultTranspose fadj (Vector.new (exA.Height - [3].length)) = .ok b) :
    RAPOperator.Mult P exA P
      (exExactKrylov.Mult (RAPOperator.Mult P exA P) b
        (Vector.setZero (Vector.new (exA.Height - [3].length))))
      (Vector.new (exA.Height - [3].length)) = .ok b := by
  rw [new_ok exA exB [2] [3] exValid] at h1
  have hP := Except.ok.inj h1
  subst hP
  rw [BuildGTilde_ok exA exB [2] [3] exValid [0] (Vector.new exA.Height) rfl rfl] at h2
  have hg := Except.ok.inj h2
  subst hg
  rw [SparseMatrix_AddMult_ok exA (GTildeResult exA exB [3] [0]) [1, 1, 0, 0] (-1) rfl rfl,
    ex_GTilde] at h3
  have hf := Except.ok.inj h3
  have hfadj : fadj = [1, 1, 0, 0] := by
    rw [← hf]
    have h4 : exA.Height = 4 := rfl
    have w : exA.width = 4 := rfl
    rw [h4]
    have e : List.range 4 = [0, 1, 2, 3] := rfl
    simp [e, SparseMatrix.rowDot, w, Finset.sum_range_succ]
  subst hfadj
  rw [MultTranspose_ok exA exB [2] [3] exValid [1, 1, 0, 0]
    (Vector.new (exA.Height - [3].length)) rfl rfl, ex_MultTranspose] at h4
  have hb := Except.ok.inj h4
  subst hb
  have hxv : exExactKrylov.Mult
      (RAPOperator.Mult (projectorOf exA exB [2] [3]) exA (projectorOf exA exB [2] [3]))
      [1, 1, 0 + 0] (Vector.setZero (Vector.new (exA.Height - [3].length)))
      = [11 / 13, 9 / 13, 3 / 13] := rfl
  rw [hxv, RAPOperator_Mult_ok exA exB [2] [3] exValid [11 / 13, 9 / 13, 3 / 13]
    (Vector.new (exA.Height - [3].length)) rfl rfl, ex_Mult, ex_A_rows, ex_MultTranspose]
  norm_num

/-! ### The interface partitioner -/

theorem setInsert_sorted (s : List Nat) (j : Nat) (hs : s.Sorted (fun x y => x < y)) :
    (setInsert s j).Sorted (fun x y => x < y) := by
  unfold setInsert
  by_cases h : j ∈ s
  · rw [if_pos h]; exact hs
  · rw [if_neg h]
    apply List.Sorted.lt_of_le
    · exact List.Sorted.orderedInsert j s hs.le_of_lt
    · have hp := List.perm_orderedInsert (fun a b : Nat => a ≤ b) j s
      exact hp.nodup_iff.mpr (List.nodup_cons.mpr ⟨h, hs.nodup⟩)

theorem mem_setInsert (s : List Nat) (j i : Nat) : i ∈ setInsert s j ↔ i = j ∨ i ∈ s := by
  unfold setInsert
  by_cases h : j ∈ s
  · rw [if_pos h]
    constructor
    · exact fun hi => Or.inr hi
    · rintro (rfl | hi)
      · exact h
      · exact hi
  · rw [if_neg h, List.mem_orderedInsert]

theorem collect_eq (B : SparseMatrix) (firstblocksize : Int) :
    BuildSeparatedInterfaceDofs.collect B firstblocksize
      = B.rows.flatten.foldl (BuildSeparatedInterfaceDofs.entryStep firstblocksize) ([], []) := by
  unfold BuildSeparatedInterfaceDofs.collect
  rw [List.foldl_flatten]

theorem entries_fold_spec (firstblocksize : Int) (es : List (Nat × ℚ)) :
    (es.foldl (BuildSeparatedInterfaceDofs.entryStep firstblocksize) ([], [])).1.Sorted
        (fun x y => x < y) ∧
    (es.foldl (BuildSeparatedInterfaceDofs.entryStep firstblocksize) ([], [])).2.Sorted
        (fun x y => x < y) ∧
    (∀ j, j ∈ (es.foldl (BuildSeparatedInterfaceDofs.entryStep firstblocksize) ([], [])).1 ↔
      ((j : Int) < firstblocksize ∧ ∃ v, (j, v) ∈ es ∧ ¬ |v| < tol)) ∧
    (∀ j, j ∈ (es.foldl (BuildSeparatedInterfaceDofs.entryStep firstblocksize) ([], [])).2 ↔
      (¬ (j : Int) < firstblocksize ∧ ∃ v, (j, v) ∈ es ∧ ¬ |v| < tol)) := by
  induction es using List.reverseRecOn with
  | nil => simp
  | append_singleton es e ih =>
    obtain ⟨h1, h2, h3, h4⟩ := ih
    rw [List.foldl_append, List.foldl_cons, List.foldl_nil]
    generalize es.foldl (BuildSeparatedInterfaceDofs.entryStep firstblocksize) ([], []) = sets
      at h1 h2 h3 h4 ⊢
    obtain ⟨j0, v0⟩ := e
    unfold BuildSeparatedInterfaceDofs.entryStep
    simp only
    by_cases ht : |v0| < tol
    · rw [if_pos ht]
      refine ⟨h1, h2, ?_, ?_⟩
      · intro j
        rw [h3]
        constructor
        · rintro ⟨ha, v, hv, hvt⟩
          exact ⟨ha, v, List.mem_append_left _ hv, hvt⟩
        · rintro ⟨ha, v, hv, hvt⟩
          rcases List.mem_append.mp hv with hv | hv
          · exact ⟨ha, v, hv, hvt⟩
          · simp only [List.mem_singleton, Prod.mk.injEq] at hv
            rw [hv.2] at hvt
            exact absurd ht hvt
      · intro j
        rw [h4]
        constructor
        · rintro ⟨ha, v, hv, hvt⟩
          exact ⟨ha, v, List.mem_append_left _ hv, hvt⟩
        · rintro ⟨ha, v, hv, hvt⟩
          rcases List.mem_append.mp hv with hv | hv
          · exact ⟨ha, v, hv, hvt⟩
          · simp only [List.mem_singleton, Prod.mk.injEq] at hv
            rw [hv.2] at hvt
            exact absurd ht hvt
    · rw [if_neg ht]
      by_cases hb : (j0 : Int) < firstblocksize
      · rw [if_pos hb]
        refine ⟨setInsert_sorted _ _ h1, h2, ?_, ?_⟩
        · intro j
          simp only
          rw [mem_setInsert, h3]
          constructor
          · rintro (rfl | ⟨ha, v, hv, hvt⟩)
            · exact ⟨hb, v0, List.mem_append_right _ (List.mem_singleton.mpr rfl), ht⟩
            · exact ⟨ha, v, List.mem_append_left _ hv, hvt⟩
          · rintro ⟨ha, v, hv, hvt⟩
            rcases List.mem_append.mp hv with hv | hv
            · exact Or.inr ⟨ha, v, hv, hvt⟩
            · simp only [List.mem_singleton, Prod.mk.injEq] at hv
              exact Or.inl hv.1
        · intro j
          simp only
          rw [h4]
          constructor
          · rintro ⟨ha, v, hv, hvt⟩
            exact ⟨ha, v, List.mem_append_left _ hv, hvt⟩
          · rintro ⟨ha, v, hv, hvt⟩
            rcases List.mem_append.mp hv with hv | hv
            · exact ⟨ha, v, hv, hvt⟩
            · simp only [List.mem_singleton, Prod.mk.injEq] at hv
              rw [hv.1] at ha
              exact absurd hb ha
      · rw [if_neg hb]
        refine ⟨h1, setInsert_sorted _ _ h2, ?_, ?_⟩
        · intro j
          simp only
          rw [h3]
          constructor
          · rintro ⟨ha, v, hv, hvt⟩
            exact ⟨ha, v, List.mem_append_left _ hv, hvt⟩
          · rintro ⟨ha, v, hv, hvt⟩
            rcases List.mem_append.mp hv with hv | hv
            · exact ⟨ha, v, hv, hvt⟩
            · simp only [List.mem_singleton, Prod.mk.injEq] at hv
              rw [hv.1] at ha
              exact absurd ha hb
        · intro j
          simp only
          rw [mem_setInsert, h4]
          constructor
          · rintro (rfl | ⟨ha, v, hv, hvt⟩)
            · exact ⟨hb, v0, List.mem_append_right _ (List.mem_singleton.mpr rfl), ht⟩
            · exact ⟨ha, v, List.mem_append_left _ hv, hvt⟩
          · rintro ⟨ha, v, hv, hvt⟩
            rcases List.mem_append.mp hv with hv | hv
            · exact Or.inr ⟨ha, v, hv, hvt⟩
            · simp only [List.mem_singleton, Prod.mk.injEq] at hv
              exact Or.inl hv.1

theorem foldl_append_singleton (s init : List Nat) :
    s.foldl (fun a i => a ++ [i]) init = init ++ s := by
  induction s generalizing init with
  | nil => simp
  | cons x xs ih => rw [List.foldl_cons, ih]; simp

theorem foldl_count_append (s : List Nat) (init : Nat × List Nat) :
    s.foldl (fun (st : Nat × List Nat) i => (st.1 + 1, st.2 ++ [i])) init
      = (init.1 + s.length, init.2 ++ s) := by
  induction s generalizing init with
  | nil => simp
  | cons x xs ih =>
    rw [List.foldl_cons, ih]
    simp only [List.length_cons, List.append_assoc, List.singleton_append]
    congr 1
    omega

theorem SortArray_sorted (s : List Nat) (hs : s.Sorted (fun x y => x < y)) : SortArray s = s :=
  List.Sorted.insertionSort_eq hs.le_of_lt

theorem BuildSeparatedInterfaceDofs_eq (B : SparseMatrix) (firstblocksize : Int) :
    EliminationCGSolver.BuildSeparatedInterfaceDofs B [] [] firstblocksize
      = if (BuildSeparatedInterfaceDofs.collect B firstblocksize).2.length = B.Height
        then .ok ((BuildSeparatedInterfaceDofs.collect B firstblocksize).1,
          (BuildSeparatedInterfaceDofs.collect B firstblocksize).2)
        else .error "I don't understand how this matrix is constructed!" := by
  have hspec := entries_fold_spec firstblocksize B.rows.flatten
  rw [← collect_eq] at hspec
  obtain ⟨h1, h2, _, _⟩ := hspec
  simp only [EliminationCGSolver.BuildSeparatedInterfaceDofs, foldl_append_singleton,
    foldl_count_append, List.nil_append, zero_add, SortArray_sorted _ h1, SortArray_sorted _ h2]
  by_cases h : (BuildSeparatedInterfaceDofs.collect B firstblocksize).2.length = B.Height
  · simp [h, pure, Except.pure, bind, Except.bind]
  · simp [h, MFEM_VERIFY, bind, Except.bind]

theorem collect_spec (B : SparseMatrix) (firstblocksize : Int) :
    (BuildSeparatedInterfaceDofs.collect B firstblocksize).1.Sorted (fun x y => x < y) ∧
    (BuildSeparatedInterfaceDofs.collect B firstblocksize).2.Sorted (fun x y => x < y) ∧
    (∀ j, j ∈ (BuildSeparatedInterfaceDofs.collect B firstblocksize).1 ↔
      ((j : Int) < firstblocksize ∧ ∃ row ∈ B.rows, ∃ v, (j, v) ∈ row ∧ ¬ |v| < tol)) ∧
    (∀ j, j ∈ (BuildSeparatedInterfaceDofs.collect B firstblocksize).2 ↔
      (¬ (j : Int) < firstblocksize ∧ ∃ row ∈ B.rows, ∃ v, (j, v) ∈ row ∧ ¬ |v| < tol)) := by
  have hspec := entries_fold_spec firstblocksize B.rows.flatten
  rw [← collect_eq] at hspec
  obtain ⟨h1, h2, h3, h4⟩ := hspec
  have hflat : ∀ j, (∃ v, (j, v) ∈ B.rows.flatten ∧ ¬ |v| < tol) ↔
      (∃ row ∈ B.rows, ∃ v, (j, v) ∈ row ∧ ¬ |v| < tol) := by
    intro j
    constructor
    · rintro ⟨v, hv, hvt⟩
      obtain ⟨row, hrow, hmem⟩ := List.mem_flatten.mp hv
      exact ⟨row, hrow, v, hmem, hvt⟩
    · rintro ⟨row, hrow, v, hmem, hvt⟩
      exact ⟨v, List.mem_flatten.mpr ⟨row, hrow, hmem⟩, hvt⟩
  refine ⟨h1, h2, ?_, ?_⟩
  · intro j
    rw [h3, hflat]
  · intro j
    rw [h4, hflat]

theorem second_length_eq_card (B : SparseMatrix) (firstblocksize : Int) :
    (BuildSeparatedInterfaceDofs.collect B firstblocksize).2.length
      = (secondBlockColumns B firstblocksize).card := by
  have hspec := entries_fold_spec firstblocksize B.rows.flatten
  rw [← collect_eq] at hspec
  obtain ⟨_, h2, _, h4⟩ := hspec
  rw [← List.toFinset_card_of_nodup h2.nodup]
  congr 1
  ext j
  rw [List.mem_toFinset, h4]
  rw [show tol = (6338253001141147 / 2 ^ 99 : ℚ) from rfl]
  unfold secondBlockColumns
  rw [List.mem_toFinset, List.mem_map]
  constructor
  · rintro ⟨ha, v, hv, hvt⟩
    refine ⟨(j, v), ?_, rfl⟩
    rw [List.mem_filter]
    exact ⟨hv, by simp [hvt, ha]⟩
  · rintro ⟨⟨j', v⟩, he, rfl⟩
    rw [List.mem_filter] at he
    obtain ⟨hmem, hdec⟩ := he
    simp only [decide_eq_true_eq] at hdec
    exact ⟨hdec.2, v, hmem, hdec.1⟩

/-! ### The explicit path with too many slave dofs -/

theorem new_ok_of_factor (A B : SparseMatrix) (master slave : List Nat)
    (h1 : B.Height * B.Height ≤ (CsOf B slave).data.length)
    (h2 : B.Height * B.Height ≤ (CsOf B slave).Transpose.data.length)
    (hdet1 : (projectorOf A B master slave).Csinverse_.toMatrix.det ≠ 0)
    (hdet2 : (projectorOf A B master slave).CsTinverse_.toMatrix.det ≠ 0) :
    EliminationProjection.new A B master slave = .ok (projectorOf A B master slave) := by
  have f1 := Factor_ok (CsOf B slave).data B.Height h1 hdet1
  have f2 := Factor_ok (CsOf B slave).Transpose.data B.Height h2 hdet2
  unfold EliminationProjection.new
  have e1 : (B.GetSubMatrix (List.range B.Height) slave
      (DenseMatrix.SetSize B.Height slave.length)) = CsOf B slave := rfl
  have e3 : (CsOf B slave).height = B.Height := rfl
  simp only [e1, e3, f1, f2, bind, Except.bind]
  rfl

theorem ex_bad_Cs : (CsOf exB [2, 3]).data = [1, -1] := by
  have hB : exB.Height = 1 := rfl
  unfold CsOf
  rw [hB]
  have e : List.range 1 = [0] := rfl
  simp [SparseMatrix.GetSubMatrix, e, SparseMatrix.Elem, exB]

theorem ex_bad_CsT : (CsOf exB [2, 3]).Transpose.data = [1, -1] := by
  unfold DenseMatrix.Transpose DenseMatrix.ofFn DenseMatrix.entry
  rw [ex_bad_Cs]
  have e1 : List.range (CsOf exB [2, 3]).height = [0] := rfl
  have e2 : List.range (CsOf exB [2, 3]).width = [0, 1] := rfl
  have e3 : (CsOf exB [2, 3]).height = 1 := rfl
  rw [e1, e2, e3]
  simp

theorem ex_bad_new :
    EliminationProjection.new exA exB [] [2, 3] = .ok (projectorOf exA exB [] [2, 3]) := by
  apply new_ok_of_factor
  · rw [ex_bad_Cs]
    show 1 * 1 ≤ 2
    omega
  · rw [ex_bad_CsT]
    show 1 * 1 ≤ 2
    omega
  · show (Matrix.of (fun (i j : Fin 1) =>
      (CsOf exB [2, 3]).data.getD ((i : Nat) + (j : Nat) * 1) 0)).det ≠ 0
    rw [Matrix.det_fin_one, ex_bad_Cs]
    simp
  · show (Matrix.of (fun (i j : Fin 1) =>
      (CsOf exB [2, 3]).Transpose.data.getD ((i : Nat) + (j : Nat) * 1) 0)).det ≠ 0
    rw [Matrix.det_fin_one, ex_bad_CsT]
    simp

theorem ex_bad_assemble :
    ∃ M, (projectorOf exA exB [] [2, 3]).AssembleApproximate = .ok M := by
  obtain ⟨o1, hscan, _, _, _⟩ := AssembleScan_ok (projectorOf exA exB [] [2, 3]) 2
    (by simp [projectorOf]) (by simp [projectorOf]) (by decide) 4 (le_refl _)
  have hm : ((List.range 4).filter (fun i => decide (i ∉ (projectorOf exA exB [] [2, 3]).slave_contact_dofs_
      ∧ i ∈ (projectorOf exA exB [] [2, 3]).master_contact_dofs_))).map
        (reducedIndex (projectorOf exA exB [] [2, 3]).slave_contact_dofs_) = [] := by
    simp [projectorOf]
  rw [hm] at hscan
  have hsolve := Solve_cols (projectorOf exA exB [] [2, 3]).Csinverse_ 0 [] rfl
  refine ⟨o1.Finalize, ?_⟩
  simp only [EliminationProjection.AssembleApproximate, bind, Except.bind]
  have e1 : (projectorOf exA exB [] [2, 3]).A_.Height = 4 := rfl
  have e2 : 4 - (projectorOf exA exB [] [2, 3]).slave_contact_dofs_.length = 2 := rfl
  rw [e1] at hscan
  rw [e1, e2, hscan]
  simp only
  have ea : MFEM_ASSERT (([] : List Nat).length
      = (projectorOf exA exB [] [2, 3]).master_contact_dofs_.length)
      "Unable to map master contact dofs!" = .ok () := MFEM_ASSERT_ok _ rfl
  rw [ea]
  simp only
  have e3 : (projectorOf exA exB [] [2, 3]).Cs_.height
      = (projectorOf exA exB [] [2, 3]).Csinverse_.m := rfl
  have e4 : (projectorOf exA exB [] [2, 3]).Cm_.width = 0 := rfl
  have e5 : (projectorOf exA exB [] [2, 3]).Cm_.data = [] := rfl
  rw [e3, e4, e5, hsolve]
  simp only
  have e6 : List.range (projectorOf exA exB [] [2, 3]).slave_contact_dofs_.length = [0, 1] := rfl
  rw [e6]
  simp [EliminationProjection.AssembleOuterStep, EliminationProjection.AssembleInner,
    ArrayElem, projectorOf, bind, Except.bind, pure, Except.pure]

theorem ex_partition :
    EliminationCGSolver.BuildSeparatedInterfaceDofs exB [] [] 3 = .ok ([2], [3]) := by
  have hc : BuildSeparatedInterfaceDofs.collect exB 3 = ([2], [3]) := by
    have t1 : ¬ (1 : ℚ) < tol := by
      unfold tol
      norm_num
    simp [BuildSeparatedInterfaceDofs.collect, BuildSeparatedInterfaceDofs.entryStep, exB, t1,
      setInsert]
  rw [BuildSeparatedInterfaceDofs_eq, hc]
  rfl

theorem ex_newThreshold :
    EliminationCGSolver.newThreshold exA exB 3 = .ok (solverOf exA exB [2] [3]) := by
  unfold EliminationCGSolver.newThreshold
  rw [ex_partition]
  exact BuildPreconditioner_ok exA exB [2] [3] exValid

theorem ex_bad_threshold :
    EliminationCGSolver.newThreshold exA exB 2
      = .error "I don't understand how this matrix is constructed!" := by
  have hc : BuildSeparatedInterfaceDofs.collect exB 2 = ([], [2, 3]) := by
    have t1 : ¬ (1 : ℚ) < tol := by
      unfold tol
      norm_num
    simp [BuildSeparatedInterfaceDofs.collect, BuildSeparatedInterfaceDofs.entryStep, exB, t1,
      setInsert]
  unfold EliminationCGSolver.newThreshold
  rw [BuildSeparatedInterfaceDofs_eq, hc]
  rfl

/-! ### Multiplier recovery and the transpose apply in matrix form -/

theorem PressureResult_getD (A B : SparseMatrix) (slave : List Nat) (f u : Vector) (a : Nat)
    (ha : a < B.Height) :
    (PressureResult A B slave f u).getD a 0
      = (CsTFactors B slave).solveEntry
          (fun b => f.getD (slave.getD b 0) 0 - A.rowDot u (slave.getD b 0)) a := by
  unfold PressureResult
  rw [getD_range_map, if_pos ha]

theorem PressureResult_eq_inv (A B : SparseMatrix) (master slave : List Nat)
    (hv : ValidConfig A B master slave) (f u : Vector) :
    (fun a : Fin B.Height => (PressureResult A B slave f u).getD a 0)
      = ((CsMatrix B slave).transpose)⁻¹.mulVec (fun b : Fin B.Height =>
          f.getD (slave.getD b 0) 0
            - ((List.range A.Height).map (fun i => A.rowDot u i)).getD (slave.getD b 0) 0) := by
  funext a
  rw [PressureResult_getD A B slave f u a a.2,
    solveEntry_eq_inv (CsTFactors B slave)
      (fun b => f.getD (slave.getD b 0) 0 - A.rowDot u (slave.getD b 0)) a]
  have e : (fun b : Fin B.Height => f.getD (slave.getD b 0) 0
      - ((List.range A.Height).map (fun i => A.rowDot u i)).getD (slave.getD b 0) 0)
      = (fun b : Fin B.Height => f.getD (slave.getD b 0) 0 - A.rowDot u (slave.getD b 0)) := by
    funext b
    rw [getD_range_map, if_pos (hv.slave_lt _ (getD_mem slave b
      (by rw [hv.slave_size]; exact b.2)))]
  rw [e]
  rfl

theorem masterValue_eq_inv (B : SparseMatrix) (master slave : List Nat) (x : Vector)
    (j : Fin master.length) :
    masterValue B master slave x j = -((CmMatrix B master).transpose.mulVec
      (((CsMatrix B slave).transpose)⁻¹.mulVec
        (fun b : Fin B.Height => x.getD (slave.getD b 0) 0))) j := by
  unfold masterValue
  rw [Finset.sum_range]
  simp only [Matrix.mulVec, Matrix.dotProduct, Matrix.transpose_apply, CmMatrix, Matrix.of_apply,
    neg_inj]
  apply Finset.sum_congr rfl
  intro a _
  rw [solveEntry_eq_inv (CsTFactors B slave) (fun b => x.getD (slave.getD b 0) 0) a]
  rfl

/-! ### The end-to-end scenario for an arbitrary `4 × 4` matrix -/

theorem exValid_of (A : SparseMatrix) (hA : A.Height = 4) (hw : A.width = 4) :
    ValidConfig A exB [2] [3] where
  A_square := by rw [hw, hA]
  B_width := by rw [hA]; rfl
  master_sorted := by simp
  slave_sorted := by simp
  disjoint := by simp
  master_lt := by simp [hA]
  slave_lt := by simp [hA]
  slave_size := rfl
  Cs_nonsingular := exValid.Cs_nonsingular

theorem ex_dispSol_tied (A : SparseMatrix) (hA : A.Height = 4) (hw : A.width = 4)
    (krylov : CGSolver) (f g : Vector) (hf : f.length = 4) (hg : g = [0]) :
    (dispSol A exB [2] [3] krylov (f ++ g)).getD 2 0
      = (dispSol A exB [2] [3] krylov (f ++ g)).getD 3 0 := by
  have hv := exValid_of A hA hw
  have h2 := dispSol_nonslave A exB [2] [3] krylov (f ++ g) 2 (by omega) (by simp)
  have h3 := dispSol_slave A exB [2] [3] hv krylov (f ++ g) 0 (by simp)
  have e3 : ([3] : List Nat).getD 0 0 = 3 := rfl
  rw [e3] at h3
  rw [h2, h3, ex_solve, lagRhs_append A exB f g (by rw [hf, hA]) (by rw [hg]; rfl), hg]
  unfold slaveValue
  rw [ex_solve]
  have r2 : reducedIndex [3] 2 = 2 := by decide
  simp [CmTimes, SparseMatrix.Elem, exB, r2]

theorem ex_pressureSol (A : SparseMatrix) (hA : A.Height = 4) (hw : A.width = 4)
    (krylov : CGSolver) (f g : Vector) (hf : f.length = 4) (hg : g.length = 1) :
    pressureSol A exB [2] [3] krylov (f ++ g)
      = [A.rowDot (dispSol A exB [2] [3] krylov (f ++ g)) 3 - f.getD 3 0] := by
  have hv := exValid_of A hA hw
  apply ext_getD _ _ (by rw [pressureSol_length]; rfl)
  intro i hi
  rw [pressureSol_length] at hi
  have hi' : i = 0 := by
    have : i < 1 := hi
    omega
  subst hi'
  rw [pressureSol_getD A exB [2] [3] hv krylov f g (by rw [hf, hA]) (by rw [hg]; rfl) 0 hi,
    ex_solveT]
  simp

/-! ### Round trip -/

theorem masterValue_zero (B : SparseMatrix) (master slave : List Nat) (x : Vector)
    (hz : ∀ s ∈ slave, x.getD s 0 = 0) (hs : slave.length = B.Height) (j : Nat) :
    masterValue B master slave x j = 0 := by
  unfold masterValue
  rw [neg_eq_zero]
  apply Finset.sum_eq_zero
  intro a _
  have e : (CsTFactors B slave).solveEntry (fun b => x.getD (slave.getD b 0) 0) a
      = (CsTFactors B slave).solveEntry (fun _ => 0) a := by
    apply solveEntry_congr_rhs
    intro b hb
    exact hz _ (getD_mem slave b (by rw [hs]; exact hb))
  rw [e, solveEntry_zero, mul_zero]

/-! ### Failure of the factorization -/

theorem Factor_inv (data : List ℚ) (m : Nat) (lu : LUFactors)
    (h : LUFactors.Factor data m = .ok lu) :
    lu = ⟨m, fun i j => data.getD (i + j * m) 0⟩ ∧ lu.toMatrix.det ≠ 0 ∧ m * m ≤ data.length := by
  unfold LUFactors.Factor at h
  by_cases h1 : data.length < m * m
  · rw [if_pos h1] at h
    cases h
  · rw [if_neg h1] at h
    simp only at h
    by_cases h2 : (LUFactors.toMatrix ⟨m, fun i j => data.getD (i + j * m) 0⟩).det = 0
    · rw [if_pos h2] at h
      cases h
    · rw [if_neg h2] at h
      have e := Except.ok.inj h
      subst e
      exact ⟨rfl, h2, by omega⟩

theorem Factor_singular (data : List ℚ) (m : Nat) (hlen : m * m ≤ data.length)
    (hdet : (LUFactors.toMatrix ⟨m, fun i j => data.getD (i + j * m) 0⟩).det = 0) :
    LUFactors.Factor data m = .error "singular matrix" := by
  unfold LUFactors.Factor
  rw [if_neg (by omega)]
  simp only
  rw [if_pos hdet]

theorem new_inv (A B : SparseMatrix) (master slave : List Nat) (P : EliminationProjection)
    (h : EliminationProjection.new A B master slave = .ok P) :
    P = projectorOf A B master slave ∧
      (projectorOf A B master slave).Csinverse_.toMatrix.det ≠ 0 ∧
      (projectorOf A B master slave).CsTinverse_.toMatrix.det ≠ 0 := by
  unfold EliminationProjection.new at h
  have e1 : (B.GetSubMatrix (List.range B.Height) slave
      (DenseMatrix.SetSize B.Height slave.length)) = CsOf B slave := rfl
  have e3 : (CsOf B slave).height = B.Height := rfl
  simp only [e1, e3, bind, Except.bind] at h
  cases h1 : LUFactors.Factor (CsOf B slave).data B.Height with
  | error msg => rw [h1] at h; cases h
  | ok lu1 =>
    rw [h1] at h
    simp only at h
    cases h2 : LUFactors.Factor (CsOf B slave).Transpose.data B.Height with
    | error msg => rw [h2] at h; cases h
    | ok lu2 =>
      rw [h2] at h
      simp only at h
      obtain ⟨a1, a2, _⟩ := Factor_inv _ _ _ h1
      obtain ⟨b1, b2, _⟩ := Factor_inv _ _ _ h2
      subst a1 b1
      have e := Except.ok.inj h
      exact ⟨e.symm, a2, b2⟩

theorem new_singular (A B : SparseMatrix) (master slave : List Nat)
    (hs : slave.length = B.Height) (hdet : (CsMatrix B slave).det = 0) :
    EliminationProjection.new A B master slave = .error "singular matrix" := by
  rw [← Csinverse_toMatrix A B master slave hs] at hdet
  have l1 := CsOf_data_length B slave
  rw [hs] at l1
  have f1 := Factor_singular (CsOf B slave).data B.Height (by omega) hdet
  unfold EliminationProjection.new
  have e1 : (B.GetSubMatrix (List.range B.Height) slave
      (DenseMatrix.SetSize B.Height slave.length)) = CsOf B slave := rfl
  have e3 : (CsOf B slave).height = B.Height := rfl
  simp only [e1, e3, f1, bind, Except.bind]

theorem ex_singular_Cs : (CsMatrix exB [0]).det = 0 := by
  show (Matrix.of (fun (a b : Fin 1) => exB.Elem a ([0].getD b 0))).det = 0
  rw [Matrix.det_fin_one]
  simp [SparseMatrix.Elem, exB]

/-! ### `EliminationCGSolver::Mult` on vectors with more than `n + m` entries -/

theorem append_drop_eq_range_map (u p : Vector) (sol : Vector)
    (hs : u.length + p.length ≤ sol.length) :
    (List.range ((List.range sol.length).map
        (fun i => if 0 ≤ i ∧ i < 0 + u.length then u.getD (i - 0) 0 else sol.getD i 0)).length).map
      (fun i => if u.length ≤ i ∧ i < u.length + p.length then p.getD (i - u.length) 0
        else ((List.range sol.length).map
          (fun i => if 0 ≤ i ∧ i < 0 + u.length then u.getD (i - 0) 0 else sol.getD i 0)).getD i 0)
      = u ++ p ++ sol.drop (u.length + p.length) := by
  apply ext_getD _ _ (by simp; omega)
  intro i hi
  simp only [List.length_map, List.length_range] at hi
  rw [getD_range_map, List.length_map, List.length_range, if_pos hi, getD_range_map, if_pos hi]
  by_cases h : i < u.length
  · rw [if_neg (by omega), if_pos (by omega), List.append_assoc, List.getD_append _ _ _ _ h]
    simp
  · by_cases h2 : i < u.length + p.length
    · rw [if_pos (by omega), List.append_assoc, List.getD_append_right _ _ _ _ (by omega),
        List.getD_append _ _ _ _ (by omega)]
    · rw [if_neg (by omega), if_neg (by omega),
        List.getD_append_right _ _ _ _ (by simp; omega)]
      simp only [List.getD_eq_getElem?_getD, List.getElem?_drop, List.length_append]
      congr 2
      omega

theorem SolverMult_ge (A B : SparseMatrix) (master slave : List Nat)
    (hv : ValidConfig A B master slave) (krylov : CGSolver) (rhs sol : Vector)
    (hr : A.Height + B.Height ≤ rhs.length) (hsol : A.Height + B.Height ≤ sol.length) :
    (solverOf A B master slave).Mult krylov rhs sol
      = .ok (dispSol A B master slave krylov rhs ++ pressureSol A B master slave krylov rhs
          ++ sol.drop (A.Height + B.Height)) := by
  simp only [EliminationCGSolver.Mult, solverOf]
  have l0 : (Vector.new A.Height).length = A.Height := by simp [Vector.new]
  have l1 : (Vector.new B.Height).length = B.Height := by simp [Vector.new]
  rw [l0, copyFrom_ok rhs 0 A.Height _ l0 (by omega)]
  simp only [bind, Except.bind, zero_add, List.length_map, List.length_range]
  rw [l1, copyFrom_ok rhs A.Height B.Height _ l1 (by omega)]
  simp only
  rw [BuildGTilde_ok A B master slave hv _ _ (by simp) l0]
  simp only
  rw [SparseMatrix_AddMult_ok A _ _ _ (by rw [hv.A_square, GTildeResult_length]) (by simp)]
  simp only
  have hw : (projectorOf A B master slave).width = A.Height - slave.length := rfl
  rw [hw, MultTranspose_ok A B master slave hv _ _ (by simp) (by simp [Vector.new])]
  simp only
  have hk : (krylov.Mult
      (RAPOperator.Mult (projectorOf A B master slave) A (projectorOf A B master slave))
      (MultTransposeResult A B master slave
      ((List.range A.Height).map (fun i => ((List.range A.Height).map (fun i => rhs.getD i 0)).getD i 0
        + (-1) * A.rowDot (GTildeResult A B slave
          ((List.range B.Height).map (fun i => rhs.getD (A.Height + i) 0))) i)))
      (Vector.setZero (Vector.new (A.Height - slave.length)))).length = A.Height - slave.length := by
    rw [krylov.size_eq]; simp [Vector.setZero, Vector.new]
  rw [Mult_ok A B master slave hv _ _ hk l0]
  simp only
  rw [RecoverPressure_ok A B master slave hv _ _ _ (by simp) (MultResult_length _ _ _ _ _)
    (by simp [Vector.new])]
  simp only
  rw [Vector_add_ok _ _ A.Height (MultResult_length _ _ _ _ _) (GTildeResult_length _ _ _ _)]
  simp only
  rw [copyInto_ok _ 0 sol (by simp; omega)]
  simp only
  rw [copyInto_ok _ _ _ (by simp [PressureResult_length]; omega)]
  congr 1
  have e : Vector.setZero (Vector.new (A.Height - slave.length))
      = List.replicate (A.Height - slave.length) 0 := by
    simp [Vector.setZero, Vector.new]
  rw [e]
  refine Eq.trans (append_drop_eq_range_map (dispSol A B master slave krylov rhs)
    (pressureSol A B master slave krylov rhs) sol
    (by rw [dispSol_length, pressureSol_length]; exact hsol)) ?_
  rw [dispSol_length, pressureSol_length]

/-! ### The size checks of the projector -/

theorem MFEM_ASSERT_error {c : Prop} [Decidable c] (msg : String) (h : ¬ c) :
    MFEM_ASSERT c msg = .error msg := by
  unfold MFEM_ASSERT
  rw [if_neg h]

theorem Mult_size_error (P : EliminationProjection) (inp out : Vector)
    (h : (inp.length : Int) ≠ (P.A_.Height : Int) - (P.slave_contact_dofs_.length : Int)
      ∨ out.length ≠ P.A_.Height) :
    P.Mult inp out = .error "Sizes don't match!" := by
  unfold EliminationProjection.Mult
  by_cases h1 : (inp.length : Int) = (P.A_.Height : Int) - (P.slave_contact_dofs_.length : Int)
  · have h2 : ¬ out.length = P.A_.Height := by
      rcases h with h | h
      · exact absurd h1 h
      · exact h
    simp only [MFEM_ASSERT_ok _ h1, MFEM_ASSERT_error _ h2, bind, Except.bind]
  · simp only [MFEM_ASSERT_error _ h1, bind, Except.bind]

theorem MultTranspose_size_error (P : EliminationProjection) (inp out : Vector)
    (h : (out.length : Int) ≠ (P.A_.Height : Int) - (P.slave_contact_dofs_.length : Int)
      ∨ inp.length ≠ P.A_.Height) :
    P.MultTranspose inp out = .error "Sizes don't match!" := by
  unfold EliminationProjection.MultTranspose
  by_cases h1 : (out.length : Int) = (P.A_.Height : Int) - (P.slave_contact_dofs_.length : Int)
  · have h2 : ¬ inp.length = P.A_.Height := by
      rcases h with h | h
      · exact absurd h1 h
      · exact h
    simp only [MFEM_ASSERT_ok _ h1, MFEM_ASSERT_error _ h2, bind, Except.bind]
  · simp only [MFEM_ASSERT_error _ h1, bind, Except.bind]

theorem BuildGTilde_size_error (P : EliminationProjection) (g gtilde : Vector)
    (h : g.length ≠ P.B_.Height ∨ gtilde.length ≠ P.A_.Height) :
    P.BuildGTilde g gtilde = .error "Sizes don't match!" := by
  unfold EliminationProjection.BuildGTilde
  by_cases h1 : g.length = P.B_.Height
  · have h2 : ¬ gtilde.length = P.A_.Height := by
      rcases h with h | h
      · exact absurd h1 h
      · exact h
    simp only [MFEM_ASSERT_ok _ h1, MFEM_ASSERT_error _ h2, bind, Except.bind]
  · simp only [MFEM_ASSERT_error _ h1, bind, Except.bind]

theorem RecoverPressure_size_error (P : EliminationProjection) (disprhs disp pressure : Vector)
    (h : pressure.length ≠ P.B_.Height ∨ disp.length ≠ P.A_.Height) :
    P.RecoverPressure disprhs disp pressure = .error "Sizes don't match!" := by
  unfold EliminationProjection.RecoverPressure
  by_cases h1 : pressure.length = P.B_.Height
  · have h2 : ¬ disp.length = P.A_.Height := by
      rcases h with h | h
      · exact absurd h1 h
      · exact h
    simp only [MFEM_ASSERT_ok _ h1, MFEM_ASSERT_error _ h2, bind, Except.bind]
  · simp only [MFEM_ASSERT_error _ h1, bind, Except.bind]

theorem RecoverPressure_disprhs_error (P : EliminationProjection)
    (disprhs disp pressure : Vector) (h : disprhs.length ≠ P.A_.Height) :
    ∃ msg, P.RecoverPressure disprhs disp pressure = .error msg := by
  by_cases h0 : pressure.length ≠ P.B_.Height ∨ disp.length ≠ P.A_.Height
  · exact ⟨_, RecoverPressure_size_error P disprhs disp pressure h0⟩
  · have h1 : pressure.length = P.B_.Height := by
      by_contra hc; exact h0 (Or.inl hc)
    have h2 : disp.length = P.A_.Height := by
      by_contra hc; exact h0 (Or.inr hc)
    unfold EliminationProjection.RecoverPressure
    simp only [MFEM_ASSERT_ok _ h1, MFEM_ASSERT_ok _ h2, bind, Except.bind]
    by_cases hw : P.A_.width = disp.length
    · rw [SparseMatrix_Mult_ok P.A_ disp _ hw (by simp [Vector.new])]
      simp only
      have hs : Vector.sub ((List.range P.A_.Height).map (fun i => P.A_.rowDot disp i)) disprhs
          = .error "Size mismatch" := by
        unfold Vector.sub
        rw [MFEM_ASSERT_error _ (by simp; exact fun hc => h hc.symm)]
        rfl
      rw [hs]
      exact ⟨_, rfl⟩
    · have hm : P.A_.Mult disp (Vector.new P.A_.Height) = .error "incompatible dimensions" := by
        unfold SparseMatrix.Mult
        rw [MFEM_ASSERT_error _ (by simp [hw])]
        rfl
      rw [hm]
      exact ⟨_, rfl⟩

/-! ### Evaluation of `EliminationCGSolver::Mult` on vectors of the wrong size -/

theorem ex_over_lagRhs : lagRhs exA exB [1, 1, 0, 0, 5, 7] = [5] := by
  have h4 : exA.Height = 4 := rfl
  have hB : exB.Height = 1 := rfl
  unfold lagRhs
  rw [h4, hB]
  rfl

theorem ex_over_dispRhs : dispRhs exA [1, 1, 0, 0, 5, 7] = [1, 1, 0, 0] := by
  have h4 : exA.Height = 4 := rfl
  unfold dispRhs
  rw [h4]
  rfl

theorem ex_over_reducedSol :
    reducedSol exA exB [2] [3] exKrylov [1, 1, 0, 0, 5, 7] = [0, 0, 0] := rfl

theorem ex_over_adjRhs : adjRhs exA exB [3] [1, 1, 0, 0, 5, 7] = [1, 1, -5, 10] := by
  unfold adjRhs
  rw [ex_over_lagRhs, ex_over_dispRhs, ex_GTilde]
  have h4 : exA.Height = 4 := rfl
  have w : exA.width = 4 := rfl
  rw [h4]
  have e : List.range 4 = [0, 1, 2, 3] := rfl
  simp [e, SparseMatrix.rowDot, w, Finset.sum_range_succ, SparseMatrix.Elem, exA]
  norm_num

theorem ex_over_dispSol :
    dispSol exA exB [2] [3] exKrylov [1, 1, 0, 0, 5, 7] = [0, 0, 0, -5] := by
  unfold dispSol
  rw [ex_over_reducedSol, ex_over_lagRhs, ex_Mult, ex_GTilde]
  have h4 : exA.Height = 4 := rfl
  rw [h4]
  have e : List.range 4 = [0, 1, 2, 3] := rfl
  simp [e]

theorem ex_over_pressureSol :
    pressureSol exA exB [2] [3] exKrylov [1, 1, 0, 0, 5, 7] = [-10] := by
  unfold pressureSol PressureResult
  rw [ex_over_reducedSol, ex_over_adjRhs, ex_Mult]
  have hB : exB.Height = 1 := rfl
  rw [hB]
  have e : List.range 1 = [0] := rfl
  simp only [e, List.map_cons, List.map_nil, ex_solveT]
  have w : exA.width = 4 := rfl
  simp [SparseMatrix.rowDot, w, Finset.sum_range_succ]

theorem ex_under_rhs (sol : Vector) :
    (solverOf exA exB [2] [3]).Mult exKrylov [1, 1, 0, 0] sol = .error "index out of range" := by
  rfl

/-! ### The steps of `EliminationCGSolver::Mult` -/

theorem dispRhs_append_extra (A : SparseMatrix) (f g extra : Vector) (hf : f.length = A.Height) :
    dispRhs A (f ++ g ++ extra) = f := by
  rw [List.append_assoc]
  exact dispRhs_append A f (g ++ extra) hf

theorem lagRhs_append_extra (A B : SparseMatrix) (f g extra : Vector)
    (hf : f.length = A.Height) (hg : g.length = B.Height) :
    lagRhs A B (f ++ g ++ extra) = g := by
  unfold lagRhs
  apply ext_getD _ _ (by simp [hg])
  intro i hi
  simp only [List.length_map, List.length_range] at hi
  rw [getD_range_map, if_pos hi, List.append_assoc,
    List.getD_append_right _ _ _ _ (by omega), hf, Nat.add_sub_cancel_left,
    List.getD_append _ _ _ _ (by omega)]

theorem dispSol_congr (A B : SparseMatrix) (master slave : List Nat) (krylov : CGSolver)
    (r r' : Vector) (h1 : dispRhs A r = dispRhs A r') (h2 : lagRhs A B r = lagRhs A B r') :
    dispSol A B master slave krylov r = dispSol A B master slave krylov r' := by
  unfold dispSol reducedSol reducedRhs adjRhs
  rw [h1, h2]

theorem pressureSol_congr (A B : SparseMatrix) (master slave : List Nat) (krylov : CGSolver)
    (r r' : Vector) (h1 : dispRhs A r = dispRhs A r') (h2 : lagRhs A B r = lagRhs A B r') :
    pressureSol A B master slave krylov r = pressureSol A B master slave krylov r' := by
  unfold pressureSol reducedSol reducedRhs adjRhs
  rw [h1, h2]

/-- The calls made by `EliminationCGSolver::Mult` on `rhs = [f; g]`, in closed form. -/
theorem SolverMult_steps (A B : SparseMatrix) (master slave : List Nat)
    (hv : ValidConfig A B master slave) (krylov : CGSolver) (f g : Vector)
    (hf : f.length = A.Height) (hg : g.length = B.Height) :
    (projectorOf A B master slave).BuildGTilde g (Vector.new A.Height)
        = .ok (GTildeResult A B slave g) ∧
    A.AddMult (GTildeResult A B slave g) f (-1) = .ok (adjRhs A B slave (f ++ g)) ∧
    (projectorOf A B master slave).MultTranspose (adjRhs A B slave (f ++ g))
        (Vector.new (A.Height - slave.length)) = .ok (reducedRhs A B master slave (f ++ g)) ∧
    krylov.Mult (RAPOperator.Mult (projectorOf A B master slave) A (projectorOf A B master slave))
        (reducedRhs A B master slave (f ++ g))
        (Vector.setZero (Vector.new (A.Height - slave.length)))
      = reducedSol A B master slave krylov (f ++ g) ∧
    (projectorOf A B master slave).Mult (reducedSol A B master slave krylov (f ++ g))
        (Vector.new A.Height)
      = .ok (MultResult A B master slave (reducedSol A B master slave krylov (f ++ g))) ∧
    (projectorOf A B master slave).RecoverPressure (adjRhs A B slave (f ++ g))
        (MultResult A B master slave (reducedSol A B master slave krylov (f ++ g)))
        (Vector.new B.Height)
      = .ok (pressureSol A B master slave krylov (f ++ g)) ∧
    Vector.add (MultResult A B master slave (reducedSol A B master slave krylov (f ++ g)))
        (GTildeResult A B slave g) = .ok (dispSol A B master slave krylov (f ++ g)) := by
  have hz : Vector.setZero (Vector.new (A.Height - slave.length))
      = List.replicate (A.Height - slave.length) 0 := by
    simp [Vector.setZero, Vector.new]
  refine ⟨BuildGTilde_ok A B master slave hv g _ hg (by simp [Vector.new]), ?_,
    MultTranspose_ok A B master slave hv _ _ (by simp [adjRhs]) (by simp [Vector.new]), ?_,
    Mult_ok A B master slave hv _ _ (reducedSol_length _ _ _ _ _ _) (by simp [Vector.new]),
    RecoverPressure_ok A B master slave hv _ _ _ (by simp [adjRhs])
      (MultResult_length _ _ _ _ _) (by simp [Vector.new]), ?_⟩
  · rw [SparseMatrix_AddMult_ok A _ f (-1) (by rw [hv.A_square, GTildeResult_length]) hf.symm]
    unfold adjRhs
    rw [dispRhs_append A f g hf, lagRhs_append A B f g hf hg]
  · rw [hz]
    rfl
  · have h := dispSol_eq_add A B master slave krylov (f ++ g)
    rw [lagRhs_append A B f g hf hg] at h
    exact h

/-! ### Independence from the previous content of the output vector -/

theorem setZero_congr (out out' : Vector) (h : out.length = out'.length) :
    Vector.setZero out = Vector.setZero out' := by
  unfold Vector.setZero
  rw [h]

theorem Mult_out_irrelevant (P : EliminationProjection) (x out out' : Vector)
    (h : out.length = out'.length) : P.Mult x out = P.Mult x out' := by
  unfold EliminationProjection.Mult
  rw [setZero_congr out out' h, h]

theorem MultTranspose_out_irrelevant (P : EliminationProjection) (x out out' : Vector)
    (h : out.length = out'.length) : P.MultTranspose x out = P.MultTranspose x out' := by
  unfold EliminationProjection.MultTranspose
  rw [setZero_congr out out' h, h]

theorem BuildGTilde_out_irrelevant (P : EliminationProjection) (g out out' : Vector)
    (h : out.length = out'.length) : P.BuildGTilde g out = P.BuildGTilde g out' := by
  unfold EliminationProjection.BuildGTilde
  rw [setZero_congr out out' h, h]

theorem RecoverPressure_out_irrelevant (P : EliminationProjection) (f u out out' : Vector)
    (h : out.length = out'.length) :
    P.RecoverPressure f u out = P.RecoverPressure f u out' := by
  unfold EliminationProjection.RecoverPressure
  rw [h]

/-! ### The reduced numbering -/

theorem reducedIndex_add_below (S : List Nat) (c : Nat) (hs : S.Sorted (fun x y => x < y)) :
    reducedIndex S c + (S.filter (fun s => decide (s < c))).length = c := by
  have h := reducedIndex_add_length (S.filter (fun s => decide (s < c))) c
    (List.Sorted.filter _ hs) (by
      intro d hd
      simpa using (List.mem_filter.mp hd).2)
  have e : reducedIndex (S.filter (fun s => decide (s < c))) c = reducedIndex S c := by
    unfold reducedIndex
    congr 1
    apply List.filter_congr
    intro d hd
    have hdc : d < c := List.mem_range.mp hd
    simp [List.mem_filter, hdc]
  rw [e] at h
  exact h

theorem reducedIndex_eq_sub (S : List Nat) (c : Nat) (hs : S.Sorted (fun x y => x < y)) :
    reducedIndex S c = c - (S.filter (fun s => decide (s < c))).length := by
  have h := reducedIndex_add_below S c hs
  omega

theorem nonSlaveDofs_sorted (S : List Nat) (n : Nat) :
    (nonSlaveDofs S n).Sorted (fun x y => x < y) :=
  List.Sorted.filter _ (List.sorted_lt_range n)

theorem nonSlaveDofs_map_reducedIndex (S : List Nat) (n : Nat) :
    (nonSlaveDofs S n).map (reducedIndex S) = List.range (reducedIndex S n) := by
  apply List.ext_getElem (by simp [nonSlaveDofs_length])
  intro q h1 h2
  simp only [List.length_map, nonSlaveDofs_length] at h1
  rw [List.getElem_map, List.getElem_range]
  have h := reducedIndex_nonSlave S n q h1
  rw [List.getD_eq_getElem?_getD, List.getElem?_eq_getElem (by rw [nonSlaveDofs_length]; exact h1)]
    at h
  exact h

theorem mapped_eq_sub (master slave : List Nat) (hs : slave.Sorted (fun x y => x < y)) :
    master.map (reducedIndex slave)
      = master.map (fun c => c - (slave.filter (fun s => decide (s < c))).length) := by
  apply List.map_congr_left
  intro c _
  exact reducedIndex_eq_sub slave c hs

/-! ### Independence of the projector from the declared widths -/

theorem ValidConfig_withWidth (A B : SparseMatrix) (master slave : List Nat)
    (hms : master.Sorted (fun x y => x < y)) (hss : slave.Sorted (fun x y => x < y))
    (hd : ∀ d ∈ master, d ∉ slave) (hml : ∀ d ∈ master, d < A.Height)
    (hsl : ∀ d ∈ slave, d < A.Height) (hsz : slave.length = B.Height)
    (hdet : (CsMatrix B slave).det ≠ 0) :
    ValidConfig (withWidth A A.Height) (withWidth B A.Height) master slave where
  A_square := rfl
  B_width := rfl
  master_sorted := hms
  slave_sorted := hss
  disjoint := hd
  master_lt := hml
  slave_lt := hsl
  slave_size := hsz
  Cs_nonsingular := hdet

theorem Mult_withWidth (A B : SparseMatrix) (master slave : List Nat) (wA wB : Nat)
    (x out : Vector) :
    (projectorOf A B master slave).Mult x out
      = (projectorOf (withWidth A wA) (withWidth B wB) master slave).Mult x out := rfl

theorem MultTranspose_withWidth (A B : SparseMatrix) (master slave : List Nat) (wA wB : Nat)
    (x out : Vector) :
    (projectorOf A B master slave).MultTranspose x out
      = (projectorOf (withWidth A wA) (withWidth B wB) master slave).MultTranspose x out := rfl

theorem AssembleApproximate_withWidth (A B : SparseMatrix) (master slave : List Nat)
    (wA wB : Nat) :
    (projectorOf A B master slave).AssembleApproximate
      = (projectorOf (withWidth A wA) (withWidth B wB) master slave).AssembleApproximate := rfl

theorem mapped_lt (master slave : List Nat) (n : Nat)
    (hss : slave.Sorted (fun x y => x < y)) (hd : ∀ d ∈ master, d ∉ slave)
    (hml : ∀ d ∈ master, d < n) (hsl : ∀ d ∈ slave, d < n) :
    ∀ q ∈ master.map (reducedIndex slave), q < n - slave.length := by
  intro q hq
  obtain ⟨c, hc, rfl⟩ := List.mem_map.mp hq
  have h1 := reducedIndex_lt slave (hml c hc) (hd c hc)
  have h2 := reducedIndex_add_length slave n hss hsl
  omega

/-! ### Injectivity of the projector and the reduced operator -/

theorem adjoint_closed (A B : SparseMatrix) (master slave : List Nat)
    (hv : ValidConfig A B master slave) (u v : Vector)
    (hu : u.length = A.Height - slave.length) (hvl : v.length = A.Height) :
    Vector.dot (MultResult A B master slave u) v
      = Vector.dot u (MultTransposeResult A B master slave v) := by
  rw [dot_Mult A B master slave hv u v hvl, dot_MultTranspose A B master slave hv u v hu,
    slave_master_adjoint B master slave hv.slave_size u v]

theorem dot_comm (a b : Vector) (n : Nat) (ha : a.length = n) (hb : b.length = n) :
    Vector.dot a b = Vector.dot b a := by
  rw [dot_eq_sum a b n ha hb, dot_eq_sum b a n hb ha]
  apply Finset.sum_congr rfl
  intro i _
  ring

theorem MultResult_injective (A B : SparseMatrix) (master slave : List Nat)
    (hv : ValidConfig A B master slave) (x x' : Vector)
    (hx : x.length = A.Height - slave.length) (hx' : x'.length = A.Height - slave.length)
    (h : ∀ i, i < A.Height → i ∉ slave →
      (MultResult A B master slave x).getD i 0 = (MultResult A B master slave x').getD i 0) :
    x = x' := by
  have hsz := hv.size_le
  apply ext_getD _ _ (by rw [hx, hx'])
  intro q hq
  have hq' : q < reducedIndex slave A.Height := by omega
  have hmem : (nonSlaveDofs slave A.Height).getD q 0 ∈ nonSlaveDofs slave A.Height := by
    rw [List.getD_eq_getElem?_getD,
      List.getElem?_eq_getElem (by rw [nonSlaveDofs_length]; exact hq')]
    exact List.getElem_mem _
  obtain ⟨h1, h2⟩ := (nonSlaveDofs_mem slave A.Height _).mp hmem
  have e := h _ h1 h2
  rw [MultResult_nonslave A B master slave x _ h1 h2,
    MultResult_nonslave A B master slave x' _ h1 h2,
    reducedIndex_nonSlave slave A.Height q hq'] at e
  exact e

theorem rowDot_symm (A : SparseMatrix) (hA : A.width = A.Height)
    (hsym : ∀ i j, i < A.Height → j < A.Height → A.Elem i j = A.Elem j i)
    (a b : Vector) :
    ∑ i in Finset.range A.Height, a.getD i 0 * A.rowDot b i
      = ∑ i in Finset.range A.Height, A.rowDot a i * b.getD i 0 := by
  unfold SparseMatrix.rowDot
  rw [hA]
  simp only [Finset.mul_sum, Finset.sum_mul]
  rw [Finset.sum_comm]
  apply Finset.sum_congr rfl
  intro j hj
  apply Finset.sum_congr rfl
  intro i hi
  rw [hsym i j (Finset.mem_range.mp hi) (Finset.mem_range.mp hj)]
  ring

/-- The inner product `⟨P^T A P x, z⟩` as `⟨A P x, P z⟩`. -/
theorem dot_RAP (A B : SparseMatrix) (master slave : List Nat)
    (hv : ValidConfig A B master slave) (x z : Vector)
    (hz : z.length = A.Height - slave.length) :
    Vector.dot (MultTransposeResult A B master slave
        ((List.range A.Height).map (fun i => A.rowDot (MultResult A B master slave x) i))) z
      = ∑ i in Finset.range A.Height,
          A.rowDot (MultResult A B master slave x) i * (MultResult A B master slave z).getD i 0 := by
  rw [dot_comm _ z (A.Height - slave.length) (MultTransposeResult_length _ _ _ _ _) hz,
    ← adjoint_closed A B master slave hv z _ hz (by simp),
    dot_eq_sum _ _ A.Height (MultResult_length _ _ _ _ _) (by simp)]
  apply Finset.sum_congr rfl
  intro i hi
  rw [getD_range_map, if_pos (Finset.mem_range.mp hi)]
  ring

theorem Mult_ok_inv (A B : SparseMatrix) (master slave : List Nat)
    (hv : ValidConfig A B master slave) (x out y : Vector)
    (h : (projectorOf A B master slave).Mult x out = .ok y) :
    x.length = A.Height - slave.length ∧ y = MultResult A B master slave x := by
  have hsz := hv.size_le
  by_cases hs : x.length = A.Height - slave.length ∧ out.length = A.Height
  · rw [Mult_ok A B master slave hv x out hs.1 hs.2] at h
    exact ⟨hs.1, (Except.ok.inj h).symm⟩
  · have he := Mult_size_error (projectorOf A B master slave) x out (by
      show (x.length : Int) ≠ (A.Height : Int) - (slave.length : Int) ∨ out.length ≠ A.Height
      by_cases h1 : x.length = A.Height - slave.length
      · right
        exact fun h2 => hs ⟨h1, h2⟩
      · left
        omega)
    rw [he] at h
    cases h

theorem reduced_nonzero (A B : SparseMatrix) (master slave : List Nat)
    (hv : ValidConfig A B master slave) (x : Vector)
    (hx : x.length = A.Height - slave.length) (hne : ∃ q, x.getD q 0 ≠ 0) :
    ∃ i, (MultResult A B master slave x).getD i 0 ≠ 0 := by
  by_contra hc
  push_neg at hc
  have e := MultResult_injective A B master slave hv x
    (List.replicate (A.Height - slave.length) 0) hx (by simp) (by
      intro i hi his
      rw [hc i, MultResult_nonslave A B master slave _ i hi his, getD_replicate_zero])
  obtain ⟨q, hq⟩ := hne
  rw [e, getD_replicate_zero] at hq
  exact hq rfl

theorem exA_symm : ∀ i j, i < exA.Height → j < exA.Height → exA.Elem i j = exA.Elem j i := by
  intro i j hi hj
  have h4 : exA.Height = 4 := rfl
  rw [h4] at hi hj
  interval_cases i <;> interval_cases j <;> simp [SparseMatrix.Elem, exA]

theorem exA_pd : ∀ v Av : Vector, v.length = exA.Height →
    exA.Mult v (Vector.new exA.Height) = .ok Av → (∃ i, v.getD i 0 ≠ 0) →
    0 < Vector.dot Av v := by
  intro v Av hl hm hne
  have h4 : exA.Height = 4 := rfl
  rw [h4] at hl
  match v, hl with
  | [a, b, c, d], _ =>
    rw [SparseMatrix_Mult_ok exA [a, b, c, d] (Vector.new exA.Height) rfl rfl, ex_A_rows] at hm
    have e := Except.ok.inj hm
    subst e
    have hnz : a ≠ 0 ∨ b ≠ 0 ∨ c ≠ 0 ∨ d ≠ 0 := by
      obtain ⟨i, hi⟩ := hne
      by_contra hc
      push_neg at hc
      obtain ⟨ha, hb, hc', hd⟩ := hc
      subst ha hb hc' hd
      match i with
      | 0 => simp at hi
      | 1 => simp at hi
      | 2 => simp at hi
      | 3 => simp at hi
      | (k + 4) => simp at hi
    have key : Vector.dot [2 * a - b, -a + 3 * b - c, -b + 3 * c - d, -c + 2 * d] [a, b, c, d]
        = a ^ 2 + (a - b) ^ 2 + b ^ 2 + (b - c) ^ 2 + c ^ 2 + (c - d) ^ 2 + d ^ 2 := by
      simp [Vector.dot]
      ring
    rw [key]
    rcases hnz with h | h | h | h
    · have := pow_pos (abs_pos.mpr h) 2
      rw [sq_abs] at this
      nlinarith [sq_nonneg (a - b), sq_nonneg b, sq_nonneg (b - c), sq_nonneg c,
        sq_nonneg (c - d), sq_nonneg d]
    · have := pow_pos (abs_pos.mpr h) 2
      rw [sq_abs] at this
      nlinarith [sq_nonneg (a - b), sq_nonneg a, sq_nonneg (b - c), sq_nonneg c,
        sq_nonneg (c - d), sq_nonneg d]
    · have := pow_pos (abs_pos.mpr h) 2
      rw [sq_abs] at this
      nlinarith [sq_nonneg (a - b), sq_nonneg a, sq_nonneg (b - c), sq_nonneg b,
        sq_nonneg (c - d), sq_nonneg d]
    · have := pow_pos (abs_pos.mpr h) 2
      rw [sq_abs] at this
      nlinarith [sq_nonneg (a - b), sq_nonneg a, sq_nonneg (b - c), sq_nonneg b,
        sq_nonneg (c - d), sq_nonneg c]

/-! ### The double loops of the second derivatives -/

theorem ADSVector_update_map (n : Nat) (g : Nat → ADSType) (i : Nat) (hi : i < n)
    (f : ADSType → ADSType) :
    ADSVector.update ((List.range n).map g) i f
      = .ok ((List.range n).map (fun k => if k = i then f (g k) else g k)) := by
  unfold ADSVector.update
  have h1 : ((List.range n).map g)[i]? = some (g i) := by
    rw [List.getElem?_map, List.getElem?_range hi]
    rfl
  rw [h1]
  simp only
  congr 1
  apply List.ext_getElem (by simp)
  intro k h2 h3
  simp only [List.length_map, List.length_range] at h3
  rw [List.getElem_set, List.getElem_map, List.getElem_map, List.getElem_range]
  by_cases hk : i = k
  · subst hk; simp
  · have hk' : ¬ k = i := fun h => hk h.symm
    simp [hk, hk']

theorem index_lt (n i j : Nat) (hi : i < n) (hj : j < n) : i + j * n < n * n := by
  have h1 : (j + 1) * n ≤ n * n := Nat.mul_le_mul_right n (by omega)
  have h2 : (j + 1) * n = j * n + n := by ring
  omega

theorem index_inj (n a b i j : Nat) (ha : a < n) (hi : i < n)
    (h : a + b * n = i + j * n) : a = i ∧ b = j := by
  have h1 : (a + b * n) % n = a := by
    rw [Nat.add_mul_mod_self_right, Nat.mod_eq_of_lt ha]
  have h2 : (i + j * n) % n = i := by
    rw [Nat.add_mul_mod_self_right, Nat.mod_eq_of_lt hi]
  have e : a = i := by rw [← h1, h, h2]
  subst e
  have h3 : b * n = j * n := by omega
  exact ⟨rfl, Nat.eq_of_mul_eq_mul_right (by omega) h3⟩

theorem assign_ok (n : Nat) (M : DenseMatrix) (f : Nat → Nat → ℚ) (h : HessMatrix n M f)
    (i j : Nat) (hi : i < n) (hj : j < n) (v : ℚ) :
    ∃ M', M.assign i j v = .ok M' ∧
      HessMatrix n M' (fun a b => if a = i ∧ b = j then v else f a b) := by
  have hidx := index_lt n i j hi hj
  refine ⟨⟨M.height, M.width, List.set M.data (i + j * M.height) v⟩, ?_, ?_⟩
  · unfold DenseMatrix.assign
    rw [if_pos ⟨by rw [h.height]; exact hi, by rw [h.width]; exact hj,
      by rw [h.height, h.size]; exact hidx⟩]
  · refine ⟨h.height, h.width, by simp [h.size], ?_⟩
    intro a b ha hb
    show (List.set M.data (i + j * M.height) v).getD (a + b * M.height) 0 = _
    rw [h.height, getD_set _ _ _ _ (by rw [h.size]; exact hidx)]
    by_cases hab : a = i ∧ b = j
    · rw [if_pos hab, if_pos (by rw [hab.1, hab.2])]
    · rw [if_neg hab, if_neg (fun hc => hab (index_inj n a b i j ha hi hc))]
      have := h.entry a b ha hb
      unfold DenseMatrix.entry at this
      rw [h.height] at this
      exact this

theorem setZero_hess (n : Nat) :
    HessMatrix n (DenseMatrix.SetSize n n).setZero (fun _ _ => 0) := by
  refine ⟨rfl, rfl, by simp [DenseMatrix.setZero, DenseMatrix.SetSize], ?_⟩
  intro a b _ _
  simp [DenseMatrix.entry, DenseMatrix.setZero, DenseMatrix.SetSize]

theorem Q_seed_pass (uu : Vector) (ii jj : Nat) (hjj : jj < uu.length) :
    ADSVector.update (ADQIntegratorH.passVector uu ii jj) jj (fun a => a.setDual ⟨1, 0⟩)
      = .ok (ADQIntegratorH.evalPoint uu ii jj) := by
  unfold ADQIntegratorH.passVector ADQIntegratorH.evalPoint
  rw [ADSVector_update_map _ _ jj hjj]
  congr 1
  apply List.map_congr_left
  intro k _
  by_cases hk : k = jj
  · simp [hk, FDual.setDual]
  · simp [hk]

theorem Q_reset_pass (uu : Vector) (ii jj : Nat) (hjj : jj < uu.length) :
    ADSVector.update (ADQIntegratorH.evalPoint uu ii jj) jj (fun a => a.setDual ⟨0, 0⟩)
      = .ok (ADQIntegratorH.passVector uu ii (jj + 1)) := by
  unfold ADQIntegratorH.passVector ADQIntegratorH.evalPoint
  rw [ADSVector_update_map _ _ jj hjj]
  congr 1
  apply List.map_congr_left
  intro k _
  by_cases hk : k = jj
  · simp [hk, FDual.setDual]
  · have h1 : k < jj + 1 ↔ k < jj := by omega
    simp [hk, h1]

theorem Q_innerStep_ok (QIntegrator : Vector → ADSVector → ADSType) (vparam uu : Vector)
    (ii jj : Nat) (hii : ii < uu.length) (hjj : jj < uu.length)
    (M : DenseMatrix) (f : Nat → Nat → ℚ) (h : HessMatrix uu.length M f) :
    ∃ M', ADQIntegratorH.QIntegratorDD.innerStep QIntegrator vparam ii
        ⟨ADQIntegratorH.passVector uu ii jj, M⟩ jj
        = .ok ⟨ADQIntegratorH.passVector uu ii (jj + 1), M'⟩ ∧
      HessMatrix uu.length M' (fun a b =>
        if a = jj ∧ b = ii then ADQIntegratorH.value QIntegrator vparam uu ii jj
        else if a = ii ∧ b = jj then ADQIntegratorH.value QIntegrator vparam uu ii jj
        else f a b) := by
  obtain ⟨M1, e1, h1⟩ := assign_ok uu.length M f h ii jj hii hjj
    (ADQIntegratorH.value QIntegrator vparam uu ii jj)
  obtain ⟨M2, e2, h2⟩ := assign_ok uu.length M1 _ h1 jj ii hjj hii
    (ADQIntegratorH.value QIntegrator vparam uu ii jj)
  refine ⟨M2, ?_, h2⟩
  unfold ADQIntegratorH.QIntegratorDD.innerStep
  simp only [Q_seed_pass uu ii jj hjj, bind, Except.bind]
  have e1' : M.assign ii jj
      (QIntegrator vparam (ADQIntegratorH.evalPoint uu ii jj)).dual.dual = .ok M1 := e1
  rw [e1']
  simp only
  have e2' : M1.assign jj ii
      (QIntegrator vparam (ADQIntegratorH.evalPoint uu ii jj)).dual.dual = .ok M2 := e2
  rw [e2']
  simp only
  rw [Q_reset_pass uu ii jj hjj]
  rfl

theorem Q_inner_loop (QIntegrator : Vector → ADSVector → ADSType) (vparam uu : Vector)
    (ii : Nat) (hii : ii < uu.length) (M0 : DenseMatrix) (f0 : Nat → Nat → ℚ)
    (h0 : HessMatrix uu.length M0 f0) (k : Nat) (hk : k ≤ ii + 1) :
    ∃ M, (List.range k).foldlM (ADQIntegratorH.QIntegratorDD.innerStep QIntegrator vparam ii)
        ⟨ADQIntegratorH.passVector uu ii 0, M0⟩
        = .ok ⟨ADQIntegratorH.passVector uu ii k, M⟩ ∧
      HessMatrix uu.length M (fun a b =>
        if a = ii ∧ b < k then ADQIntegratorH.value QIntegrator vparam uu ii b
        else if b = ii ∧ a < k then ADQIntegratorH.value QIntegrator vparam uu ii a
        else f0 a b) := by
  induction k with
  | zero =>
    refine ⟨M0, rfl, h0.height, h0.width, h0.size, ?_⟩
    intro a b ha hb
    simp [h0.entry a b ha hb]
  | succ k ih =>
    obtain ⟨M, hM, hI⟩ := ih (by omega)
    obtain ⟨M', hM', hI'⟩ := Q_innerStep_ok QIntegrator vparam uu ii k hii (by omega) M _ hI
    refine ⟨M', ?_, hI'.height, hI'.width, hI'.size, ?_⟩
    · rw [List.range_succ, List.foldlM_append, hM]
      simp only [bind, Except.bind, List.foldlM_cons, List.foldlM_nil]
      rw [hM']
      rfl
    · intro a b ha hb
      rw [hI'.entry a b ha hb]
      by_cases c1 : a = k ∧ b = ii
      · rw [if_pos c1]
        obtain ⟨rfl, rfl⟩ := c1
        by_cases c2 : a = b
        · subst c2
          rw [if_pos ⟨rfl, by omega⟩]
        · rw [if_neg (fun hc => c2 hc.1), if_pos ⟨rfl, by omega⟩]
      · rw [if_neg c1]
        by_cases c2 : a = ii ∧ b = k
        · rw [if_pos c2]
          obtain ⟨rfl, rfl⟩ := c2
          rw [if_pos ⟨rfl, by omega⟩]
        · rw [if_neg c2]
          have e1 : (a = ii ∧ b < k + 1) ↔ (a = ii ∧ b < k) := by
            constructor
            · rintro ⟨h1, h2⟩
              refine ⟨h1, ?_⟩
              by_contra hc
              exact c2 ⟨h1, by omega⟩
            · rintro ⟨h1, h2⟩
              exact ⟨h1, by omega⟩
          have e2 : (b = ii ∧ a < k + 1) ↔ (b = ii ∧ a < k) := by
            constructor
            · rintro ⟨h1, h2⟩
              refine ⟨h1, ?_⟩
              by_contra hc
              exact c1 ⟨by omega, h1⟩
            · rintro ⟨h1, h2⟩
              exact ⟨h1, by omega⟩
          simp only [e1, e2]

theorem ADSVector_new_eq (n : Nat) :
    ADSVector.new n = (List.range n).map (fun _ => (⟨⟨0, 0⟩, ⟨0, 0⟩⟩ : ADSType)) := by
  unfold ADSVector.new
  apply List.ext_getElem (by simp)
  intro k h1 h2
  simp

theorem init_loop (src : Vector) (n : Nat) (hn : n ≤ src.length) (k : Nat) (hk : k ≤ n) :
    (List.range k).foldlM (ADQIntegratorH.QIntegratorDD.initStep src) (ADSVector.new n)
      = .ok ((List.range n).map (fun j =>
          if j < k then (⟨⟨src.getD j 0, 0⟩, ⟨0, 0⟩⟩ : ADSType) else ⟨⟨0, 0⟩, ⟨0, 0⟩⟩)) := by
  induction k with
  | zero =>
    rw [ADSVector_new_eq]
    simp [pure, Except.pure]
  | succ k ih =>
    rw [List.range_succ, List.foldlM_append, ih (by omega)]
    simp only [bind, Except.bind, List.foldlM_cons, List.foldlM_nil]
    unfold ADQIntegratorH.QIntegratorDD.initStep
    rw [Vector_elem_ok src k (by omega)]
    simp only [bind, Except.bind]
    rw [ADSVector_update_map n _ k (by omega)]
    simp only
    rw [ADSVector_update_map n _ k (by omega)]
    simp only [pure, Except.pure]
    congr 1
    apply List.map_congr_left
    intro j _
    by_cases hj : j = k
    · subst hj
      simp [FDual.setReal, FDual.setDual]
    · have h1 : j < k + 1 ↔ j < k := by omega
      simp [hj, h1]

theorem Q_seed_row (uu : Vector) (ii : Nat) (hii : ii < uu.length) :
    ADSVector.update (ADQIntegratorH.rowVector uu ii) ii
        (fun a => a.setDual ⟨uu.getD ii 0, 1⟩)
      = .ok (ADQIntegratorH.passVector uu ii 0) := by
  unfold ADQIntegratorH.rowVector ADQIntegratorH.passVector
  rw [ADSVector_update_map _ _ ii hii]
  congr 1
  apply List.map_congr_left
  intro k _
  by_cases hk : k = ii
  · subst hk
    simp [FDual.setDual]
  · simp [hk]

theorem Q_reset_row (uu : Vector) (ii : Nat) (hii : ii < uu.length) :
    ADSVector.update (ADQIntegratorH.passVector uu ii (ii + 1)) ii
        (fun a => a.setDual ⟨uu.getD ii 0, 0⟩)
      = .ok (ADQIntegratorH.rowVector uu (ii + 1)) := by
  unfold ADQIntegratorH.rowVector ADQIntegratorH.passVector
  rw [ADSVector_update_map _ _ ii hii]
  congr 1
  apply List.map_congr_left
  intro k _
  by_cases hk : k = ii
  · subst hk
    simp [FDual.setDual]
  · by_cases h1 : k < ii + 1
    · simp [hk, h1]
    · have h2 : ¬ k + 1 = ii := by omega
      simp [hk, h1, h2]

theorem Q_outerStep_ok (QIntegrator : Vector → ADSVector → ADSType) (vparam uu : Vector)
    (ii : Nat) (hii : ii < uu.length) (M : DenseMatrix) (f : Nat → Nat → ℚ)
    (h : HessMatrix uu.length M f) :
    ∃ M', ADQIntegratorH.QIntegratorDD.outerStep QIntegrator vparam uu
        ⟨ADQIntegratorH.rowVector uu ii, M⟩ ii
        = .ok ⟨ADQIntegratorH.rowVector uu (ii + 1), M'⟩ ∧
      HessMatrix uu.length M' (fun a b =>
        if a = ii ∧ b < ii + 1 then ADQIntegratorH.value QIntegrator vparam uu ii b
        else if b = ii ∧ a < ii + 1 then ADQIntegratorH.value QIntegrator vparam uu ii a
        else f a b) := by
  obtain ⟨M', hM', hI'⟩ := Q_inner_loop QIntegrator vparam uu ii hii M f h (ii + 1) (le_refl _)
  refine ⟨M', ?_, hI'⟩
  unfold ADQIntegratorH.QIntegratorDD.outerStep
  rw [Vector_elem_ok uu ii hii]
  simp only [bind, Except.bind]
  rw [Q_seed_row uu ii hii]
  simp only
  rw [hM']
  simp only
  rw [Q_reset_row uu ii hii]
  rfl

theorem Q_outer_loop (QIntegrator : Vector → ADSVector → ADSType) (vparam uu : Vector)
    (k : Nat) (hk : k ≤ uu.length) :
    ∃ M, (List.range k).foldlM
        (ADQIntegratorH.QIntegratorDD.outerStep QIntegrator vparam uu)
        ⟨ADQIntegratorH.rowVector uu 0, (DenseMatrix.SetSize uu.length uu.length).setZero⟩
        = .ok ⟨ADQIntegratorH.rowVector uu k, M⟩ ∧
      HessMatrix uu.length M (fun a b =>
        if a < k ∧ b < k then ADQIntegratorH.value QIntegrator vparam uu (max a b) (min a b)
        else 0) := by
  induction k with
  | zero =>
    refine ⟨_, rfl, (setZero_hess uu.length).height, (setZero_hess uu.length).width,
      (setZero_hess uu.length).size, ?_⟩
    intro a b ha hb
    rw [(setZero_hess uu.length).entry a b ha hb]
    simp
  | succ k ih =>
    obtain ⟨M, hM, hI⟩ := ih (by omega)
    obtain ⟨M', hM', hI'⟩ := Q_outerStep_ok QIntegrator vparam uu k (by omega) M _ hI
    refine ⟨M', ?_, hI'.height, hI'.width, hI'.size, ?_⟩
    · rw [List.range_succ, List.foldlM_append, hM]
      simp only [bind, Except.bind, List.foldlM_cons, List.foldlM_nil]
      rw [hM']
      rfl
    · intro a b ha hb
      rw [hI'.entry a b ha hb]
      by_cases c1 : a = k ∧ b < k + 1
      · rw [if_pos c1, if_pos ⟨by omega, c1.2⟩]
        obtain ⟨rfl, h2⟩ := c1
        rw [max_eq_left (by omega), min_eq_right (by omega)]
      · rw [if_neg c1]
        by_cases c2 : b = k ∧ a < k + 1
        · rw [if_pos c2, if_pos ⟨c2.2, by omega⟩]
          obtain ⟨rfl, h2⟩ := c2
          rw [max_eq_right (by omega), min_eq_left (by omega)]
        · rw [if_neg c2]
          by_cases c3 : a < k ∧ b < k
          · rw [if_pos c3, if_pos ⟨by omega, by omega⟩]
          · rw [if_neg c3, if_neg (by
              rintro ⟨h1, h2⟩
              by_cases ha' : a = k
              · exact c1 ⟨ha', h2⟩
              · by_cases hb' : b = k
                · exact c2 ⟨hb', h1⟩
                · exact c3 ⟨by omega, by omega⟩)]

theorem Q_loops_ok (QIntegrator : Vector → ADSVector → ADSType) (vparam uu : Vector) :
    ∃ M, ADQIntegratorH.QIntegratorDD.loops QIntegrator vparam uu
        = .ok ⟨ADQIntegratorH.rowVector uu uu.length, M⟩ ∧
      HessMatrix uu.length M (fun a b =>
        ADQIntegratorH.value QIntegrator vparam uu (max a b) (min a b)) := by
  obtain ⟨M, hM, hI⟩ := Q_outer_loop QIntegrator vparam uu uu.length (le_refl _)
  refine ⟨M, ?_, hI.height, hI.width, hI.size, ?_⟩
  · unfold ADQIntegratorH.QIntegratorDD.loops
    simp only []
    rw [init_loop uu uu.length (le_refl _) uu.length (le_refl _)]
    simp only [bind, Except.bind]
    have e : (List.range uu.length).map (fun j =>
        if j < uu.length then (⟨⟨uu.getD j 0, 0⟩, ⟨0, 0⟩⟩ : ADSType) else ⟨⟨0, 0⟩, ⟨0, 0⟩⟩)
        = ADQIntegratorH.rowVector uu 0 := by
      unfold ADQIntegratorH.rowVector
      apply List.map_congr_left
      intro j hj
      simp [List.mem_range.mp hj]
    rw [e]
    exact hM
  · intro a b ha hb
    rw [hI.entry a b ha hb, if_pos ⟨ha, hb⟩]

theorem G_initStep_eq (elfun : Vector) :
    ADNonlinearFormIntegratorH.AssembleElementGrad.initStep elfun
      = ADQIntegratorH.QIntegratorDD.initStep elfun := rfl

theorem G_seed_pass (ndof : Nat) (elfun : Vector) (ii jj : Nat) (hjj : jj < ndof) :
    ADSVector.update (ADNonlinearFormIntegratorH.passVector ndof elfun ii) jj
        (fun a => a.setDual ⟨1, 0⟩)
      = .ok (ADNonlinearFormIntegratorH.evalPoint ndof elfun ii jj) := by
  unfold ADNonlinearFormIntegratorH.passVector ADNonlinearFormIntegratorH.evalPoint
  rw [ADSVector_update_map _ _ jj hjj]
  congr 1
  apply List.map_congr_left
  intro k _
  by_cases hk : k = jj
  · simp [hk, FDual.setDual]
  · simp [hk]

theorem G_reset_pass (ndof : Nat) (elfun : Vector) (ii jj : Nat) (hjj : jj < ndof) :
    ADSVector.update (ADNonlinearFormIntegratorH.evalPoint ndof elfun ii jj) jj
        (fun a => a.setDual ⟨0, 0⟩)
      = .ok (ADNonlinearFormIntegratorH.passVector ndof elfun ii) := by
  unfold ADNonlinearFormIntegratorH.passVector ADNonlinearFormIntegratorH.evalPoint
  rw [ADSVector_update_map _ _ jj hjj]
  congr 1
  apply List.map_congr_left
  intro k _
  by_cases hk : k = jj
  · simp [hk, FDual.setDual]
  · simp [hk]

theorem G_innerStep_ok {ET : Type} (ElementEnergy : FiniteElement → ET → ADSVector → ADSType)
    (el : FiniteElement) (Tr : ET) (elfun : Vector)
    (ii jj : Nat) (hii : ii < el.GetDof) (hjj : jj < el.GetDof)
    (M : DenseMatrix) (f : Nat → Nat → ℚ) (h : HessMatrix el.GetDof M f) :
    ∃ M', ADNonlinearFormIntegratorH.AssembleElementGrad.innerStep ElementEnergy el Tr ii
        ⟨ADNonlinearFormIntegratorH.passVector el.GetDof elfun ii, M⟩ jj
        = .ok ⟨ADNonlinearFormIntegratorH.passVector el.GetDof elfun ii, M'⟩ ∧
      HessMatrix el.GetDof M' (fun a b =>
        if a = jj ∧ b = ii then ADNonlinearFormIntegratorH.value ElementEnergy el Tr elfun ii jj
        else if a = ii ∧ b = jj then
          ADNonlinearFormIntegratorH.value ElementEnergy el Tr elfun ii jj
        else f a b) := by
  obtain ⟨M1, e1, h1⟩ := assign_ok el.GetDof M f h ii jj hii hjj
    (ADNonlinearFormIntegratorH.value ElementEnergy el Tr elfun ii jj)
  obtain ⟨M2, e2, h2⟩ := assign_ok el.GetDof M1 _ h1 jj ii hjj hii
    (ADNonlinearFormIntegratorH.value ElementEnergy el Tr elfun ii jj)
  refine ⟨M2, ?_, h2⟩
  unfold ADNonlinearFormIntegratorH.AssembleElementGrad.innerStep
  simp only [G_seed_pass el.GetDof elfun ii jj hjj, bind, Except.bind]
  have e1' : M.assign ii jj (ElementEnergy el Tr
      (ADNonlinearFormIntegratorH.evalPoint el.GetDof elfun ii jj)).dual.dual = .ok M1 := e1
  rw [e1']
  simp only
  have e2' : M1.assign jj ii (ElementEnergy el Tr
      (ADNonlinearFormIntegratorH.evalPoint el.GetDof elfun ii jj)).dual.dual = .ok M2 := e2
  rw [e2']
  simp only
  rw [G_reset_pass el.GetDof elfun ii jj hjj]
  rfl

theorem G_inner_loop {ET : Type} (ElementEnergy : FiniteElement → ET → ADSVector → ADSType)
    (el : FiniteElement) (Tr : ET) (elfun : Vector)
    (ii : Nat) (hii : ii < el.GetDof) (M0 : DenseMatrix) (f0 : Nat → Nat → ℚ)
    (h0 : HessMatrix el.GetDof M0 f0) (k : Nat) (hk : k ≤ ii + 1) :
    ∃ M, (List.range k).foldlM
        (ADNonlinearFormIntegratorH.AssembleElementGrad.innerStep ElementEnergy el Tr ii)
        ⟨ADNonlinearFormIntegratorH.passVector el.GetDof elfun ii, M0⟩
        = .ok ⟨ADNonlinearFormIntegratorH.passVector el.GetDof elfun ii, M⟩ ∧
      HessMatrix el.GetDof M (fun a b =>
        if a = ii ∧ b < k then ADNonlinearFormIntegratorH.value ElementEnergy el Tr elfun ii b
        else if b = ii ∧ a < k then
          ADNonlinearFormIntegratorH.value ElementEnergy el Tr elfun ii a
        else f0 a b) := by
  induction k with
  | zero =>
    refine ⟨M0, rfl, h0.height, h0.width, h0.size, ?_⟩
    intro a b ha hb
    simp [h0.entry a b ha hb]
  | succ k ih =>
    obtain ⟨M, hM, hI⟩ := ih (by omega)
    obtain ⟨M', hM', hI'⟩ := G_innerStep_ok ElementEnergy el Tr elfun ii k hii (by omega) M _ hI
    refine ⟨M', ?_, hI'.height, hI'.width, hI'.size, ?_⟩
    · rw [List.range_succ, List.foldlM_append, hM]
      simp only [bind, Except.bind, List.foldlM_cons, List.foldlM_nil]
      rw [hM']
      rfl
    · intro a b ha hb
      rw [hI'.entry a b ha hb]
      by_cases c1 : a = k ∧ b = ii
      · rw [if_pos c1]
        obtain ⟨rfl, rfl⟩ := c1
        by_cases c2 : a = b
        · subst c2
          rw [if_pos ⟨rfl, by omega⟩]
        · rw [if_neg (fun hc => c2 hc.1), if_pos ⟨rfl, by omega⟩]
      · rw [if_neg c1]
        by_cases c2 : a = ii ∧ b = k
        · rw [if_pos c2]
          obtain ⟨rfl, rfl⟩ := c2
          rw [if_pos ⟨rfl, by omega⟩]
        · rw [if_neg c2]
          have e1 : (a = ii ∧ b < k + 1) ↔ (a = ii ∧ b < k) := by
            constructor
            · rintro ⟨h1, h2⟩
              refine ⟨h1, ?_⟩
              by_contra hc
              exact c2 ⟨h1, by omega⟩
            · rintro ⟨h1, h2⟩
              exact ⟨h1, by omega⟩
          have e2 : (b = ii ∧ a < k + 1) ↔ (b = ii ∧ a < k) := by
            constructor
            · rintro ⟨h1, h2⟩
              refine ⟨h1, ?_⟩
              by_contra hc
              exact c1 ⟨by omega, h1⟩
            · rintro ⟨h1, h2⟩
              exact ⟨h1, by omega⟩
          simp only [e1, e2]

theorem G_seed_row (ndof : Nat) (elfun : Vector) (ii : Nat) (hii : ii < ndof) :
    ADSVector.update (ADNonlinearFormIntegratorH.initVector ndof elfun) ii
        (fun a => a.setReal ⟨elfun.getD ii 0, 1⟩)
      = .ok (ADNonlinearFormIntegratorH.passVector ndof elfun ii) := by
  unfold ADNonlinearFormIntegratorH.initVector ADNonlinearFormIntegratorH.passVector
  rw [ADSVector_update_map _ _ ii hii]
  congr 1
  apply List.map_congr_left
  intro k _
  by_cases hk : k = ii
  · subst hk
    simp [FDual.setReal]
  · simp [hk]

theorem G_reset_row (ndof : Nat) (elfun : Vector) (ii : Nat) (hii : ii < ndof) :
    ADSVector.update (ADNonlinearFormIntegratorH.passVector ndof elfun ii) ii
        (fun a => a.setReal ⟨elfun.getD ii 0, 0⟩)
      = .ok (ADNonlinearFormIntegratorH.initVector ndof elfun) := by
  unfold ADNonlinearFormIntegratorH.initVector ADNonlinearFormIntegratorH.passVector
  rw [ADSVector_update_map _ _ ii hii]
  congr 1
  apply List.map_congr_left
  intro k _
  by_cases hk : k = ii
  · subst hk
    simp [FDual.setReal]
  · simp [hk]

theorem G_outerStep_ok {ET : Type} (ElementEnergy : FiniteElement → ET → ADSVector → ADSType)
    (el : FiniteElement) (Tr : ET) (elfun : Vector) (hn : el.GetDof ≤ elfun.length)
    (ii : Nat) (hii : ii < el.GetDof) (M : DenseMatrix) (f : Nat → Nat → ℚ)
    (h : HessMatrix el.GetDof M f) :
    ∃ M', ADNonlinearFormIntegratorH.AssembleElementGrad.outerStep ElementEnergy el Tr elfun
        ⟨ADNonlinearFormIntegratorH.initVector el.GetDof elfun, M⟩ ii
        = .ok ⟨ADNonlinearFormIntegratorH.initVector el.GetDof elfun, M'⟩ ∧
      HessMatrix el.GetDof M' (fun a b =>
        if a = ii ∧ b < ii + 1 then
          ADNonlinearFormIntegratorH.value ElementEnergy el Tr elfun ii b
        else if b = ii ∧ a < ii + 1 then
          ADNonlinearFormIntegratorH.value ElementEnergy el Tr elfun ii a
        else f a b) := by
  obtain ⟨M', hM', hI'⟩ := G_inner_loop ElementEnergy el Tr elfun ii hii M f h (ii + 1)
    (le_refl _)
  refine ⟨M', ?_, hI'⟩
  unfold ADNonlinearFormIntegratorH.AssembleElementGrad.outerStep
  rw [Vector_elem_ok elfun ii (by omega)]
  simp only [bind, Except.bind]
  rw [G_seed_row el.GetDof elfun ii hii]
  simp only
  rw [hM']
  simp only
  rw [G_reset_row el.GetDof elfun ii hii]
  rfl

theorem G_outer_loop {ET : Type} (ElementEnergy : FiniteElement → ET → ADSVector → ADSType)
    (el : FiniteElement) (Tr : ET) (elfun : Vector) (hn : el.GetDof ≤ elfun.length)
    (k : Nat) (hk : k ≤ el.GetDof) :
    ∃ M, (List.range k).foldlM
        (ADNonlinearFormIntegratorH.AssembleElementGrad.outerStep ElementEnergy el Tr elfun)
        ⟨ADNonlinearFormIntegratorH.initVector el.GetDof elfun,
          (DenseMatrix.SetSize el.GetDof el.GetDof).setZero⟩
        = .ok ⟨ADNonlinearFormIntegratorH.initVector el.GetDof elfun, M⟩ ∧
      HessMatrix el.GetDof M (fun a b =>
        if a < k ∧ b < k then
          ADNonlinearFormIntegratorH.value ElementEnergy el Tr elfun (max a b) (min a b)
        else 0) := by
  induction k with
  | zero =>
    refine ⟨_, rfl, (setZero_hess el.GetDof).height, (setZero_hess el.GetDof).width,
      (setZero_hess el.GetDof).size, ?_⟩
    intro a b ha hb
    rw [(setZero_hess el.GetDof).entry a b ha hb]
    simp
  | succ k ih =>
    obtain ⟨M, hM, hI⟩ := ih (by omega)
    obtain ⟨M', hM', hI'⟩ := G_outerStep_ok ElementEnergy el Tr elfun hn k (by omega) M _ hI
    refine ⟨M', ?_, hI'.height, hI'.width, hI'.size, ?_⟩
    · rw [List.range_succ, List.foldlM_append, hM]
      simp only [bind, Except.bind, List.foldlM_cons, List.foldlM_nil]
      rw [hM']
      rfl
    · intro a b ha hb
      rw [hI'.entry a b ha hb]
      by_cases c1 : a = k ∧ b < k + 1
      · rw [if_pos c1, if_pos ⟨by omega, c1.2⟩]
        obtain ⟨rfl, h2⟩ := c1
        rw [max_eq_left (by omega), min_eq_right (by omega)]
      · rw [if_neg c1]
        by_cases c2 : b = k ∧ a < k + 1
        · rw [if_pos c2, if_pos ⟨c2.2, by omega⟩]
          obtain ⟨rfl, h2⟩ := c2
          rw [max_eq_right (by omega), min_eq_left (by omega)]
        · rw [if_neg c2]
          by_cases c3 : a < k ∧ b < k
          · rw [if_pos c3, if_pos ⟨by omega, by omega⟩]
          · rw [if_neg c3, if_neg (by
              rintro ⟨h1, h2⟩
              by_cases ha' : a = k
              · exact c1 ⟨ha', h2⟩
              · by_cases hb' : b = k
                · exact c2 ⟨hb', h1⟩
                · exact c3 ⟨by omega, by omega⟩)]

theorem G_loops_ok {ET : Type} (ElementEnergy : FiniteElement → ET → ADSVector → ADSType)
    (el : FiniteElement) (Tr : ET) (elfun : Vector) (hn : el.GetDof ≤ elfun.length) :
    ∃ M, ADNonlinearFormIntegratorH.AssembleElementGrad.loops ElementEnergy el Tr elfun
        = .ok ⟨ADNonlinearFormIntegratorH.initVector el.GetDof elfun, M⟩ ∧
      HessMatrix el.GetDof M (fun a b =>
        ADNonlinearFormIntegratorH.value ElementEnergy el Tr elfun (max a b) (min a b)) := by
  obtain ⟨M, hM, hI⟩ := G_outer_loop ElementEnergy el Tr elfun hn el.GetDof (le_refl _)
  refine ⟨M, ?_, hI.height, hI.width, hI.size, ?_⟩
  · unfold ADNonlinearFormIntegratorH.AssembleElementGrad.loops
    simp only []
    rw [G_initStep_eq, init_loop elfun el.GetDof hn el.GetDof (le_refl _)]
    simp only [bind, Except.bind, List.length_map, List.length_range]
    have e : (List.range el.GetDof).map (fun j =>
        if j < el.GetDof then (⟨⟨elfun.getD j 0, 0⟩, ⟨0, 0⟩⟩ : ADSType) else ⟨⟨0, 0⟩, ⟨0, 0⟩⟩)
        = ADNonlinearFormIntegratorH.initVector el.GetDof elfun := by
      unfold ADNonlinearFormIntegratorH.initVector
      apply List.map_congr_left
      intro j hj
      simp [List.mem_range.mp hj]
    rw [e]
    exact hM
  · intro a b ha hb
    rw [hI.entry a b ha hb, if_pos ⟨ha, hb⟩]

theorem Q_result (QIntegrator : Vector → ADSVector → ADSType) (vparam uu : Vector) :
    ∃ st, ADQIntegratorH.QIntegratorDD.loops QIntegrator vparam uu = .ok st ∧
      ADQIntegratorH.QIntegratorDD QIntegrator vparam uu = .ok st.mat ∧
      st.ad = ADQIntegratorH.rowVector uu uu.length ∧
      st.mat.height = uu.length ∧ st.mat.width = uu.length ∧
      st.mat.data.length = uu.length * uu.length ∧
      (∀ a b, a < uu.length → b < uu.length → st.mat.entry a b = st.mat.entry b a) ∧
      (∀ ii jj, ii < uu.length → jj ≤ ii →
        st.mat.entry ii jj = ADQIntegratorH.value QIntegrator vparam uu ii jj ∧
        st.mat.entry jj ii = ADQIntegratorH.value QIntegrator vparam uu ii jj) := by
  obtain ⟨M, hM, hI⟩ := Q_loops_ok QIntegrator vparam uu
  refine ⟨⟨ADQIntegratorH.rowVector uu uu.length, M⟩, hM, ?_, rfl, hI.height, hI.width,
    hI.size, ?_, ?_⟩
  · unfold ADQIntegratorH.QIntegratorDD
    rw [hM]
    rfl
  · intro a b ha hb
    show M.entry a b = M.entry b a
    rw [hI.entry a b ha hb, hI.entry b a hb ha, max_comm, min_comm]
  · intro ii jj hii hjj
    show M.entry ii jj = _ ∧ M.entry jj ii = _
    rw [hI.entry ii jj hii (by omega), hI.entry jj ii (by omega) hii,
      max_eq_left hjj, min_eq_right hjj, max_eq_right hjj, min_eq_left hjj]
    exact ⟨rfl, rfl⟩

theorem G_result {ET : Type} (ElementEnergy : FiniteElement → ET → ADSVector → ADSType)
    (el : FiniteElement) (Tr : ET) (elfun : Vector) (hn : el.GetDof ≤ elfun.length) :
    ∃ st, ADNonlinearFormIntegratorH.AssembleElementGrad.loops ElementEnergy el Tr elfun
        = .ok st ∧
      ADNonlinearFormIntegratorH.AssembleElementGrad ElementEnergy el Tr elfun = .ok st.mat ∧
      st.ad = ADNonlinearFormIntegratorH.initVector el.GetDof elfun ∧
      st.mat.height = el.GetDof ∧ st.mat.width = el.GetDof ∧
      st.mat.data.length = el.GetDof * el.GetDof ∧
      (∀ a b, a < el.GetDof → b < el.GetDof → st.mat.entry a b = st.mat.entry b a) ∧
      (∀ ii jj, ii < el.GetDof → jj ≤ ii →
        st.mat.entry ii jj
          = ADNonlinearFormIntegratorH.value ElementEnergy el Tr elfun ii jj ∧
        st.mat.entry jj ii
          = ADNonlinearFormIntegratorH.value ElementEnergy el Tr elfun ii jj) := by
  obtain ⟨M, hM, hI⟩ := G_loops_ok ElementEnergy el Tr elfun hn
  refine ⟨⟨ADNonlinearFormIntegratorH.initVector el.GetDof elfun, M⟩, hM, ?_, rfl, hI.height,
    hI.width, hI.size, ?_, ?_⟩
  · unfold ADNonlinearFormIntegratorH.AssembleElementGrad
    rw [hM]
    rfl
  · intro a b ha hb
    show M.entry a b = M.entry b a
    rw [hI.entry a b ha hb, hI.entry b a hb ha, max_comm, min_comm]
  · intro ii jj hii hjj
    show M.entry ii jj = _ ∧ M.entry jj ii = _
    rw [hI.entry ii jj hii (by omega), hI.entry jj ii (by omega) hii,
      max_eq_left hjj, min_eq_right hjj, max_eq_right hjj, min_eq_left hjj]
    exact ⟨rfl, rfl⟩

theorem innerStep_reset (QIntegrator : Vector → ADSVector → ADSType) (vparam : Vector)
    (ii jj : Nat) (st st' : HessState)
    (h : ADQIntegratorH.QIntegratorDD.innerStep QIntegrator vparam ii st jj = .ok st') :
    ∃ a, st.ad[jj]? = some a ∧ st'.ad = List.set st.ad jj (a.setDual ⟨0, 0⟩) := by
  unfold ADQIntegratorH.QIntegratorDD.innerStep at h
  cases hget : st.ad[jj]? with
  | none =>
    simp [ADSVector.update, hget, bind, Except.bind] at h
  | some a =>
    refine ⟨a, rfl, ?_⟩
    have hlt : jj < st.ad.length := by
      by_contra hc
      rw [List.getElem?_eq_none (by omega)] at hget
      cases hget
    have hu : ADSVector.update st.ad jj (fun a => a.setDual ⟨1, 0⟩)
        = .ok (List.set st.ad jj (a.setDual ⟨1, 0⟩)) := by
      unfold ADSVector.update
      rw [hget]
    have hu2 : ADSVector.update (List.set st.ad jj (a.setDual ⟨1, 0⟩)) jj
        (fun a => a.setDual ⟨0, 0⟩) = .ok (List.set st.ad jj (a.setDual ⟨0, 0⟩)) := by
      unfold ADSVector.update
      rw [List.getElem?_set_self hlt]
      simp [FDual.setDual]
    rw [hu] at h
    simp only [bind, Except.bind] at h
    split at h
    · cases h
    · split at h
      · cases h
      · rw [hu2] at h
        have e := Except.ok.inj h
        rw [← e]

theorem G_innerStep_reset {ET : Type}
    (ElementEnergy : FiniteElement → ET → ADSVector → ADSType) (el : FiniteElement) (Tr : ET)
    (ii jj : Nat) (st st' : HessState)
    (h : ADNonlinearFormIntegratorH.AssembleElementGrad.innerStep ElementEnergy el Tr ii st jj
      = .ok st') :
    ∃ a, st.ad[jj]? = some a ∧ st'.ad = List.set st.ad jj (a.setDual ⟨0, 0⟩) :=
  innerStep_reset (fun _ x => ElementEnergy el Tr x) [] ii jj st st' h

theorem FDual_mul_def {T : Type} [Mul T] [Add T] (x y : FDual T) :
    x * y = ⟨x.real * y.real, x.real * y.dual + x.dual * y.real⟩ := rfl

theorem FDual_add_def {T : Type} [Add T] (x y : FDual T) :
    x + y = ⟨x.real + y.real, x.dual + y.dual⟩ := rfl

theorem exEnergy_pair (a b : ADSType) :
    (exEnergy [a, b]).dual.dual
      = a.real.real * b.dual.dual + a.real.dual * b.dual.real
        + (a.dual.real * b.real.dual + a.dual.dual * b.real.real) := by
  simp [exEnergy, FDual_mul_def, FDual_add_def]

theorem ex_Q_rowVector : ADQIntegratorH.rowVector [3, 5] 2
    = [⟨⟨3, 0⟩, ⟨0, 0⟩⟩, ⟨⟨5, 0⟩, ⟨5, 0⟩⟩] := by
  have e2 : List.range 2 = [0, 1] := rfl
  simp [ADQIntegratorH.rowVector, e2]

theorem ex_Q_rowVector_one : ADQIntegratorH.rowVector [3, 5] 1
    = [⟨⟨3, 0⟩, ⟨3, 0⟩⟩, ⟨⟨5, 0⟩, ⟨0, 0⟩⟩] := by
  have e2 : List.range 2 = [0, 1] := rfl
  simp [ADQIntegratorH.rowVector, e2]

theorem ex_Q_passVector (jj : Nat) (hjj : jj ≤ 1) : ADQIntegratorH.passVector [3, 5] 1 jj
    = [⟨⟨3, 0⟩, if jj = 0 then ⟨3, 0⟩ else ⟨0, 0⟩⟩, ⟨⟨5, 0⟩, ⟨5, 1⟩⟩] := by
  have e2 : List.range 2 = [0, 1] := rfl
  interval_cases jj <;> simp [ADQIntegratorH.passVector, e2]

theorem ex_Q_evalPoint_10 : ADQIntegratorH.evalPoint [3, 5] 1 0
    = [⟨⟨3, 0⟩, ⟨1, 0⟩⟩, ⟨⟨5, 0⟩, ⟨5, 1⟩⟩] := by
  have e2 : List.range 2 = [0, 1] := rfl
  simp [ADQIntegratorH.evalPoint, e2]

theorem ex_Q_values :
    ADQIntegratorH.value (fun _ x => exEnergy x) [] [3, 5] 0 0 = 0 ∧
    ADQIntegratorH.value (fun _ x => exEnergy x) [] [3, 5] 1 0 = 3 ∧
    ADQIntegratorH.value (fun _ x => exEnergy x) [] [3, 5] 1 1 = 0 := by
  have e2 : List.range 2 = [0, 1] := rfl
  refine ⟨?_, ?_, ?_⟩ <;>
    simp [ADQIntegratorH.value, ADQIntegratorH.evalPoint, e2, exEnergy_pair]

theorem ex_G_initVector : ADNonlinearFormIntegratorH.initVector 2 [3, 5]
    = [⟨⟨3, 0⟩, ⟨0, 0⟩⟩, ⟨⟨5, 0⟩, ⟨0, 0⟩⟩] := by
  have e2 : List.range 2 = [0, 1] := rfl
  simp [ADNonlinearFormIntegratorH.initVector, e2]

theorem ex_G_values :
    ADNonlinearFormIntegratorH.value (fun _ (_ : Unit) x => exEnergy x) ⟨2⟩ () [3, 5] 0 0 = 0 ∧
    ADNonlinearFormIntegratorH.value (fun _ (_ : Unit) x => exEnergy x) ⟨2⟩ () [3, 5] 1 0 = 1 ∧
    ADNonlinearFormIntegratorH.value (fun _ (_ : Unit) x => exEnergy x) ⟨2⟩ () [3, 5] 1 1 = 0 := by
  have e2 : List.range 2 = [0, 1] := rfl
  have hd : (⟨2⟩ : FiniteElement).GetDof = 2 := rfl
  refine ⟨?_, ?_, ?_⟩ <;>
    simp [ADNonlinearFormIntegratorH.value, ADNonlinearFormIntegratorH.evalPoint, hd, e2,
      exEnergy_pair]

theorem ex_Q_loops :
    ∃ st, ADQIntegratorH.QIntegratorDD.loops (fun _ x => exEnergy x) [] [3, 5] = .ok st ∧
      ADQIntegratorH.QIntegratorDD (fun _ x => exEnergy x) [] [3, 5] = .ok st.mat ∧
      st.ad = [⟨⟨3, 0⟩, ⟨0, 0⟩⟩, ⟨⟨5, 0⟩, ⟨5, 0⟩⟩] ∧
      st.mat.height = 2 ∧ st.mat.width = 2 ∧
      st.mat.entry 0 0 = 0 ∧ st.mat.entry 1 0 = 3 ∧ st.mat.entry 0 1 = 3 ∧
      st.mat.entry 1 1 = 0 := by
  obtain ⟨st, h1, h2, h3, h4, h5, _, _, h8⟩ := Q_result (fun _ x => exEnergy x) [] [3, 5]
  obtain ⟨v00, v10, v11⟩ := ex_Q_values
  refine ⟨st, h1, h2, ?_, h4, h5, ?_, ?_, ?_, ?_⟩
  · rw [h3]
    exact ex_Q_rowVector
  · rw [(h8 0 0 (by decide) (by decide)).1, v00]
  · rw [(h8 1 0 (by decide) (by decide)).1, v10]
  · rw [(h8 1 0 (by decide) (by decide)).2, v10]
  · rw [(h8 1 1 (by decide) (by decide)).1, v11]

theorem ex_G_loops :
    ∃ st, ADNonlinearFormIntegratorH.AssembleElementGrad.loops
        (fun _ (_ : Unit) x => exEnergy x) ⟨2⟩ () [3, 5] = .ok st ∧
      ADNonlinearFormIntegratorH.AssembleElementGrad
        (fun _ (_ : Unit) x => exEnergy x) ⟨2⟩ () [3, 5] = .ok st.mat ∧
      st.ad = [⟨⟨3, 0⟩, ⟨0, 0⟩⟩, ⟨⟨5, 0⟩, ⟨0, 0⟩⟩] ∧
      st.mat.height = 2 ∧ st.mat.width = 2 ∧
      st.mat.entry 0 0 = 0 ∧ st.mat.entry 1 0 = 1 ∧ st.mat.entry 0 1 = 1 ∧
      st.mat.entry 1 1 = 0 := by
  obtain ⟨st, h1, h2, h3, h4, h5, _, _, h8⟩ :=
    G_result (fun _ (_ : Unit) x => exEnergy x) ⟨2⟩ () [3, 5] (by decide)
  obtain ⟨v00, v10, v11⟩ := ex_G_values
  refine ⟨st, h1, h2, ?_, h4, h5, ?_, ?_, ?_, ?_⟩
  · rw [h3]
    exact ex_G_initVector
  · rw [(h8 0 0 (by decide) (by decide)).1, v00]
  · rw [(h8 1 0 (by decide) (by decide)).1, v10]
  · rw [(h8 1 0 (by decide) (by decide)).2, v10]
  · rw [(h8 1 1 (by decide) (by decide)).1, v11]

theorem ex_Q_pass :
    ∃ s1 a s2,
      (List.range 1).foldlM
        (ADQIntegratorH.QIntegratorDD.outerStep (fun _ x => exEnergy x) [] [3, 5])
        ⟨[⟨⟨3, 0⟩, ⟨0, 0⟩⟩, ⟨⟨5, 0⟩, ⟨0, 0⟩⟩], (DenseMatrix.SetSize 2 2).setZero⟩ = .ok s1 ∧
      s1.ad = [⟨⟨3, 0⟩, ⟨3, 0⟩⟩, ⟨⟨5, 0⟩, ⟨0, 0⟩⟩] ∧
      ADSVector.update s1.ad 1 (fun x => x.setDual ⟨5, 1⟩) = .ok a ∧
      ADQIntegratorH.QIntegratorDD.innerStep (fun _ x => exEnergy x) [] 1 ⟨a, s1.mat⟩ 0
        = .ok s2 ∧
      s2.ad = [⟨⟨3, 0⟩, ⟨0, 0⟩⟩, ⟨⟨5, 0⟩, ⟨5, 1⟩⟩] := by
  obtain ⟨M1, hM1, hI1⟩ := Q_outer_loop (fun _ x => exEnergy x) [] [3, 5] 1 (by decide)
  have hseed := Q_seed_row [3, 5] 1 (by decide)
  obtain ⟨M2, hM2, _⟩ := Q_innerStep_ok (fun _ x => exEnergy x) [] [3, 5] 1 0 (by decide)
    (by decide) M1 _ hI1
  have r0 : ADQIntegratorH.rowVector [3, 5] 0 = [⟨⟨3, 0⟩, ⟨0, 0⟩⟩, ⟨⟨5, 0⟩, ⟨0, 0⟩⟩] := by
    have e2 : List.range 2 = [0, 1] := rfl
    simp [ADQIntegratorH.rowVector, e2]
  rw [r0] at hM1
  refine ⟨_, _, _, hM1, ex_Q_rowVector_one, ?_, hM2, ?_⟩
  · have h5 : ([3, 5] : Vector).getD 1 0 = 5 := rfl
    rw [h5] at hseed
    exact hseed
  · have h := ex_Q_passVector 1 (le_refl _)
    simp only [one_ne_zero, if_false] at h
    exact h

/-! ### The threshold constructor on a singular slave block -/

theorem ex_equal_rows_partition :
    EliminationCGSolver.BuildSeparatedInterfaceDofs exEqualRowsB [] [] 2 = .ok ([], [2, 3]) := by
  have hc : BuildSeparatedInterfaceDofs.collect exEqualRowsB 2 = ([], [2, 3]) := by
    have t1 : ¬ (1 : ℚ) < tol := by
      unfold tol
      norm_num
    simp [BuildSeparatedInterfaceDofs.collect, BuildSeparatedInterfaceDofs.entryStep,
      exEqualRowsB, t1, setInsert]
  rw [BuildSeparatedInterfaceDofs_eq, hc]
  rfl

theorem ex_equal_rows_singular : (CsMatrix exEqualRowsB [2, 3]).det = 0 := by
  show (Matrix.of (fun (a b : Fin 2) => exEqualRowsB.Elem a ([2, 3].getD b 0))).det = 0
  rw [Matrix.det_fin_two]
  simp [SparseMatrix.Elem, exEqualRowsB]

theorem ex_equal_rows_threshold :
    EliminationCGSolver.newThreshold exA exEqualRowsB 2 = .error "singular matrix" := by
  unfold EliminationCGSolver.newThreshold
  rw [ex_equal_rows_partition]
  show EliminationCGSolver.BuildPreconditioner exA exEqualRowsB [] [2, 3] = _
  unfold EliminationCGSolver.BuildPreconditioner
  rw [new_singular exA exEqualRowsB [] [2, 3] rfl ex_equal_rows_singular]
  rfl

theorem ex_equal_rows_card : (secondBlockColumns exEqualRowsB 2).card = exEqualRowsB.Height := by
  rw [← second_length_eq_card]
  have h := ex_equal_rows_partition
  rw [BuildSeparatedInterfaceDofs_eq] at h
  by_cases hh : (BuildSeparatedInterfaceDofs.collect exEqualRowsB 2).2.length = exEqualRowsB.Height
  · exact hh
  · rw [if_neg hh] at h
    cases h

/-! ### The member functions leave the object as they find it -/

theorem foldlM_run {σ α β : Type} (f : β → α → StateT σ (Except String) β)
    (g : σ → β → α → Except String β)
    (h : ∀ s b a, (f b a).run s = (fun y => (y, s)) <$> g s b a) (l : List α) (b : β) (s : σ) :
    (l.foldlM f b).run s = (fun y => (y, s)) <$> l.foldlM (g s) b := by
  induction l generalizing b with
  | nil => rfl
  | cons a l ih =>
    simp only [List.foldlM_cons, StateT.run_bind, h, map_eq_pure_bind, bind_assoc, pure_bind, ih]

theorem MultStep_run (P : EliminationProjection) (inp : Vector) (st : ScanState) (i : Nat) :
    (Stateful.EliminationProjection.MultStep inp st i).run P
      = (fun y => (y, P)) <$> P.MultStep inp st i := by
  unfold Stateful.EliminationProjection.MultStep EliminationProjection.MultStep
  by_cases h : FindSorted P.slave_contact_dofs_ i ≥ 0
  · simp only [StateT.run_bind, StateT.run_get, pure_bind, h, if_true, StateT.run_pure,
      map_pure]
  · simp only [StateT.run_bind, StateT.run_get, StateT.run_pure, StateT.run_monadLift,
      StateT.run_lift, bind_assoc, pure_bind, map_eq_pure_bind, liftM, monadLift_self, h,
      if_false]

theorem MultTransposeStep_run (P : EliminationProjection) (inp : Vector) (st : ScanState)
    (i : Nat) :
    (Stateful.EliminationProjection.MultTransposeStep inp st i).run P
      = (fun y => (y, P)) <$> P.MultTransposeStep inp st i := by
  unfold Stateful.EliminationProjection.MultTransposeStep
    EliminationProjection.MultTransposeStep
  by_cases h : FindSorted P.slave_contact_dofs_ i ≥ 0
  · simp only [StateT.run_bind, StateT.run_get, pure_bind, h, if_true, StateT.run_pure,
      map_pure]
  · simp only [StateT.run_bind, StateT.run_get, StateT.run_pure, StateT.run_monadLift,
      StateT.run_lift, bind_assoc, pure_bind, map_eq_pure_bind, liftM, monadLift_self, h,
      if_false]

theorem AssembleStep_run (P : EliminationProjection) (st : AssembleState) (i : Nat) :
    (Stateful.EliminationProjection.AssembleStep st i).run P
      = (fun y => (y, P)) <$> P.AssembleStep st i := by
  unfold Stateful.EliminationProjection.AssembleStep EliminationProjection.AssembleStep
  by_cases h : FindSorted P.slave_contact_dofs_ i ≥ 0
  · simp only [StateT.run_bind, StateT.run_get, pure_bind, h, if_true, StateT.run_pure,
      map_pure]
  · simp only [StateT.run_bind, StateT.run_get, StateT.run_pure, StateT.run_monadLift,
      StateT.run_lift, bind_assoc, pure_bind, map_eq_pure_bind, liftM, monadLift_self, h,
      if_false]

theorem MultFold_run (P : EliminationProjection) (inp : Vector) (l : List Nat)
    (st : ScanState) :
    (l.foldlM (Stateful.EliminationProjection.MultStep inp) st).run P
      = (fun y => (y, P)) <$> l.foldlM (P.MultStep inp) st :=
  foldlM_run _ (fun s b a => EliminationProjection.MultStep s inp b a)
    (fun s b a => MultStep_run s inp b a) l st P

theorem MultTransposeFold_run (P : EliminationProjection) (inp : Vector) (l : List Nat)
    (st : ScanState) :
    (l.foldlM (Stateful.EliminationProjection.MultTransposeStep inp) st).run P
      = (fun y => (y, P)) <$> l.foldlM (P.MultTransposeStep inp) st :=
  foldlM_run _ (fun s b a => EliminationProjection.MultTransposeStep s inp b a)
    (fun s b a => MultTransposeStep_run s inp b a) l st P

theorem AssembleFold_run (P : EliminationProjection) (l : List Nat) (st : AssembleState) :
    (l.foldlM Stateful.EliminationProjection.AssembleStep st).run P
      = (fun y => (y, P)) <$> l.foldlM P.AssembleStep st :=
  foldlM_run _ (fun s b a => EliminationProjection.AssembleStep s b a)
    AssembleStep_run l st P

theorem AssembleOuterStep_run (P : EliminationProjection) (block : DenseMatrix)
    (mapped : List Nat) (out : SparseMatrix) (iz : Nat) :
    (Stateful.EliminationProjection.AssembleOuterStep block mapped out iz).run P
      = (fun y => (y, P)) <$>
        EliminationProjection.AssembleOuterStep block mapped P.slave_contact_dofs_ out iz := by
  unfold Stateful.EliminationProjection.AssembleOuterStep
    EliminationProjection.AssembleOuterStep
  simp only [StateT.run_bind, StateT.run_get, StateT.run_pure, StateT.run_monadLift,
    StateT.run_lift, bind_assoc, pure_bind, map_eq_pure_bind, liftM, monadLift_self]

theorem AssembleOuterFold_run (P : EliminationProjection) (block : DenseMatrix)
    (mapped : List Nat) (l : List Nat) (out : SparseMatrix) :
    (l.foldlM (Stateful.EliminationProjection.AssembleOuterStep block mapped) out).run P
      = (fun y => (y, P)) <$>
        l.foldlM (EliminationProjection.AssembleOuterStep block mapped P.slave_contact_dofs_)
          out :=
  foldlM_run _
    (fun s b a => EliminationProjection.AssembleOuterStep block mapped s.slave_contact_dofs_ b a)
    (fun s b a => AssembleOuterStep_run s block mapped b a) l out P

theorem Stateful_Mult_run (P : EliminationProjection) (inp out : Vector) :
    (Stateful.EliminationProjection.Mult inp out).run P
      = (fun y => (y, P)) <$> P.Mult inp out := by
  unfold Stateful.EliminationProjection.Mult EliminationProjection.Mult
  simp only [StateT.run_bind, StateT.run_get, StateT.run_pure, StateT.run_monadLift,
    StateT.run_lift, bind_assoc, pure_bind, map_eq_pure_bind, liftM, monadLift_self,
    MultFold_run]

theorem Stateful_MultTranspose_run (P : EliminationProjection) (inp out : Vector) :
    (Stateful.EliminationProjection.MultTranspose inp out).run P
      = (fun y => (y, P)) <$> P.MultTranspose inp out := by
  unfold Stateful.EliminationProjection.MultTranspose EliminationProjection.MultTranspose
  simp only [StateT.run_bind, StateT.run_get, StateT.run_pure, StateT.run_monadLift,
    StateT.run_lift, bind_assoc, pure_bind, map_eq_pure_bind, liftM, monadLift_self,
    MultTransposeFold_run]

theorem Stateful_BuildGTilde_run (P : EliminationProjection) (g gtilde : Vector) :
    (Stateful.EliminationProjection.BuildGTilde g gtilde).run P
      = (fun y => (y, P)) <$> P.BuildGTilde g gtilde := by
  unfold Stateful.EliminationProjection.BuildGTilde EliminationProjection.BuildGTilde
  simp only [StateT.run_bind, StateT.run_get, StateT.run_pure, StateT.run_monadLift,
    StateT.run_lift, bind_assoc, pure_bind, map_eq_pure_bind, liftM, monadLift_self]

theorem Stateful_RecoverPressure_run (P : EliminationProjection) (f u p : Vector) :
    (Stateful.EliminationProjection.RecoverPressure f u p).run P
      = (fun y => (y, P)) <$> P.RecoverPressure f u p := by
  unfold Stateful.EliminationProjection.RecoverPressure EliminationProjection.RecoverPressure
  simp only [StateT.run_bind, StateT.run_get, StateT.run_pure, StateT.run_monadLift,
    StateT.run_lift, bind_assoc, pure_bind, map_eq_pure_bind, liftM, monadLift_self]

theorem Stateful_AssembleApproximate_run (P : EliminationProjection) :
    Stateful.EliminationProjection.AssembleApproximate.run P
      = (fun y => (y, P)) <$> P.AssembleApproximate := by
  unfold Stateful.EliminationProjection.AssembleApproximate
    EliminationProjection.AssembleApproximate
  simp only [StateT.run_bind, StateT.run_get, StateT.run_pure, StateT.run_monadLift,
    StateT.run_lift, bind_assoc, pure_bind, map_eq_pure_bind, liftM, monadLift_self,
    AssembleFold_run, AssembleOuterFold_run]

theorem Stateful_RAP_run (P : EliminationProjection) (A : SparseMatrix) (x y : Vector) :
    (Stateful.RAPOperator.Mult A x y).run P
      = (fun r => (r, P)) <$> RAPOperator.Mult P A P x y := by
  unfold Stateful.RAPOperator.Mult RAPOperator.Mult
  simp only [StateT.run_bind, StateT.run_get, StateT.run_pure, StateT.run_monadLift,
    StateT.run_lift, bind_assoc, pure_bind, map_eq_pure_bind, liftM, monadLift_self,
    Stateful_Mult_run, Stateful_MultTranspose_run]

theorem reducedoperator_eq (S : EliminationCGSolver) :
    Stateful.EliminationCGSolver.reducedoperator S
      = RAPOperator.Mult S.projector_ S.A_ S.projector_ := by
  funext x y
  unfold Stateful.EliminationCGSolver.reducedoperator
  rw [Stateful_RAP_run]
  simp only [map_eq_pure_bind, bind_assoc, pure_bind, bind_pure]

theorem onProjector_run {α : Type} (S : EliminationCGSolver)
    (method : StateT EliminationProjection (Except String) α)
    (f : EliminationProjection → Except String α)
    (h : ∀ P, method.run P = (fun y => (y, P)) <$> f P) :
    (Stateful.EliminationCGSolver.onProjector method).run S
      = (fun y => (y, S)) <$> f S.projector_ := by
  unfold Stateful.EliminationCGSolver.onProjector
  show (do let r ← method.run S.projector_; pure (r.1, { S with projector_ := r.2 })) = _
  rw [h]
  simp only [map_eq_pure_bind, bind_assoc, pure_bind]

theorem Stateful_SolverMult_run (S : EliminationCGSolver) (krylov : CGSolver)
    (rhs sol : Vector) :
    (Stateful.EliminationCGSolver.Mult krylov rhs sol).run S
      = (fun y => (y, S)) <$> S.Mult krylov rhs sol := by
  unfold Stateful.EliminationCGSolver.Mult EliminationCGSolver.Mult
  simp only [StateT.run_bind, StateT.run_get, StateT.run_pure, StateT.run_monadLift,
    StateT.run_lift, bind_assoc, pure_bind, map_eq_pure_bind, liftM, monadLift_self,
    onProjector_run _ _ _ (fun P => Stateful_BuildGTilde_run P _ _),
    onProjector_run _ _ _ (fun P => Stateful_MultTranspose_run P _ _),
    onProjector_run _ _ _ (fun P => Stateful_Mult_run P _ _),
    onProjector_run _ _ _ (fun P => Stateful_RecoverPressure_run P _ _ _),
    reducedoperator_eq]

theorem run_frame {σ α : Type} (e : Except String α) (s s' : σ) (y : α)
    (h : (fun a => (a, s)) <$> e = .ok (y, s')) : s' = s ∧ e = .ok y := by
  cases e with
  | error msg => cases h
  | ok a =>
    have h2 : (Except.ok (a, s) : Except String (α × σ)) = .ok (y, s') := h
    injection h2 with h3
    injection h3 with h4 h5
    exact ⟨h5.symm, by rw [h4]⟩

theorem run_ok {σ α : Type} (e : Except String α) (s : σ) (y : α) (h : e = .ok y) :
    (fun a => (a, s)) <$> e = .ok (y, s) := by
  rw [h]
  rfl

theorem Stateful_SolverMult_twice (S : EliminationCGSolver) (krylov : CGSolver)
    (rhs sol : Vector) (sol' : Vector → Vector) (r : Vector)
    (h1 : S.Mult krylov rhs sol = .ok r) (h2 : S.Mult krylov rhs (sol' r) = .ok r) :
    (do
      let r1 ← Stateful.EliminationCGSolver.Mult krylov rhs sol
      let r2 ← Stateful.EliminationCGSolver.Mult krylov rhs (sol' r1)
      pure (r1, r2)).run S = .ok ((r, r), S) := by
  simp only [StateT.run_bind, Stateful_SolverMult_run, h1, map_eq_pure_bind, pure_bind,
    StateT.run_pure]
  show (do
      let p ← (do let a ← S.Mult krylov rhs (sol' r); pure (a, S))
      pure ((r, p.1), p.2)) = _
  rw [h2]
  rfl

theorem SolverMult_krylov_congr (A B : SparseMatrix) (master slave : List Nat)
    (k1 k2 : CGSolver) (rhs : Vector)
    (h : ∀ b x, k2.Mult (RAPOperator.Mult (projectorOf A B master slave) A
        (projectorOf A B master slave)) b x
      = k1.Mult (RAPOperator.Mult (projectorOf A B master slave) A
        (projectorOf A B master slave)) b x) :
    dispSol A B master slave k2 rhs ++ pressureSol A B master slave k2 rhs
      = dispSol A B master slave k1 rhs ++ pressureSol A B master slave k1 rhs := by
  unfold dispSol pressureSol reducedSol
  rw [h]

/-! ## The claims -/

/-- C1 (solution of the saddle-point system). In exact arithmetic, for every valid
configuration in which every nonzero column of `B` is a master or slave dof and every
`rhs = [f; g]`: if the reduced vector `x` returned by the Krylov solve satisfies
`P^T A P x = P^T (f - A gtilde)` exactly, then `EliminationCGSolver::Mult` succeeds and its
output `[u; lambda]` solves the full saddle-point system, `A u + B^T lambda = f` and
`B u = g`. -/
theorem C1_saddle_point_solution (A B : SparseMatrix) (master slave : List Nat)
    (hv : ValidConfig A B master slave)
    (hcol : ∀ i j, B.Elem i j ≠ 0 → j ∈ master ∨ j ∈ slave)
    (krylov : CGSolver) (f g sol : Vector) (hf : f.length = A.Height)
    (hg : g.length = B.Height) (hsol : sol.length = A.Height + B.Height)
    (hx : ∀ P gtilde fadj b, EliminationProjection.new A B master slave = .ok P →
      P.BuildGTilde g (Vector.new A.Height) = .ok gtilde →
      A.AddMult gtilde f (-1) = .ok fadj →
      P.MultTranspose fadj (Vector.new (A.Height - slave.length)) = .ok b →
      RAPOperator.Mult P A P
        (krylov.Mult (RAPOperator.Mult P A P) b
          (Vector.setZero (Vector.new (A.Height - slave.length))))
        (Vector.new (A.Height - slave.length)) = .ok b) :
    ∃ S u lam Au, EliminationCGSolver.newExplicit A B master slave = .ok S ∧
      S.Mult krylov (f ++ g) sol = .ok (u ++ lam) ∧
      u.length = A.Height ∧ lam.length = B.Height ∧
      A.Mult u (Vector.new A.Height) = .ok Au ∧
      Vector.add Au (B.MultTransposeVec lam) = .ok f ∧
      B.Mult u (Vector.new B.Height) = .ok g := by
  have hfadj : A.AddMult (GTildeResult A B slave g) f (-1) = .ok (adjRhs A B slave (f ++ g)) := by
    rw [SparseMatrix_AddMult_ok A _ f (-1) (by rw [hv.A_square, GTildeResult_length]) hf.symm]
    unfold adjRhs
    rw [dispRhs_append A f g hf, lagRhs_append A B f g hf hg]
  have hz : Vector.setZero (Vector.new (A.Height - slave.length))
      = List.replicate (A.Height - slave.length) 0 := by
    simp [Vector.setZero, Vector.new]
  have h := hx (projectorOf A B master slave) (GTildeResult A B slave g)
    (adjRhs A B slave (f ++ g)) (MultTransposeResult A B master slave (adjRhs A B slave (f ++ g)))
    (new_ok A B master slave hv)
    (BuildGTilde_ok A B master slave hv g _ hg (by simp [Vector.new])) hfadj
    (MultTranspose_ok A B master slave hv _ _ (by simp [adjRhs]) (by simp [Vector.new]))
  rw [hz] at h
  have hred : krylov.Mult
      (RAPOperator.Mult (projectorOf A B master slave) A (projectorOf A B master slave))
      (MultTransposeResult A B master slave (adjRhs A B slave (f ++ g)))
      (List.replicate (A.Height - slave.length) 0) = reducedSol A B master slave krylov (f ++ g) :=
    rfl
  rw [hred, RAPOperator_Mult_ok A B master slave hv _ _ (reducedSol_length _ _ _ _ _ _)
    (by simp [Vector.new])] at h
  have heq := Except.ok.inj h
  refine ⟨solverOf A B master slave, dispSol A B master slave krylov (f ++ g),
    pressureSol A B master slave krylov (f ++ g),
    (List.range A.Height).map (fun i => A.rowDot (dispSol A B master slave krylov (f ++ g)) i),
    newExplicit_ok A B master slave hv,
    SolverMult_ok A B master slave hv krylov (f ++ g) sol (by simp [hf, hg]) hsol,
    dispSol_length _ _ _ _ _ _, pressureSol_length _ _ _ _ _ _, ?_, ?_, ?_⟩
  · exact SparseMatrix_Mult_ok A _ _ (by rw [hv.A_square, dispSol_length]) (by simp [Vector.new])
  · exact saddle_first_row A B master slave hv hcol krylov f g hf hg heq
  · exact B_Mult_dispSol_ok A B master slave hv hcol krylov f g _ hf hg (by simp [Vector.new])

/-- The saddle-point theorem at the end-to-end scenario, with a Krylov solver that returns the
exact reduced solution. -/
theorem C1_saddle_point_solution_witness :
    ValidConfig exA exB [2] [3] ∧ (∀ i j, exB.Elem i j ≠ 0 → j ∈ [2] ∨ j ∈ [3]) ∧
    ∃ S u lam Au, EliminationCGSolver.newExplicit exA exB [2] [3] = .ok S ∧
      S.Mult exExactKrylov ([1, 1, 0, 0] ++ [0]) [0, 0, 0, 0, 0] = .ok (u ++ lam) ∧
      u.length = exA.Height ∧ lam.length = exB.Height ∧
      exA.Mult u (Vector.new exA.Height) = .ok Au ∧
      Vector.add Au (exB.MultTransposeVec lam) = .ok [1, 1, 0, 0] ∧
      exB.Mult u (Vector.new exB.Height) = .ok [0] :=
  ⟨exValid, exB_columns, C1_saddle_point_solution exA exB [2] [3] exValid exB_columns
    exExactKrylov [1, 1, 0, 0] [0] [0, 0, 0, 0, 0] rfl rfl rfl exExactKrylov_spec⟩

/-- C2 (constraint satisfaction). In exact arithmetic, for every valid configuration in
which every nonzero column of `B` is a master or slave dof, every `rhs = [f; g]` and every
Krylov solver (whatever reduced vector it returns, converged or not), the constructor and
`EliminationCGSolver::Mult` succeed and the displacement part `u` of the vector written
satisfies `B u = g`. -/
theorem C2_constraint_satisfaction (A B : SparseMatrix) (master slave : List Nat)
    (hv : ValidConfig A B master slave)
    (hcol : ∀ i j, B.Elem i j ≠ 0 → j ∈ master ∨ j ∈ slave)
    (krylov : CGSolver) (f g sol : Vector) (hf : f.length = A.Height)
    (hg : g.length = B.Height) (hsol : sol.length = A.Height + B.Height) :
    ∃ S u lam, EliminationCGSolver.newExplicit A B master slave = .ok S ∧
      S.Mult krylov (f ++ g) sol = .ok (u ++ lam) ∧
      u.length = A.Height ∧ lam.length = B.Height ∧
      B.Mult u (Vector.new B.Height) = .ok g := by
  refine ⟨solverOf A B master slave, dispSol A B master slave krylov (f ++ g),
    pressureSol A B master slave krylov (f ++ g), newExplicit_ok A B master slave hv,
    SolverMult_ok A B master slave hv krylov (f ++ g) sol (by simp [hf, hg]) hsol,
    dispSol_length _ _ _ _ _ _, pressureSol_length _ _ _ _ _ _, ?_⟩
  exact B_Mult_dispSol_ok A B master slave hv hcol krylov f g _ hf hg (by simp [Vector.new])

/-- The constraint-satisfaction theorem at the end-to-end scenario with `g = [5]`. -/
theorem C2_constraint_satisfaction_witness :
    ValidConfig exA exB [2] [3] ∧ (∀ i j, exB.Elem i j ≠ 0 → j ∈ [2] ∨ j ∈ [3]) ∧
    ∃ S u lam, EliminationCGSolver.newExplicit exA exB [2] [3] = .ok S ∧
      S.Mult exKrylov ([1, 1, 0, 0] ++ [5]) [0, 0, 0, 0, 0] = .ok (u ++ lam) ∧
      u.length = exA.Height ∧ lam.length = exB.Height ∧
      exB.Mult u (Vector.new exB.Height) = .ok [5] :=
  ⟨exValid, exB_columns, C2_constraint_satisfaction exA exB [2] [3] exValid exB_columns
    exKrylov [1, 1, 0, 0] [5] [0, 0, 0, 0, 0] rfl rfl rfl⟩

/-- C3 (forward apply). For every valid configuration, every reduced vector `x` of size
`n - m` and every output vector of size `n`, the constructor succeeds and
`EliminationProjection::Mult` returns a vector `y` of size `n` with `y[i] = x[r(i)]` at every
non-slave dof `i` (`r(i)` the number of non-slave dofs below `i`, a valid index of `x`),
and with `y` restricted to the slave dofs (in stored order) equal to
`-Cs^{-1} Cm x_master`, `x_master` gathering `x` at the reduced coordinates of the master
dofs. -/
theorem C3_forward_apply (A B : SparseMatrix) (master slave : List Nat)
    (hv : ValidConfig A B master slave) (x out : Vector)
    (hx : x.length = A.Height - slave.length) (hout : out.length = A.Height) :
    ∃ P y, EliminationProjection.new A B master slave = .ok P ∧ P.Mult x out = .ok y ∧
      y.length = A.Height ∧
      (∀ i, i < A.Height → i ∉ slave →
        reducedIndex slave i < x.length ∧ y.getD i 0 = x.getD (reducedIndex slave i) 0) ∧
      (fun b : Fin B.Height => y.getD (slave.getD b 0) 0) =
        -((CsMatrix B slave)⁻¹.mulVec ((CmMatrix B master).mulVec
          (fun j : Fin master.length => x.getD (reducedIndex slave (master.getD j 0)) 0))) := by
  refine ⟨projectorOf A B master slave, MultResult A B master slave x,
    new_ok A B master slave hv, Mult_ok A B master slave hv x out hx hout,
    MultResult_length A B master slave x, ?_, ?_⟩
  · intro i hi his
    refine ⟨?_, MultResult_nonslave A B master slave x i hi his⟩
    have h1 := reducedIndex_lt slave hi his
    have h2 := hv.size_le
    omega
  · funext b
    rw [MultResult_slave A B master slave hv x b (by rw [hv.slave_size]; exact b.2)]
    exact slaveValue_eq_inv B master slave x b

/-- The forward-apply theorem at the end-to-end scenario. -/
theorem C3_forward_apply_witness :
    ValidConfig exA exB [2] [3] ∧
    ∃ P y, EliminationProjection.new exA exB [2] [3] = .ok P ∧
      P.Mult [1, 2, 3] [0, 0, 0, 0] = .ok y ∧
      y.length = exA.Height ∧
      (∀ i, i < exA.Height → i ∉ [3] →
        reducedIndex [3] i < [(1 : ℚ), 2, 3].length ∧
          y.getD i 0 = [(1 : ℚ), 2, 3].getD (reducedIndex [3] i) 0) ∧
      (fun b : Fin exB.Height => y.getD ([3].getD b 0) 0) =
        -((CsMatrix exB [3])⁻¹.mulVec ((CmMatrix exB [2]).mulVec
          (fun j : Fin [2].length => [(1 : ℚ), 2, 3].getD (reducedIndex [3] ([2].getD j 0)) 0))) :=
  ⟨exValid, C3_forward_apply exA exB [2] [3] exValid [1, 2, 3] [0, 0, 0, 0] rfl rfl⟩

/-- C4 (adjoint consistency). In exact arithmetic, for every valid configuration, every
reduced vector `u` of size `n - m` and every full vector `v` of size `n`, the constructor
and both applications succeed and the inner product of `EliminationProjection::Mult(u)`
with `v` equals the inner product of `u` with `EliminationProjection::MultTranspose(v)`. -/
theorem C4_adjoint_consistency (A B : SparseMatrix) (master slave : List Nat)
    (hv : ValidConfig A B master slave) (u v out1 out2 : Vector)
    (hu : u.length = A.Height - slave.length) (hvl : v.length = A.Height)
    (h1 : out1.length = A.Height) (h2 : out2.length = A.Height - slave.length) :
    ∃ P y1 y2, EliminationProjection.new A B master slave = .ok P ∧
      P.Mult u out1 = .ok y1 ∧ P.MultTranspose v out2 = .ok y2 ∧
      Vector.dot y1 v = Vector.dot u y2 := by
  refine ⟨projectorOf A B master slave, MultResult A B master slave u,
    MultTransposeResult A B master slave v, new_ok A B master slave hv,
    Mult_ok A B master slave hv u out1 hu h1,
    MultTranspose_ok A B master slave hv v out2 hvl h2, ?_⟩
  rw [dot_Mult A B master slave hv u v hvl, dot_MultTranspose A B master slave hv u v hu,
    slave_master_adjoint B master slave hv.slave_size u v]

/-- The adjoint-consistency theorem at the end-to-end scenario. -/
theorem C4_adjoint_consistency_witness :
    ValidConfig exA exB [2] [3] ∧
    ∃ P y1 y2, EliminationProjection.new exA exB [2] [3] = .ok P ∧
      P.Mult [1, 2, 3] [0, 0, 0, 0] = .ok y1 ∧
      P.MultTranspose [4, 5, 6, 7] [0, 0, 0] = .ok y2 ∧
      Vector.dot y1 [4, 5, 6, 7] = Vector.dot [1, 2, 3] y2 :=
  ⟨exValid, C4_adjoint_consistency exA exB [2] [3] exValid [1, 2, 3] [4, 5, 6, 7]
    [0, 0, 0, 0] [0, 0, 0] rfl rfl rfl rfl⟩

/-- C5 (approximate-vs-exact consistency). For every valid configuration the constructor
succeeds and `EliminationProjection::AssembleApproximate` returns a sparse matrix with `n`
rows and `n - m` columns; multiplying it by any reduced vector `x` gives exactly the vector
that `EliminationProjection::Mult` writes for `x`; its entries are `1` at `(i, r(i))` for
each non-slave dof `i`, `-(Cs^{-1} Cm)(iz, jz)` at
`(slave_dofs[iz], reduced coordinate of master_dofs[jz])`, and zero elsewhere. -/
theorem C5_approximate_matches_exact (A B : SparseMatrix) (master slave : List Nat)
    (hv : ValidConfig A B master slave) :
    ∃ P M, EliminationProjection.new A B master slave = .ok P ∧
      P.AssembleApproximate = .ok M ∧
      M.Height = A.Height ∧ M.width = A.Height - slave.length ∧
      (∀ x out y0 : Vector, x.length = A.Height - slave.length → out.length = A.Height →
        y0.length = A.Height → ∃ y, P.Mult x out = .ok y ∧ M.Mult x y0 = .ok y) ∧
      (∀ i, i < A.Height → i ∉ slave → M.Elem i (reducedIndex slave i) = 1) ∧
      (∀ (iz : Fin B.Height) (jz : Fin master.length),
        M.Elem (slave.getD iz 0) (reducedIndex slave (master.getD jz 0))
          = -((CsMatrix B slave)⁻¹ * CmMatrix B master) iz jz) ∧
      (∀ i q, ¬ (i < A.Height ∧ i ∉ slave ∧ q = reducedIndex slave i) →
        ¬ (∃ iz jz, iz < slave.length ∧ jz < master.length ∧ i = slave.getD iz 0 ∧
          q = reducedIndex slave (master.getD jz 0)) → M.Elem i q = 0) := by
  obtain ⟨M, hM, hH, hW, hE⟩ := AssembleApproximate_ok A B master slave hv
  obtain ⟨e1, e2, e3⟩ := Assembled_entries A B master slave hv M hE
  refine ⟨projectorOf A B master slave, M, new_ok A B master slave hv, hM, hH, hW, ?_,
    e1, e2, e3⟩
  intro x out y0 hx hout hy
  exact ⟨MultResult A B master slave x, Mult_ok A B master slave hv x out hx hout,
    Assembled_Mult_ok A B master slave hv M hH hW hE x y0 hx hy⟩

/-- The approximate-vs-exact theorem at the end-to-end scenario. -/
theorem C5_approximate_matches_exact_witness :
    ValidConfig exA exB [2] [3] ∧
    ∃ P M, EliminationProjection.new exA exB [2] [3] = .ok P ∧
      P.AssembleApproximate = .ok M ∧
      M.Height = exA.Height ∧ M.width = exA.Height - [3].length ∧
      (∀ x out y0 : Vector, x.length = exA.Height - [3].length → out.length = exA.Height →
        y0.length = exA.Height → ∃ y, P.Mult x out = .ok y ∧ M.Mult x y0 = .ok y) ∧
      (∀ i, i < exA.Height → i ∉ [3] → M.Elem i (reducedIndex [3] i) = 1) ∧
      (∀ (iz : Fin exB.Height) (jz : Fin [2].length),
        M.Elem ([3].getD iz 0) (reducedIndex [3] ([2].getD jz 0))
          = -((CsMatrix exB [3])⁻¹ * CmMatrix exB [2]) iz jz) ∧
      (∀ i q, ¬ (i < exA.Height ∧ i ∉ [3] ∧ q = reducedIndex [3] i) →
        ¬ (∃ iz jz, iz < [3].length ∧ jz < [2].length ∧ i = [3].getD iz 0 ∧
          q = reducedIndex [3] ([2].getD jz 0)) → M.Elem i q = 0) :=
  ⟨exValid, C5_approximate_matches_exact exA exB [2] [3] exValid⟩

/-- C6 (interface partitioner). For every sparse `B` and every threshold `firstblocksize`,
the master list built by `BuildSeparatedInterfaceDofs` is exactly the strictly ascending,
duplicate-free list of the column indices `j < firstblocksize` that carry some stored entry
of magnitude not below the tolerance `1e-14`, and the slave list that of such column indices
`j >= firstblocksize`; the two lists are disjoint. The tolerance is the double-precision
value of the literal `1.e-14`, which is `6338253001141147 * 2^(-99)`: a 53-bit significand,
within half a unit in the last place (`2^(-100)`) of `10^(-14)` and below it. The call
returns these two lists when the slave list has as many entries as `B` has rows and is a
fatal error otherwise. -/
theorem C6_interface_partitioner (B : SparseMatrix) (firstblocksize : Int) :
    ∃ first second : List Nat,
      first.Sorted (fun x y => x < y) ∧ first.Nodup ∧
      second.Sorted (fun x y => x < y) ∧ second.Nodup ∧
      (∀ j, j ∈ first ↔
        ((j : Int) < firstblocksize ∧
          ∃ row ∈ B.rows, ∃ v, (j, v) ∈ row ∧ ¬ |v| < 6338253001141147 / 2 ^ 99)) ∧
      (∀ j, j ∈ second ↔
        (¬ (j : Int) < firstblocksize ∧
          ∃ row ∈ B.rows, ∃ v, (j, v) ∈ row ∧ ¬ |v| < 6338253001141147 / 2 ^ 99)) ∧
      (∀ j, j ∈ first → j ∉ second) ∧
      (second.length = B.Height →
        EliminationCGSolver.BuildSeparatedInterfaceDofs B [] [] firstblocksize
          = .ok (first, second)) ∧
      (second.length ≠ B.Height →
        EliminationCGSolver.BuildSeparatedInterfaceDofs B [] [] firstblocksize
          = .error "I don't understand how this matrix is constructed!") ∧
      (2 ^ 52 ≤ 6338253001141147 ∧ 6338253001141147 < 2 ^ 53 ∧
        (6338253001141147 / 2 ^ 99 : ℚ) < 1 / 10 ^ 14 ∧
        (1 / 10 ^ 14 : ℚ) - 6338253001141147 / 2 ^ 99 ≤ 1 / 2 ^ 100) := by
  obtain ⟨h1, h2, h3, h4⟩ := collect_spec B firstblocksize
  rw [show tol = (6338253001141147 / 2 ^ 99 : ℚ) from rfl] at h3 h4
  refine ⟨(BuildSeparatedInterfaceDofs.collect B firstblocksize).1,
    (BuildSeparatedInterfaceDofs.collect B firstblocksize).2, h1, h1.nodup, h2, h2.nodup, h3, h4,
    ?_, ?_, ?_, ?_⟩
  · intro j hj hj2
    exact ((h4 j).mp hj2).1 ((h3 j).mp hj).1
  · intro h
    rw [BuildSeparatedInterfaceDofs_eq, if_pos h]
  · intro h
    rw [BuildSeparatedInterfaceDofs_eq, if_neg h]
  · norm_num

/-- C7 (partitioner failure). `BuildSeparatedInterfaceDofs` aborts with a fatal error if and
only if the number of distinct second-block columns carrying an entry of magnitude not below
the tolerance (the double `1e-14`) differs from the number of rows of `B`; when the counts
agree it returns normally with `slave_dofs.size() == B.rows()`. The threshold constructor of
`EliminationCGSolver` aborts whenever the counts differ; when they agree it goes on to
`BuildPreconditioner` with the lists the partitioner returned, so that it aborts if and only
if the counts differ or `BuildPreconditioner` aborts on those lists. -/
theorem C7_partitioner_failure (A B : SparseMatrix) (firstblocksize : Int) :
    ((∃ msg, EliminationCGSolver.BuildSeparatedInterfaceDofs B [] [] firstblocksize
        = .error msg) ↔ (secondBlockColumns B firstblocksize).card ≠ B.Height) ∧
    ((secondBlockColumns B firstblocksize).card ≠ B.Height →
      ∃ msg, EliminationCGSolver.newThreshold A B firstblocksize = .error msg) ∧
    ((secondBlockColumns B firstblocksize).card = B.Height →
      ∃ first second, EliminationCGSolver.BuildSeparatedInterfaceDofs B [] [] firstblocksize
          = .ok (first, second) ∧ second.length = B.Height ∧
        EliminationCGSolver.newThreshold A B firstblocksize
          = EliminationCGSolver.BuildPreconditioner A B first second) ∧
    ((∃ msg, EliminationCGSolver.newThreshold A B firstblocksize = .error msg) ↔
      ((secondBlockColumns B firstblocksize).card ≠ B.Height ∨
        ∃ first second msg,
          EliminationCGSolver.BuildSeparatedInterfaceDofs B [] [] firstblocksize
            = .ok (first, second) ∧
          EliminationCGSolver.BuildPreconditioner A B first second = .error msg)) := by
  have hc := second_length_eq_card B firstblocksize
  have hbad : (secondBlockColumns B firstblocksize).card ≠ B.Height →
      EliminationCGSolver.newThreshold A B firstblocksize
        = .error "I don't understand how this matrix is constructed!" := by
    intro h
    unfold EliminationCGSolver.newThreshold
    rw [BuildSeparatedInterfaceDofs_eq, hc, if_neg h]
    rfl
  have hgood : (secondBlockColumns B firstblocksize).card = B.Height →
      EliminationCGSolver.BuildSeparatedInterfaceDofs B [] [] firstblocksize
          = .ok ((BuildSeparatedInterfaceDofs.collect B firstblocksize).1,
            (BuildSeparatedInterfaceDofs.collect B firstblocksize).2) ∧
        EliminationCGSolver.newThreshold A B firstblocksize
          = EliminationCGSolver.BuildPreconditioner A B
            (BuildSeparatedInterfaceDofs.collect B firstblocksize).1
            (BuildSeparatedInterfaceDofs.collect B firstblocksize).2 := by
    intro h
    constructor
    · rw [BuildSeparatedInterfaceDofs_eq, hc, if_pos h]
    · unfold EliminationCGSolver.newThreshold
      rw [BuildSeparatedInterfaceDofs_eq, hc, if_pos h]
      rfl
  refine ⟨?_, ?_, ?_, ?_⟩
  · rw [BuildSeparatedInterfaceDofs_eq, hc]
    by_cases h : (secondBlockColumns B firstblocksize).card = B.Height
    · simp [h]
    · simp [h]
  · intro h
    exact ⟨_, hbad h⟩
  · intro h
    exact ⟨_, _, (hgood h).1, by rw [hc, h], (hgood h).2⟩
  · constructor
    · rintro ⟨msg, hmsg⟩
      by_cases h : (secondBlockColumns B firstblocksize).card = B.Height
      · right
        refine ⟨_, _, msg, (hgood h).1, ?_⟩
        rw [← (hgood h).2]
        exact hmsg
      · exact Or.inl h
    · rintro (h | ⟨first, second, msg, h1, h2⟩)
      · exact ⟨_, hbad h⟩
      · refine ⟨msg, ?_⟩
        unfold EliminationCGSolver.newThreshold
        rw [h1]
        exact h2

/-- C7, the claim as stated fails for the threshold constructor. At `B` with the two equal
rows `[0, 0, 1, 1]` and `firstblocksize = 2` the number of distinct second-block columns
(`2`) equals the number of rows of `B`, and `BuildSeparatedInterfaceDofs` returns normally
with the slave dofs `[2, 3]`; yet the threshold constructor aborts with a fatal error (the
slave block is singular), so it does not abort only if the counts differ. -/
theorem C7_threshold_constructor_aborts_on_equal_counts :
    (secondBlockColumns exEqualRowsB 2).card = exEqualRowsB.Height ∧
    EliminationCGSolver.BuildSeparatedInterfaceDofs exEqualRowsB [] [] 2 = .ok ([], [2, 3]) ∧
    EliminationCGSolver.newThreshold exA exEqualRowsB 2 = .error "singular matrix" ∧
    ¬ ((∃ msg, EliminationCGSolver.newThreshold exA exEqualRowsB 2 = .error msg) ↔
      (secondBlockColumns exEqualRowsB 2).card ≠ exEqualRowsB.Height) := by
  refine ⟨ex_equal_rows_card, ex_equal_rows_partition, ex_equal_rows_threshold, ?_⟩
  intro h
  exact h.mp ⟨_, ex_equal_rows_threshold⟩ ex_equal_rows_card

/-- C8 (the explicit construction path does not check the slave count). Evaluation of the
code at `B` with one row and the caller-supplied slave dofs `[2, 3]`: `slave_dofs.size()`
is `2`, `B.rows()` is `1`, and both the constructor of `EliminationProjection` and the
constructor `EliminationCGSolver(A, B, master_dofs, slave_dofs)` run to completion (both
factorizations and the assembly of the approximate projector are carried out) instead of
failing with a fatal error; the threshold constructor, which infers the same slave dofs
`[2, 3]` from `B` for `firstblocksize = 2`, does abort. -/
theorem C8_explicit_path_unchecked :
    [2, 3].length ≠ exB.Height ∧
    (∃ P, EliminationProjection.new exA exB [] [2, 3] = .ok P) ∧
    (∃ S, EliminationCGSolver.newExplicit exA exB [] [2, 3] = .ok S) ∧
    EliminationCGSolver.newThreshold exA exB 2
      = .error "I don't understand how this matrix is constructed!" := by
  refine ⟨by decide, ⟨_, ex_bad_new⟩, ?_, ex_bad_threshold⟩
  obtain ⟨M, hM⟩ := ex_bad_assemble
  refine ⟨solverOf exA exB [] [2, 3], ?_⟩
  unfold EliminationCGSolver.newExplicit EliminationCGSolver.BuildPreconditioner
  rw [ex_bad_new]
  simp only [bind, Except.bind]
  rw [hM]
  rfl

/-- C9 (multiplier written by the solver). For every valid configuration, every
`rhs = [f; g]` and every Krylov solver (whatever reduced vector `x` it returns),
`EliminationCGSolver::Mult` succeeds and writes `[u; lambda]` where `u = P x + gtilde` and
`lambda` equals `(Cs^T)^{-1}` applied to `(f - A u)` restricted to the slave dofs, `f` being
the original displacement part of `rhs`; equivalently `(A u + B^T lambda)[s] = f[s]` at
every slave dof `s`. -/
theorem C9_multiplier_recovery (A B : SparseMatrix) (master slave : List Nat)
    (hv : ValidConfig A B master slave) (krylov : CGSolver) (f g sol : Vector)
    (hf : f.length = A.Height) (hg : g.length = B.Height)
    (hsol : sol.length = A.Height + B.Height) :
    ∃ S u lam Au, EliminationCGSolver.newExplicit A B master slave = .ok S ∧
      S.Mult krylov (f ++ g) sol = .ok (u ++ lam) ∧
      u.length = A.Height ∧ lam.length = B.Height ∧
      (∃ x gtilde Px, x.length = A.Height - slave.length ∧
        S.projector_.BuildGTilde g (Vector.new A.Height) = .ok gtilde ∧
        S.projector_.Mult x (Vector.new A.Height) = .ok Px ∧ Vector.add Px gtilde = .ok u) ∧
      A.Mult u (Vector.new A.Height) = .ok Au ∧
      (fun a : Fin B.Height => lam.getD a 0)
        = ((CsMatrix B slave).transpose)⁻¹.mulVec (fun b : Fin B.Height =>
            f.getD (slave.getD b 0) 0 - Au.getD (slave.getD b 0) 0) ∧
      (∀ b, b < slave.length →
        Au.getD (slave.getD b 0) 0 + (B.MultTransposeVec lam).getD (slave.getD b 0) 0
          = f.getD (slave.getD b 0) 0) := by
  refine ⟨solverOf A B master slave, dispSol A B master slave krylov (f ++ g),
    pressureSol A B master slave krylov (f ++ g),
    (List.range A.Height).map (fun i => A.rowDot (dispSol A B master slave krylov (f ++ g)) i),
    newExplicit_ok A B master slave hv,
    SolverMult_ok A B master slave hv krylov (f ++ g) sol (by simp [hf, hg]) hsol,
    dispSol_length _ _ _ _ _ _, pressureSol_length _ _ _ _ _ _, ?_, ?_,
    pressureSol_eq_inv A B master slave hv krylov f g hf hg, ?_⟩
  · refine ⟨reducedSol A B master slave krylov (f ++ g), GTildeResult A B slave g,
      MultResult A B master slave (reducedSol A B master slave krylov (f ++ g)),
      reducedSol_length _ _ _ _ _ _, ?_, ?_, ?_⟩
    · exact BuildGTilde_ok A B master slave hv g _ hg (by simp [Vector.new])
    · exact Mult_ok A B master slave hv _ _ (reducedSol_length _ _ _ _ _ _) (by simp [Vector.new])
    · have h := dispSol_eq_add A B master slave krylov (f ++ g)
      rw [lagRhs_append A B f g hf hg] at h
      exact h
  · exact SparseMatrix_Mult_ok A _ _ (by rw [hv.A_square, dispSol_length]) (by simp [Vector.new])
  · intro b hb
    rw [getD_range_map, if_pos (hv.slave_lt _ (getD_mem slave b hb)),
      Bt_pressure_slave A B master slave hv krylov f g hf hg b hb]
    ring

/-- The multiplier theorem at the end-to-end scenario with `g = [5]`. -/
theorem C9_multiplier_recovery_witness :
    ValidConfig exA exB [2] [3] ∧
    ∃ S u lam Au, EliminationCGSolver.newExplicit exA exB [2] [3] = .ok S ∧
      S.Mult exKrylov ([1, 1, 0, 0] ++ [5]) [0, 0, 0, 0, 0] = .ok (u ++ lam) ∧
      u.length = exA.Height ∧ lam.length = exB.Height ∧
      (∃ x gtilde Px, x.length = exA.Height - [3].length ∧
        S.projector_.BuildGTilde [5] (Vector.new exA.Height) = .ok gtilde ∧
        S.projector_.Mult x (Vector.new exA.Height) = .ok Px ∧ Vector.add Px gtilde = .ok u) ∧
      exA.Mult u (Vector.new exA.Height) = .ok Au ∧
      (fun a : Fin exB.Height => lam.getD a 0)
        = ((CsMatrix exB [3]).transpose)⁻¹.mulVec (fun b : Fin exB.Height =>
            [(1 : ℚ), 1, 0, 0].getD ([3].getD b 0) 0 - Au.getD ([3].getD b 0) 0) ∧
      (∀ b, b < [3].length →
        Au.getD ([3].getD b 0) 0 + (exB.MultTransposeVec lam).getD ([3].getD b 0) 0
          = [(1 : ℚ), 1, 0, 0].getD ([3].getD b 0) 0) :=
  ⟨exValid, C9_multiplier_recovery exA exB [2] [3] exValid exKrylov [1, 1, 0, 0] [5]
    [0, 0, 0, 0, 0] rfl rfl rfl⟩

/-- C10 (particular solution). For every valid configuration, every `g` of size `m` and
every output vector of size `n`, the constructor succeeds and
`EliminationProjection::BuildGTilde` returns a vector `gtilde` of size `n` that is zero at
every non-slave dof and whose slave entries `z` (in stored order) satisfy `Cs z = g`; when
every nonzero column of `B` is a master or slave dof, `B gtilde = g`. -/
theorem C10_particular_solution (A B : SparseMatrix) (master slave : List Nat)
    (hv : ValidConfig A B master slave) (g gtilde : Vector)
    (hg : g.length = B.Height) (hgt : gtilde.length = A.Height) :
    ∃ P gt, EliminationProjection.new A B master slave = .ok P ∧
      P.BuildGTilde g gtilde = .ok gt ∧ gt.length = A.Height ∧
      (∀ i, i < A.Height → i ∉ slave → gt.getD i 0 = 0) ∧
      (CsMatrix B slave).mulVec (fun b : Fin B.Height => gt.getD (slave.getD b 0) 0)
        = (fun a : Fin B.Height => g.getD a 0) ∧
      ((∀ i j, B.Elem i j ≠ 0 → j ∈ master ∨ j ∈ slave) →
        B.Mult gt (Vector.new B.Height) = .ok g) := by
  refine ⟨projectorOf A B master slave, GTildeResult A B slave g, new_ok A B master slave hv,
    BuildGTilde_ok A B master slave hv g gtilde hg hgt, GTildeResult_length A B slave g,
    fun i _ his => GTildeResult_nonslave A B slave g i his,
    Cs_mul_GTilde A B master slave hv g, fun _ => ?_⟩
  exact B_Mult_GTilde_ok A B master slave hv g _ hg (by simp [Vector.new])

/-- The particular-solution theorem at the end-to-end scenario with `g = [5]`. -/
theorem C10_particular_solution_witness :
    ValidConfig exA exB [2] [3] ∧
    ∃ P gt, EliminationProjection.new exA exB [2] [3] = .ok P ∧
      P.BuildGTilde [5] [0, 0, 0, 0] = .ok gt ∧ gt.length = exA.Height ∧
      (∀ i, i < exA.Height → i ∉ [3] → gt.getD i 0 = 0) ∧
      (CsMatrix exB [3]).mulVec (fun b : Fin exB.Height => gt.getD ([3].getD b 0) 0)
        = (fun a : Fin exB.Height => [(5 : ℚ)].getD a 0) ∧
      exB.Mult gt (Vector.new exB.Height) = .ok [5] := by
  obtain ⟨P, gt, h1, h2, h3, h4, h5, h6⟩ :=
    C10_particular_solution exA exB [2] [3] exValid [5] [0, 0, 0, 0] rfl rfl
  exact ⟨exValid, P, gt, h1, h2, h3, h4, h5, h6 exB_columns⟩

/-- C11 (multiplier recovery helper). For every valid configuration, every displacement
right-hand side `f` and every full displacement `u` (both of size `n`) and every output
vector of size `m`, the constructor succeeds and `EliminationProjection::RecoverPressure`
returns the vector `(Cs^T)^{-1} ((f - A u) restricted to the slave dofs in stored order)` of
size `m`, whatever the output vector held before; `f` and `u` are read-only arguments of the
method and are not part of what it writes. -/
theorem C11_recover_pressure (A B : SparseMatrix) (master slave : List Nat)
    (hv : ValidConfig A B master slave) (f u pressure : Vector)
    (hf : f.length = A.Height) (hu : u.length = A.Height)
    (hp : pressure.length = B.Height) :
    ∃ P lam Au, EliminationProjection.new A B master slave = .ok P ∧
      P.RecoverPressure f u pressure = .ok lam ∧ lam.length = B.Height ∧
      A.Mult u (Vector.new A.Height) = .ok Au ∧
      (fun a : Fin B.Height => lam.getD a 0)
        = ((CsMatrix B slave).transpose)⁻¹.mulVec (fun b : Fin B.Height =>
            f.getD (slave.getD b 0) 0 - Au.getD (slave.getD b 0) 0) ∧
      (CsMatrix B slave).transpose.mulVec (fun a : Fin B.Height => lam.getD a 0)
        = (fun b : Fin B.Height => f.getD (slave.getD b 0) 0 - Au.getD (slave.getD b 0) 0) := by
  have hinv := PressureResult_eq_inv A B master slave hv f u
  refine ⟨projectorOf A B master slave, PressureResult A B slave f u,
    (List.range A.Height).map (fun i => A.rowDot u i), new_ok A B master slave hv,
    RecoverPressure_ok A B master slave hv f u pressure hf hu hp,
    PressureResult_length A B slave f u,
    SparseMatrix_Mult_ok A u _ (by rw [hv.A_square, hu]) (by simp [Vector.new]), hinv, ?_⟩
  rw [hinv, Matrix.mulVec_mulVec, Matrix.mul_nonsing_inv _
    (isUnit_iff_ne_zero.mpr (by rw [Matrix.det_transpose]; exact hv.Cs_nonsingular)),
    Matrix.one_mulVec]

/-- The multiplier-recovery theorem at the end-to-end scenario. -/
theorem C11_recover_pressure_witness :
    ValidConfig exA exB [2] [3] ∧
    ∃ P lam Au, EliminationProjection.new exA exB [2] [3] = .ok P ∧
      P.RecoverPressure [1, 1, 0, 0] [1, 2, 3, 3] [0] = .ok lam ∧ lam.length = exB.Height ∧
      exA.Mult [1, 2, 3, 3] (Vector.new exA.Height) = .ok Au ∧
      (fun a : Fin exB.Height => lam.getD a 0)
        = ((CsMatrix exB [3]).transpose)⁻¹.mulVec (fun b : Fin exB.Height =>
            [(1 : ℚ), 1, 0, 0].getD ([3].getD b 0) 0 - Au.getD ([3].getD b 0) 0) ∧
      (CsMatrix exB [3]).transpose.mulVec (fun a : Fin exB.Height => lam.getD a 0)
        = (fun b : Fin exB.Height =>
            [(1 : ℚ), 1, 0, 0].getD ([3].getD b 0) 0 - Au.getD ([3].getD b 0) 0) :=
  ⟨exValid, C11_recover_pressure exA exB [2] [3] exValid [1, 1, 0, 0] [1, 2, 3, 3] [0]
    rfl rfl rfl⟩

/-- C12 (transpose apply). For every valid configuration, every full vector `x` of size `n`
and every output vector of size `n - m`, the constructor succeeds and
`EliminationProjection::MultTranspose` returns a vector `y` of size `n - m` with
`y[r(i)] = x[i]` for every dof `i` that is neither slave nor master, and
`y[r(c_j)] = x[c_j] - (Cm^T (Cs^T)^{-1} x_slave)[j]` for the `j`-th master dof `c_j`, where
`x_slave` gathers `x` at the slave dofs; `x` is a read-only argument of the method. -/
theorem C12_transpose_apply (A B : SparseMatrix) (master slave : List Nat)
    (hv : ValidConfig A B master slave) (x out : Vector)
    (hx : x.length = A.Height) (hout : out.length = A.Height - slave.length) :
    ∃ P y, EliminationProjection.new A B master slave = .ok P ∧
      P.MultTranspose x out = .ok y ∧ y.length = A.Height - slave.length ∧
      (∀ i, i < A.Height → i ∉ slave → i ∉ master →
        reducedIndex slave i < y.length ∧ y.getD (reducedIndex slave i) 0 = x.getD i 0) ∧
      (∀ j : Fin master.length,
        reducedIndex slave (master.getD j 0) < y.length ∧
        y.getD (reducedIndex slave (master.getD j 0)) 0
          = x.getD (master.getD j 0) 0 - ((CmMatrix B master).transpose.mulVec
              (((CsMatrix B slave).transpose)⁻¹.mulVec
                (fun b : Fin B.Height => x.getD (slave.getD b 0) 0))) j) := by
  have hsz := hv.size_le
  refine ⟨projectorOf A B master slave, MultTransposeResult A B master slave x,
    new_ok A B master slave hv, MultTranspose_ok A B master slave hv x out hx hout,
    MultTransposeResult_length A B master slave x, ?_, ?_⟩
  · intro i hi his him
    refine ⟨?_, ?_⟩
    · have h1 := reducedIndex_lt slave hi his
      rw [MultTransposeResult_length]
      omega
    · rw [MultTransposeResult_at A B master slave hv x i hi his, if_neg him, add_zero]
  · intro j
    have hm := getD_mem master j j.2
    have hlt := hv.master_lt _ hm
    have hns := hv.disjoint _ hm
    refine ⟨?_, ?_⟩
    · have h1 := reducedIndex_lt slave hlt hns
      rw [MultTransposeResult_length]
      omega
    · rw [MultTransposeResult_at A B master slave hv x _ hlt hns, if_pos hm,
        indexOf_getD master j hv.master_sorted.nodup j.2, masterValue_eq_inv B master slave x j]
      ring

/-- The transpose-apply theorem at the end-to-end scenario. -/
theorem C12_transpose_apply_witness :
    ValidConfig exA exB [2] [3] ∧
    ∃ P y, EliminationProjection.new exA exB [2] [3] = .ok P ∧
      P.MultTranspose [4, 5, 6, 7] [0, 0, 0] = .ok y ∧ y.length = exA.Height - [3].length ∧
      (∀ i, i < exA.Height → i ∉ [3] → i ∉ [2] →
        reducedIndex [3] i < y.length ∧
          y.getD (reducedIndex [3] i) 0 = [(4 : ℚ), 5, 6, 7].getD i 0) ∧
      (∀ j : Fin [2].length,
        reducedIndex [3] ([2].getD j 0) < y.length ∧
        y.getD (reducedIndex [3] ([2].getD j 0)) 0
          = [(4 : ℚ), 5, 6, 7].getD ([2].getD j 0) 0 - ((CmMatrix exB [2]).transpose.mulVec
              (((CsMatrix exB [3]).transpose)⁻¹.mulVec
                (fun b : Fin exB.Height => [(4 : ℚ), 5, 6, 7].getD ([3].getD b 0) 0))) j) :=
  ⟨exValid, C12_transpose_apply exA exB [2] [3] exValid [4, 5, 6, 7] [0, 0, 0] rfl rfl⟩

/-- C13 (end-to-end scenario). With `n = 4`, `B` the single row `[0, 0, 1, -1]`,
`master_dofs = [2]`, `slave_dofs = [3]`, `f = [1, 1, 0, 0]` and `g = [0]`: for every
`4 × 4` matrix `A` and every Krylov solver (whatever reduced vector it returns), the
constructor and `EliminationCGSolver::Mult` succeed, the output `[u; lambda]` has
`u[2] = u[3]`, and its multiplier is the negative of the residual `(f - A u)` at dof `3`,
`lambda = (A u)[3] - f[3]`. -/
theorem C13_end_to_end (A : SparseMatrix) (hA : A.Height = 4) (hw : A.width = 4)
    (krylov : CGSolver) (sol : Vector) (hsol : sol.length = 5) :
    ∃ S u lam Au, EliminationCGSolver.newExplicit A exB [2] [3] = .ok S ∧
      S.Mult krylov ([1, 1, 0, 0] ++ [0]) sol = .ok (u ++ lam) ∧
      u.length = 4 ∧ lam.length = 1 ∧
      u.getD 2 0 = u.getD 3 0 ∧
      A.Mult u (Vector.new 4) = .ok Au ∧
      lam = [Au.getD 3 0 - ([1, 1, 0, 0] : Vector).getD 3 0] ∧
      lam = [-(([1, 1, 0, 0] : Vector).getD 3 0 - Au.getD 3 0)] := by
  have hv := exValid_of A hA hw
  have hB : exB.Height = 1 := rfl
  have hlam := ex_pressureSol A hA hw krylov [1, 1, 0, 0] [0] rfl rfl
  have hAu : ((List.range A.Height).map
      (fun i => A.rowDot (dispSol A exB [2] [3] krylov ([1, 1, 0, 0] ++ [0])) i)).getD 3 0
      = A.rowDot (dispSol A exB [2] [3] krylov ([1, 1, 0, 0] ++ [0])) 3 := by
    rw [getD_range_map, if_pos (by omega)]
  refine ⟨solverOf A exB [2] [3], dispSol A exB [2] [3] krylov ([1, 1, 0, 0] ++ [0]),
    pressureSol A exB [2] [3] krylov ([1, 1, 0, 0] ++ [0]),
    (List.range A.Height).map
      (fun i => A.rowDot (dispSol A exB [2] [3] krylov ([1, 1, 0, 0] ++ [0])) i),
    newExplicit_ok A exB [2] [3] hv,
    SolverMult_ok A exB [2] [3] hv krylov _ sol (by simp [hA, hB]) (by rw [hsol, hA, hB]),
    by rw [dispSol_length, hA], by rw [pressureSol_length, hB],
    ex_dispSol_tied A hA hw krylov _ _ rfl rfl, ?_, ?_, ?_⟩
  · have h := SparseMatrix_Mult_ok A (dispSol A exB [2] [3] krylov ([1, 1, 0, 0] ++ [0]))
      (Vector.new 4) (by rw [hv.A_square, dispSol_length]) (by simp [Vector.new, hA])
    exact h
  · rw [hAu, hlam]
  · rw [hAu, hlam]
    simp

/-- The end-to-end theorem at the stiffness stencil of the specification, with a Krylov
solver that returns its initial iterate. -/
theorem C13_end_to_end_witness :
    exA.Height = 4 ∧ exA.width = 4 ∧
    ∃ S u lam Au, EliminationCGSolver.newExplicit exA exB [2] [3] = .ok S ∧
      S.Mult exKrylov ([1, 1, 0, 0] ++ [0]) [0, 0, 0, 0, 0] = .ok (u ++ lam) ∧
      u.length = 4 ∧ lam.length = 1 ∧
      u.getD 2 0 = u.getD 3 0 ∧
      exA.Mult u (Vector.new 4) = .ok Au ∧
      lam = [Au.getD 3 0 - ([1, 1, 0, 0] : Vector).getD 3 0] ∧
      lam = [-(([1, 1, 0, 0] : Vector).getD 3 0 - Au.getD 3 0)] :=
  ⟨rfl, rfl, C13_end_to_end exA rfl rfl exKrylov [0, 0, 0, 0, 0] rfl⟩

/-- C14 (round trip). For every valid configuration and every full vector `x` of size `n`
whose entries at the slave dofs are zero, the constructor, `MultTranspose` on `x` and `Mult`
on its result succeed, and `P(P^T(x))` equals `x` at every non-slave dof. -/
theorem C14_round_trip (A B : SparseMatrix) (master slave : List Nat)
    (hv : ValidConfig A B master slave) (x out1 out2 : Vector)
    (hx : x.length = A.Height) (hz : ∀ s ∈ slave, x.getD s 0 = 0)
    (h1 : out1.length = A.Height - slave.length) (h2 : out2.length = A.Height) :
    ∃ P y z, EliminationProjection.new A B master slave = .ok P ∧
      P.MultTranspose x out1 = .ok y ∧ P.Mult y out2 = .ok z ∧
      z.length = A.Height ∧
      ∀ i, i < A.Height → i ∉ slave → z.getD i 0 = x.getD i 0 := by
  refine ⟨projectorOf A B master slave, MultTransposeResult A B master slave x,
    MultResult A B master slave (MultTransposeResult A B master slave x),
    new_ok A B master slave hv, MultTranspose_ok A B master slave hv x out1 hx h1,
    Mult_ok A B master slave hv _ out2 (MultTransposeResult_length A B master slave x) h2,
    MultResult_length A B master slave _, ?_⟩
  intro i hi his
  rw [MultResult_nonslave A B master slave _ i hi his,
    MultTransposeResult_at A B master slave hv x i hi his,
    masterValue_zero B master slave x hz hv.slave_size]
  simp

/-- The round-trip theorem at the end-to-end scenario. -/
theorem C14_round_trip_witness :
    ValidConfig exA exB [2] [3] ∧ (∀ s ∈ [3], [(4 : ℚ), 5, 6, 0].getD s 0 = 0) ∧
    ∃ P y z, EliminationProjection.new exA exB [2] [3] = .ok P ∧
      P.MultTranspose [4, 5, 6, 0] [0, 0, 0] = .ok y ∧ P.Mult y [0, 0, 0, 0] = .ok z ∧
      z.length = exA.Height ∧
      ∀ i, i < exA.Height → i ∉ [3] → z.getD i 0 = [(4 : ℚ), 5, 6, 0].getD i 0 :=
  ⟨exValid, by simp, C14_round_trip exA exB [2] [3] exValid [4, 5, 6, 0] [0, 0, 0]
    [0, 0, 0, 0] rfl (by simp) rfl rfl⟩

/-- C15 (singular slave block). When the slave block `Cs` is square (`slave_dofs.size()`
is the number of rows of `B`): if `Cs` is singular, the constructor of
`EliminationProjection` fails with the fatal error of the factorization, and so does
the construction of the solver; and whenever the constructor completes, `Cs` is nonsingular
and the solves with the stored factorization return the exact solution `z` of `Cs z = c`
for every right-hand side `c`. -/
theorem C15_singular_slave_block (A B : SparseMatrix) (master slave : List Nat)
    (hs : slave.length = B.Height) :
    ((CsMatrix B slave).det = 0 →
      EliminationProjection.new A B master slave = .error "singular matrix" ∧
      EliminationCGSolver.newExplicit A B master slave = .error "singular matrix") ∧
    (∀ P, EliminationProjection.new A B master slave = .ok P →
      (CsMatrix B slave).det ≠ 0 ∧
      ∀ (c : Nat → ℚ) (i : Nat), i < B.Height →
        ∑ j in Finset.range B.Height,
          B.Elem i (slave.getD j 0) * P.Csinverse_.solveEntry c j = c i) := by
  refine ⟨fun hdet => ⟨new_singular A B master slave hs hdet, ?_⟩, ?_⟩
  · unfold EliminationCGSolver.newExplicit EliminationCGSolver.BuildPreconditioner
    rw [new_singular A B master slave hs hdet]
    rfl
  · intro P hP
    obtain ⟨e, d1, _⟩ := new_inv A B master slave P hP
    subst e
    have hd : (CsMatrix B slave).det ≠ 0 := by
      rw [← Csinverse_toMatrix A B master slave hs]; exact d1
    refine ⟨hd, ?_⟩
    intro c i hi
    have h := solveEntry_spec (projectorOf A B master slave).Csinverse_ d1 c i hi
    refine Eq.trans ?_ h
    apply Finset.sum_congr rfl
    intro j hj
    have hj' := Finset.mem_range.mp hj
    congr 1
    exact (CsOf_data_getD B slave i j hi (by rw [hs]; exact hj')).symm

/-- The singular-block theorem at an all-zero slave block: the row `[0, 0, 1, -1]` with the
slave dof `0`. -/
theorem C15_singular_slave_block_witness :
    [0].length = exB.Height ∧ (CsMatrix exB [0]).det = 0 ∧
    EliminationProjection.new exA exB [2] [0] = .error "singular matrix" ∧
    EliminationCGSolver.newExplicit exA exB [2] [0] = .error "singular matrix" :=
  ⟨rfl, ex_singular_Cs, (C15_singular_slave_block exA exB [2] [0] rfl).1 ex_singular_Cs⟩

/-- C16 (size checks; `EliminationCGSolver::Mult` has none). Evaluation of the code at the
end-to-end configuration (`n = 4`, `m = 1`) with `rhs` and `sol` of size `6`, not `n + m = 5`:
`EliminationCGSolver::Mult` does not fail; it reads the first five entries of `rhs`, writes
the first five entries of `sol` and leaves the sixth untouched. A `rhs` of size `4` is a
fatal error only through the checked element access. The projector operations do reject
every argument of the wrong size: here a reduced vector of size `4`, a full vector of size
`5`, a multiplier vector of size `2` and a `disprhs` of size `5`. -/
theorem C16_solver_mult_size_unchecked :
    ([1, 1, 0, 0, 5, 7] : Vector).length ≠ exA.Height + exB.Height ∧
    ([9, 9, 9, 9, 9, 9] : Vector).length ≠ exA.Height + exB.Height ∧
    ∃ S, EliminationCGSolver.newExplicit exA exB [2] [3] = .ok S ∧
      S.Mult exKrylov [1, 1, 0, 0, 5, 7] [9, 9, 9, 9, 9, 9] = .ok [0, 0, 0, -5, -10, 9] ∧
      S.Mult exKrylov [1, 1, 0, 0] [9, 9, 9, 9, 9] = .error "index out of range" ∧
      S.projector_.Mult [1, 2, 3, 4] [0, 0, 0, 0] = .error "Sizes don't match!" ∧
      S.projector_.MultTranspose [1, 2, 3, 4, 5] [0, 0, 0] = .error "Sizes don't match!" ∧
      S.projector_.BuildGTilde [5, 6] [0, 0, 0, 0] = .error "Sizes don't match!" ∧
      S.projector_.RecoverPressure [1, 1, 0, 0] [1, 2, 3, 4] [0, 0] = .error "Sizes don't match!" ∧
      ∃ msg, S.projector_.RecoverPressure [1, 1, 0, 0, 0] [1, 2, 3, 4] [0] = .error msg := by
  refine ⟨by decide, by decide, solverOf exA exB [2] [3], newExplicit_ok exA exB [2] [3] exValid,
    ?_, ex_under_rhs _, ?_, ?_, ?_, ?_, ?_⟩
  · rw [SolverMult_ge exA exB [2] [3] exValid exKrylov _ _ (by decide) (by decide),
      ex_over_dispSol, ex_over_pressureSol]
    rfl
  · exact Mult_size_error _ _ _ (Or.inl (by decide))
  · exact MultTranspose_size_error _ _ _ (Or.inr (by decide))
  · exact BuildGTilde_size_error _ _ _ (Or.inl (by decide))
  · exact RecoverPressure_size_error _ _ _ _ (Or.inl (by decide))
  · exact RecoverPressure_disprhs_error _ _ _ _ (by decide)

/-- C17 (layout of `Mult`). For every valid configuration, `f` of size `n`, `g` of size `m`
and every Krylov solver, `EliminationCGSolver::Mult` on `rhs = [f; g]` uses `rhs[0..n)` as the
displacement right-hand side and `rhs[n..n+m)` as the multiplier right-hand side: with
`gtilde = BuildGTilde(g)`, `fadj = f - A gtilde`, `b = P^T fadj`, `x` the Krylov result,
`Px = P x`, `lambda = RecoverPressure(fadj, Px)` and `u = Px + gtilde`, it returns `sol` with
the displacement `u` in `sol[0..n)` and the multiplier `lambda` in `sol[n..n+m)`, whatever
`sol` held before. Exactly these `n + m` entries are read and written: entries of `rhs`
beyond `n + m` do not influence the result and entries of `sol` beyond `n + m` keep their
values. `rhs` is a read-only argument of the method. -/
theorem C17_mult_layout (A B : SparseMatrix) (master slave : List Nat)
    (hv : ValidConfig A B master slave) (krylov : CGSolver) (f g : Vector)
    (hf : f.length = A.Height) (hg : g.length = B.Height) :
    ∃ S gtilde fadj b Px lam u,
      EliminationCGSolver.newExplicit A B master slave = .ok S ∧
      S.projector_.BuildGTilde g (Vector.new A.Height) = .ok gtilde ∧
      A.AddMult gtilde f (-1) = .ok fadj ∧
      S.projector_.MultTranspose fadj (Vector.new (A.Height - slave.length)) = .ok b ∧
      S.projector_.Mult
        (krylov.Mult (RAPOperator.Mult S.projector_ A S.projector_) b
          (Vector.setZero (Vector.new (A.Height - slave.length))))
        (Vector.new A.Height) = .ok Px ∧
      S.projector_.RecoverPressure fadj Px (Vector.new B.Height) = .ok lam ∧
      Vector.add Px gtilde = .ok u ∧
      u.length = A.Height ∧ lam.length = B.Height ∧
      (∀ sol : Vector, sol.length = A.Height + B.Height →
        ∃ r, S.Mult krylov (f ++ g) sol = .ok r ∧ r.length = A.Height + B.Height ∧
          r.take A.Height = u ∧ r.drop A.Height = lam) ∧
      (∀ extra sol : Vector, A.Height + B.Height ≤ sol.length →
        S.Mult krylov (f ++ g ++ extra) sol
          = .ok (u ++ lam ++ sol.drop (A.Height + B.Height))) := by
  obtain ⟨s1, s2, s3, s4, s5, s6, s7⟩ := SolverMult_steps A B master slave hv krylov f g hf hg
  refine ⟨solverOf A B master slave, GTildeResult A B slave g, adjRhs A B slave (f ++ g),
    reducedRhs A B master slave (f ++ g),
    MultResult A B master slave (reducedSol A B master slave krylov (f ++ g)),
    pressureSol A B master slave krylov (f ++ g), dispSol A B master slave krylov (f ++ g),
    newExplicit_ok A B master slave hv, s1, s2, s3, ?_, s6, s7,
    dispSol_length _ _ _ _ _ _, pressureSol_length _ _ _ _ _ _, ?_, ?_⟩
  · show (projectorOf A B master slave).Mult
      (krylov.Mult (RAPOperator.Mult (projectorOf A B master slave) A
        (projectorOf A B master slave)) (reducedRhs A B master slave (f ++ g))
        (Vector.setZero (Vector.new (A.Height - slave.length)))) (Vector.new A.Height) = _
    rw [s4]
    exact s5
  · intro sol hsol
    refine ⟨_, SolverMult_ok A B master slave hv krylov (f ++ g) sol (by simp [hf, hg]) hsol,
      by simp [dispSol_length, pressureSol_length], ?_, ?_⟩
    · rw [List.take_left' (dispSol_length _ _ _ _ _ _)]
    · rw [List.drop_left' (dispSol_length _ _ _ _ _ _)]
  · intro extra sol hsol
    rw [SolverMult_ge A B master slave hv krylov _ sol (by simp [hf, hg]) hsol]
    have d1 : dispRhs A (f ++ g ++ extra) = dispRhs A (f ++ g) := by
      rw [dispRhs_append_extra A f g extra hf, dispRhs_append A f g hf]
    have d2 : lagRhs A B (f ++ g ++ extra) = lagRhs A B (f ++ g) := by
      rw [lagRhs_append_extra A B f g extra hf hg, lagRhs_append A B f g hf hg]
    rw [dispSol_congr A B master slave krylov _ _ d1 d2,
      pressureSol_congr A B master slave krylov _ _ d1 d2]

/-- The layout theorem at the end-to-end scenario with `g = [5]`. -/
theorem C17_mult_layout_witness :
    ValidConfig exA exB [2] [3] ∧
    ∃ S gtilde fadj b Px lam u,
      EliminationCGSolver.newExplicit exA exB [2] [3] = .ok S ∧
      S.projector_.BuildGTilde [5] (Vector.new exA.Height) = .ok gtilde ∧
      exA.AddMult gtilde [1, 1, 0, 0] (-1) = .ok fadj ∧
      S.projector_.MultTranspose fadj (Vector.new (exA.Height - [3].length)) = .ok b ∧
      S.projector_.Mult
        (exKrylov.Mult (RAPOperator.Mult S.projector_ exA S.projector_) b
          (Vector.setZero (Vector.new (exA.Height - [3].length))))
        (Vector.new exA.Height) = .ok Px ∧
      S.projector_.RecoverPressure fadj Px (Vector.new exB.Height) = .ok lam ∧
      Vector.add Px gtilde = .ok u ∧
      u.length = exA.Height ∧ lam.length = exB.Height ∧
      (∀ sol : Vector, sol.length = exA.Height + exB.Height →
        ∃ r, S.Mult exKrylov ([1, 1, 0, 0] ++ [5]) sol = .ok r ∧
          r.length = exA.Height + exB.Height ∧
          r.take exA.Height = u ∧ r.drop exA.Height = lam) ∧
      (∀ extra sol : Vector, exA.Height + exB.Height ≤ sol.length →
        S.Mult exKrylov ([1, 1, 0, 0] ++ [5] ++ extra) sol
          = .ok (u ++ lam ++ sol.drop (exA.Height + exB.Height))) :=
  ⟨exValid, C17_mult_layout exA exB [2] [3] exValid exKrylov [1, 1, 0, 0] [5] rfl rfl⟩

/-- C18 (read-only after construction). Each of `Mult`, `MultTranspose`,
`AssembleApproximate`, `BuildGTilde` and `RecoverPressure`, run on any projector object with
any arguments, leaves the object as it found it whenever it returns: the factors of `Cs` and
`Cs^T` with their pivots (`Csinverse_`, `CsTinverse_`, on the buffers `Cs_`, `CsT_`),
`Cm_`, `A_`, `B_` and the master and slave index arrays are all unchanged, and what it
returns is determined by the object and the arguments; so does every application of the
reduced operator `P^T A P` made by the Krylov solver. On a valid configuration the calls do
return, on the projector the solver holds. Consequently `EliminationCGSolver::Mult` leaves
the solver object with its projector unchanged, and two calls in sequence on the same object
with the same `rhs`, with no rebuild in between, write the same `sol`, whatever `sol` held
before (also when the second call is given the `sol` written by the first), for the same
Krylov solver and for any Krylov solver that returns the same results on the reduced
operator. -/
theorem C18_read_only_after_construction (A B : SparseMatrix) (master slave : List Nat)
    (hv : ValidConfig A B master slave) (krylov : CGSolver) (rhs sol sol' : Vector)
    (hr : rhs.length = A.Height + B.Height) (hsol : sol.length = A.Height + B.Height)
    (hsol' : sol'.length = A.Height + B.Height) :
    (∀ (P P' : EliminationProjection) (x out y : Vector),
      (Stateful.EliminationProjection.Mult x out).run P = .ok (y, P') →
        P' = P ∧ P.Mult x out = .ok y) ∧
    (∀ (P P' : EliminationProjection) (x out y : Vector),
      (Stateful.EliminationProjection.MultTranspose x out).run P = .ok (y, P') →
        P' = P ∧ P.MultTranspose x out = .ok y) ∧
    (∀ (P P' : EliminationProjection) (M : SparseMatrix),
      Stateful.EliminationProjection.AssembleApproximate.run P = .ok (M, P') →
        P' = P ∧ P.AssembleApproximate = .ok M) ∧
    (∀ (P P' : EliminationProjection) (g gtilde y : Vector),
      (Stateful.EliminationProjection.BuildGTilde g gtilde).run P = .ok (y, P') →
        P' = P ∧ P.BuildGTilde g gtilde = .ok y) ∧
    (∀ (P P' : EliminationProjection) (f u pressure y : Vector),
      (Stateful.EliminationProjection.RecoverPressure f u pressure).run P = .ok (y, P') →
        P' = P ∧ P.RecoverPressure f u pressure = .ok y) ∧
    (∀ (P P' : EliminationProjection) (M : SparseMatrix) (x out y : Vector),
      (Stateful.RAPOperator.Mult M x out).run P = .ok (y, P') →
        P' = P ∧ RAPOperator.Mult P M P x out = .ok y) ∧
    (∀ (S S' : EliminationCGSolver) (k : CGSolver) (b x y : Vector),
      (Stateful.EliminationCGSolver.Mult k b x).run S = .ok (y, S') →
        S' = S ∧ S.Mult k b x = .ok y) ∧
    ∃ S r, EliminationCGSolver.newExplicit A B master slave = .ok S ∧
      (∀ x out : Vector, x.length = A.Height - slave.length → out.length = A.Height →
        ∃ y, (Stateful.EliminationProjection.Mult x out).run S.projector_
          = .ok (y, S.projector_)) ∧
      (∀ x out : Vector, x.length = A.Height → out.length = A.Height - slave.length →
        ∃ y, (Stateful.EliminationProjection.MultTranspose x out).run S.projector_
          = .ok (y, S.projector_)) ∧
      (∃ M, Stateful.EliminationProjection.AssembleApproximate.run S.projector_
          = .ok (M, S.projector_)) ∧
      (∀ g gtilde : Vector, g.length = B.Height → gtilde.length = A.Height →
        ∃ y, (Stateful.EliminationProjection.BuildGTilde g gtilde).run S.projector_
          = .ok (y, S.projector_)) ∧
      (∀ f u pressure : Vector, f.length = A.Height → u.length = A.Height →
        pressure.length = B.Height →
        ∃ y, (Stateful.EliminationProjection.RecoverPressure f u pressure).run S.projector_
          = .ok (y, S.projector_)) ∧
      (Stateful.EliminationCGSolver.Mult krylov rhs sol).run S = .ok (r, S) ∧
      (Stateful.EliminationCGSolver.Mult krylov rhs sol').run S = .ok (r, S) ∧
      (do
        let r1 ← Stateful.EliminationCGSolver.Mult krylov rhs sol
        let r2 ← Stateful.EliminationCGSolver.Mult krylov rhs sol'
        pure (r1, r2)).run S = .ok ((r, r), S) ∧
      (do
        let r1 ← Stateful.EliminationCGSolver.Mult krylov rhs sol
        let r2 ← Stateful.EliminationCGSolver.Mult krylov rhs r1
        pure (r1, r2)).run S = .ok ((r, r), S) ∧
      (∀ k2 : CGSolver,
        (∀ b x, k2.Mult (Stateful.EliminationCGSolver.reducedoperator S) b x
          = krylov.Mult (Stateful.EliminationCGSolver.reducedoperator S) b x) →
        (Stateful.EliminationCGSolver.Mult k2 rhs sol').run S = .ok (r, S)) := by
  have hS1 := SolverMult_ok A B master slave hv krylov rhs sol hr hsol
  have hS2 := SolverMult_ok A B master slave hv krylov rhs sol' hr hsol'
  have hS3 := SolverMult_ok A B master slave hv krylov rhs
    (dispSol A B master slave krylov rhs ++ pressureSol A B master slave krylov rhs) hr
    (by simp [dispSol_length, pressureSol_length])
  obtain ⟨M, hM, _⟩ := AssembleApproximate_ok A B master slave hv
  refine ⟨?_, ?_, ?_, ?_, ?_, ?_, ?_, solverOf A B master slave,
    dispSol A B master slave krylov rhs ++ pressureSol A B master slave krylov rhs,
    newExplicit_ok A B master slave hv, ?_, ?_, ?_, ?_, ?_, ?_, ?_, ?_, ?_, ?_⟩
  · intro P P' x out y h
    rw [Stateful_Mult_run] at h
    exact run_frame _ _ _ _ h
  · intro P P' x out y h
    rw [Stateful_MultTranspose_run] at h
    exact run_frame _ _ _ _ h
  · intro P P' M h
    rw [Stateful_AssembleApproximate_run] at h
    exact run_frame _ _ _ _ h
  · intro P P' g gtilde y h
    rw [Stateful_BuildGTilde_run] at h
    exact run_frame _ _ _ _ h
  · intro P P' f u pressure y h
    rw [Stateful_RecoverPressure_run] at h
    exact run_frame _ _ _ _ h
  · intro P P' M x out y h
    rw [Stateful_RAP_run] at h
    exact run_frame _ _ _ _ h
  · intro S S' k b x y h
    rw [Stateful_SolverMult_run] at h
    exact run_frame _ _ _ _ h
  · intro x out hx hout
    rw [Stateful_Mult_run]
    exact ⟨_, run_ok _ _ _ (Mult_ok A B master slave hv x out hx hout)⟩
  · intro x out hx hout
    rw [Stateful_MultTranspose_run]
    exact ⟨_, run_ok _ _ _ (MultTranspose_ok A B master slave hv x out hx hout)⟩
  · refine ⟨M, ?_⟩
    rw [Stateful_AssembleApproximate_run]
    exact run_ok _ _ _ hM
  · intro g gtilde hg hgt
    rw [Stateful_BuildGTilde_run]
    exact ⟨_, run_ok _ _ _ (BuildGTilde_ok A B master slave hv g gtilde hg hgt)⟩
  · intro f u pressure hf hu hp
    rw [Stateful_RecoverPressure_run]
    exact ⟨_, run_ok _ _ _ (RecoverPressure_ok A B master slave hv f u pressure hf hu hp)⟩
  · rw [Stateful_SolverMult_run]
    exact run_ok _ _ _ hS1
  · rw [Stateful_SolverMult_run]
    exact run_ok _ _ _ hS2
  · exact Stateful_SolverMult_twice _ krylov rhs sol (fun _ => sol') _ hS1 hS2
  · exact Stateful_SolverMult_twice _ krylov rhs sol (fun r1 => r1) _ hS1 hS3
  · intro k2 hk
    rw [reducedoperator_eq] at hk
    rw [Stateful_SolverMult_run]
    refine run_ok _ _ _ ?_
    rw [SolverMult_ok A B master slave hv k2 rhs sol' hr hsol',
      SolverMult_krylov_congr A B master slave krylov k2 rhs hk]

/-- The read-only theorem at the end-to-end scenario with `g = [5]`. -/
theorem C18_read_only_after_construction_witness :
    ValidConfig exA exB [2] [3] ∧
    ∃ S r, EliminationCGSolver.newExplicit exA exB [2] [3] = .ok S ∧
      (∃ M, Stateful.EliminationProjection.AssembleApproximate.run S.projector_
          = .ok (M, S.projector_)) ∧
      (Stateful.EliminationCGSolver.Mult exKrylov [1, 1, 0, 0, 5] [0, 0, 0, 0, 0]).run S
        = .ok (r, S) ∧
      (Stateful.EliminationCGSolver.Mult exKrylov [1, 1, 0, 0, 5] [9, 8, 7, 6, 5]).run S
        = .ok (r, S) ∧
      (do
        let r1 ← Stateful.EliminationCGSolver.Mult exKrylov [1, 1, 0, 0, 5] [0, 0, 0, 0, 0]
        let r2 ← Stateful.EliminationCGSolver.Mult exKrylov [1, 1, 0, 0, 5] [9, 8, 7, 6, 5]
        pure (r1, r2)).run S = .ok ((r, r), S) := by
  obtain ⟨_, _, _, _, _, _, _, S, r, h1, _, _, h4, _, _, h7, h8, h9, _, _⟩ :=
    C18_read_only_after_construction exA exB [2] [3] exValid exKrylov
      [1, 1, 0, 0, 5] [0, 0, 0, 0, 0] [9, 8, 7, 6, 5] rfl rfl rfl
  exact ⟨exValid, S, r, h1, h4, h7, h8, h9⟩

/-- C19 (reduced-space bookkeeping). For a projector whose master and slave dofs are strictly
ascending (sorted and duplicate-free), disjoint and inside `[0, n)`: the scans of `Mult`,
`MultTranspose` and `AssembleApproximate` over the first `k` dofs succeed for every `k ≤ n`
and leave the counter at `r(k)`, the number of non-slave dofs below `k`, so the non-slave
dof `i` is given the reduced coordinate `r(i)`; these coordinates are `0, 1, ..., n-m-1` in
ascending global-index order (the ascending list of the non-slave dofs is mapped by `r` onto
`[0, 1, ..., n-m-1]`); and after the whole scan all three routines hold the same list
`mapped_master_contact_dofs`, whose `j`-th entry is `master_dofs[j]` minus the number of
slave dofs smaller than `master_dofs[j]`. -/
theorem C19_reduced_space_bookkeeping (P : EliminationProjection)
    (hs : P.slave_contact_dofs_.Sorted (fun x y => x < y))
    (hm : P.master_contact_dofs_.Sorted (fun x y => x < y))
    (hd : ∀ d ∈ P.master_contact_dofs_, d ∉ P.slave_contact_dofs_)
    (hml : ∀ d ∈ P.master_contact_dofs_, d < P.A_.Height)
    (hsl : ∀ d ∈ P.slave_contact_dofs_, d < P.A_.Height)
    (x v out1 out2 : Vector)
    (hx : x.length = P.A_.Height - P.slave_contact_dofs_.length)
    (hv : v.length = P.A_.Height) (ho1 : out1.length = P.A_.Height)
    (ho2 : out2.length = P.A_.Height - P.slave_contact_dofs_.length) :
    (∀ k, k ≤ P.A_.Height → ∃ st1 st2 st3,
      (List.range k).foldlM (P.MultStep x) ⟨Vector.setZero out1, 0, []⟩ = .ok st1 ∧
      (List.range k).foldlM (P.MultTransposeStep v) ⟨Vector.setZero out2, 0, []⟩ = .ok st2 ∧
      (List.range k).foldlM P.AssembleStep
        ⟨SparseMatrix.new P.A_.Height (P.A_.Height - P.slave_contact_dofs_.length), 0, []⟩
          = .ok st3 ∧
      st1.column_dof = reducedIndex P.slave_contact_dofs_ k ∧
      st2.column_dof = reducedIndex P.slave_contact_dofs_ k ∧
      st3.column_dof = reducedIndex P.slave_contact_dofs_ k ∧
      st2.mapped_master_contact_dofs = st1.mapped_master_contact_dofs ∧
      st3.mapped_master_contact_dofs = st1.mapped_master_contact_dofs ∧
      (k = P.A_.Height →
        st1.column_dof = P.A_.Height - P.slave_contact_dofs_.length ∧
        st1.mapped_master_contact_dofs = P.master_contact_dofs_.map (fun c =>
          c - (P.slave_contact_dofs_.filter (fun s => decide (s < c))).length))) ∧
    (∀ i, reducedIndex P.slave_contact_dofs_ i
      = i - (P.slave_contact_dofs_.filter (fun s => decide (s < i))).length) ∧
    (nonSlaveDofs P.slave_contact_dofs_ P.A_.Height).Sorted (fun x y => x < y) ∧
    (∀ i, i ∈ nonSlaveDofs P.slave_contact_dofs_ P.A_.Height
      ↔ i < P.A_.Height ∧ i ∉ P.slave_contact_dofs_) ∧
    (nonSlaveDofs P.slave_contact_dofs_ P.A_.Height).map (reducedIndex P.slave_contact_dofs_)
      = List.range (P.A_.Height - P.slave_contact_dofs_.length) := by
  have hsz := reducedIndex_add_length P.slave_contact_dofs_ P.A_.Height hs hsl
  have hr : reducedIndex P.slave_contact_dofs_ P.A_.Height
      = P.A_.Height - P.slave_contact_dofs_.length := by omega
  refine ⟨?_, fun i => reducedIndex_eq_sub _ i hs, nonSlaveDofs_sorted _ _,
    fun i => nonSlaveDofs_mem _ _ i, ?_⟩
  · intro k hk
    have z1 : Vector.setZero out1 = List.replicate P.A_.Height 0 := by
      unfold Vector.setZero; rw [ho1]
    have z2 : Vector.setZero out2
        = List.replicate (P.A_.Height - P.slave_contact_dofs_.length) 0 := by
      unfold Vector.setZero; rw [ho2]
    have h1 := MultScan_ok P x hs hm (by omega) k hk
    have h2 := MultTransposeScan_ok P v (P.A_.Height - P.slave_contact_dofs_.length) hs hm
      (by omega) (by omega) k hk
    obtain ⟨out3, h3, _⟩ := AssembleScan_ok P (P.A_.Height - P.slave_contact_dofs_.length)
      hs hm (by omega) k hk
    rw [z1, z2]
    refine ⟨_, _, _, h1, h2, h3, rfl, rfl, rfl, rfl, rfl, ?_⟩
    intro hkn
    subst hkn
    refine ⟨hr, ?_⟩
    show ((List.range P.A_.Height).filter (fun i =>
        decide (i ∉ P.slave_contact_dofs_ ∧ i ∈ P.master_contact_dofs_))).map
        (reducedIndex P.slave_contact_dofs_) = _
    rw [mapped_eq P.master_contact_dofs_ P.slave_contact_dofs_ P.A_.Height hm hml hd,
      mapped_eq_sub _ _ hs]
  · rw [nonSlaveDofs_map_reducedIndex, hr]

/-- The bookkeeping theorem at the projector of the end-to-end scenario. -/
theorem C19_reduced_space_bookkeeping_witness :
    [3].Sorted (fun x y => x < y) ∧ [2].Sorted (fun x y => x < y) ∧
    (∀ d ∈ [2], d ∉ [3]) ∧ (∀ d ∈ [2], d < exA.Height) ∧ (∀ d ∈ [3], d < exA.Height) ∧
    (∀ k, k ≤ exA.Height → ∃ st1 st2 st3,
      (List.range k).foldlM ((projectorOf exA exB [2] [3]).MultStep [1, 2, 3])
        ⟨Vector.setZero [0, 0, 0, 0], 0, []⟩ = .ok st1 ∧
      (List.range k).foldlM ((projectorOf exA exB [2] [3]).MultTransposeStep [4, 5, 6, 7])
        ⟨Vector.setZero [0, 0, 0], 0, []⟩ = .ok st2 ∧
      (List.range k).foldlM (projectorOf exA exB [2] [3]).AssembleStep
        ⟨SparseMatrix.new exA.Height (exA.Height - [3].length), 0, []⟩ = .ok st3 ∧
      st1.column_dof = reducedIndex [3] k ∧
      st2.column_dof = reducedIndex [3] k ∧
      st3.column_dof = reducedIndex [3] k ∧
      st2.mapped_master_contact_dofs = st1.mapped_master_contact_dofs ∧
      st3.mapped_master_contact_dofs = st1.mapped_master_contact_dofs ∧
      (k = exA.Height →
        st1.column_dof = exA.Height - [3].length ∧
        st1.mapped_master_contact_dofs = [2].map (fun c =>
          c - ([3].filter (fun s => decide (s < c))).length))) ∧
    (∀ i, reducedIndex [3] i = i - ([3].filter (fun s => decide (s < i))).length) ∧
    (nonSlaveDofs [3] exA.Height).Sorted (fun x y => x < y) ∧
    (∀ i, i ∈ nonSlaveDofs [3] exA.Height ↔ i < exA.Height ∧ i ∉ [3]) ∧
    (nonSlaveDofs [3] exA.Height).map (reducedIndex [3])
      = List.range (exA.Height - [3].length) :=
  ⟨exValid.slave_sorted, exValid.master_sorted, exValid.disjoint, exValid.master_lt,
    exValid.slave_lt,
    C19_reduced_space_bookkeeping (projectorOf exA exB [2] [3]) exValid.slave_sorted
      exValid.master_sorted exValid.disjoint exValid.master_lt exValid.slave_lt
      [1, 2, 3] [4, 5, 6, 7] [0, 0, 0, 0] [0, 0, 0] rfl rfl rfl rfl⟩

/-- C20 (index safety). For strictly ascending (sorted and duplicate-free), disjoint master
and slave dofs inside `[0, n)` with `slave_dofs.size() = m = B.rows()` and a projector `P`
that has been constructed from them: `Mult`, `MultTranspose` and `AssembleApproximate` run to
completion on arguments of the required sizes, so no vector, array or matrix access is out of
range and no assertion fails (either would be a fatal error); in particular the reduced
coordinate `r(i)` used at a non-slave dof `i` is below `n - m`, each of the three scans ends
with `mapped_master_contact_dofs.Size() == master_contact_dofs_.Size()`, and every entry of
`mapped_master_contact_dofs` is below `n - m`. -/
theorem C20_index_safety (A B : SparseMatrix) (master slave : List Nat)
    (P : EliminationProjection)
    (hms : master.Sorted (fun x y => x < y)) (hss : slave.Sorted (fun x y => x < y))
    (hd : ∀ d ∈ master, d ∉ slave) (hml : ∀ d ∈ master, d < A.Height)
    (hsl : ∀ d ∈ slave, d < A.Height) (hsz : slave.length = B.Height)
    (hP : EliminationProjection.new A B master slave = .ok P) :
    (∀ x out : Vector, x.length = A.Height - slave.length → out.length = A.Height →
      ∃ y, P.Mult x out = .ok y) ∧
    (∀ x out : Vector, x.length = A.Height → out.length = A.Height - slave.length →
      ∃ y, P.MultTranspose x out = .ok y) ∧
    (∃ M, P.AssembleApproximate = .ok M) ∧
    (∀ i, i < A.Height → i ∉ slave → reducedIndex slave i < A.Height - slave.length) ∧
    (∀ x v out1 out2 : Vector, x.length = A.Height - slave.length → v.length = A.Height →
      out1.length = A.Height → out2.length = A.Height - slave.length →
      ∃ st1 st2 st3,
        (List.range P.A_.Height).foldlM (P.MultStep x) ⟨Vector.setZero out1, 0, []⟩ = .ok st1 ∧
        (List.range P.A_.Height).foldlM (P.MultTransposeStep v) ⟨Vector.setZero out2, 0, []⟩
          = .ok st2 ∧
        (List.range P.A_.Height).foldlM P.AssembleStep
          ⟨SparseMatrix.new P.A_.Height (P.A_.Height - P.slave_contact_dofs_.length), 0, []⟩
            = .ok st3 ∧
        st1.mapped_master_contact_dofs.length = P.master_contact_dofs_.length ∧
        st2.mapped_master_contact_dofs.length = P.master_contact_dofs_.length ∧
        st3.mapped_master_contact_dofs.length = P.master_contact_dofs_.length ∧
        (∀ q ∈ st1.mapped_master_contact_dofs, q < A.Height - slave.length) ∧
        (∀ q ∈ st2.mapped_master_contact_dofs, q < A.Height - slave.length) ∧
        (∀ q ∈ st3.mapped_master_contact_dofs, q < A.Height - slave.length)) := by
  obtain ⟨e, d1, _⟩ := new_inv A B master slave P hP
  subst e
  have hdet : (CsMatrix B slave).det ≠ 0 := by
    rw [← Csinverse_toMatrix A B master slave hsz]; exact d1
  have hv := ValidConfig_withWidth A B master slave hms hss hd hml hsl hsz hdet
  have hsize := reducedIndex_add_length slave A.Height hss hsl
  refine ⟨?_, ?_, ?_, ?_, ?_⟩
  · intro x out hx hout
    rw [Mult_withWidth A B master slave A.Height A.Height]
    exact ⟨_, Mult_ok _ _ master slave hv x out hx hout⟩
  · intro x out hx hout
    rw [MultTranspose_withWidth A B master slave A.Height A.Height]
    exact ⟨_, MultTranspose_ok _ _ master slave hv x out hx hout⟩
  · rw [AssembleApproximate_withWidth A B master slave A.Height A.Height]
    obtain ⟨M, hM, _⟩ := AssembleApproximate_ok _ _ master slave hv
    exact ⟨M, hM⟩
  · intro i hi his
    have h1 := reducedIndex_lt slave hi his
    omega
  · intro x v out1 out2 hx hvl ho1 ho2
    have z1 : Vector.setZero out1 = List.replicate A.Height 0 := by
      unfold Vector.setZero; rw [ho1]
    have z2 : Vector.setZero out2 = List.replicate (A.Height - slave.length) 0 := by
      unfold Vector.setZero; rw [ho2]
    have h1 := MultScan_ok (projectorOf A B master slave) x hss hms
      (by show reducedIndex slave A.Height ≤ x.length; omega) A.Height (le_refl _)
    have h2 := MultTransposeScan_ok (projectorOf A B master slave) v (A.Height - slave.length)
      hss hms (by show A.Height ≤ v.length; omega)
      (by show reducedIndex slave A.Height ≤ A.Height - slave.length; omega)
      A.Height (le_refl _)
    obtain ⟨out3, h3, _⟩ := AssembleScan_ok (projectorOf A B master slave)
      (A.Height - slave.length) hss hms
      (by show reducedIndex slave A.Height ≤ A.Height - slave.length; omega)
      A.Height (le_refl _)
    have hmap := mapped_eq master slave A.Height hms hml hd
    have hlt := mapped_lt master slave A.Height hss hd hml hsl
    rw [z1, z2]
    refine ⟨_, _, _, h1, h2, h3, ?_, ?_, ?_, ?_, ?_, ?_⟩
    all_goals first
      | (show (((List.range A.Height).filter (fun i =>
            decide (i ∉ slave ∧ i ∈ master))).map (reducedIndex slave)).length = master.length
         rw [hmap, List.length_map])
      | (show ∀ q ∈ ((List.range A.Height).filter (fun i =>
            decide (i ∉ slave ∧ i ∈ master))).map (reducedIndex slave), q < A.Height - slave.length
         rw [hmap]
         exact hlt)

/-- The index-safety theorem at the end-to-end scenario. -/
theorem C20_index_safety_witness :
    [2].Sorted (fun x y => x < y) ∧ [3].Sorted (fun x y => x < y) ∧
    (∀ d ∈ [2], d ∉ [3]) ∧ (∀ d ∈ [2], d < exA.Height) ∧ (∀ d ∈ [3], d < exA.Height) ∧
    [3].length = exB.Height ∧
    EliminationProjection.new exA exB [2] [3] = .ok (projectorOf exA exB [2] [3]) ∧
    (∃ y, (projectorOf exA exB [2] [3]).Mult [1, 2, 3] [0, 0, 0, 0] = .ok y) ∧
    (∃ y, (projectorOf exA exB [2] [3]).MultTranspose [4, 5, 6, 7] [0, 0, 0] = .ok y) ∧
    (∃ M, (projectorOf exA exB [2] [3]).AssembleApproximate = .ok M) :=
  have h := C20_index_safety exA exB [2] [3] (projectorOf exA exB [2] [3])
    exValid.master_sorted exValid.slave_sorted exValid.disjoint exValid.master_lt
    exValid.slave_lt exValid.slave_size (new_ok exA exB [2] [3] exValid)
  ⟨exValid.master_sorted, exValid.slave_sorted, exValid.disjoint, exValid.master_lt,
    exValid.slave_lt, exValid.slave_size, new_ok exA exB [2] [3] exValid,
    h.1 [1, 2, 3] [0, 0, 0, 0] rfl rfl, h.2.1 [4, 5, 6, 7] [0, 0, 0] rfl rfl, h.2.2.1⟩

/-- C21 (the reduced operator inherits symmetric positive definiteness). For every valid
configuration the constructor succeeds and `EliminationProjection::Mult` is injective: two
reduced vectors with the same image are equal, and `P x = 0` implies `x = 0`. So if `A` is
symmetric then `P^T A P` (the `RAPOperator` handed to the Krylov solver) is symmetric,
`⟨P^T A P x, z⟩ = ⟨x, P^T A P z⟩`, and if `A` is also positive definite then
`⟨P^T A P x, x⟩ > 0` for every nonzero reduced vector `x`. -/
theorem C21_reduced_operator_spd (A B : SparseMatrix) (master slave : List Nat)
    (hv : ValidConfig A B master slave) :
    ∃ P, EliminationProjection.new A B master slave = .ok P ∧
      (∀ x x' out out' y : Vector, P.Mult x out = .ok y → P.Mult x' out' = .ok y → x = x') ∧
      (∀ x out y : Vector, P.Mult x out = .ok y → (∀ i, y.getD i 0 = 0) →
        x = List.replicate (A.Height - slave.length) 0) ∧
      ((∀ i j, i < A.Height → j < A.Height → A.Elem i j = A.Elem j i) →
        (∀ x z out1 out2 : Vector, x.length = A.Height - slave.length →
          z.length = A.Height - slave.length → out1.length = A.Height - slave.length →
          out2.length = A.Height - slave.length →
          ∃ Rx Rz, RAPOperator.Mult P A P x out1 = .ok Rx ∧
            RAPOperator.Mult P A P z out2 = .ok Rz ∧ Vector.dot Rx z = Vector.dot x Rz) ∧
        ((∀ v Av : Vector, v.length = A.Height → A.Mult v (Vector.new A.Height) = .ok Av →
            (∃ i, v.getD i 0 ≠ 0) → 0 < Vector.dot Av v) →
          ∀ x out : Vector, x.length = A.Height - slave.length →
            out.length = A.Height - slave.length → (∃ q, x.getD q 0 ≠ 0) →
            ∃ Rx, RAPOperator.Mult P A P x out = .ok Rx ∧ 0 < Vector.dot Rx x)) := by
  refine ⟨projectorOf A B master slave, new_ok A B master slave hv, ?_, ?_, ?_⟩
  · intro x x' out out' y h1 h2
    obtain ⟨l1, e1⟩ := Mult_ok_inv A B master slave hv x out y h1
    obtain ⟨l2, e2⟩ := Mult_ok_inv A B master slave hv x' out' y h2
    apply MultResult_injective A B master slave hv x x' l1 l2
    intro i _ _
    rw [← e1, ← e2]
  · intro x out y h1 hy
    obtain ⟨l1, e1⟩ := Mult_ok_inv A B master slave hv x out y h1
    apply MultResult_injective A B master slave hv x _ l1 (by simp)
    intro i hi his
    rw [← e1, hy i, MultResult_nonslave A B master slave _ i hi his, getD_replicate_zero]
  · intro hsym
    refine ⟨?_, ?_⟩
    · intro x z out1 out2 hx hz ho1 ho2
      refine ⟨_, _, RAPOperator_Mult_ok A B master slave hv x out1 hx ho1,
        RAPOperator_Mult_ok A B master slave hv z out2 hz ho2, ?_⟩
      rw [dot_RAP A B master slave hv x z hz,
        dot_comm x _ (A.Height - slave.length) hx (MultTransposeResult_length _ _ _ _ _),
        dot_RAP A B master slave hv z x hx,
        ← rowDot_symm A hv.A_square hsym (MultResult A B master slave z)
          (MultResult A B master slave x)]
      apply Finset.sum_congr rfl
      intro i _
      ring
    · intro hpd x out hx ho hne
      refine ⟨_, RAPOperator_Mult_ok A B master slave hv x out hx ho, ?_⟩
      have hpos := hpd (MultResult A B master slave x)
        ((List.range A.Height).map (fun i => A.rowDot (MultResult A B master slave x) i))
        (MultResult_length _ _ _ _ _)
        (SparseMatrix_Mult_ok A _ _ (by rw [hv.A_square, MultResult_length])
          (by simp [Vector.new]))
        (reduced_nonzero A B master slave hv x hx hne)
      rw [dot_RAP A B master slave hv x x hx]
      rw [dot_eq_sum _ _ A.Height (by simp) (MultResult_length _ _ _ _ _)] at hpos
      refine lt_of_lt_of_eq hpos ?_
      apply Finset.sum_congr rfl
      intro i hi
      rw [getD_range_map, if_pos (Finset.mem_range.mp hi)]

/-- The theorem on the reduced operator at the end-to-end scenario, whose stiffness stencil
is symmetric and positive definite. -/
theorem C21_reduced_operator_spd_witness :
    ValidConfig exA exB [2] [3] ∧
    (∀ i j, i < exA.Height → j < exA.Height → exA.Elem i j = exA.Elem j i) ∧
    (∀ v Av : Vector, v.length = exA.Height → exA.Mult v (Vector.new exA.Height) = .ok Av →
      (∃ i, v.getD i 0 ≠ 0) → 0 < Vector.dot Av v) ∧
    ∃ P, EliminationProjection.new exA exB [2] [3] = .ok P ∧
      (∀ x x' out out' y : Vector, P.Mult x out = .ok y → P.Mult x' out' = .ok y → x = x') ∧
      (∀ x out y : Vector, P.Mult x out = .ok y → (∀ i, y.getD i 0 = 0) →
        x = List.replicate (exA.Height - [3].length) 0) ∧
      (∀ x z out1 out2 : Vector, x.length = exA.Height - [3].length →
        z.length = exA.Height - [3].length → out1.length = exA.Height - [3].length →
        out2.length = exA.Height - [3].length →
        ∃ Rx Rz, RAPOperator.Mult P exA P x out1 = .ok Rx ∧
          RAPOperator.Mult P exA P z out2 = .ok Rz ∧ Vector.dot Rx z = Vector.dot x Rz) ∧
      (∀ x out : Vector, x.length = exA.Height - [3].length →
        out.length = exA.Height - [3].length → (∃ q, x.getD q 0 ≠ 0) →
        ∃ Rx, RAPOperator.Mult P exA P x out = .ok Rx ∧ 0 < Vector.dot Rx x) := by
  obtain ⟨P, h1, h2, h3, h4⟩ := C21_reduced_operator_spd exA exB [2] [3] exValid
  exact ⟨exValid, exA_symm, exA_pd, P, h1, h2, h3, (h4 exA_symm).1, (h4 exA_symm).2 exA_pd⟩

/-- C22 (symmetric second-derivative output; the row seed of `QIntegratorDD`). For every input
vector and every integrand, `ADQIntegratorH::QIntegratorDD` returns a square `n × n` matrix
and `ADNonlinearFormIntegratorH::AssembleElementGrad` (for `elfun` holding the `ndof` values
of the element) a square `ndof × ndof` matrix in which entry `(ii, jj)` equals entry
`(jj, ii)`, both written from the evaluation of the pass `(ii, jj)`, `jj ≤ ii`; each pass of
either routine sets the dual part it seeded back to `(0, 0)`. In `AssembleElementGrad` the
row seed is in the real part and is taken back after the row, so the vector of dual numbers
ends as it started. `QIntegratorDD` writes its row seed to the dual part instead
(`aduu[ii].dual(ADFType(uu[ii],1.0))`, then `aduu[ii].dual(ADFType(uu[ii],0.0))`), so this
seeded dual part is not reset: evaluated at `uu = [3, 5]` with the integrand `x[0] * x[1]`,
the dual part of `aduu[1]` is still `(5, 1)` after the pass `(1, 0)`, the vector ends with the
dual part `(5, 0)` in `aduu[1]`, and the matrix returned is `[[0, 3], [3, 0]]`, while
`AssembleElementGrad` ends with all dual parts `(0, 0)` and returns the second derivatives
`[[0, 1], [1, 0]]`. -/
theorem C22_second_derivative_row_seed :
    (∀ (QIntegrator : Vector → ADSVector → ADSType) (vparam uu : Vector),
      ∃ st, ADQIntegratorH.QIntegratorDD.loops QIntegrator vparam uu = .ok st ∧
        ADQIntegratorH.QIntegratorDD QIntegrator vparam uu = .ok st.mat ∧
        st.ad = ADQIntegratorH.rowVector uu uu.length ∧
        st.mat.height = uu.length ∧ st.mat.width = uu.length ∧
        st.mat.data.length = uu.length * uu.length ∧
        (∀ a b, a < uu.length → b < uu.length → st.mat.entry a b = st.mat.entry b a) ∧
        (∀ ii jj, ii < uu.length → jj ≤ ii →
          st.mat.entry ii jj = ADQIntegratorH.value QIntegrator vparam uu ii jj ∧
          st.mat.entry jj ii = ADQIntegratorH.value QIntegrator vparam uu ii jj)) ∧
    (∀ (ET : Type) (ElementEnergy : FiniteElement → ET → ADSVector → ADSType)
      (el : FiniteElement) (Tr : ET) (elfun : Vector), el.GetDof ≤ elfun.length →
      ∃ st, ADNonlinearFormIntegratorH.AssembleElementGrad.loops ElementEnergy el Tr elfun
          = .ok st ∧
        ADNonlinearFormIntegratorH.AssembleElementGrad ElementEnergy el Tr elfun
          = .ok st.mat ∧
        st.ad = ADNonlinearFormIntegratorH.initVector el.GetDof elfun ∧
        st.mat.height = el.GetDof ∧ st.mat.width = el.GetDof ∧
        st.mat.data.length = el.GetDof * el.GetDof ∧
        (∀ a b, a < el.GetDof → b < el.GetDof → st.mat.entry a b = st.mat.entry b a) ∧
        (∀ ii jj, ii < el.GetDof → jj ≤ ii →
          st.mat.entry ii jj
            = ADNonlinearFormIntegratorH.value ElementEnergy el Tr elfun ii jj ∧
          st.mat.entry jj ii
            = ADNonlinearFormIntegratorH.value ElementEnergy el Tr elfun ii jj)) ∧
    (∀ (QIntegrator : Vector → ADSVector → ADSType) (vparam : Vector) (ii jj : Nat)
      (st st' : HessState),
      ADQIntegratorH.QIntegratorDD.innerStep QIntegrator vparam ii st jj = .ok st' →
      ∃ a, st.ad[jj]? = some a ∧ st'.ad = List.set st.ad jj (a.setDual ⟨0, 0⟩)) ∧
    (∀ (ET : Type) (ElementEnergy : FiniteElement → ET → ADSVector → ADSType)
      (el : FiniteElement) (Tr : ET) (ii jj : Nat) (st st' : HessState),
      ADNonlinearFormIntegratorH.AssembleElementGrad.innerStep ElementEnergy el Tr ii st jj
        = .ok st' →
      ∃ a, st.ad[jj]? = some a ∧ st'.ad = List.set st.ad jj (a.setDual ⟨0, 0⟩)) ∧
    (∃ st, ADQIntegratorH.QIntegratorDD.loops (fun _ x => exEnergy x) [] [3, 5] = .ok st ∧
      ADQIntegratorH.QIntegratorDD (fun _ x => exEnergy x) [] [3, 5] = .ok st.mat ∧
      st.ad = [⟨⟨3, 0⟩, ⟨0, 0⟩⟩, ⟨⟨5, 0⟩, ⟨5, 0⟩⟩] ∧
      st.mat.height = 2 ∧ st.mat.width = 2 ∧
      st.mat.entry 0 0 = 0 ∧ st.mat.entry 1 0 = 3 ∧ st.mat.entry 0 1 = 3 ∧
      st.mat.entry 1 1 = 0) ∧
    (∃ st, ADNonlinearFormIntegratorH.AssembleElementGrad.loops
        (fun _ (_ : Unit) x => exEnergy x) ⟨2⟩ () [3, 5] = .ok st ∧
      ADNonlinearFormIntegratorH.AssembleElementGrad
        (fun _ (_ : Unit) x => exEnergy x) ⟨2⟩ () [3, 5] = .ok st.mat ∧
      st.ad = [⟨⟨3, 0⟩, ⟨0, 0⟩⟩, ⟨⟨5, 0⟩, ⟨0, 0⟩⟩] ∧
      st.mat.height = 2 ∧ st.mat.width = 2 ∧
      st.mat.entry 0 0 = 0 ∧ st.mat.entry 1 0 = 1 ∧ st.mat.entry 0 1 = 1 ∧
      st.mat.entry 1 1 = 0) ∧
    (∃ s1 a s2,
      (List.range 1).foldlM
        (ADQIntegratorH.QIntegratorDD.outerStep (fun _ x => exEnergy x) [] [3, 5])
        ⟨[⟨⟨3, 0⟩, ⟨0, 0⟩⟩, ⟨⟨5, 0⟩, ⟨0, 0⟩⟩], (DenseMatrix.SetSize 2 2).setZero⟩ = .ok s1 ∧
      s1.ad = [⟨⟨3, 0⟩, ⟨3, 0⟩⟩, ⟨⟨5, 0⟩, ⟨0, 0⟩⟩] ∧
      ADSVector.update s1.ad 1 (fun x => x.setDual ⟨5, 1⟩) = .ok a ∧
      ADQIntegratorH.QIntegratorDD.innerStep (fun _ x => exEnergy x) [] 1 ⟨a, s1.mat⟩ 0
        = .ok s2 ∧
      s2.ad = [⟨⟨3, 0⟩, ⟨0, 0⟩⟩, ⟨⟨5, 0⟩, ⟨5, 1⟩⟩]) :=
  ⟨Q_result, fun _ ElementEnergy el Tr elfun hn => G_result ElementEnergy el Tr elfun hn,
    innerStep_reset, fun _ ElementEnergy el Tr ii jj st st' h =>
      G_innerStep_reset ElementEnergy el Tr ii jj st st' h,
    ex_Q_loops, ex_G_loops, ex_Q_pass⟩

end mfem
